import Mathlib

/-!
# DM-VIO coarse initializer: a shallow embedding

Source: `src/dso/FullSystem/CoarseInitializer.cpp`.

Conventions of the embedding.

* `float` and `double` values are modelled as exact rationals (`ℚ`): rounding, overflow to
  infinity and NaN are outside the model.  Non-finite intensities are modelled by `Option`.
* C arrays of points (`Pnt* points[lvl]` with `numPoints[lvl]` entries) are lists; the array of
  levels is a function from the level number.
* `int` indices (`parent`, `neighbours[j]`) are `Int`; the sentinel is `-1`.  The counters
  `frameID` and `snappedAt` are 32-bit `int`s: their additions wrap around (`wrapInt32`).
* A read past the end of a local array yields whatever the memory there holds; it is a
  parameter (`Env.maxIterationsPast`).
* Code outside this file (image interpolation, the k-d tree, the LDLT solver, the Lie-group
  exponential, `expf`, `sqrtf`, the pixel selectors) enters as explicit parameters.
-/

namespace dso

abbrev Vec2f := ℚ × ℚ
abbrev Vec3f := Fin 3 → ℚ
abbrev Vec8f := Fin 8 → ℚ
abbrev Vec10f := Fin 10 → ℚ
abbrev Mat33f := Fin 3 → Fin 3 → ℚ
abbrev Mat88f := Fin 8 → Fin 8 → ℚ

/-- Rigid transform `SE3`: rotation matrix and translation. -/
structure SE3 where
  rotationMatrix : Mat33f
  translation : Vec3f

/-- Default constructor `SE3()`: identity rotation, zero translation. -/
def SE3.identity : SE3 :=
  { rotationMatrix := fun i j => if i = j then 1 else 0
    translation := fun _ => 0 }

/-- Affine brightness pair `AffLight(a, b)`. -/
structure AffLight where
  a : ℚ
  b : ℚ

/-- Candidate point `Pnt` (declared in `CoarseInitializer.h`); the fields are those the
source file reads or writes. -/
structure Pnt where
  u : ℚ
  v : ℚ
  idepth : ℚ
  isGood : Bool
  energy : Vec2f
  isGood_new : Bool
  idepth_new : ℚ
  energy_new : Vec2f
  iR : ℚ
  iRSumNum : ℚ
  lastHessian : ℚ
  lastHessian_new : ℚ
  maxstep : ℚ
  parent : Int
  parentDist : ℚ
  neighbours : Fin 10 → Int
  neighboursDist : Fin 10 → ℚ
  my_type : ℚ
  outlierTH : ℚ

instance : Inhabited Pnt :=
  ⟨{ u := 0, v := 0, idepth := 0, isGood := false, energy := (0, 0), isGood_new := false,
     idepth_new := 0, energy_new := (0, 0), iR := 0, iRSumNum := 0, lastHessian := 0,
     lastHessian_new := 0, maxstep := 0, parent := -1, parentDist := 0,
     neighbours := fun _ => -1, neighboursDist := fun _ => 0, my_type := 0, outlierTH := 0 }⟩

/-- Pointer read `ptsl + k` for an `int` index `k`; an index outside the array (undefined
behaviour in the source) reads a default point. -/
def getPnt (pts : List Pnt) (k : Int) : Pnt :=
  if 0 ≤ k then pts.getD k.toNat default else default

/-- In-place update `ptsl[k] = f(ptsl[k])` for an `int` index; an index outside the array
writes nothing. -/
def modifyPnt (pts : List Pnt) (k : Int) (f : Pnt → Pnt) : List Pnt :=
  if 0 ≤ k then pts.modify f k.toNat else pts

/-- Result of `std::nth_element(idnn, idnn+k, idnn+n)` read at position `k`: the element of
rank `k` (0-based) in sorted order. -/
def nthElement (idnn : List ℚ) (k : Nat) : ℚ :=
  (idnn.mergeSort (fun a b => decide (a ≤ b))).getD k 0

/-- Inner loop of `optReg`: the `iR` values of the good neighbours of `point`, read from the
array as it currently is (sentinel slots skipped). -/
def collectIdnn (pts : List Pnt) (point : Pnt) : List ℚ :=
  (List.finRange 10).filterMap fun j =>
    if point.neighbours j = -1 then none
    else if (getPnt pts (point.neighbours j)).isGood then some (getPnt pts (point.neighbours j)).iR
    else none

/-- Body of the point loop of `optReg` for index `i`. -/
def optRegPoint (regWeight : ℚ) (pts : List Pnt) (i : Nat) : List Pnt :=
  match pts[i]? with
  | none => pts
  | some point =>
    if !point.isGood then pts
    else
      let idnn := collectIdnn pts point
      let nnn := idnn.length
      if nnn > 2 then
        pts.set i { point with
          iR := (1 - regWeight) * point.idepth + regWeight * nthElement idnn (nnn / 2) }
      else pts

/-- The point loop of `optReg` run over the indices `0 .. n-1`, in place. -/
def optRegUpTo (regWeight : ℚ) (pts : List Pnt) (n : Nat) : List Pnt :=
  (List.range n).foldl (optRegPoint regWeight) pts

/-- The whole point loop of `optReg` on one level. -/
def optRegLevel (regWeight : ℚ) (pts : List Pnt) : List Pnt :=
  optRegUpTo regWeight pts pts.length

/-- First loop of `propagateUp`: clear the accumulators of the coarse points. -/
def propagateUpClear (ptst : List Pnt) : List Pnt :=
  ptst.map fun parent => { parent with iR := 0, iRSumNum := 0 }

/-- Body of the second loop of `propagateUp` for one fine point. -/
def propagateUpAdd (ptst : List Pnt) (point : Pnt) : List Pnt :=
  if !point.isGood then ptst
  else modifyPnt ptst point.parent fun parent =>
    { parent with
      iR := parent.iR + point.iR * point.lastHessian
      iRSumNum := parent.iRSumNum + point.lastHessian }

/-- Body of the third loop of `propagateUp` for one coarse point. -/
def propagateUpFinish (parent : Pnt) : Pnt :=
  if parent.iRSumNum > 0 then
    { parent with
      idepth := parent.iR / parent.iRSumNum
      iR := parent.iR / parent.iRSumNum
      isGood := true }
  else parent

/-- The three loops of `propagateUp` (before its final `optReg`), on the coarse level. -/
def propagateUpLoops (ptss ptst : List Pnt) : List Pnt :=
  (ptss.foldl propagateUpAdd (propagateUpClear ptst)).map propagateUpFinish

/-- Body of the loop of `propagateDown` for one fine point; `ptss` is the coarse level. -/
def propagateDownPoint (ptss : List Pnt) (point : Pnt) : Pnt :=
  let parent := getPnt ptss point.parent
  if !parent.isGood || parent.lastHessian < 1 / 10 then point
  else if !point.isGood then
    { point with
      iR := parent.iR, idepth := parent.iR, idepth_new := parent.iR
      isGood := true, lastHessian := 0 }
  else
    let newiR := (point.iR * point.lastHessian * 2 + parent.iR * parent.lastHessian) /
      (point.lastHessian * 2 + parent.lastHessian)
    { point with iR := newiR, idepth := newiR, idepth_new := newiR }

/-- Inner loop of `resetPoints` at the coarsest level: sum and count of the `iR` of the good
neighbours. -/
def resetNeighbourSum (pts : List Pnt) (point : Pnt) : ℚ × ℚ :=
  (List.finRange 10).foldl (fun acc n =>
    if point.neighbours n = -1 || !(getPnt pts (point.neighbours n)).isGood then acc
    else (acc.1 + (getPnt pts (point.neighbours n)).iR, acc.2 + 1)) (0, 0)

/-- Body of the loop of `resetPoints` for index `i`; `coarsest` is `lvl == pyrLevelsUsed-1`. -/
def resetPointsPoint (coarsest : Bool) (pts : List Pnt) (i : Nat) : List Pnt :=
  match pts[i]? with
  | none => pts
  | some p =>
    let pts1 := pts.set i { p with energy := (0, 0), idepth_new := p.idepth }
    if coarsest && !p.isGood then
      let acc := resetNeighbourSum pts1 { p with energy := (0, 0), idepth_new := p.idepth }
      if acc.2 > 0 then
        pts1.set i { p with
          energy := (0, 0)
          isGood := true
          iR := acc.1 / acc.2, idepth := acc.1 / acc.2, idepth_new := acc.1 / acc.2 }
      else pts1
    else pts1

/-- The loop of `resetPoints` on one level. -/
def resetPointsLevel (coarsest : Bool) (pts : List Pnt) : List Pnt :=
  (List.range pts.length).foldl (resetPointsPoint coarsest) pts

/-- Body of the loop of `doStep` for one point with its Jacobian buffer entry `jb`. -/
def doStepPoint (lambda : ℚ) (inc : Vec8f) (jb : Vec10f) (p : Pnt) : Pnt :=
  if !p.isGood then p
  else
    let b := jb 8 + ∑ k : Fin 8, jb (Fin.castLE (by decide) k) * inc k
    let step := -b * jb 9 / (1 + lambda)
    let maxstep0 := (1 / 4 : ℚ) * p.maxstep
    let maxstep := if maxstep0 > 10 ^ 10 then 10 ^ 10 else maxstep0
    let step1 := if step > maxstep then maxstep else step
    let step2 := if step1 < -maxstep then -maxstep else step1
    let newIdepth := p.idepth + step2
    let newIdepth1 := if newIdepth < 1 / 1000 then 1 / 1000 else newIdepth
    let newIdepth2 := if newIdepth1 > 50 then 50 else newIdepth1
    { p with idepth_new := newIdepth2 }

/-- Body of the loop of `applyStep` for one point. -/
def applyStepPoint (p : Pnt) : Pnt :=
  if !p.isGood then { p with idepth := p.iR, idepth_new := p.iR }
  else
    { p with
      energy := p.energy_new
      isGood := p.isGood_new
      idepth := p.idepth_new
      lastHessian := p.lastHessian_new }

/-- Anchor or tracked frame `FrameHessian`: the exposure time and the image pyramid `dIp`
(per level, per pixel index: intensity, dx, dy). -/
structure FrameHessian where
  ab_exposure : ℚ
  dIp : Nat → Int → Vec3f

/-- One pattern sample of the residual pass that passed the validity checks: the values the
body of the pattern loop of `calcResAndGS` computes for it. -/
structure Sample where
  /-- Huber energy term `hw*residual*residual*(2-hw)`. -/
  energy : ℚ
  /-- Entries `dp0[idx] .. dp7[idx]`. -/
  dp : Vec8f
  /-- Entry `dd[idx]`. -/
  dd : ℚ
  /-- Entry `r[idx]`. -/
  r : ℚ
  /-- Local `maxstep` of the sample, `1.0f / norm`; `none` stands for the value `+inf` that
  the quotient takes when the norm is zero. -/
  maxstep : Option ℚ

/-- Global settings (`settings.cpp`) and the numeric routines of other files, as parameters. -/
structure Env where
  pyrLevelsUsed : Nat
  patternNum : Nat
  patternPadding : Nat
  setting_outlierTH : ℚ
  setting_weightZeroPriorDSOInitX : ℚ
  setting_weightZeroPriorDSOInitY : ℚ
  SCALE_XI_ROT : ℚ
  SCALE_XI_TRANS : ℚ
  SCALE_A : ℚ
  SCALE_B : ℚ
  wG0 : Nat
  hG0 : Nat
  setting_huberTH : ℚ
  /-- Entry `patternP[idx]` of the residual pattern: the offsets `(dx, dy)`. -/
  patternP : Nat → Int × Int
  /-- Interpolation `getInterpolatedElement33(mat, x, y, width)` of `util/globalFuncs.h`;
  `none` when the first component of the result is not finite. -/
  getInterpolatedElement33 : (Int → Vec3f) → ℚ → ℚ → Nat → Option Vec3f
  /-- Interpolation `getInterpolatedElement31(mat, x, y, width)` of `util/globalFuncs.h`;
  `none` when the result is not finite. -/
  getInterpolatedElement31 : (Int → Vec3f) → ℚ → ℚ → Nat → Option ℚ
  sqrtf : ℚ → ℚ
  /-- Eigen `norm()` of a 2-vector. -/
  norm2 : Vec2f → ℚ
  /-- The double-precision `exp`. -/
  exp : ℚ → ℚ
  /-- Eigen `ldlt().solve` on the 6×6 pose block. -/
  ldltSolve6 : (Fin 6 → Fin 6 → ℚ) → (Fin 6 → ℚ) → (Fin 6 → ℚ)
  /-- Eigen `ldlt().solve` on the 8×8 system. -/
  ldltSolve8 : Mat88f → Vec8f → Vec8f
  /-- Sophus `SE3::exp`. -/
  se3Exp : (Fin 6 → ℚ) → SE3
  /-- Sophus `SE3::log`. -/
  se3Log : SE3 → (Fin 6 → ℚ)
  /-- Eigen `norm()` of an 8-vector. -/
  norm8 : Vec8f → ℚ
  logf : ℚ → ℚ
  expf : ℚ → ℚ
  /-- Pixel selector of level 0 (`PixelSelector::makeMaps`): the status of each pixel index. -/
  statusMap : FrameHessian → Nat → ℚ
  /-- Pixel selector of the levels above 0 (`makePixelStatus`). -/
  statusMapB : FrameHessian → Nat → Nat → Bool
  /-- The k-d tree query for the 10 nearest points of a level: indices and distances. -/
  findNeighbors : List Pnt → ℚ × ℚ → (Fin 10 → Int) × (Fin 10 → ℚ)
  /-- The k-d tree query for the single nearest point of a level: index and distance. -/
  findNeighbors1 : List Pnt → ℚ × ℚ → Int × ℚ
  /-- Contents of the freshly allocated `Pnt` number `nl` of a level (uninitialised memory). -/
  freshPnt : Nat → Nat → Pnt
  /-- The `int` that the read `maxIterations[lvl]` of `trackFrame` finds for `lvl >= 5`, past
  the end of the five-entry local array (whatever the stack holds there; taken to be the same
  at every read). -/
  maxIterationsPast : Nat → Int

/-- Product of rigid transforms `a * b`. -/
def SE3.mul (a b : SE3) : SE3 :=
  { rotationMatrix := fun i j => ∑ k : Fin 3, a.rotationMatrix i k * b.rotationMatrix k j
    translation := fun i => (∑ k : Fin 3, a.rotationMatrix i k * b.translation k) + a.translation i }

/-- Value of a 32-bit `int` that is assigned the sum `x`: two's-complement wrap-around into
`[-2^31, 2^31)`, as the compiled code behaves when an `int` addition overflows. -/
def wrapInt32 (x : Int) : Int := (x + 2147483648) % 4294967296 - 2147483648

/-- State of the class `CoarseInitializer`. -/
structure CoarseInitializer where
  points : Nat → List Pnt
  thisToNext : SE3
  thisToNext_aff : AffLight
  firstFrame : FrameHessian
  newFrame : FrameHessian
  JbBuffer : Nat → Vec10f
  JbBuffer_new : Nat → Vec10f
  snapped : Bool
  frameID : Int
  snappedAt : Int
  fixAffine : Bool
  alphaK : ℚ
  alphaW : ℚ
  regWeight : ℚ
  couplingWeight : ℚ
  w : Nat → Nat
  h : Nat → Nat
  fx : Nat → ℚ
  fy : Nat → ℚ
  cx : Nat → ℚ
  cy : Nat → ℚ
  K : Nat → Mat33f
  Ki : Nat → Mat33f
  fxi : Nat → ℚ
  fyi : Nat → ℚ
  cxi : Nat → ℚ
  cyi : Nat → ℚ

namespace CoarseInitializer

/-- Member `numPoints[lvl]`. -/
def numPoints (s : CoarseInitializer) (lvl : Nat) : Nat := (s.points lvl).length

/-- Store a new point array for level `lvl`. -/
def setPoints (s : CoarseInitializer) (lvl : Nat) (pts : List Pnt) : CoarseInitializer :=
  { s with points := Function.update s.points lvl pts }

/-- Method `optReg(lvl)`. -/
def optReg (s : CoarseInitializer) (lvl : Nat) : CoarseInitializer :=
  if !s.snapped then s
  else s.setPoints lvl (optRegLevel s.regWeight (s.points lvl))

/-- Method `propagateUp(srcLvl)`. -/
def propagateUp (s : CoarseInitializer) (srcLvl : Nat) : CoarseInitializer :=
  (s.setPoints (srcLvl + 1)
    (propagateUpLoops (s.points srcLvl) (s.points (srcLvl + 1)))).optReg (srcLvl + 1)

/-- Method `propagateDown(srcLvl)`. -/
def propagateDown (s : CoarseInitializer) (srcLvl : Nat) : CoarseInitializer :=
  (s.setPoints (srcLvl - 1)
    ((s.points (srcLvl - 1)).map (propagateDownPoint (s.points srcLvl)))).optReg (srcLvl - 1)

/-- Method `resetPoints(lvl)`. -/
def resetPoints (env : Env) (s : CoarseInitializer) (lvl : Nat) : CoarseInitializer :=
  s.setPoints lvl
    (resetPointsLevel (decide ((lvl : Int) = (env.pyrLevelsUsed : Int) - 1)) (s.points lvl))

/-- Method `doStep(lvl, lambda, inc)`. -/
def doStep (s : CoarseInitializer) (lvl : Nat) (lambda : ℚ) (inc : Vec8f) : CoarseInitializer :=
  s.setPoints lvl ((s.points lvl).mapIdx fun i p => doStepPoint lambda inc (s.JbBuffer i) p)

/-- Method `applyStep(lvl)`. -/
def applyStep (s : CoarseInitializer) (lvl : Nat) : CoarseInitializer :=
  { s.setPoints lvl ((s.points lvl).map applyStepPoint) with
    JbBuffer := s.JbBuffer_new
    JbBuffer_new := s.JbBuffer }

end CoarseInitializer

/-- Modelled from the spec: the scalar accumulator `Accumulator11` of
`util/MatrixAccumulators.h` (a total-energy/point-count pair, reset by `initialize` and
reduced by `finish`).  `updateSingle` adds to an internal buffer and counts the call; `finish`
publishes the buffered total as `A`. -/
structure Accumulator11 where
  A : ℚ
  num : Nat
  buffered : ℚ

def Accumulator11.initialize : Accumulator11 := { A := 0, num := 0, buffered := 0 }

def Accumulator11.updateSingle (E : Accumulator11) (val : ℚ) : Accumulator11 :=
  { E with buffered := E.buffered + val, num := E.num + 1 }

def Accumulator11.finish (E : Accumulator11) : Accumulator11 :=
  { E with A := E.buffered }

/-- Modelled from the spec: the matrix accumulator `Accumulator9` of
`util/MatrixAccumulators.h`, a 9×9 matrix of accumulated outer products whose top-left 8×8
block is the normal-equation matrix and whose last column is the gradient. -/
abbrev Accumulator9 := Fin 9 → Fin 9 → ℚ

/-- The 9-vector `(J0, .., J7, J8)`. -/
def vec9 (j : Vec8f) (j8 : ℚ) : Fin 9 → ℚ :=
  fun k => if hk : k.val < 8 then j ⟨k.val, hk⟩ else j8

/-- Accumulator call `updateSingleWeighted(J0..J7, J8, w)`; `updateSingle` and `updateSSE`
are the case `w = 1`. -/
def Accumulator9.updateSingleWeighted (acc : Accumulator9) (j : Vec8f) (j8 w : ℚ) : Accumulator9 :=
  fun a b => acc a b + w * (vec9 j j8 a * vec9 j j8 b)

/-- Block `H.topLeftCorner<8,8>()`. -/
def Accumulator9.topLeft (acc : Accumulator9) : Mat88f :=
  fun a b => acc (Fin.castLE (by decide) a) (Fin.castLE (by decide) b)

/-- Block `H.topRightCorner<8,1>()`. -/
def Accumulator9.topRight (acc : Accumulator9) : Vec8f :=
  fun a => acc (Fin.castLE (by decide) a) 8

/-- Locals of the body of the pattern loop of `calcResAndGS` up to the validity test: the
third coordinate `pt[2]` of the projected point, the normalised coordinates `u, v`, the pixel
coordinates `Ku, Kv` and `new_idepth`. -/
structure Projected where
  pt2 : ℚ
  u : ℚ
  v : ℚ
  Ku : ℚ
  Kv : ℚ
  new_idepth : ℚ

/-- Head of the body of the pattern loop of `calcResAndGS`: the pattern pixel
`(point->u + dx, point->v + dy)` is projected into the new frame,
`pt = RKi * (u+dx, v+dy, 1) + t * idepth_new` with `RKi = R * Ki[lvl]`.  A zero `pt[2]` makes
the quotients of the source infinite or NaN, so that the validity test fails; here they are 0
and the test fails on `new_idepth > 0`. -/
def projectSample (s : CoarseInitializer) (lvl : Nat) (refToNew : SE3) (point : Pnt)
    (dx dy : Int) : Projected :=
  let RKi : Mat33f := fun i j => ∑ k : Fin 3, refToNew.rotationMatrix i k * s.Ki lvl k j
  let t := refToNew.translation
  let x : Vec3f := ![point.u + (dx : ℚ), point.v + (dy : ℚ), 1]
  let pt : Vec3f := fun i => (∑ k : Fin 3, RKi i k * x k) + t i * point.idepth_new
  let u := pt 0 / pt 2
  let v := pt 1 / pt 2
  { pt2 := pt 2, u := u, v := v
    Ku := s.fx lvl * u + s.cx lvl
    Kv := s.fy lvl * v + s.cy lvl
    new_idepth := point.idepth_new / pt 2 }

/-- The validity test `Ku > 1 && Kv > 1 && Ku < wl-2 && Kv < hl-2 && new_idepth > 0` of the
pattern loop. -/
def sampleInside (wl hl : Nat) (p : Projected) : Bool :=
  decide (p.Ku > 1) && decide (p.Kv > 1) && decide (p.Ku < (wl : ℚ) - 2) &&
    decide (p.Kv < (hl : ℚ) - 2) && decide (p.new_idepth > 0)

/-- Local `residual` of the pattern loop:
`hitColor[0] - r2new_aff[0] * rlR - r2new_aff[1]` with `r2new_aff = (exp(a), b)`. -/
def sampleResidual (env : Env) (refToNew_aff : AffLight) (hitColor : Vec3f) (rlR : ℚ) : ℚ :=
  hitColor 0 - env.exp refToNew_aff.a * rlR - refToNew_aff.b

/-- Local `hw` of the pattern loop as first computed: the Huber weight
`fabs(residual) < setting_huberTH ? 1 : setting_huberTH / fabs(residual)`. -/
def huberWeight (env : Env) (residual : ℚ) : ℚ :=
  if |residual| < env.setting_huberTH then 1 else env.setting_huberTH / |residual|

/-- Tail of the body of the pattern loop of `calcResAndGS`, for a sample that passed the
validity test and whose two intensities are finite: the energy term, the Jacobian rows, the
residual and the local `maxstep`. -/
def sampleValues (env : Env) (s : CoarseInitializer) (lvl : Nat) (refToNew : SE3)
    (refToNew_aff : AffLight) (p : Projected) (hitColor : Vec3f) (rlR : ℚ) : Sample :=
  let t := refToNew.translation
  let fxl := s.fx lvl
  let fyl := s.fy lvl
  let residual := sampleResidual env refToNew_aff hitColor rlR
  let hw0 := huberWeight env residual
  let dxdd := (t 0 - t 2 * p.u) / p.pt2
  let dydd := (t 1 - t 2 * p.v) / p.pt2
  let hw := if hw0 < 1 then env.sqrtf hw0 else hw0
  let dxInterp := hw * hitColor 1 * fxl
  let dyInterp := hw * hitColor 2 * fyl
  let nrm := env.norm2 (dxdd * fxl, dydd * fyl)
  { energy := hw0 * residual * residual * (2 - hw0)
    dp := ![p.new_idepth * dxInterp, p.new_idepth * dyInterp,
      -p.new_idepth * (p.u * dxInterp + p.v * dyInterp),
      -p.u * p.v * dxInterp - (1 + p.v * p.v) * dyInterp,
      (1 + p.u * p.u) * dxInterp + p.u * p.v * dyInterp,
      -p.v * dxInterp + p.u * dyInterp,
      -hw * env.exp refToNew_aff.a * rlR,
      -hw * 1]
    dd := dxInterp * dxdd + dyInterp * dydd
    r := hw * residual
    maxstep := if nrm = 0 then none else some (1 / nrm) }

/-- Body of the pattern loop of `calcResAndGS` for the pattern index `idx` of a good point:
`none` when the loop is left by `break` (the projection is outside the margin, the new inverse
depth is not positive, or one of the two intensities is not finite), else the values computed
for the sample. -/
def patternSample (env : Env) (s : CoarseInitializer) (lvl : Nat) (refToNew : SE3)
    (refToNew_aff : AffLight) (point : Pnt) (idx : Nat) : Option Sample :=
  let dx := (env.patternP idx).1
  let dy := (env.patternP idx).2
  let p := projectSample s lvl refToNew point dx dy
  if !sampleInside (s.w lvl) (s.h lvl) p then none
  else
    match env.getInterpolatedElement33 (s.newFrame.dIp lvl) p.Ku p.Kv (s.w lvl),
        env.getInterpolatedElement31 (s.firstFrame.dIp lvl) (point.u + (dx : ℚ))
          (point.v + (dy : ℚ)) (s.w lvl) with
    | some hitColor, some rlR => some (sampleValues env s lvl refToNew refToNew_aff p hitColor rlR)
    | _, _ => none

/-- The bodies of the pattern loop of `calcResAndGS` for a good point, for the indices
`0 .. patternNum-1` in order. -/
def patternSamples (env : Env) (s : CoarseInitializer) (lvl : Nat) (refToNew : SE3)
    (refToNew_aff : AffLight) (point : Pnt) : List (Option Sample) :=
  (List.range env.patternNum).map (patternSample env s lvl refToNew refToNew_aff point)

/-- State of the pattern loop of `calcResAndGS` for one point: `JbBuffer_new[i]`, the summed
energy, `point->maxstep`, and the rows `(dp, r)` of the samples seen so far. -/
structure PatternAcc where
  jb : Vec10f
  energy : ℚ
  maxstep : ℚ
  rows : List (Vec8f × ℚ)

/-- Body of the pattern loop of `calcResAndGS` for a valid sample. -/
def patternStep (acc : PatternAcc) (sm : Sample) : PatternAcc :=
  { jb := fun k =>
      if hk : k.val < 8 then acc.jb k + sm.dp ⟨k.val, hk⟩ * sm.dd
      else if k.val = 8 then acc.jb k + sm.r * sm.dd
      else acc.jb k + sm.dd * sm.dd
    energy := acc.energy + sm.energy
    maxstep :=
      match sm.maxstep with
      | some maxstep => if maxstep < acc.maxstep then maxstep else acc.maxstep
      | none => acc.maxstep
    rows := acc.rows ++ [(sm.dp, sm.r)] }

/-- The pattern loop of `calcResAndGS`: it stops (`break`) at the first failing sample and
reports `isGood`. -/
def patternLoop : List (Option Sample) → PatternAcc → Bool × PatternAcc
  | [], acc => (true, acc)
  | none :: _, acc => (false, acc)
  | some sm :: rest, acc => patternLoop rest (patternStep acc sm)

/-- Accumulators of the point loop of `calcResAndGS`. -/
structure PassAcc where
  pts : List Pnt
  jbNew : Nat → Vec10f
  acc9 : Accumulator9
  E : Accumulator11

/-- Body of the point loop of `calcResAndGS` (the lambda `processPointsForReduce`) for index
`i`; `samples` gives the pattern samples of a point. -/
def processPoint (samples : Pnt → List (Option Sample)) (st : PassAcc) (i : Nat) : PassAcc :=
  match st.pts[i]? with
  | none => st
  | some point0 =>
    let point := { point0 with maxstep := 10 ^ 10 }
    if !point.isGood then
      { st with
        E := st.E.updateSingle point.energy.1
        pts := st.pts.set i { point with energy_new := point.energy, isGood_new := false } }
    else
      let res := patternLoop (samples point)
        { jb := fun _ => 0, energy := 0, maxstep := point.maxstep, rows := [] }
      let isGood := res.1
      let energy := res.2.energy
      let point1 := { point with maxstep := res.2.maxstep }
      let jbNew := Function.update st.jbNew i res.2.jb
      if !isGood || energy > point1.outlierTH * 20 then
        { st with
          jbNew := jbNew
          E := st.E.updateSingle point1.energy.1
          pts := st.pts.set i { point1 with isGood_new := false, energy_new := point1.energy } }
      else
        { jbNew := jbNew
          E := st.E.updateSingle energy
          pts := st.pts.set i
            { point1 with isGood_new := true, energy_new := (energy, point1.energy_new.2) }
          acc9 := res.2.rows.foldl (fun a row => a.updateSingleWeighted row.1 row.2 1) st.acc9 }

/-- Body of the alpha-energy loop of `calcResAndGS` for one point: the new point and the
value passed to `accE[0].updateSingle`. -/
def alphaPoint (point : Pnt) : Pnt × ℚ :=
  if !point.isGood_new then (point, point.energy.2)
  else
    ({ point with energy_new := (point.energy_new.1, (point.idepth_new - 1) * (point.idepth_new - 1)) },
      (point.idepth_new - 1) * (point.idepth_new - 1))

/-- Accumulators of the Schur-complement loop of `calcResAndGS`. -/
structure SchurAcc where
  pts : List Pnt
  jbNew : Nat → Vec10f
  acc9SC : Accumulator9

/-- Body of the Schur-complement loop of `calcResAndGS` for index `i`. -/
def schurPoint (alphaOpt couplingWeight : ℚ) (st : SchurAcc) (i : Nat) : SchurAcc :=
  match st.pts[i]? with
  | none => st
  | some point =>
    if !point.isGood_new then st
    else
      let jb := st.jbNew i
      let jb8a := jb 8 + alphaOpt * (point.idepth_new - 1)
      let jb9a := jb 9 + alphaOpt
      let jb8 := if alphaOpt = 0 then jb8a + couplingWeight * (point.idepth_new - point.iR) else jb8a
      let jb9b := if alphaOpt = 0 then jb9a + couplingWeight else jb9a
      let jb9 := 1 / (1 + jb9b)
      let jbFinal : Vec10f := fun k => if k.val = 8 then jb8 else if k.val = 9 then jb9 else jb k
      { pts := st.pts.set i { point with lastHessian_new := jb 9 }
        jbNew := Function.update st.jbNew i jbFinal
        acc9SC := st.acc9SC.updateSingleWeighted (fun k => jbFinal (Fin.castLE (by decide) k)) jb8 jb9 }

/-- Outputs of `calcResAndGS`: the reference arguments and the returned triple. -/
structure ResOut where
  H_out : Mat88f
  b_out : Vec8f
  H_out_sc : Mat88f
  b_out_sc : Vec8f
  res : Vec3f

namespace CoarseInitializer

/-- Method `calcResAndGS(lvl, H_out, b_out, H_out_sc, b_out_sc, refToNew, refToNew_aff, plot)`:
the new state and the outputs.  The worker accumulators `acc9s`, `accE` are one accumulator
each (a single index range). -/
def calcResAndGS (env : Env) (s : CoarseInitializer) (lvl : Nat) (refToNew : SE3)
    (refToNew_aff : AffLight) : CoarseInitializer × ResOut :=
  let t : Vec3f := refToNew.translation
  let npts := s.numPoints lvl
  let pass0 : PassAcc :=
    { pts := s.points lvl, jbNew := s.JbBuffer_new, acc9 := fun _ _ => 0,
      E := Accumulator11.initialize }
  let pass := (List.range npts).foldl
    (processPoint (patternSamples env s lvl refToNew refToNew_aff)) pass0
  let E := pass.E.finish
  let EAlpha := Accumulator11.initialize
  let ptsAlpha := pass.pts.map fun p => (alphaPoint p).1
  let E0 := pass.pts.foldl (fun e p => e.updateSingle (alphaPoint p).2) E
  let EAlphaA := EAlpha.finish.A
  let squaredNorm := t 0 * t 0 + t 1 * t 1 + t 2 * t 2
  let alphaEnergy0 := s.alphaW * (EAlphaA + squaredNorm * npts)
  let alphaOpt : ℚ := if alphaEnergy0 > s.alphaK * npts then 0 else s.alphaW
  let alphaEnergy := if alphaEnergy0 > s.alphaK * npts then s.alphaK * npts else alphaEnergy0
  let sc := (List.range npts).foldl (schurPoint alphaOpt s.couplingWeight)
    { pts := ptsAlpha, jbNew := pass.jbNew, acc9SC := fun _ _ => 0 }
  let tlog := env.se3Log refToNew
  let H0 : Mat88f := pass.acc9.topLeft
  let b0 : Vec8f := pass.acc9.topRight
  let H_out : Mat88f := fun a b =>
    H0 a b
      + (if a = b ∧ a.val < 3 then alphaOpt * npts else 0)
      + (if a = b ∧ a.val = 1 then env.setting_weightZeroPriorDSOInitY else 0)
      + (if a = b ∧ a.val = 0 then env.setting_weightZeroPriorDSOInitX else 0)
  let b_out : Vec8f := fun a =>
    b0 a
      + (if ha : a.val < 3 then tlog ⟨a.val, by omega⟩ * alphaOpt * npts else 0)
      + (if a.val = 1 then env.setting_weightZeroPriorDSOInitY * t 1 else 0)
      + (if a.val = 0 then env.setting_weightZeroPriorDSOInitX * t 0 else 0)
  ({ s with points := Function.update s.points lvl sc.pts, JbBuffer_new := sc.jbNew },
   { H_out := H_out, b_out := b_out
     H_out_sc := sc.acc9SC.topLeft, b_out_sc := sc.acc9SC.topRight
     res := ![E0.A, alphaEnergy, (E0.num : ℚ)] })

/-- The point loop of `calcResAndGS` (the residual loop over the points of the level): the
accumulators after its last step. -/
def pointLoop (env : Env) (s : CoarseInitializer) (lvl : Nat) (refToNew : SE3)
    (refToNew_aff : AffLight) : PassAcc :=
  (List.range (s.numPoints lvl)).foldl
    (processPoint (patternSamples env s lvl refToNew refToNew_aff))
    { pts := s.points lvl, jbNew := s.JbBuffer_new, acc9 := fun _ _ => 0,
      E := Accumulator11.initialize }

/-- Method `calcEC(lvl)`. -/
def calcEC (s : CoarseInitializer) (lvl : Nat) : Vec3f :=
  if !s.snapped then ![0, 0, (s.numPoints lvl : ℚ)]
  else
    let good := (s.points lvl).filter fun p => p.isGood_new
    let e0 := (good.map fun p => (p.idepth - p.iR) * (p.idepth - p.iR)).sum
    let e1 := (good.map fun p => (p.idepth_new - p.iR) * (p.idepth_new - p.iR)).sum
    ![s.couplingWeight * e0, s.couplingWeight * e1, (good.length : ℚ)]

/-- Local variables of the per-level loop of `trackFrame`, together with the object state. -/
structure LevelState where
  s : CoarseInitializer
  H : Mat88f
  b : Vec8f
  Hsc : Mat88f
  bsc : Vec8f
  resOld : Vec3f
  refToNew_current : SE3
  refToNew_aff_current : AffLight
  lambda : ℚ
  fails : Nat
  iteration : Nat
  /-- Value of `incNorm` in the last iteration. -/
  incNorm : ℚ
  /-- Value of `accept` in the last iteration. -/
  accept : Bool

/-- Local array `maxIterations` of `trackFrame`. -/
def maxIterations : List Nat := [5, 5, 10, 30, 50]

/-- Diagonal of the member `wM`, set by the constructor. -/
def wMdiag (env : Env) : Vec8f :=
  fun k => if k.val < 3 then env.SCALE_XI_ROT else if k.val < 6 then env.SCALE_XI_TRANS
    else if k.val = 6 then env.SCALE_A else env.SCALE_B

/-- Increment `inc` computed at the head of the loop body of `trackFrame`. -/
def computeInc (env : Env) (s : CoarseInitializer) (lvl : Nat) (H : Mat88f) (b : Vec8f)
    (Hsc : Mat88f) (bsc : Vec8f) (lambda : ℚ) : Vec8f :=
  let Hl0 : Mat88f := fun i j =>
    (if i = j then H i j * (1 + lambda) else H i j) - Hsc i j * (1 / (1 + lambda))
  let bl0 : Vec8f := fun i => b i - bsc i * (1 / (1 + lambda))
  let c : ℚ := (1 / 100) / ((s.w lvl : ℚ) * (s.h lvl : ℚ))
  let wM := wMdiag env
  let Hl : Mat88f := fun i j => wM i * Hl0 i j * wM j * c
  let bl : Vec8f := fun i => wM i * bl0 i * c
  if s.fixAffine then
    let x := env.ldltSolve6 (fun i j => Hl (Fin.castLE (by decide) i) (Fin.castLE (by decide) j))
      (fun i => bl (Fin.castLE (by decide) i))
    fun k => if hk : k.val < 6 then -(wM k * x ⟨k.val, hk⟩) else 0
  else
    let x := env.ldltSolve8 Hl bl
    fun k => -(wM k * x k)

/-- Values computed in one pass through the body of the `while(true)` loop of `trackFrame`
before the accept test: the increment, the trial transform and affine pair, the state after
`doStep` and the residual pass, the outputs of the pass and the regularizer energy. -/
structure Trial where
  inc : Vec8f
  incNorm : ℚ
  refToNew_new : SE3
  refToNew_aff_new : AffLight
  s : CoarseInitializer
  out : ResOut
  regEnergy : Vec3f

/-- First part of the loop body of `trackFrame`: from the solve up to `calcEC`. -/
def levelTrial (env : Env) (lvl : Nat) (st : LevelState) : Trial :=
  let inc := computeInc env st.s lvl st.H st.b st.Hsc st.bsc st.lambda
  let refToNew_new := (env.se3Exp fun k => inc (Fin.castLE (by decide) k)).mul st.refToNew_current
  let refToNew_aff_new : AffLight :=
    { a := st.refToNew_aff_current.a + inc 6, b := st.refToNew_aff_current.b + inc 7 }
  let r := (st.s.doStep lvl st.lambda inc).calcResAndGS env lvl refToNew_new refToNew_aff_new
  { inc := inc
    incNorm := env.norm8 inc
    refToNew_new := refToNew_new
    refToNew_aff_new := refToNew_aff_new
    s := r.1
    out := r.2
    regEnergy := r.1.calcEC lvl }

/-- Local `eTotalNew` of the loop body. -/
def eTotalNew (tr : Trial) : ℚ := tr.out.res 0 + tr.out.res 1 + tr.regEnergy 1

/-- Local `eTotalOld` of the loop body. -/
def eTotalOld (st : LevelState) (tr : Trial) : ℚ := st.resOld 0 + st.resOld 1 + tr.regEnergy 0

/-- Local `accept` of the loop body: `eTotalOld > eTotalNew`. -/
def acceptTest (st : LevelState) (tr : Trial) : Bool := decide (eTotalOld st tr > eTotalNew tr)

/-- State update of the branch `if(accept)`: mark `snapped` when the new alpha-energy equals
`alphaK*numPoints[lvl]`, then `applyStep(lvl)` and `optReg(lvl)`. -/
def acceptState (lvl : Nat) (tr : Trial) : CoarseInitializer :=
  ((if tr.out.res 1 = tr.s.alphaK * (tr.s.numPoints lvl : ℚ) then { tr.s with snapped := true }
    else tr.s).applyStep lvl).optReg lvl

/-- The branch `if(accept)` of the loop body. -/
def commitAccept (lvl : Nat) (st : LevelState) (tr : Trial) : LevelState :=
  { st with
    s := acceptState lvl tr
    H := tr.out.H_out, b := tr.out.b_out, Hsc := tr.out.H_out_sc, bsc := tr.out.b_out_sc
    resOld := tr.out.res
    refToNew_aff_current := tr.refToNew_aff_new
    refToNew_current := tr.refToNew_new
    lambda := if st.lambda * (1 / 2) < 1 / 10000 then 1 / 10000 else st.lambda * (1 / 2)
    fails := 0
    incNorm := tr.incNorm
    accept := true }

/-- The `else` branch of the loop body. -/
def commitReject (st : LevelState) (tr : Trial) : LevelState :=
  { st with
    s := tr.s
    fails := st.fails + 1
    lambda := if st.lambda * 4 > 10000 then 10000 else st.lambda * 4
    incNorm := tr.incNorm
    accept := false }

/-- One pass through the body of the `while(true)` loop of `trackFrame`, up to and including
the update of `lambda` and `fails`. -/
def levelIteration (env : Env) (lvl : Nat) (st : LevelState) : LevelState :=
  if acceptTest st (levelTrial env lvl st) then commitAccept lvl st (levelTrial env lvl st)
  else commitReject st (levelTrial env lvl st)

/-- The value of `maxIterations[lvl]` as `trackFrame` reads it: the entry of the array for
`lvl < 5`; for a larger `lvl` (six pyramid levels) the read is past the end of the array. -/
def iterationCap (env : Env) (lvl : Nat) : Int :=
  if lvl < maxIterations.length then (maxIterations.getD lvl 0 : Int)
  else env.maxIterationsPast lvl

/-- The test `!(incNorm > eps) || iteration >= maxIterations[lvl] || fails >= 2`. -/
def quitOpt (env : Env) (lvl : Nat) (st : LevelState) : Bool :=
  !(decide (st.incNorm > 1 / 10000)) || decide ((st.iteration : Int) ≥ iterationCap env lvl) ||
    decide (st.fails ≥ 2)

/-- The `while(true)` loop of `trackFrame` for one level.  The first argument bounds the
number of further passes; `maxIterations[lvl]` (0 if it is negative) is enough, as the loop
leaves once `iteration` has reached it. -/
def levelLoop (env : Env) (lvl : Nat) : Nat → LevelState → LevelState
  | 0, st => levelIteration env lvl st
  | fuel + 1, st =>
    if quitOpt env lvl (levelIteration env lvl st) then levelIteration env lvl st
    else
      levelLoop env lvl fuel
        { levelIteration env lvl st with iteration := (levelIteration env lvl st).iteration + 1 }

/-- Variables that live across the levels in `trackFrame`. -/
structure TrackState where
  s : CoarseInitializer
  refToNew_current : SE3
  refToNew_aff_current : AffLight
  latestRes : Vec3f

/-- Body of the coarse-to-fine `for` loop of `trackFrame` for level `lvl`. -/
def trackLevel (env : Env) (ts : TrackState) (lvl : Nat) : TrackState :=
  let s0 := if lvl < env.pyrLevelsUsed - 1 then ts.s.propagateDown (lvl + 1) else ts.s
  let s1 := s0.resetPoints env lvl
  let r := s1.calcResAndGS env lvl ts.refToNew_current ts.refToNew_aff_current
  let s2 := r.1.applyStep lvl
  let st := levelLoop env lvl ((iterationCap env lvl).toNat)
    { s := s2, H := r.2.H_out, b := r.2.b_out, Hsc := r.2.H_out_sc, bsc := r.2.b_out_sc
      resOld := r.2.res
      refToNew_current := ts.refToNew_current
      refToNew_aff_current := ts.refToNew_aff_current
      lambda := 1 / 10, fails := 0, iteration := 0, incNorm := 0, accept := false }
  { s := st.s, refToNew_current := st.refToNew_current
    refToNew_aff_current := st.refToNew_aff_current, latestRes := st.resOld }

/-- The block `if(!snapped) { ... }` at the head of `trackFrame`. -/
def unsnappedReset (env : Env) (s : CoarseInitializer) : CoarseInitializer :=
  if !s.snapped then
    { s with
      thisToNext := { s.thisToNext with translation := fun _ => 0 }
      points := fun lvl =>
        if lvl < env.pyrLevelsUsed then
          (s.points lvl).map fun p => { p with iR := 1, idepth_new := 1, lastHessian := 0 }
        else s.points lvl }
  else s

/-- The head of `trackFrame`: the new frame and the four tuning constants are stored. -/
def trackFrameInit (s : CoarseInitializer) (newFrameHessian : FrameHessian) : CoarseInitializer :=
  { s with
    newFrame := newFrameHessian
    alphaK := 5 / 2 * (5 / 2), alphaW := 150 * 150, regWeight := 4 / 5, couplingWeight := 1 }

/-- The state of `trackFrame` after the coarse-to-fine loop, with the final transform and
affine pair stored, before the upward propagation. -/
def trackFrameLevels (env : Env) (s : CoarseInitializer) (newFrameHessian : FrameHessian) :
    CoarseInitializer :=
  let s1 := unsnappedReset env (trackFrameInit s newFrameHessian)
  let aff : AffLight :=
    if s1.firstFrame.ab_exposure > 0 ∧ s1.newFrame.ab_exposure > 0 then
      { a := env.logf (s1.newFrame.ab_exposure / s1.firstFrame.ab_exposure), b := 0 }
    else s1.thisToNext_aff
  let ts := ((List.range env.pyrLevelsUsed).reverse).foldl (trackLevel env)
    { s := s1, refToNew_current := s1.thisToNext, refToNew_aff_current := aff
      latestRes := fun _ => 0 }
  { ts.s with thisToNext := ts.refToNew_current, thisToNext_aff := ts.refToNew_aff_current }

/-- The state of `trackFrame` after the coarse-to-fine loop and the upward propagation,
before the frame counters are updated. -/
def trackFrameCore (env : Env) (s : CoarseInitializer) (newFrameHessian : FrameHessian) :
    CoarseInitializer :=
  (List.range (env.pyrLevelsUsed - 1)).foldl propagateUp (trackFrameLevels env s newFrameHessian)

/-- The tail of `trackFrame`: `frameID++` and the bookkeeping of `snappedAt`. -/
def updateCounters (s : CoarseInitializer) : CoarseInitializer :=
  let s1 := { s with frameID := wrapInt32 (s.frameID + 1) }
  let s2 := if !s1.snapped then { s1 with snappedAt := 0 } else s1
  if s2.snapped && decide (s2.snappedAt = 0) then { s2 with snappedAt := s2.frameID } else s2

/-- Method `trackFrame(newFrameHessian, wraps)`: the new state and the returned flag.  The
output wrappers only observe the state. -/
def trackFrame (env : Env) (s : CoarseInitializer) (newFrameHessian : FrameHessian) :
    CoarseInitializer × Bool :=
  let s1 := updateCounters (trackFrameCore env s newFrameHessian)
  (s1, s1.snapped && decide (s1.frameID > wrapInt32 (s1.snappedAt + 5)))

end CoarseInitializer

/-- Calibration `CalibHessian`: the level-0 intrinsics `fxl(), fyl(), cxl(), cyl()`. -/
structure CalibHessian where
  fxl : ℚ
  fyl : ℚ
  cxl : ℚ
  cyl : ℚ

/-- Eigen `inverse()` of a 3×3 matrix: the adjugate divided by the determinant. -/
def mat33Inverse (m : Mat33f) : Mat33f :=
  let det := m 0 0 * (m 1 1 * m 2 2 - m 1 2 * m 2 1) - m 0 1 * (m 1 0 * m 2 2 - m 1 2 * m 2 0)
    + m 0 2 * (m 1 0 * m 2 1 - m 1 1 * m 2 0)
  ![![(m 1 1 * m 2 2 - m 1 2 * m 2 1) / det, (m 0 2 * m 2 1 - m 0 1 * m 2 2) / det,
      (m 0 1 * m 1 2 - m 0 2 * m 1 1) / det],
    ![(m 1 2 * m 2 0 - m 1 0 * m 2 2) / det, (m 0 0 * m 2 2 - m 0 2 * m 2 0) / det,
      (m 0 2 * m 1 0 - m 0 0 * m 1 2) / det],
    ![(m 1 0 * m 2 1 - m 1 1 * m 2 0) / det, (m 0 1 * m 2 0 - m 0 0 * m 2 1) / det,
      (m 0 0 * m 1 1 - m 0 1 * m 1 0) / det]]

/-- Values `fx[level]` produced by the loop of `makeK`: `fx[level] = fx[level-1] * 0.5`. -/
def halved (x0 : ℚ) : Nat → ℚ
  | 0 => x0
  | level + 1 => halved x0 level * (1 / 2)

/-- Normalised neighbour weights of `makeNN`: `df[k] = expf(-ret_dist[k]*NNDistFactor)`,
then every weight is multiplied by `10/sumDF`.  Stated over any field so that it can be read
with the real exponential as well. -/
def neighbourWeights {F : Type} [Field F] (expf : F → F) (NNDistFactor : F)
    (ret_dist : Fin 10 → F) : Fin 10 → F :=
  fun k => expf (-ret_dist k * NNDistFactor) *
    (10 / ∑ j : Fin 10, expf (-ret_dist j * NNDistFactor))

/-- Body of the point loop of `makeNN` for one point of level `lvl`; `pts` is the level and
`ptsUp` the next coarser one. -/
def makeNNPoint (env : Env) (lvl : Nat) (pts ptsUp : List Pnt) (p : Pnt) : Pnt :=
  let pt : ℚ × ℚ := (p.u, p.v)
  let ret := env.findNeighbors pts pt
  let p1 : Pnt :=
    { p with
      neighbours := ret.1
      neighboursDist := neighbourWeights env.expf (1 / 20) ret.2 }
  if lvl < env.pyrLevelsUsed - 1 then
    let pt2 : ℚ × ℚ := (pt.1 * (1 / 2) - 1 / 4, pt.2 * (1 / 2) - 1 / 4)
    let ret1 := env.findNeighbors1 ptsUp pt2
    { p1 with parent := ret1.1, parentDist := env.expf (-ret1.2 * (1 / 20)) }
  else { p1 with parent := -1, parentDist := -1 }

/-- Body of the pixel loop of `setFirst` at pixel `(x, y)` of level `lvl`: the point created
there, if the selector chose the pixel. -/
def makePoint (env : Env) (frame : FrameHessian) (lvl wl : Nat) (fresh : Pnt) (x y : Nat) :
    Option Pnt :=
  if (lvl ≠ 0 ∧ env.statusMapB frame lvl (x + y * wl) = true) ∨
      (lvl = 0 ∧ env.statusMap frame (x + y * wl) ≠ 0) then
    some { fresh with
      u := (x : ℚ) + 1 / 10
      v := (y : ℚ) + 1 / 10
      idepth := 1
      iR := 1
      isGood := true
      energy := (0, 0)
      lastHessian := 0
      lastHessian_new := 0
      my_type := if lvl ≠ 0 then 1 else env.statusMap frame (x + y * wl)
      outlierTH := (env.patternNum : ℚ) * env.setting_outlierTH }
  else none

/-- Pixels visited by the loops of `setFirst` on a level, in order: rows
`patternPadding+1 ≤ y < hl-patternPadding-2`, and in each row the columns
`patternPadding+1 ≤ x < wl-patternPadding-2`. -/
def pixelWindow (env : Env) (wl hl : Nat) : List (Nat × Nat) :=
  (List.range' (env.patternPadding + 1) (hl - env.patternPadding - 2 - (env.patternPadding + 1))).flatMap
    fun y =>
      (List.range' (env.patternPadding + 1)
        (wl - env.patternPadding - 2 - (env.patternPadding + 1))).map fun x => (x, y)

/-- The pixel loops of `setFirst` on a level: the points created, in order (`nl` counts
them). -/
def selectPoints (env : Env) (frame : FrameHessian) (lvl wl hl : Nat) : List Pnt :=
  (pixelWindow env wl hl).foldl (fun pl xy =>
    match makePoint env frame lvl wl (env.freshPnt lvl pl.length) xy.1 xy.2 with
    | some p => pl ++ [p]
    | none => pl) []

namespace CoarseInitializer

/-- Method `makeK(HCalib)`. -/
def makeK (env : Env) (s : CoarseInitializer) (HCalib : CalibHessian) : CoarseInitializer :=
  let inLevels (level : Nat) : Prop := 1 ≤ level ∧ level < env.pyrLevelsUsed
  let w : Nat → Nat := fun level =>
    if level = 0 then env.wG0 else if inLevels level then env.wG0 >>> level else s.w level
  let h : Nat → Nat := fun level =>
    if level = 0 then env.hG0 else if inLevels level then env.hG0 >>> level else s.h level
  let fx : Nat → ℚ := fun level =>
    if level < max 1 env.pyrLevelsUsed then halved HCalib.fxl level else s.fx level
  let fy : Nat → ℚ := fun level =>
    if level < max 1 env.pyrLevelsUsed then halved HCalib.fyl level else s.fy level
  let cx : Nat → ℚ := fun level =>
    if level = 0 then HCalib.cxl
    else if inLevels level then (HCalib.cxl + 1 / 2) / (2 ^ level : ℚ) - 1 / 2 else s.cx level
  let cy : Nat → ℚ := fun level =>
    if level = 0 then HCalib.cyl
    else if inLevels level then (HCalib.cyl + 1 / 2) / (2 ^ level : ℚ) - 1 / 2 else s.cy level
  let K : Nat → Mat33f := fun level =>
    if level < env.pyrLevelsUsed then
      ![![fx level, 0, cx level], ![0, fy level, cy level], ![0, 0, 1]]
    else s.K level
  let Ki : Nat → Mat33f := fun level =>
    if level < env.pyrLevelsUsed then mat33Inverse (K level) else s.Ki level
  { s with
    w := w, h := h, fx := fx, fy := fy, cx := cx, cy := cy, K := K, Ki := Ki
    fxi := fun level => if level < env.pyrLevelsUsed then Ki level 0 0 else s.fxi level
    fyi := fun level => if level < env.pyrLevelsUsed then Ki level 1 1 else s.fyi level
    cxi := fun level => if level < env.pyrLevelsUsed then Ki level 0 2 else s.cxi level
    cyi := fun level => if level < env.pyrLevelsUsed then Ki level 1 2 else s.cyi level }

/-- Method `makeNN()`. -/
def makeNN (env : Env) (s : CoarseInitializer) : CoarseInitializer :=
  { s with
    points := fun lvl =>
      if lvl < env.pyrLevelsUsed then
        (s.points lvl).map (makeNNPoint env lvl (s.points lvl) (s.points (lvl + 1)))
      else s.points lvl }

/-- Method `setFirst(HCalib, newFrameHessian)`. -/
def setFirst (env : Env) (s : CoarseInitializer) (HCalib : CalibHessian)
    (newFrameHessian : FrameHessian) : CoarseInitializer :=
  let s1 := { s.makeK env HCalib with firstFrame := newFrameHessian }
  let s2 : CoarseInitializer :=
    { s1 with
      points := fun lvl =>
        if lvl < env.pyrLevelsUsed then selectPoints env newFrameHessian lvl (s1.w lvl) (s1.h lvl)
        else s1.points lvl }
  { s2.makeNN env with
    thisToNext := SE3.identity
    snapped := false
    frameID := 0
    snappedAt := 0 }

end CoarseInitializer

/-- Value written (or kept) by the body of the loop of `optReg` at a point. -/
def optRegValue (regWeight : ℚ) (pts : List Pnt) (point : Pnt) : Pnt :=
  if point.isGood = true ∧ 2 < (collectIdnn pts point).length then
    { point with
      iR := (1 - regWeight) * point.idepth +
        regWeight * nthElement (collectIdnn pts point) ((collectIdnn pts point).length / 2) }
  else point

/-- A point with its `iR` field blanked: two points agree on every other field exactly when
their images agree. -/
def Pnt.eraseIR (p : Pnt) : Pnt := { p with iR := 0 }

/-- Two point arrays that differ at most in `iR` fields. -/
def SameButIR (a b : List Pnt) : Prop :=
  ∀ j : Nat, (b[j]?).map Pnt.eraseIR = (a[j]?).map Pnt.eraseIR

/-- The value `m` has rank `k` (0-based) among the entries of `l`: it occurs in `l`, at most
`k` entries are smaller and more than `k` entries are not larger. -/
def IsRankElement (l : List ℚ) (k : Nat) (m : ℚ) : Prop :=
  m ∈ l ∧ (l.filter fun x => decide (x < m)).length ≤ k ∧
    k < (l.filter fun x => decide (x ≤ m)).length

/-- Total `lastHessian` of the good children of the coarse point `k`: the points of the fine
level `ptss` with `isGood` and `parent = k`. -/
def childWeightSum (ptss : List Pnt) (k : Int) : ℚ :=
  ((ptss.filter fun c => c.isGood && decide (c.parent = k)).map fun c => c.lastHessian).sum

/-- Sum of `iR * lastHessian` over the good children of the coarse point `k`. -/
def childIRSum (ptss : List Pnt) (k : Int) : ℚ :=
  ((ptss.filter fun c => c.isGood && decide (c.parent = k)).map fun c =>
    c.iR * c.lastHessian).sum

/-- Example point whose ten neighbour slots hold the indices `0 .. 9`. -/
def examplePnt (isGood : Bool) (idepth iR lastHessian : ℚ) (parent : Int) : Pnt :=
  { (default : Pnt) with
    isGood := isGood, idepth := idepth, idepth_new := idepth, iR := iR
    lastHessian := lastHessian, parent := parent
    neighbours := fun k => (k.val : Int), neighboursDist := fun _ => 1 }

/-- Example state with two levels, `fine` at level 0 and `coarse` at level 1. -/
def exampleState (snapped : Bool) (fine coarse : List Pnt) : CoarseInitializer :=
  { points := fun lvl => if lvl = 0 then fine else if lvl = 1 then coarse else []
    thisToNext := SE3.identity, thisToNext_aff := { a := 0, b := 0 }
    firstFrame := { ab_exposure := 1, dIp := fun _ _ _ => 0 }
    newFrame := { ab_exposure := 1, dIp := fun _ _ _ => 0 }
    JbBuffer := fun _ _ => 0, JbBuffer_new := fun _ _ => 0
    snapped := snapped, frameID := 1, snappedAt := if snapped then 1 else 0, fixAffine := true
    alphaK := 25 / 4, alphaW := 22500, regWeight := 4 / 5, couplingWeight := 1
    w := fun _ => 0, h := fun _ => 0, fx := fun _ => 0, fy := fun _ => 0
    cx := fun _ => 0, cy := fun _ => 0, K := fun _ _ _ => 0, Ki := fun _ _ _ => 0
    fxi := fun _ => 0, fyi := fun _ => 0, cxi := fun _ => 0, cyi := fun _ => 0 }

/-- Ten good points with `idepth = 1` and `iR = 1, 2, .., 10`. -/
def rampLevel : List Pnt :=
  (List.range 10).map fun i => examplePnt true 1 ((i : ℚ) + 1) 1 (-1)

/-- Fine level of ten good points; the points 3 and 4 are the children of the coarse point 4,
with `iR = 3, 6` and `lastHessian = 2, 1`. -/
def fineUp : List Pnt :=
  [examplePnt true 1 1 1 0, examplePnt true 1 1 1 1, examplePnt true 1 1 1 2,
   examplePnt true 3 3 2 4, examplePnt true 6 6 1 4, examplePnt true 1 1 1 5,
   examplePnt true 1 1 1 6, examplePnt true 1 1 1 7, examplePnt true 1 1 1 8,
   examplePnt true 1 1 1 9]

/-- Coarse level of ten good points with `idepth = iR = 1`. -/
def coarseUp : List Pnt := List.replicate 10 (examplePnt true 1 1 1 (-1))

/-- Fine level of ten points: point 0 is bad with parent 0, point 1 is good with `iR = 2`,
`lastHessian = 1` and parent 1. -/
def fineDown : List Pnt :=
  [examplePnt false 1 1 0 0, examplePnt true 2 2 1 1, examplePnt true 1 1 1 2,
   examplePnt true 1 1 1 3, examplePnt true 1 1 1 4, examplePnt true 1 1 1 5,
   examplePnt true 1 1 1 6, examplePnt true 1 1 1 7, examplePnt true 1 1 1 8,
   examplePnt true 1 1 1 9]

/-- Coarse level of ten good points: point 0 has `iR = 5`, `lastHessian = 1`, point 1 has
`iR = 8`, `lastHessian = 2`. -/
def coarseDown : List Pnt :=
  [examplePnt true 5 5 1 (-1), examplePnt true 8 8 2 (-1)] ++
    List.replicate 8 (examplePnt true 1 1 1 (-1))

/-- Successive calls of `trackFrame` on a list of frames: the state and the returned flag
after each call. -/
def trackFrames (env : Env) : CoarseInitializer → List FrameHessian →
    List (CoarseInitializer × Bool)
  | _, [] => []
  | s, f :: fs => s.trackFrame env f :: trackFrames env (s.trackFrame env f).1 fs

/-- Relation between the state before and after a piece of `trackFrame` that leaves the frame
counters alone and does not clear `snapped`. -/
def CoarseInitializer.KeepsCounters (s t : CoarseInitializer) : Prop :=
  t.frameID = s.frameID ∧ t.snappedAt = s.snappedAt ∧ (s.snapped = true → t.snapped = true)

/-- Constructor `CoarseInitializer(ww, hh)` run on uninitialised memory `raw`: the members it
sets are the transform, the affine pair, the empty point arrays, `frameID = -1` and
`fixAffine = true`. -/
def CoarseInitializer.construct (env : Env) (raw : CoarseInitializer) : CoarseInitializer :=
  { raw with
    thisToNext_aff := { a := 0, b := 0 }
    thisToNext := SE3.identity
    points := fun lvl => if lvl < env.pyrLevelsUsed then [] else raw.points lvl
    frameID := -1
    fixAffine := true }

/-- Squared pixel distance of a point to a query position. -/
def sqDist (p : Pnt) (q : ℚ × ℚ) : ℚ := (p.u - q.1) * (p.u - q.1) + (p.v - q.2) * (p.v - q.2)

/-- Exhaustive nearest-neighbour search: the points of a level with their squared distance
to `q`, nearest first. -/
def knnSorted (pts : List Pnt) (q : ℚ × ℚ) : List (ℚ × Nat) :=
  (pts.enum.map fun ip => (sqDist ip.2 q, ip.1)).mergeSort fun a b => decide (a.1 ≤ b.1)

/-- Conversion `(int)x` of a float: truncation toward zero. -/
def truncInt (x : ℚ) : Int := Int.tdiv x.num x.den

/-- Bilinear interpolation of the three channels of an image stored row by row, written as
`getInterpolatedElement33` of `util/globalFuncs.h`. -/
def bilinear33 (mat : Int → Vec3f) (x y : ℚ) (width : Nat) : Vec3f :=
  let ix := truncInt x
  let iy := truncInt y
  let dx := x - (ix : ℚ)
  let dy := y - (iy : ℚ)
  let dxdy := dx * dy
  let bp := ix + iy * (width : Int)
  fun c => dxdy * mat (bp + 1 + (width : Int)) c + (dy - dxdy) * mat (bp + (width : Int)) c +
    (dx - dxdy) * mat (bp + 1) c + (1 - dx - dy + dxdy) * mat bp c

/-- Solution of a linear system by symmetric elimination, as an exact `LDLT` solve: the first
unknown is eliminated from the remaining rows; a zero pivot gives a zero component (the
pseudo-inverse of the diagonal factor that `Eigen::LDLT::solve` applies). -/
def solveElim : Nat → List (List ℚ) → List ℚ → List ℚ
  | 0, _, _ => []
  | _ + 1, [], _ => []
  | _ + 1, _ :: _, [] => []
  | n + 1, row :: rows, b0 :: bs =>
    let a := row.headD 0
    if a = 0 then 0 :: solveElim n (rows.map List.tail) bs
    else
      let xs := solveElim n
        (rows.map fun r => List.zipWith (fun m c => m - r.headD 0 * c / a) r.tail row.tail)
        (List.zipWith (fun bi r => bi - r.headD 0 * b0 / a) bs rows)
      ((b0 - (List.zipWith (fun c x => c * x) row.tail xs).sum) / a) :: xs

/-- The solver `solveElim` on matrices and vectors indexed by `Fin n`. -/
def solveFin (n : Nat) (H : Fin n → Fin n → ℚ) (b : Fin n → ℚ) : Fin n → ℚ :=
  fun i => (solveElim n ((List.finRange n).map fun r => (List.finRange n).map (H r))
    ((List.finRange n).map b)).getD i.val 0

/-- The residual pattern of eight pixels (`staticPattern[8]` of the settings). -/
def examplePattern : List (Int × Int) :=
  [(0, -2), (-1, -1), (1, -1), (-2, 0), (0, 0), (2, 0), (-1, 1), (0, 2)]

/-- Example environment with two pyramid levels on a 68×32 image.  The selectors pick ten
pixels per level: on level 1 the pixels `(3 + 6c, 3 + 6r)` for `c < 5`, `r < 2`, on level 0
their doubles.  The neighbour search is exhaustive, the interpolation is bilinear and the
solver is exact.  The other numeric routines are exact on the values the example meets:
`SE3::exp` and `SE3::log` act on pure translations, the norms are taken of vectors with at most
one non-zero entry, `logf` and `exp` are only applied to 1 and 0, `expf` is a positive
increasing stand-in whose values only feed the neighbour weights, and the value of `sqrtf`
only enters products with a zero gradient and rows of points that are rejected as outliers. -/
def exampleEnv : Env :=
  { pyrLevelsUsed := 2, patternNum := 8, patternPadding := 2
    setting_outlierTH := 144
    setting_huberTH := 9
    setting_weightZeroPriorDSOInitX := 0, setting_weightZeroPriorDSOInitY := 0
    SCALE_XI_ROT := 1, SCALE_XI_TRANS := 1, SCALE_A := 10, SCALE_B := 1000
    wG0 := 68, hG0 := 32
    patternP := fun idx => examplePattern.getD idx (0, 0)
    getInterpolatedElement33 := fun mat x y width => some (bilinear33 mat x y width)
    getInterpolatedElement31 := fun mat x y width => some (bilinear33 mat x y width 0)
    sqrtf := fun x => x
    norm2 := fun v => |v.1| + |v.2|
    exp := fun x => if x ≤ 0 then 1 / (1 - x) else 1 + x
    ldltSolve6 := solveFin 6
    ldltSolve8 := solveFin 8
    se3Exp := fun v =>
      { rotationMatrix := SE3.identity.rotationMatrix
        translation := fun i => v (Fin.castLE (by decide) i) }
    se3Log := fun T k => if hk : k.val < 3 then T.translation ⟨k.val, hk⟩ else 0
    norm8 := fun v => ∑ k, |v k|
    logf := fun x => x - 1
    expf := fun x => if x ≤ 0 then 1 / (1 - x) else 1 + x
    statusMap := fun _ idx =>
      if idx % 68 % 12 = 6 ∧ idx % 68 < 60 ∧ (idx / 68 = 6 ∨ idx / 68 = 18) then 1 else 0
    statusMapB := fun _ _ idx =>
      decide (idx % 34 % 6 = 3 ∧ idx % 34 < 30 ∧ (idx / 34 = 3 ∨ idx / 34 = 9))
    findNeighbors := fun pts q =>
      (fun k => (((knnSorted pts q).getD k.val (0, 0)).2 : Int),
       fun k => ((knnSorted pts q).getD k.val (0, 0)).1)
    findNeighbors1 := fun pts q =>
      ((((knnSorted pts q).getD 0 (0, 0)).2 : Int), ((knnSorted pts q).getD 0 (0, 0)).1)
    freshPnt := fun _ _ => default
    maxIterationsPast := fun _ => 0 }

/-- Example frame: a uniform image of intensity `c` and gradient 0, with exposure 1. -/
def exampleFrame (c : ℚ) : FrameHessian :=
  { ab_exposure := 1, dIp := fun _ _ k => if k = 0 then c else 0 }

/-- Data of the first tracked frame of the example for the ten points of level 1, in the
order of the points: the residual `rho` and the gradient `(gx, gy)` that the frame shows at
the pattern pixels of the point, and the residual `R` that it shows half a pixel to the
right of them. -/
def examplePatches : List (ℚ × ℚ × ℚ × ℚ) :=
  [(-117133 / 35328, 0, -50, 205), (146911 / 176640, 0, 50, 205), (-3817 / 736, 2, 50, 0),
   (3543 / 736, -2, 25, 0), (-3 / 2, -1, 50, 205), (9 / 2, -1, -50, 205),
   (-987803 / 883200, 0, -50, 205), (-691981 / 441600, 0, -25, 205), (-4, 1, -25, 205),
   (3, -2, 12, 205)]

/-- First tracked frame of the example.  Level 0 is the uniform image of intensity 255.  On
level 1 the image has intensity 50 and gradient 0, except that the 6×6 pixels around each
selected pixel form a checkerboard of two cells `A`, `B` chosen from `examplePatches`:
bilinear interpolation at the pattern pixels of the point (offset `0.1` in both directions)
gives `0.82 A + 0.18 B = (50 + rho, gx, gy)` and half a pixel to the right of them
`0.42 A + 0.58 B = (50 + R, 0, 0)`. -/
def exampleFrame1 : FrameHessian :=
  { ab_exposure := 1
    dIp := fun lvl idx =>
      let x := idx.toNat % 34
      let y := idx.toNat / 34
      if lvl = 1 ∧ 1 ≤ x ∧ x ≤ 30 ∧ 1 ≤ y ∧ y ≤ 12 then
        let d := examplePatches.getD (5 * ((y - 1) / 6) + (x - 1) / 6) (0, 0, 0, 0)
        if (x + y) % 2 = 0 then
          ![50 + 29 / 20 * d.1 - 9 / 20 * d.2.2.2, 29 / 20 * d.2.1, 29 / 20 * d.2.2.1]
        else ![50 - 21 / 20 * d.1 + 41 / 20 * d.2.2.2, -(21 / 20) * d.2.1, -(21 / 20) * d.2.2.1]
      else if lvl = 1 then ![50, 0, 0]
      else ![255, 0, 0] }

/-- Zeroed memory for the example object. -/
def rawMemory : CoarseInitializer :=
  { points := fun _ => [], thisToNext := SE3.identity, thisToNext_aff := { a := 0, b := 0 }
    firstFrame := exampleFrame 0, newFrame := exampleFrame 0
    JbBuffer := fun _ _ => 0, JbBuffer_new := fun _ _ => 0
    snapped := false, frameID := 0, snappedAt := 0, fixAffine := false
    alphaK := 0, alphaW := 0, regWeight := 0, couplingWeight := 0
    w := fun _ => 0, h := fun _ => 0, fx := fun _ => 0, fy := fun _ => 0
    cx := fun _ => 0, cy := fun _ => 0, K := fun _ _ _ => 0, Ki := fun _ _ _ => 0
    fxi := fun _ => 0, fyi := fun _ => 0, cxi := fun _ => 0, cyi := fun _ => 0 }

/-- Example object after construction and `setFirst` on a frame of intensity 50. -/
def exampleStart : CoarseInitializer :=
  (CoarseInitializer.construct exampleEnv rawMemory).setFirst exampleEnv
    { fxl := 50, fyl := 50, cxl := 307 / 10, cyl := 127 / 10 } (exampleFrame 50)

/-- The example environment with an `expf` that underflows as the binary32 `expf` does: the
value is 0 for an argument below -104 (the binary32 `expf` rounds to 0 below about -103.97). -/
def exampleEnvUnderflow : Env :=
  { exampleEnv with expf := fun x => if x < -104 then 0 else exampleEnv.expf x }

/-- Example object after construction and `setFirst` on a frame of intensity 50, with
`exampleEnvUnderflow`. -/
def exampleStartUnderflow : CoarseInitializer :=
  (CoarseInitializer.construct exampleEnvUnderflow rawMemory).setFirst exampleEnvUnderflow
    { fxl := 50, fyl := 50, cxl := 307 / 10, cyl := 127 / 10 } (exampleFrame 50)

/-- The depth bound `1e-3 <= x <= 50`. -/
def InDepthRange (x : ℚ) : Prop := 1 / 1000 ≤ x ∧ x ≤ 50

/-- Point invariant: `idepth`, `idepth_new` and `iR` lie in the depth range and the two
confidence values are non-negative. -/
def Pnt.Bounded (p : Pnt) : Prop :=
  InDepthRange p.idepth ∧ InDepthRange p.idepth_new ∧ InDepthRange p.iR ∧
    0 ≤ p.lastHessian ∧ 0 ≤ p.lastHessian_new

/-- Every point of a level satisfies the point invariant. -/
def LevelBounded (pts : List Pnt) : Prop := ∀ p ∈ pts, p.Bounded

/-- State invariant on the levels below `L`, with a regularization weight in `[0, 1]`. -/
def CoarseInitializer.Bounded (L : Nat) (s : CoarseInitializer) : Prop :=
  (∀ lvl, lvl < L → LevelBounded (s.points lvl)) ∧ 0 ≤ s.regWeight ∧ s.regWeight ≤ 1

/-- The fields of a point that the invariant speaks of. -/
def Pnt.depthFields (p : Pnt) : ℚ × ℚ × ℚ × ℚ × ℚ :=
  (p.idepth, p.idepth_new, p.iR, p.lastHessian, p.lastHessian_new)

instance (x : ℚ) : Decidable (InDepthRange x) := by
  unfold InDepthRange; infer_instance

instance (p : Pnt) : Decidable p.Bounded := by
  unfold Pnt.Bounded InDepthRange; infer_instance

instance (pts : List Pnt) : Decidable (LevelBounded pts) := by
  unfold LevelBounded; infer_instance

instance (L : Nat) (s : CoarseInitializer) : Decidable (s.Bounded L) := by
  unfold CoarseInitializer.Bounded; infer_instance

/-- Example object after the first tracked frame. -/
def exampleAfter1 : CoarseInitializer :=
  (exampleStart.trackFrame exampleEnv exampleFrame1).1

namespace CoarseInitializer

/-- The locals of `trackFrame` on entry to the `while(true)` loop of level `lvl`: the state
after the downward propagation, `resetPoints`, the first residual pass and `applyStep`, with
`lambda = 0.1`, `fails = 0` and `iteration = 0`. -/
def levelStart (env : Env) (ts : TrackState) (lvl : Nat) : LevelState :=
  let s0 := if lvl < env.pyrLevelsUsed - 1 then ts.s.propagateDown (lvl + 1) else ts.s
  let s1 := s0.resetPoints env lvl
  let r := s1.calcResAndGS env lvl ts.refToNew_current ts.refToNew_aff_current
  { s := r.1.applyStep lvl, H := r.2.H_out, b := r.2.b_out, Hsc := r.2.H_out_sc
    bsc := r.2.b_out_sc, resOld := r.2.res
    refToNew_current := ts.refToNew_current
    refToNew_aff_current := ts.refToNew_aff_current
    lambda := 1 / 10, fails := 0, iteration := 0, incNorm := 0, accept := false }

/-- The statement `iteration++` at the end of a pass that does not leave the loop. -/
def nextPass (st : LevelState) : LevelState := { st with iteration := st.iteration + 1 }

/-- The states at the test `if(quitOpt) break` of the successive passes through the
`while(true)` loop of `trackFrame`, in order; the first argument bounds the number of further
passes as in `levelLoop`. -/
def levelTrace (env : Env) (lvl : Nat) : Nat → LevelState → List LevelState
  | 0, st => [levelIteration env lvl st]
  | fuel + 1, st =>
    if quitOpt env lvl (levelIteration env lvl st) then [levelIteration env lvl st]
    else levelIteration env lvl st :: levelTrace env lvl fuel (nextPass (levelIteration env lvl st))

end CoarseInitializer

/-- The pattern loop of `calcResAndGS` as the body of the point loop runs it for the good
point `point0`: the flag `isGood` and the sums, starting from `maxstep = 1e10`. -/
def pointPattern (samples : Pnt → List (Option Sample)) (point0 : Pnt) : Bool × PatternAcc :=
  let point := { point0 with maxstep := 10 ^ 10 }
  patternLoop (samples point)
    { jb := fun _ => 0, energy := 0, maxstep := point.maxstep, rows := [] }

/-- The point that the body of the point loop of `calcResAndGS` stores at its index, as a
function of the point `point0` found there. -/
def processPointPnt (samples : Pnt → List (Option Sample)) (point0 : Pnt) : Pnt :=
  let point := { point0 with maxstep := 10 ^ 10 }
  if !point.isGood then { point with energy_new := point.energy, isGood_new := false }
  else
    let res := pointPattern samples point0
    let isGood := res.1
    let energy := res.2.energy
    let point1 := { point with maxstep := res.2.maxstep }
    if !isGood || energy > point1.outlierTH * 20 then
      { point1 with isGood_new := false, energy_new := point1.energy }
    else { point1 with isGood_new := true, energy_new := (energy, point1.energy_new.2) }

/-- The point that the body of the Schur-complement loop of `calcResAndGS` stores at its
index; `jb9` is the entry `JbBuffer_new[i][9]` read at the head of the body. -/
def schurPointPnt (jb9 : ℚ) (point : Pnt) : Pnt :=
  if !point.isGood_new then point else { point with lastHessian_new := jb9 }

/-- Example frame with zero gradient channels: intensity 50, except intensity 51 on the pixels
`x <= 1` of level 1. -/
def exampleStripFrame : FrameHessian :=
  { ab_exposure := 1
    dIp := fun lvl idx k =>
      if k = 0 then (if lvl = 1 ∧ idx.toNat % 34 ≤ 1 then 51 else 50) else 0 }

/-- Example object in the snapped regime: the object after `setFirst` with `snapped` set, the
translation `(0.01, 0, 0)` and `idepth = iR = 10` at the first point of level 1. -/
def exampleSnapped : CoarseInitializer :=
  { exampleStart with
    snapped := true, snappedAt := 1, frameID := 1
    thisToNext :=
      { rotationMatrix := SE3.identity.rotationMatrix, translation := ![1 / 100, 0, 0] }
    points := fun lvl =>
      if lvl = 1 then
        (exampleStart.points 1).modifyHead fun p => { p with idepth := 10, iR := 10 }
      else exampleStart.points lvl }

/-- Example object in the snapped regime with an oblique translation: the object after
`setFirst` with `snapped` set, the translation `(0.01, -0.005, 0)` and, on level 1,
`idepth = iR = 10` at point 5 (the pixel `(3.1, 9.1)`, next to the strip of
`exampleStripFrame`), 45 at point 8 and 20 at point 9.  With this translation the points of
the upper row and the points 8 and 9 project outside the image margin. -/
def exampleDrift : CoarseInitializer :=
  { exampleStart with
    snapped := true, snappedAt := 1, frameID := 1
    thisToNext :=
      { rotationMatrix := SE3.identity.rotationMatrix, translation := ![1 / 100, -1 / 200, 0] }
    points := fun lvl =>
      if lvl = 1 then
        List.zipWith (fun p d => { p with idepth := d, iR := d }) (exampleStart.points 1)
          [1, 1, 1, 1, 1, 10, 1, 1, 45, 20]
      else exampleStart.points lvl }

/-- The locals on entry to the loop of level 1 when `trackFrame` is called on
`exampleDrift` with the frame `exampleStripFrame`. -/
def exampleSnappedLoop : CoarseInitializer.LevelState :=
  CoarseInitializer.levelStart exampleEnv
    { s := CoarseInitializer.unsnappedReset exampleEnv
        (CoarseInitializer.trackFrameInit exampleDrift exampleStripFrame)
      refToNew_current := exampleDrift.thisToNext
      refToNew_aff_current := { a := 0, b := 0 }
      latestRes := fun _ => 0 } 1

namespace CoarseInitializer

/-- The energy committed in `resOld`: photometric energy plus alpha energy. -/
def LevelState.committedEnergy (st : LevelState) : ℚ := st.resOld 0 + st.resOld 1

end CoarseInitializer

end dso

/-! ## Gravity initializer

Source: `src/IMUInitialization/GravityInitializer.cpp`. -/

namespace dmvio

abbrev Vec3d := Fin 3 → ℚ

/-- Quaternion `Eigen::Quaterniond`, as its coefficients `(w, x, y, z)`. -/
abbrev Quaterniond := Fin 4 → ℚ

/-- Pose `Sophus::SE3d` as the constructor `SE3d(quat, translation)` builds it. -/
structure SE3d where
  unit_quaternion : Quaterniond
  translation : Vec3d

/-- Numeric routines of other libraries used by `GravityInitializer`, as parameters. -/
structure Kernels where
  /-- Eigen `Quaterniond::setFromTwoVectors(a, b)`: the rotation that takes the direction of
  `a` to the direction of `b`. -/
  setFromTwoVectors : Vec3d → Vec3d → Quaterniond

/-- Modelled from the spec: the members of the class `GravityInitializer`, which is declared
in `GravityInitializer.h`: the window size `maxNumMeasurements` (an `int`), the configured
gravity vector and the history `measures` (a double-ended queue of vectors, oldest first). -/
structure GravityInitializer where
  maxNumMeasurements : Int
  gravity : Vec3d
  measures : List Vec3d

/-- Sum of a sequence of vectors as the loops of `addMeasure` form it, starting from zero. -/
def vecSum (l : List Vec3d) : Vec3d := l.foldl (fun acc v => acc + v) 0

/-- Sum of a sequence of vectors divided by the number of its entries. -/
def vecMean (l : List Vec3d) : Vec3d := fun k => vecSum l k / (l.length : ℚ)

namespace GravityInitializer

/-- Constructor `GravityInitializer(numMeasurementsToUse, imuCalibration)`; the history is
default-constructed (empty). -/
def construct (numMeasurementsToUse : Int) (calibGravity : Vec3d) : GravityInitializer :=
  { maxNumMeasurements := numMeasurementsToUse, gravity := calibGravity, measures := [] }

/-- Method `addMeasure(imuData, currToFirst)`; `imuData` is given by the accelerometer vectors
`getAccData()` of its entries, `currToFirst` is not used.  The result is `none` when a division
by zero makes the averaged vector NaN (an empty batch, or a history that is emptied by a
window size of zero).  The comparison `measures.size() > maxNumMeasurements` is made after
conversion of the `int` to the unsigned 64-bit type of the size. -/
def addMeasure (K : Kernels) (g : GravityInitializer) (imuData : List Vec3d) :
    Option (GravityInitializer × SE3d) :=
  let numMeasure := imuData.length
  if numMeasure = 0 then none
  else
    let measure : Vec3d := fun k => vecSum imuData k / (numMeasure : ℚ)
    let pushed := g.measures ++ [measure]
    let measures :=
      if (pushed.length : Int) > g.maxNumMeasurements % 2 ^ 64 then pushed.tail else pushed
    if measures.length = 0 then none
    else
      let filteredM : Vec3d := fun k => vecSum measures k / (measures.length : ℚ)
      some ({ g with measures := measures },
        { unit_quaternion := K.setFromTwoVectors filteredM (-g.gravity), translation := 0 })

/-- Successive calls of `addMeasure`, one per batch: the object after the last call and the
poses returned, in order; `none` as soon as one call divides by zero. -/
def addMeasures (K : Kernels) : GravityInitializer → List (List Vec3d) →
    Option (GravityInitializer × List SE3d)
  | g, [] => some (g, [])
  | g, imuData :: rest =>
    match g.addMeasure K imuData with
    | none => none
    | some (g1, pose) =>
      match addMeasures K g1 rest with
      | none => none
      | some (g2, poses) => some (g2, pose :: poses)

end GravityInitializer

/-- Rotation of a vector by a quaternion `(w, x, y, z)`, Eigen `q * v`:
`v + 2w (u × v) + 2 u × (u × v)` with `u = (x, y, z)`. -/
def Quaterniond.rotate (q : Quaterniond) (v : Vec3d) : Vec3d :=
  let u : Vec3d := ![q 1, q 2, q 3]
  let cross (a b : Vec3d) : Vec3d :=
    ![a 1 * b 2 - a 2 * b 1, a 2 * b 0 - a 0 * b 2, a 0 * b 1 - a 1 * b 0]
  fun k => v k + 2 * q 0 * cross u v k + 2 * cross u (cross u v) k

/-- Example routines: `setFromTwoVectors` is exact on equal arguments (the identity) and on
opposite arguments along the third axis (a half turn about the first axis). -/
def exampleKernels : Kernels :=
  { setFromTwoVectors := fun a b => if a = b then ![1, 0, 0, 0] else ![0, 1, 0, 0] }

/-- Example batches: the per-call means are `(0,0,1)`, `(0,0,4)` and `(0,0,2)`. -/
def exampleBatches : List (List Vec3d) :=
  [[![0, 0, 1]], [![0, 0, 3], ![0, 0, 5]], [![0, 0, 2]]]

end dmvio

namespace dso

namespace CoarseInitializer

/-- Local `alphaEnergy` of `calcResAndGS` as first computed (before the cap):
`alphaW*(EAlpha.A + refToNew.translation().squaredNorm()*npts)`, where the accumulator
`EAlpha` is initialised and finished without any update in between. -/
def alphaEnergyRaw (s : CoarseInitializer) (lvl : Nat) (refToNew : SE3) : ℚ :=
  let t : Vec3f := refToNew.translation
  let EAlpha := Accumulator11.initialize
  s.alphaW * (EAlpha.finish.A + (t 0 * t 0 + t 1 * t 1 + t 2 * t 2) * (s.numPoints lvl : ℚ))

/-- Local `alphaOpt` of `calcResAndGS`. -/
def alphaOpt (s : CoarseInitializer) (lvl : Nat) (refToNew : SE3) : ℚ :=
  if s.alphaEnergyRaw lvl refToNew > s.alphaK * (s.numPoints lvl : ℚ) then 0 else s.alphaW

/-- The point loop of `calcResAndGS` run as a single index range `[0, npts)`. -/
def pointPass (env : Env) (s : CoarseInitializer) (lvl : Nat) (refToNew : SE3)
    (refToNew_aff : AffLight) : PassAcc :=
  (List.range (s.numPoints lvl)).foldl
    (processPoint (patternSamples env s lvl refToNew refToNew_aff))
    { pts := s.points lvl, jbNew := s.JbBuffer_new, acc9 := fun _ _ => 0,
      E := Accumulator11.initialize }

end CoarseInitializer

namespace CoarseInitializer

/-- The input states of the successive passes through the `while(true)` loop of `trackFrame`
for one level, in order; `levelTrace` lists the states these passes end in. -/
def passInputs (env : Env) (lvl : Nat) : Nat → LevelState → List LevelState
  | 0, st => [st]
  | fuel + 1, st =>
    if quitOpt env lvl (levelIteration env lvl st) then [st]
    else st :: passInputs env lvl fuel (nextPass (levelIteration env lvl st))

/-- The variables that live across the levels, on entry to the coarse-to-fine loop of
`trackFrame`: the state after the head of the method, the stored transform, and the affine
pair the optimization is seeded with. -/
def trackStart (env : Env) (s : CoarseInitializer) (newFrameHessian : FrameHessian) :
    TrackState :=
  let s1 := unsnappedReset env (trackFrameInit s newFrameHessian)
  let aff : AffLight :=
    if s1.firstFrame.ab_exposure > 0 ∧ s1.newFrame.ab_exposure > 0 then
      { a := env.logf (s1.newFrame.ab_exposure / s1.firstFrame.ab_exposure), b := 0 }
    else s1.thisToNext_aff
  { s := s1, refToNew_current := s1.thisToNext, refToNew_aff_current := aff
    latestRes := fun _ => 0 }

end CoarseInitializer

/-- All fields of a point, the two neighbour arrays as lists: a point in a form whose equality
can be decided. -/
structure PntRow where
  u : ℚ
  v : ℚ
  idepth : ℚ
  isGood : Bool
  energy : ℚ × ℚ
  isGood_new : Bool
  idepth_new : ℚ
  energy_new : ℚ × ℚ
  iR : ℚ
  iRSumNum : ℚ
  lastHessian : ℚ
  lastHessian_new : ℚ
  maxstep : ℚ
  parent : Int
  parentDist : ℚ
  neighbours : List Int
  neighboursDist : List ℚ
  my_type : ℚ
  outlierTH : ℚ
deriving DecidableEq

/-- The fields of a point as a `PntRow`. -/
def Pnt.row (p : Pnt) : PntRow :=
  { u := p.u, v := p.v, idepth := p.idepth, isGood := p.isGood, energy := p.energy
    isGood_new := p.isGood_new, idepth_new := p.idepth_new, energy_new := p.energy_new
    iR := p.iR, iRSumNum := p.iRSumNum, lastHessian := p.lastHessian
    lastHessian_new := p.lastHessian_new, maxstep := p.maxstep, parent := p.parent
    parentDist := p.parentDist, neighbours := List.ofFn p.neighbours
    neighboursDist := List.ofFn p.neighboursDist, my_type := p.my_type
    outlierTH := p.outlierTH }

/-- The fields of a point that the tracker writes after `setFirst`. -/
structure PntDyn where
  isGood : Bool
  isGood_new : Bool
  idepth : ℚ
  idepth_new : ℚ
  iR : ℚ
  iRSumNum : ℚ
  lastHessian : ℚ
  lastHessian_new : ℚ
  maxstep : ℚ
  energy : ℚ × ℚ
  energy_new : ℚ × ℚ

/-- The point `p` with the fields of `d` written over its own. -/
def Pnt.withDyn (p : Pnt) (d : PntDyn) : Pnt :=
  { p with
    isGood := d.isGood, isGood_new := d.isGood_new, idepth := d.idepth
    idepth_new := d.idepth_new, iR := d.iR, iRSumNum := d.iRSumNum
    lastHessian := d.lastHessian, lastHessian_new := d.lastHessian_new, maxstep := d.maxstep
    energy := d.energy, energy_new := d.energy_new }

/-- Vector given by the list of its entries. -/
def vecOfList {n : Nat} (l : List ℚ) : Fin n → ℚ := fun i => l.getD i.val 0

/-- Matrix given by the list of its rows. -/
def matOfRows {m n : Nat} (l : List (List ℚ)) : Fin m → Fin n → ℚ :=
  fun i j => (l.getD i.val []).getD j.val 0

/-- Buffer of per-point rows given by the list of the rows. -/
def bufferOfRows (l : List (List ℚ)) : Nat → Vec10f := fun i k => (l.getD i []).getD k.val 0

namespace CoarseInitializer

/-- The members that `trackFrame` leaves alone between its head and the update of the frame
counters. -/
def constants (s : CoarseInitializer) :=
  (s.firstFrame, s.newFrame, s.frameID, s.snappedAt, s.fixAffine, s.alphaK, s.alphaW,
    s.regWeight, s.couplingWeight, s.w, s.h, s.fx, s.fy, s.cx, s.cy, s.K, s.Ki, s.fxi, s.fyi,
    s.cxi, s.cyi)

/-- The loop state `X` of level `lvl` with the part that later passes read replaced by the
values tabulated in `A`: the points of level `lvl`, the first ten rows of `JbBuffer`, the
block of the normal equations that the solve reads when `fixAffine` is set, the two energies,
the transforms and the scalars.  The points of the other levels are `other`; everything else
is that of `X`. -/
def LevelState.patch (lvl : Nat) (other : Nat → List Pnt) (X A : LevelState) : LevelState :=
  { A with
    s :=
      { A.s with
        points := fun l => if l = lvl then A.s.points lvl else other l
        JbBuffer := fun i => if i < 10 then A.s.JbBuffer i else X.s.JbBuffer i
        JbBuffer_new := X.s.JbBuffer_new }
    H := fun i j => if i.val < 6 ∧ j.val < 6 then A.H i j else X.H i j
    b := fun i => if i.val < 6 then A.b i else X.b i
    Hsc := fun i j => if i.val < 6 ∧ j.val < 6 then A.Hsc i j else X.Hsc i j
    bsc := fun i => if i.val < 6 then A.bsc i else X.bsc i
    resOld := fun i => if i.val < 2 then A.resOld i else X.resOld i }

/-- The loop state `X` of level `lvl` has the points, the buffer rows, the energies, the
transforms and the scalars that `A` tabulates. -/
def LevelState.Agrees (lvl : Nat) (X A : LevelState) : Prop :=
  (X.s.points lvl).map Pnt.row = (A.s.points lvl).map Pnt.row ∧
    (∀ i : Fin 10, X.s.JbBuffer i.val = A.s.JbBuffer i.val) ∧
    X.s.snapped = A.s.snapped ∧
    X.s.thisToNext.rotationMatrix = A.s.thisToNext.rotationMatrix ∧
    X.s.thisToNext.translation = A.s.thisToNext.translation ∧
    X.s.thisToNext_aff.a = A.s.thisToNext_aff.a ∧
    X.s.thisToNext_aff.b = A.s.thisToNext_aff.b ∧
    (∀ i : Fin 2, X.resOld (Fin.castLE (by decide) i) = A.resOld (Fin.castLE (by decide) i)) ∧
    X.refToNew_current.rotationMatrix = A.refToNew_current.rotationMatrix ∧
    X.refToNew_current.translation = A.refToNew_current.translation ∧
    X.refToNew_aff_current.a = A.refToNew_aff_current.a ∧
    X.refToNew_aff_current.b = A.refToNew_aff_current.b ∧
    X.lambda = A.lambda ∧ X.fails = A.fails ∧ X.iteration = A.iteration ∧
    X.incNorm = A.incNorm ∧ X.accept = A.accept

/-- The loop state `X` has the block of the normal equations that `A` tabulates. -/
def LevelState.AgreesSystem (X A : LevelState) : Prop :=
  (∀ i j : Fin 6, X.H (Fin.castLE (by decide) i) (Fin.castLE (by decide) j) =
      A.H (Fin.castLE (by decide) i) (Fin.castLE (by decide) j)) ∧
    (∀ i : Fin 6, X.b (Fin.castLE (by decide) i) = A.b (Fin.castLE (by decide) i)) ∧
    (∀ i j : Fin 6, X.Hsc (Fin.castLE (by decide) i) (Fin.castLE (by decide) j) =
      A.Hsc (Fin.castLE (by decide) i) (Fin.castLE (by decide) j)) ∧
    (∀ i : Fin 6, X.bsc (Fin.castLE (by decide) i) = A.bsc (Fin.castLE (by decide) i))

instance (lvl : Nat) (X A : LevelState) : Decidable (X.Agrees lvl A) := by
  unfold LevelState.Agrees; infer_instance

instance (X A : LevelState) : Decidable (X.AgreesSystem A) := by
  unfold LevelState.AgreesSystem; infer_instance

end CoarseInitializer


/-- Tabulated values of the example: the locals of the first call of `trackFrame` on entry to the loop of level 1 (the points are those of level 1). -/
def exampleLoop1 : CoarseInitializer.LevelState :=
  { s :=
      { CoarseInitializer.trackFrameInit exampleStart exampleFrame1 with
        points := fun _ =>
          List.zipWith Pnt.withDyn (exampleStart.points 1)
            [⟨true, true, 1, 1, 1, 0, 0, 0, 10000000000, (13720139689 / 156008448, 0), (13720139689 / 156008448, 0)⟩,
             ⟨true, true, 1, 1, 1, 0, 0, 0, 10000000000, (21582841921 / 3900211200, 0), (21582841921 / 3900211200, 0)⟩,
             ⟨true, true, 1, 1, 1, 0, 0, 0, 10000000000, (14569489 / 67712, 0), (14569489 / 67712, 0)⟩,
             ⟨true, true, 1, 1, 1, 0, 0, 0, 10000000000, (12552849 / 67712, 0), (12552849 / 67712, 0)⟩,
             ⟨true, true, 1, 1, 1, 0, 0, 0, 10000000000, (18, 0), (18, 0)⟩,
             ⟨true, true, 1, 1, 1, 0, 0, 0, 10000000000, (162, 0), (162, 0)⟩,
             ⟨true, true, 1, 1, 1, 0, 0, 0, 10000000000, (975754766809 / 97505280000, 0), (975754766809 / 97505280000, 0)⟩,
             ⟨true, true, 1, 1, 1, 0, 0, 0, 10000000000, (478837704361 / 24376320000, 0), (478837704361 / 24376320000, 0)⟩,
             ⟨true, true, 1, 1, 1, 0, 0, 0, 10000000000, (128, 0), (128, 0)⟩,
             ⟨true, true, 1, 1, 1, 0, 0, 0, 10000000000, (72, 0), (72, 0)⟩]
        JbBuffer := bufferOfRows
          [[0, 0, 0, 0, 0, 0, 0, 0, 0, 1 / 22501],
           [0, 0, 0, 0, 0, 0, 0, 0, 0, 1 / 22501],
           [0, 0, 0, 0, 0, 0, 0, 0, 0, 1 / 22501],
           [0, 0, 0, 0, 0, 0, 0, 0, 0, 1 / 22501],
           [0, 0, 0, 0, 0, 0, 0, 0, 0, 1 / 22501],
           [0, 0, 0, 0, 0, 0, 0, 0, 0, 1 / 22501],
           [0, 0, 0, 0, 0, 0, 0, 0, 0, 1 / 22501],
           [0, 0, 0, 0, 0, 0, 0, 0, 0, 1 / 22501],
           [0, 0, 0, 0, 0, 0, 0, 0, 0, 1 / 22501],
           [0, 0, 0, 0, 0, 0, 0, 0, 0, 1 / 22501]]
        snapped := false
        thisToNext := { rotationMatrix := SE3.identity.rotationMatrix, translation := ![0, 0, 0] }
        thisToNext_aff := { a := 0, b := 0 } }
    H := matOfRows
      [[300000, 5000, (-15800), (-5137), 81983, (-385450)],
       [5000, 85320000, 3351700, (-86531585), (-672443), (-10580450)],
       [(-15800), 3351700, 1668568, (-85911999 / 25), 3140589 / 25, 677580],
       [(-5137), (-86531585), (-85911999 / 25), 55002452453 / 625, 85806024 / 125, 268411943 / 25],
       [81983, (-672443), 3140589 / 25, 85806024 / 125, 34082659 / 125, (-20728891 / 25)],
       [(-385450), (-10580450), 677580, 268411943 / 25, (-20728891 / 25), 10898660]]
    b := vecOfList [(-6600), (-100), 316, 5137 / 50, (-81983 / 50), 7709]
    Hsc := matOfRows
      [[0, 0, 0, 0, 0, 0],
       [0, 0, 0, 0, 0, 0],
       [0, 0, 0, 0, 0, 0],
       [0, 0, 0, 0, 0, 0],
       [0, 0, 0, 0, 0, 0],
       [0, 0, 0, 0, 0, 0]]
    bsc := vecOfList [0, 0, 0, 0, 0, 0]
    resOld := vecOfList [88113937057903 / 97505280000, 0]
    refToNew_current := { rotationMatrix := SE3.identity.rotationMatrix, translation := ![0, 0, 0] }
    refToNew_aff_current := { a := 0, b := 0 }
    lambda := 1 / 10, fails := 0, iteration := 0
    incNorm := 0, accept := false }

namespace CoarseInitializer

/-- The variables that live across the levels as the loop of a level leaves them. -/
def trackOf (st : LevelState) : TrackState :=
  { s := st.s, refToNew_current := st.refToNew_current
    refToNew_aff_current := st.refToNew_aff_current, latestRes := st.resOld }

/-- The state of `trackFrame` after the coarse-to-fine loop: the final transform and affine
pair are stored. -/
def finishTrack (ts : TrackState) : CoarseInitializer :=
  { ts.s with thisToNext := ts.refToNew_current, thisToNext_aff := ts.refToNew_aff_current }

end CoarseInitializer

/-- The loop state of the example on entry to the loop of level 1 in the first call of
`trackFrame`, with the tabulated values in place. -/
def exampleEntry1 : CoarseInitializer.LevelState :=
  CoarseInitializer.LevelState.patch 1
    (CoarseInitializer.trackStart exampleEnv exampleStart exampleFrame1).s.points
    (CoarseInitializer.levelStart exampleEnv
      (CoarseInitializer.trackStart exampleEnv exampleStart exampleFrame1) 1)
    exampleLoop1

/-- The example object after the first call of `trackFrame`, computed from the tabulated loop
state `exampleEntry1`: the loop of level 1, level 0, the upward propagation and the frame
counters. -/
def exampleRest1 : CoarseInitializer :=
  CoarseInitializer.updateCounters
    (CoarseInitializer.propagateUp
      (CoarseInitializer.finishTrack
        (CoarseInitializer.trackLevel exampleEnv
          (CoarseInitializer.trackOf
            (CoarseInitializer.levelLoop exampleEnv 1 (CoarseInitializer.iterationCap exampleEnv 1).toNat
              exampleEntry1)) 0)) 0)


/-- Tabulated values of the snapped example: the locals on entry to the loop of level 1 (the points are those of level 1). -/
def exampleSnappedLoop0 : CoarseInitializer.LevelState :=
  { s :=
      { CoarseInitializer.trackFrameInit exampleDrift exampleStripFrame with
        points := fun _ =>
          List.zipWith Pnt.withDyn (exampleStart.points 1)
            [⟨false, false, 1, 1, 1, 0, 0, 0, 10000000000, (0, 0), (0, 0)⟩,
             ⟨false, false, 1, 1, 1, 0, 0, 0, 10000000000, (0, 0), (0, 0)⟩,
             ⟨false, false, 1, 1, 1, 0, 0, 0, 10000000000, (0, 0), (0, 0)⟩,
             ⟨false, false, 1, 1, 1, 0, 0, 0, 10000000000, (0, 0), (0, 0)⟩,
             ⟨false, false, 1, 1, 1, 0, 0, 0, 10000000000, (0, 0), (0, 0)⟩,
             ⟨true, true, 10, 10, 10, 0, 0, 0, 8 / 3, (0, 81), (0, 81)⟩,
             ⟨true, true, 1, 1, 1, 0, 0, 0, 8 / 3, (0, 0), (0, 0)⟩,
             ⟨true, true, 1, 1, 1, 0, 0, 0, 8 / 3, (0, 0), (0, 0)⟩,
             ⟨false, false, 45, 45, 45, 0, 0, 0, 10000000000, (0, 0), (0, 0)⟩,
             ⟨false, false, 20, 20, 20, 0, 0, 0, 10000000000, (0, 0), (0, 0)⟩]
        JbBuffer := bufferOfRows
          [[0, 0, 0, 0, 0, 0, 0, 0, 0, 0],
           [0, 0, 0, 0, 0, 0, 0, 0, 0, 0],
           [0, 0, 0, 0, 0, 0, 0, 0, 0, 0],
           [0, 0, 0, 0, 0, 0, 0, 0, 0, 0],
           [0, 0, 0, 0, 0, 0, 0, 0, 0, 0],
           [0, 0, 0, 0, 0, 0, 0, 0, 202500, 1 / 22501],
           [0, 0, 0, 0, 0, 0, 0, 0, 0, 1 / 22501],
           [0, 0, 0, 0, 0, 0, 0, 0, 0, 1 / 22501],
           [0, 0, 0, 0, 0, 0, 0, 0, 0, 0],
           [0, 0, 0, 0, 0, 0, 0, 0, 0, 0]]
        snapped := true
        thisToNext := { rotationMatrix := SE3.identity.rotationMatrix, translation := ![1 / 100, (-1 / 200), 0] }
        thisToNext_aff := { a := 0, b := 0 } }
    H := matOfRows
      [[225000, 0, 0, 0, 0, 0],
       [0, 225000, 0, 0, 0, 0],
       [0, 0, 225000, 0, 0, 0],
       [0, 0, 0, 0, 0, 0],
       [0, 0, 0, 0, 0, 0],
       [0, 0, 0, 0, 0, 0]]
    b := vecOfList [2250, (-1125), 0, 0, 0, 0]
    Hsc := matOfRows
      [[0, 0, 0, 0, 0, 0],
       [0, 0, 0, 0, 0, 0],
       [0, 0, 0, 0, 0, 0],
       [0, 0, 0, 0, 0, 0],
       [0, 0, 0, 0, 0, 0],
       [0, 0, 0, 0, 0, 0]]
    bsc := vecOfList [0, 0, 0, 0, 0, 0]
    resOld := vecOfList [0, 225 / 8]
    refToNew_current := { rotationMatrix := SE3.identity.rotationMatrix, translation := ![1 / 100, (-1 / 200), 0] }
    refToNew_aff_current := { a := 0, b := 0 }
    lambda := 1 / 10, fails := 0, iteration := 0
    incNorm := 0, accept := false }

/-- The loop state `exampleSnappedLoop` with the tabulated values in place. -/
def exampleSnappedEntry0 : CoarseInitializer.LevelState :=
  CoarseInitializer.LevelState.patch 1
    (CoarseInitializer.unsnappedReset exampleEnv
      (CoarseInitializer.trackFrameInit exampleDrift exampleStripFrame)).points
    exampleSnappedLoop exampleSnappedLoop0

/-- The test of the pixel loop of `setFirst` at pixel `xy` of level `lvl`:
`(lvl != 0 && statusMapB[x + y*wl]) || (lvl == 0 && statusMap[x + y*wl] != 0)`. -/
def pixelSelected (env : Env) (frame : FrameHessian) (lvl wl : Nat) (xy : Nat × Nat) : Bool :=
  decide ((lvl ≠ 0 ∧ env.statusMapB frame lvl (xy.1 + xy.2 * wl) = true) ∨
    (lvl = 0 ∧ env.statusMap frame (xy.1 + xy.2 * wl) ≠ 0))

/-- Value left at index `i` by the body of the loop of `resetPoints`, for the point `p` found
there in the array `pts`. -/
def resetPointsValue (coarsest : Bool) (pts : List Pnt) (i : Nat) (p : Pnt) : Pnt :=
  if coarsest && !p.isGood then
    let acc := resetNeighbourSum (pts.set i { p with energy := (0, 0), idepth_new := p.idepth })
      { p with energy := (0, 0), idepth_new := p.idepth }
    if acc.2 > 0 then
      { p with
        energy := (0, 0)
        isGood := true
        iR := acc.1 / acc.2, idepth := acc.1 / acc.2, idepth_new := acc.1 / acc.2 }
    else { p with energy := (0, 0), idepth_new := p.idepth }
  else { p with energy := (0, 0), idepth_new := p.idepth }

namespace CoarseInitializer

/-- The loop state `st` of level `lvl` is consistent with one residual pass: the current
Jacobian buffer is the buffer that a call of `calcResAndGS` wrote, and the committed
`resOld`, `H`, `b`, `Hsc`, `bsc` are the outputs of that same call. -/
def LevelState.BufferCoherent (env : Env) (lvl : Nat) (st : LevelState) : Prop :=
  ∃ (s0 : CoarseInitializer) (refToNew : SE3) (refToNew_aff : AffLight),
    st.s.JbBuffer = (s0.calcResAndGS env lvl refToNew refToNew_aff).1.JbBuffer_new ∧
    st.resOld = (s0.calcResAndGS env lvl refToNew refToNew_aff).2.res ∧
    st.H = (s0.calcResAndGS env lvl refToNew refToNew_aff).2.H_out ∧
    st.b = (s0.calcResAndGS env lvl refToNew refToNew_aff).2.b_out ∧
    st.Hsc = (s0.calcResAndGS env lvl refToNew refToNew_aff).2.H_out_sc ∧
    st.bsc = (s0.calcResAndGS env lvl refToNew refToNew_aff).2.b_out_sc

end CoarseInitializer

/-- Relation between a point before (`p`) and after (`q`) a step of `trackFrame`: the link to
the parent is the same, and non-negative confidence values stay non-negative. -/
def Pnt.Follows (p q : Pnt) : Prop :=
  q.parent = p.parent ∧
    (0 ≤ p.lastHessian ∧ 0 ≤ p.lastHessian_new → 0 ≤ q.lastHessian ∧ 0 ≤ q.lastHessian_new)

/-- The array `b` holds the points of the array `a` after a step: same length, and index by
index the point of `b` follows the point of `a`. -/
def LevelFollows (a b : List Pnt) : Prop :=
  b.length = a.length ∧ ∀ (j : Nat) (p q : Pnt), a[j]? = some p → b[j]? = some q → p.Follows q

/-- Every level of `t` holds the points of the same level of `s` after a step. -/
def CoarseInitializer.Follows (s t : CoarseInitializer) : Prop :=
  ∀ lvl, LevelFollows (s.points lvl) (t.points lvl)

/-- The confidence values `lastHessian` and `lastHessian_new` of every point of the levels
below `L` are non-negative. -/
def CoarseInitializer.HessNonneg (L : Nat) (s : CoarseInitializer) : Prop :=
  ∀ lvl, lvl < L → ∀ p ∈ s.points lvl, 0 ≤ p.lastHessian ∧ 0 ≤ p.lastHessian_new

/-- The graph of parent links as `makeNN` builds it for `L` levels: on the coarsest level
every `parent` is the sentinel -1, on every other level it is an index into the next coarser
level. -/
def CoarseInitializer.GraphOK (L : Nat) (s : CoarseInitializer) : Prop :=
  ∀ lvl, lvl < L → ∀ p ∈ s.points lvl,
    (lvl + 1 = L → p.parent = -1) ∧
    (lvl + 1 < L → 0 ≤ p.parent ∧ p.parent < (s.numPoints (lvl + 1) : Int))

instance (L : Nat) (s : CoarseInitializer) : Decidable (s.HessNonneg L) := by
  unfold CoarseInitializer.HessNonneg; infer_instance

instance (L : Nat) (s : CoarseInitializer) : Decidable (s.GraphOK L) := by
  unfold CoarseInitializer.GraphOK; infer_instance

/-- Accumulators of the point loop of `calcResAndGS` with one accumulator pair per worker:
the vectors `acc9s` and `accE`, indexed by the worker number `tid`. -/
structure WorkersAcc where
  pts : List Pnt
  jbNew : Nat → Vec10f
  acc9s : Nat → Accumulator9
  accE : Nat → Accumulator11

/-- Body of the point loop of the lambda `processPointsForReduce` for index `i`, run by the
worker `tid`: the body of `processPoint` on the accumulators `acc9s[tid]` and `accE[tid]`. -/
def processPointWorker (samples : Pnt → List (Option Sample)) (st : WorkersAcc)
    (step : Nat × Nat) : WorkersAcc :=
  let r := processPoint samples
    { pts := st.pts, jbNew := st.jbNew, acc9 := st.acc9s step.2, E := st.accE step.2 } step.1
  { pts := r.pts, jbNew := r.jbNew
    acc9s := Function.update st.acc9s step.2 r.acc9
    accE := Function.update st.accE step.2 r.E }

/-- Modelled from the spec: one call `processPointsForReduce(min, max, stats, tid)` issued by
`IndexThreadReduce::reduce`, as the list of its loop steps `(i, tid)` for `min <= i < max`. -/
def rangeSteps (min max tid : Nat) : List (Nat × Nat) :=
  (List.range' min (max - min)).map fun i => (i, tid)

namespace CoarseInitializer

/-- The part of `calcResAndGS` after the point loop, from the results of that loop: the
points and the new Jacobian buffer, the summed blocks `H0`, `b0` of the matrix accumulators,
and the total `A` and count `num` of the energy accumulators after the alpha loop. -/
def passOutputs (env : Env) (s : CoarseInitializer) (lvl : Nat) (refToNew : SE3)
    (pts : List Pnt) (jbNew : Nat → Vec10f) (H0 : Mat88f) (b0 : Vec8f) (A : ℚ) (num : Nat) :
    CoarseInitializer × ResOut :=
  let t : Vec3f := refToNew.translation
  let npts := s.numPoints lvl
  let EAlpha := Accumulator11.initialize
  let ptsAlpha := pts.map fun p => (alphaPoint p).1
  let EAlphaA := EAlpha.finish.A
  let squaredNorm := t 0 * t 0 + t 1 * t 1 + t 2 * t 2
  let alphaEnergy0 := s.alphaW * (EAlphaA + squaredNorm * npts)
  let alphaOpt : ℚ := if alphaEnergy0 > s.alphaK * npts then 0 else s.alphaW
  let alphaEnergy := if alphaEnergy0 > s.alphaK * npts then s.alphaK * npts else alphaEnergy0
  let sc := (List.range npts).foldl (schurPoint alphaOpt s.couplingWeight)
    { pts := ptsAlpha, jbNew := jbNew, acc9SC := fun _ _ => 0 }
  let tlog := env.se3Log refToNew
  let H_out : Mat88f := fun a b =>
    H0 a b
      + (if a = b ∧ a.val < 3 then alphaOpt * npts else 0)
      + (if a = b ∧ a.val = 1 then env.setting_weightZeroPriorDSOInitY else 0)
      + (if a = b ∧ a.val = 0 then env.setting_weightZeroPriorDSOInitX else 0)
  let b_out : Vec8f := fun a =>
    b0 a
      + (if ha : a.val < 3 then tlog ⟨a.val, by omega⟩ * alphaOpt * npts else 0)
      + (if a.val = 1 then env.setting_weightZeroPriorDSOInitY * t 1 else 0)
      + (if a.val = 0 then env.setting_weightZeroPriorDSOInitX * t 0 else 0)
  ({ s with points := Function.update s.points lvl sc.pts, JbBuffer_new := sc.jbNew },
   { H_out := H_out, b_out := b_out
     H_out_sc := sc.acc9SC.topLeft, b_out_sc := sc.acc9SC.topRight
     res := ![A, alphaEnergy, (num : ℚ)] })

/-- Method `calcResAndGS` with `nw` workers.  The point loop is run as the sequence `steps`
of loop steps `(i, tid)`, each on the accumulators of its worker; then every `accE[tid]` is
finished, the alpha loop updates `accE[0]`, and the outputs sum the blocks of all `acc9s` and
the `A` and `num` of all `accE`. -/
def calcResAndGSWorkers (env : Env) (s : CoarseInitializer) (lvl : Nat) (refToNew : SE3)
    (refToNew_aff : AffLight) (nw : Nat) (steps : List (Nat × Nat)) :
    CoarseInitializer × ResOut :=
  let pass0 : WorkersAcc :=
    { pts := s.points lvl, jbNew := s.JbBuffer_new, acc9s := fun _ _ _ => 0,
      accE := fun _ => Accumulator11.initialize }
  let pass := steps.foldl
    (processPointWorker (patternSamples env s lvl refToNew refToNew_aff)) pass0
  let accE1 : Nat → Accumulator11 := fun tid => (pass.accE tid).finish
  let accE2 := Function.update accE1 0
    (pass.pts.foldl (fun e p => e.updateSingle (alphaPoint p).2) (accE1 0))
  passOutputs env s lvl refToNew pass.pts pass.jbNew
    (fun a b => ∑ tid in Finset.range nw, (pass.acc9s tid).topLeft a b)
    (fun a => ∑ tid in Finset.range nw, (pass.acc9s tid).topRight a)
    (∑ tid in Finset.range nw, (accE2 tid).A)
    (∑ tid in Finset.range nw, (accE2 tid).num)

end CoarseInitializer

/-- The rows that the body of the point loop adds to the matrix accumulator for the point
`p`: those of its pattern when the point is accepted, none otherwise. -/
def pointRows (samples : Pnt → List (Option Sample)) (p : Pnt) : List (Vec8f × ℚ) :=
  if !p.isGood then []
  else if !(pointPattern samples p).1 ||
      decide ((pointPattern samples p).2.energy > p.outlierTH * 20) then []
  else (pointPattern samples p).2.rows

/-- Sum of the outer products of a list of rows `(dp, r)`, each with weight 1. -/
def rowsSum (rows : List (Vec8f × ℚ)) : Accumulator9 :=
  rows.foldl (fun a row => a.updateSingleWeighted row.1 row.2 1) (fun _ _ => 0)

/-- The entry of the new Jacobian buffer after the body of the point loop for the point `p`;
`old` is the entry before. -/
def pointJb (samples : Pnt → List (Option Sample)) (p : Pnt) (old : Vec10f) : Vec10f :=
  if !p.isGood then old else (pointPattern samples p).2.jb

/-- The accumulators of all workers taken together: the sums over the workers `0 .. nw-1`. -/
def WorkersAcc.merge (nw : Nat) (st : WorkersAcc) : PassAcc :=
  { pts := st.pts, jbNew := st.jbNew
    acc9 := fun a b => ∑ tid in Finset.range nw, st.acc9s tid a b
    E :=
      { A := ∑ tid in Finset.range nw, (st.accE tid).A
        num := ∑ tid in Finset.range nw, (st.accE tid).num
        buffered := ∑ tid in Finset.range nw, (st.accE tid).buffered } }

/-- Shortcut instance: the ring structure of `ℚ` is that of `Rat.commRing`, so that the
arithmetic in the proofs below is resolved through the algebraic instances of `ℚ`. -/
instance instRingRat : Ring ℚ := Rat.commRing.toRing

/-- Shortcut instance: the non-unital commutative ring structure of `ℚ`, from `Rat.commRing`. -/
instance instNonUnitalCommRingRat : NonUnitalCommRing ℚ := Rat.commRing.toNonUnitalCommRing

/-- Shortcut instance: differences in `ℚ` exist because `ℚ` is an additive group. -/
instance instExistsAddOfLERat : ExistsAddOfLE ℚ := AddGroup.existsAddOfLE ℚ

/-! ## Theorems -/

theorem getElem?_optRegPoint (w : ℚ) (pts : List Pnt) (i j : Nat) :
    (optRegPoint w pts i)[j]? = if j = i then pts[j]?.map (optRegValue w pts) else pts[j]? := by
  unfold optRegPoint
  cases h : pts[i]? with
  | none =>
    by_cases hj : j = i
    · subst hj; simp [h]
    · simp [hj]
  | some p =>
    have hi : i < pts.length := by
      rcases List.getElem?_eq_some_iff.mp h with ⟨hi, _⟩
      exact hi
    by_cases hg : p.isGood = true
    · by_cases hn : 2 < (collectIdnn pts p).length
      · by_cases hj : j = i
        · subst hj
          simp [h, hg, hn, optRegValue, List.getElem?_set_self hi]
        · have hne : i ≠ j := fun e => hj e.symm
          simp [hg, hn, hj, List.getElem?_set_ne hne]
      · by_cases hj : j = i
        · subst hj
          simp [h, hg, hn, optRegValue]
        · simp [hg, hn, hj]
    · by_cases hj : j = i
      · subst hj
        simp [h, hg, optRegValue]
      · simp [hg, hj]

theorem length_optRegPoint (w : ℚ) (pts : List Pnt) (i : Nat) :
    (optRegPoint w pts i).length = pts.length := by
  unfold optRegPoint
  cases h : pts[i]? with
  | none => rfl
  | some p =>
    by_cases hg : p.isGood = true
    · by_cases hn : 2 < (collectIdnn pts p).length
      · simp [hg, hn]
      · simp [hg, hn]
    · simp [hg]

theorem optRegUpTo_succ (w : ℚ) (pts : List Pnt) (n : Nat) :
    optRegUpTo w pts (n + 1) = optRegPoint w (optRegUpTo w pts n) n := by
  simp [optRegUpTo, List.range_succ, List.foldl_append]

theorem length_optRegUpTo (w : ℚ) (pts : List Pnt) (n : Nat) :
    (optRegUpTo w pts n).length = pts.length := by
  induction n with
  | zero => simp [optRegUpTo]
  | succ n ih => rw [optRegUpTo_succ, length_optRegPoint, ih]

/-- Index `i` is written only by the pass number `i` of the loop of `optReg`. -/
theorem getElem?_optRegUpTo (w : ℚ) (pts : List Pnt) (n i : Nat) :
    (optRegUpTo w pts n)[i]? =
      if i < n then pts[i]?.map (optRegValue w (optRegUpTo w pts i)) else pts[i]? := by
  induction n with
  | zero => simp [optRegUpTo]
  | succ n ih =>
    rw [optRegUpTo_succ, getElem?_optRegPoint]
    by_cases hin : i = n
    · subst hin
      simp [ih]
    · rw [if_neg hin, ih]
      by_cases hlt : i < n
      · simp [hlt, Nat.lt_succ_of_lt hlt]
      · have : ¬ i < n + 1 := by omega
        simp [hlt, this]

theorem SameButIR.same (a : List Pnt) : SameButIR a a := fun _ => rfl

theorem SameButIR.chain {a b c : List Pnt} (h1 : SameButIR a b) (h2 : SameButIR b c) :
    SameButIR a c := fun j => (h2 j).trans (h1 j)

theorem eraseIR_optRegValue (w : ℚ) (pts : List Pnt) (p : Pnt) :
    (optRegValue w pts p).eraseIR = p.eraseIR := by
  unfold optRegValue
  split_ifs <;> rfl

theorem sameButIR_optRegPoint (w : ℚ) (pts : List Pnt) (i : Nat) :
    SameButIR pts (optRegPoint w pts i) := by
  intro j
  rw [getElem?_optRegPoint]
  by_cases hj : j = i
  · rw [if_pos hj]
    cases pts[j]? with
    | none => rfl
    | some p => simp [eraseIR_optRegValue]
  · rw [if_neg hj]

theorem sameButIR_optRegUpTo (w : ℚ) (pts : List Pnt) (n : Nat) :
    SameButIR pts (optRegUpTo w pts n) := by
  induction n with
  | zero => simpa [optRegUpTo] using SameButIR.same pts
  | succ n ih =>
    rw [optRegUpTo_succ]
    exact ih.chain (sameButIR_optRegPoint w _ n)

theorem SameButIR.getPnt_eraseIR {a b : List Pnt} (h : SameButIR a b) (k : Int) :
    (getPnt b k).eraseIR = (getPnt a k).eraseIR := by
  unfold getPnt
  by_cases hk : 0 ≤ k
  · simp only [hk, if_true, List.getD_eq_getElem?_getD]
    have := h k.toNat
    cases hb : b[k.toNat]? <;> cases ha : a[k.toNat]? <;> simp_all
  · simp [hk]

theorem SameButIR.getPnt_isGood {a b : List Pnt} (h : SameButIR a b) (k : Int) :
    (getPnt b k).isGood = (getPnt a k).isGood := by
  have := congrArg Pnt.isGood (h.getPnt_eraseIR k)
  simpa [Pnt.eraseIR] using this

/-- The collected values, as a filter followed by a map. -/
theorem collectIdnn_eq (pts : List Pnt) (point : Pnt) :
    collectIdnn pts point =
      ((List.finRange 10).filter fun j =>
        decide (point.neighbours j ≠ -1) && (getPnt pts (point.neighbours j)).isGood).map
        fun j => (getPnt pts (point.neighbours j)).iR := by
  unfold collectIdnn
  induction List.finRange 10 with
  | nil => rfl
  | cons j js ih =>
    by_cases h1 : point.neighbours j = -1
    · simp [List.filterMap_cons, List.filter_cons, h1, ih]
    · by_cases h2 : (getPnt pts (point.neighbours j)).isGood = true
      · simp [List.filterMap_cons, List.filter_cons, h1, h2, ih]
      · simp [List.filterMap_cons, List.filter_cons, h1, h2, ih]

/-- The number of collected values depends only on the `isGood` flags and the neighbour
slots, neither of which `optReg` writes. -/
theorem SameButIR.length_collectIdnn {a b : List Pnt} (h : SameButIR a b) (p q : Pnt)
    (hpq : q.neighbours = p.neighbours) :
    (collectIdnn b q).length = (collectIdnn a p).length := by
  rw [collectIdnn_eq, collectIdnn_eq, List.length_map, List.length_map, hpq]
  congr 1
  apply List.filter_congr
  intro j _
  rw [h.getPnt_isGood]

theorem getElem?_optRegLevel (w : ℚ) (pts : List Pnt) (i : Nat) :
    (optRegLevel w pts)[i]? = (pts[i]?).map (optRegValue w (optRegUpTo w pts i)) := by
  unfold optRegLevel
  rw [getElem?_optRegUpTo]
  by_cases hi : i < pts.length
  · rw [if_pos hi]
  · rw [if_neg hi]
    have : pts[i]? = none := List.getElem?_eq_none (by omega)
    simp [this]

/-- When the loop of `optReg` reaches index `i`, the points before `i` hold their final
values and the points from `i` on still hold their initial values. -/
theorem getElem?_optRegUpTo_timing (w : ℚ) (pts : List Pnt) (i j : Nat) :
    (optRegUpTo w pts i)[j]? = if j < i then (optRegLevel w pts)[j]? else pts[j]? := by
  rw [getElem?_optRegUpTo, getElem?_optRegLevel]

theorem SameButIR.length_eq {a b : List Pnt} (h : SameButIR a b) : b.length = a.length := by
  by_contra hne
  rcases Nat.lt_or_gt_of_ne hne with hlt | hgt
  · have := h b.length
    rw [List.getElem?_eq_none (le_refl _), List.getElem?_eq_getElem hlt] at this
    simp at this
  · have := h a.length
    rw [List.getElem?_eq_none (le_refl _), List.getElem?_eq_getElem hgt] at this
    simp at this

theorem nthElement_mem (l : List ℚ) (k : Nat) (hk : k < l.length) : nthElement l k ∈ l := by
  unfold nthElement
  have hk2 : k < (l.mergeSort fun a b => decide (a ≤ b)).length := by
    rw [List.length_mergeSort]; exact hk
  rw [List.getD_eq_getElem?_getD, List.getElem?_eq_getElem hk2]
  simp only [Option.getD_some]
  exact (List.mergeSort_perm l _).mem_iff.mp (List.getElem_mem hk2)

theorem sorted_mergeSort_le (l : List ℚ) :
    (l.mergeSort (fun a b => decide (a ≤ b))).Pairwise (· ≤ ·) := by
  have h := @List.sorted_mergeSort ℚ (fun a b : ℚ => decide (a ≤ b))
    (by intro a b c hab hbc; simp only [decide_eq_true_eq] at *; exact le_trans hab hbc)
    (by intro a b; simp only [Bool.or_eq_true, decide_eq_true_eq]; exact le_total a b) l
  exact h.imp (by intro a b hab; simpa using hab)

/-- The value `nthElement l k` has rank `k` in `l`: at most `k` entries are smaller and more
than `k` entries are not larger. -/
theorem nthElement_rank (l : List ℚ) (k : Nat) (hk : k < l.length) :
    (l.filter fun x => decide (x < nthElement l k)).length ≤ k ∧
      k < (l.filter fun x => decide (x ≤ nthElement l k)).length := by
  have hperm := List.mergeSort_perm l (fun a b => decide (a ≤ b))
  have hsort := sorted_mergeSort_le l
  have hk2 : k < (l.mergeSort fun a b => decide (a ≤ b)).length := by
    rw [List.length_mergeSort]; exact hk
  have hm : nthElement l k = (l.mergeSort fun a b => decide (a ≤ b))[k] := by
    unfold nthElement
    rw [List.getD_eq_getElem?_getD, List.getElem?_eq_getElem hk2]; rfl
  generalize (l.mergeSort fun a b => decide (a ≤ b)) = L at hperm hsort hk2 hm
  rw [hm]
  rw [← (hperm.filter _).length_eq, ← (hperm.filter _).length_eq]
  rw [List.pairwise_iff_getElem] at hsort
  constructor
  · have hsplit : L = L.take k ++ L.drop k := (List.take_append_drop k L).symm
    have hdrop : (L.drop k).filter (fun x => decide (x < L[k])) = [] := by
      rw [List.filter_eq_nil_iff]
      intro x hx
      rcases List.mem_iff_getElem.mp hx with ⟨j, hj, rfl⟩
      simp only [decide_eq_true_eq, not_lt]
      rw [List.getElem_drop]
      rcases Nat.eq_zero_or_pos j with h0 | hpos
      · subst h0; simp
      · exact hsort k (k + j) hk2 (by simp at hj; omega) (by omega)
    calc (L.filter fun x => decide (x < L[k])).length
        = ((L.take k ++ L.drop k).filter fun x => decide (x < L[k])).length := by rw [← hsplit]
      _ = ((L.take k).filter fun x => decide (x < L[k])).length := by
          rw [List.filter_append, hdrop, List.append_nil]
      _ ≤ (L.take k).length := List.length_filter_le _ _
      _ ≤ k := by simp
  · have hsplit : L = L.take (k + 1) ++ L.drop (k + 1) := (List.take_append_drop (k + 1) L).symm
    have htake : (L.take (k + 1)).filter (fun x => decide (x ≤ L[k])) = L.take (k + 1) := by
      rw [List.filter_eq_self]
      intro x hx
      rcases List.mem_iff_getElem.mp hx with ⟨j, hj, rfl⟩
      simp only [decide_eq_true_eq]
      rw [List.getElem_take]
      have hjk : j ≤ k := by simp at hj; omega
      rcases Nat.lt_or_eq_of_le hjk with hlt | heq
      · exact hsort j k (by omega) hk2 hlt
      · subst heq; exact le_refl _
    calc k < (L.take (k + 1)).length := by simp; omega
      _ = ((L.take (k + 1)).filter fun x => decide (x ≤ L[k])).length := by rw [htake]
      _ ≤ ((L.take (k + 1)).filter fun x => decide (x ≤ L[k])).length
            + ((L.drop (k + 1)).filter fun x => decide (x ≤ L[k])).length := Nat.le_add_right _ _
      _ = (L.filter fun x => decide (x ≤ L[k])).length := by
          rw [← List.length_append, ← List.filter_append, ← hsplit]

theorem isRankElement_nthElement (l : List ℚ) (k : Nat) (hk : k < l.length) :
    IsRankElement l k (nthElement l k) :=
  ⟨nthElement_mem l k hk, nthElement_rank l k hk⟩

theorem optRegValue_iR_of_good (w : ℚ) (pts : List Pnt) (p : Pnt) (hg : p.isGood = true)
    (hn : 3 ≤ (collectIdnn pts p).length) :
    (optRegValue w pts p).iR = (1 - w) * p.idepth +
      w * nthElement (collectIdnn pts p) ((collectIdnn pts p).length / 2) := by
  have : 2 < (collectIdnn pts p).length := hn
  simp [optRegValue, hg, this]

theorem optRegValue_of_not (w : ℚ) (pts : List Pnt) (p : Pnt)
    (h : p.isGood = false ∨ (collectIdnn pts p).length < 3) : optRegValue w pts p = p := by
  unfold optRegValue
  rw [if_neg]
  rintro ⟨hg, hn⟩
  rcases h with h | h
  · rw [h] at hg; exact Bool.noConfusion hg
  · omega

theorem eq_of_eraseIR_eq {p q : Pnt} (h : q.eraseIR = p.eraseIR) : q = { p with iR := q.iR } := by
  cases p; cases q
  simp only [Pnt.eraseIR, Pnt.mk.injEq] at h
  simp only [Pnt.mk.injEq]
  tauto

namespace CoarseInitializer

theorem points_setPoints_same (s : CoarseInitializer) (lvl : Nat) (pts : List Pnt) :
    (s.setPoints lvl pts).points lvl = pts := by
  simp [setPoints]

theorem points_setPoints_ne (s : CoarseInitializer) (lvl l : Nat) (pts : List Pnt) (h : l ≠ lvl) :
    (s.setPoints lvl pts).points l = s.points l := by
  simp [setPoints, Function.update_noteq h]

theorem points_optReg_same (s : CoarseInitializer) (lvl : Nat) (hs : s.snapped = true) :
    (s.optReg lvl).points lvl = optRegLevel s.regWeight (s.points lvl) := by
  simp [optReg, hs, points_setPoints_same]

theorem points_optReg_ne (s : CoarseInitializer) (lvl l : Nat) (h : l ≠ lvl) :
    (s.optReg lvl).points l = s.points l := by
  unfold optReg
  split_ifs
  · rfl
  · exact points_setPoints_ne s lvl l _ h

theorem optReg_of_not_snapped (s : CoarseInitializer) (lvl : Nat) (hs : s.snapped = false) :
    s.optReg lvl = s := by
  simp [optReg, hs]

theorem snapped_optReg (s : CoarseInitializer) (lvl : Nat) : (s.optReg lvl).snapped = s.snapped := by
  unfold optReg
  split_ifs <;> rfl

theorem regWeight_optReg (s : CoarseInitializer) (lvl : Nat) :
    (s.optReg lvl).regWeight = s.regWeight := by
  unfold optReg
  split_ifs <;> rfl

/-- C7: when `snapped` is true, `optReg(lvl)` changes no field other than `iR` (so no `idepth`
and no `isGood`), on the level `lvl` only.  A good point whose non-sentinel neighbour slots
hold at least 3 good points gets `iR = (1 - regWeight)*idepth + regWeight*m`, where `m` is the
element of rank `floor(n/2)` (0-based) of the `n` values `iR` collected from those neighbours;
a bad point and a good point with fewer than 3 good neighbours keep their `iR`.  The values
are collected when the loop visits the point: neighbours of smaller index already hold their
final `iR`, the others their initial one; `n` does not depend on that. -/
theorem optReg_blend (s : CoarseInitializer) (lvl i : Nat) (p : Pnt) (hs : s.snapped = true)
    (hp : (s.points lvl)[i]? = some p) :
    ∃ q : Pnt, ((s.optReg lvl).points lvl)[i]? = some q ∧
      q = { p with iR := q.iR } ∧ q.idepth = p.idepth ∧ q.isGood = p.isGood ∧
      (collectIdnn (optRegUpTo s.regWeight (s.points lvl) i) p).length
        = (collectIdnn (s.points lvl) p).length ∧
      (p.isGood = true ∧ 3 ≤ (collectIdnn (s.points lvl) p).length →
        q.iR = (1 - s.regWeight) * p.idepth + s.regWeight *
          nthElement (collectIdnn (optRegUpTo s.regWeight (s.points lvl) i) p)
            ((collectIdnn (s.points lvl) p).length / 2)) ∧
      (p.isGood = false ∨ (collectIdnn (s.points lvl) p).length < 3 → q.iR = p.iR) ∧
      (3 ≤ (collectIdnn (s.points lvl) p).length →
        IsRankElement (collectIdnn (optRegUpTo s.regWeight (s.points lvl) i) p)
          ((collectIdnn (s.points lvl) p).length / 2)
          (nthElement (collectIdnn (optRegUpTo s.regWeight (s.points lvl) i) p)
            ((collectIdnn (s.points lvl) p).length / 2))) ∧
      (∀ j : Nat, (optRegUpTo s.regWeight (s.points lvl) i)[j]? =
        if j < i then ((s.optReg lvl).points lvl)[j]? else (s.points lvl)[j]?) ∧
      (∀ l : Nat, l ≠ lvl → (s.optReg lvl).points l = s.points l) := by
  have hlen := (sameButIR_optRegUpTo s.regWeight (s.points lvl) i).length_collectIdnn p p rfl
  refine ⟨optRegValue s.regWeight (optRegUpTo s.regWeight (s.points lvl) i) p, ?_, ?_, ?_, ?_,
    hlen, ?_, ?_, ?_, ?_, ?_⟩
  · rw [points_optReg_same s lvl hs, getElem?_optRegLevel, hp]; rfl
  · exact eq_of_eraseIR_eq (eraseIR_optRegValue _ _ _)
  · have := congrArg Pnt.idepth (eraseIR_optRegValue s.regWeight
      (optRegUpTo s.regWeight (s.points lvl) i) p)
    simpa [Pnt.eraseIR] using this
  · have := congrArg Pnt.isGood (eraseIR_optRegValue s.regWeight
      (optRegUpTo s.regWeight (s.points lvl) i) p)
    simpa [Pnt.eraseIR] using this
  · rintro ⟨hg, hn⟩
    rw [optRegValue_iR_of_good _ _ _ hg (by rw [hlen]; exact hn), hlen]
  · intro h
    rw [optRegValue_of_not _ _ _ (by rw [hlen]; exact h)]
  · intro hn
    exact isRankElement_nthElement _ _ (by rw [hlen]; omega)
  · intro j
    rw [points_optReg_same s lvl hs]
    exact getElem?_optRegUpTo_timing _ _ _ _
  · intro l hl
    exact points_optReg_ne s lvl l hl

end CoarseInitializer

theorem getElem?_modifyPnt (pts : List Pnt) (k : Int) (f : Pnt → Pnt) (m : Nat) :
    (modifyPnt pts k f)[m]? = (pts[m]?).map fun a => if k = (m : Int) then f a else a := by
  unfold modifyPnt
  by_cases hk : 0 ≤ k
  · rw [if_pos hk, List.getElem?_modify]
    have : (k.toNat = m) ↔ (k = (m : Int)) := by omega
    cases pts[m]? with
    | none => rfl
    | some a => simp [this]
  · rw [if_neg hk]
    have : k ≠ (m : Int) := by omega
    cases pts[m]? with
    | none => rfl
    | some a => simp [this]

theorem childWeightSum_cons (c : Pnt) (cs : List Pnt) (k : Int) :
    childWeightSum (c :: cs) k =
      (if c.isGood = true ∧ c.parent = k then c.lastHessian else 0) + childWeightSum cs k := by
  unfold childWeightSum
  by_cases h : c.isGood = true ∧ c.parent = k
  · simp [List.filter_cons, h.1, h.2]
  · rw [if_neg h]
    have : ¬ (c.isGood && decide (c.parent = k)) = true := by simpa using h
    simp [List.filter_cons, this]

theorem childIRSum_cons (c : Pnt) (cs : List Pnt) (k : Int) :
    childIRSum (c :: cs) k =
      (if c.isGood = true ∧ c.parent = k then c.iR * c.lastHessian else 0) + childIRSum cs k := by
  unfold childIRSum
  by_cases h : c.isGood = true ∧ c.parent = k
  · simp [List.filter_cons, h.1, h.2]
  · rw [if_neg h]
    have : ¬ (c.isGood && decide (c.parent = k)) = true := by simpa using h
    simp [List.filter_cons, this]

/-- Second loop of `propagateUp`: the accumulators of the coarse point `k` receive the sums
over its good children. -/
theorem getElem?_foldl_propagateUpAdd (ptss acc : List Pnt) (k : Nat) :
    (ptss.foldl propagateUpAdd acc)[k]? = (acc[k]?).map fun p =>
      { p with
        iR := p.iR + childIRSum ptss k
        iRSumNum := p.iRSumNum + childWeightSum ptss k } := by
  induction ptss generalizing acc with
  | nil =>
    cases h : acc[k]? with
    | none => simp [h]
    | some p => simp [h, childIRSum, childWeightSum]
  | cons c cs ih =>
    rw [List.foldl_cons, ih, childIRSum_cons, childWeightSum_cons]
    unfold propagateUpAdd
    by_cases hg : c.isGood = true
    · simp only [hg, Bool.not_true, Bool.false_eq_true, if_false, true_and]
      rw [getElem?_modifyPnt]
      cases h : acc[k]? with
      | none => simp
      | some p =>
        by_cases hk : c.parent = (k : Int)
        · simp [hk, add_assoc]
        · simp [hk]
    · simp only [hg, false_and, if_false]
      cases h : acc[k]? with
      | none => simp [h]
      | some p => simp [hg, h]

/-- The three loops of `propagateUp` at the coarse point `k`. -/
theorem getElem?_propagateUpLoops (ptss ptst : List Pnt) (k : Nat) :
    (propagateUpLoops ptss ptst)[k]? = (ptst[k]?).map fun p =>
      propagateUpFinish { p with iR := childIRSum ptss k, iRSumNum := childWeightSum ptss k } := by
  unfold propagateUpLoops propagateUpClear
  rw [List.getElem?_map, getElem?_foldl_propagateUpAdd, List.getElem?_map]
  cases h : ptst[k]? with
  | none => simp
  | some p => simp


theorem collectIdnn_congr (pts : List Pnt) (p q : Pnt) (h : q.neighbours = p.neighbours) :
    collectIdnn pts q = collectIdnn pts p := by
  unfold collectIdnn
  rw [h]

namespace CoarseInitializer

theorem snapped_setPoints (s : CoarseInitializer) (lvl : Nat) (pts : List Pnt) :
    (s.setPoints lvl pts).snapped = s.snapped := rfl

theorem regWeight_setPoints (s : CoarseInitializer) (lvl : Nat) (pts : List Pnt) :
    (s.setPoints lvl pts).regWeight = s.regWeight := rfl

/-- Effect of the final `optReg(lvl)` of `propagateUp` and `propagateDown` on the point `i`
of the freshly written level `pts1`. -/
theorem optReg_setPoints_spec (s : CoarseInitializer) (lvl i : Nat) (pts1 : List Pnt) (q0 : Pnt)
    (h : pts1[i]? = some q0) :
    ∃ q : Pnt, (((s.setPoints lvl pts1).optReg lvl).points lvl)[i]? = some q ∧
      q.eraseIR = q0.eraseIR ∧
      (s.snapped = false ∨ q0.isGood = false ∨ (collectIdnn pts1 q0).length < 3 →
        q.iR = q0.iR) ∧
      (s.snapped = true ∧ q0.isGood = true ∧ 3 ≤ (collectIdnn pts1 q0).length →
        q.iR = (1 - s.regWeight) * q0.idepth + s.regWeight *
          nthElement (collectIdnn (optRegUpTo s.regWeight pts1 i) q0)
            ((collectIdnn pts1 q0).length / 2)) := by
  have hlen := (sameButIR_optRegUpTo s.regWeight pts1 i).length_collectIdnn q0 q0 rfl
  cases hs : s.snapped with
  | false =>
    refine ⟨q0, ?_, rfl, fun _ => rfl, ?_⟩
    · rw [optReg_of_not_snapped _ _ (by rw [snapped_setPoints]; exact hs), points_setPoints_same]
      exact h
    · rintro ⟨h1, _⟩
      exact Bool.noConfusion h1
  | true =>
    refine ⟨optRegValue s.regWeight (optRegUpTo s.regWeight pts1 i) q0, ?_,
      eraseIR_optRegValue _ _ _, ?_, ?_⟩
    · rw [points_optReg_same _ _ (by rw [snapped_setPoints]; exact hs), points_setPoints_same,
        regWeight_setPoints, getElem?_optRegLevel, h]
      rfl
    · intro hc
      rcases hc with hc | hc | hc
      · exact Bool.noConfusion hc
      · rw [optRegValue_of_not _ _ _ (Or.inl hc)]
      · rw [optRegValue_of_not _ _ _ (Or.inr (by rw [hlen]; exact hc))]
    · rintro ⟨_, hg, hn⟩
      rw [optRegValue_iR_of_good _ _ _ hg (by rw [hlen]; exact hn), hlen]

/-- C4 (amended): if the good children of the coarse point `k` (points of level `srcLvl` with
`isGood` and `parent = k`) have total `lastHessian` `S > 0`, then after `propagateUp(srcLvl)`
the point is good and its `idepth` is the weighted mean `(Σ child.iR * child.lastHessian) / S`.
Its `iR` equals that mean when `snapped` is false or the point has fewer than 3 good
neighbours; otherwise the final `optReg` of `propagateUp` replaces `iR` by
`(1 - regWeight) * mean + regWeight * median`. -/
theorem propagateUp_weighted_mean (s : CoarseInitializer) (srcLvl k : Nat) (p : Pnt)
    (hp : (s.points (srcLvl + 1))[k]? = some p)
    (hS : 0 < childWeightSum (s.points srcLvl) k) :
    ∃ q : Pnt, ((s.propagateUp srcLvl).points (srcLvl + 1))[k]? = some q ∧
      q.isGood = true ∧
      q.idepth = childIRSum (s.points srcLvl) k / childWeightSum (s.points srcLvl) k ∧
      (s.snapped = false ∨
        (collectIdnn (propagateUpLoops (s.points srcLvl) (s.points (srcLvl + 1))) p).length < 3 →
        q.iR = childIRSum (s.points srcLvl) k / childWeightSum (s.points srcLvl) k) ∧
      (s.snapped = true ∧
        3 ≤ (collectIdnn (propagateUpLoops (s.points srcLvl) (s.points (srcLvl + 1))) p).length →
        q.iR = (1 - s.regWeight) *
            (childIRSum (s.points srcLvl) k / childWeightSum (s.points srcLvl) k) +
          s.regWeight * nthElement
            (collectIdnn (optRegUpTo s.regWeight
              (propagateUpLoops (s.points srcLvl) (s.points (srcLvl + 1))) k) p)
            ((collectIdnn (propagateUpLoops (s.points srcLvl) (s.points (srcLvl + 1))) p).length
              / 2)) := by
  have hq0 : (propagateUpLoops (s.points srcLvl) (s.points (srcLvl + 1)))[k]? =
      some { p with
        idepth := childIRSum (s.points srcLvl) k / childWeightSum (s.points srcLvl) k
        iR := childIRSum (s.points srcLvl) k / childWeightSum (s.points srcLvl) k
        isGood := true
        iRSumNum := childWeightSum (s.points srcLvl) k } := by
    rw [getElem?_propagateUpLoops, hp]
    simp [propagateUpFinish, hS]
  obtain ⟨q, hq, he, h1, h2⟩ := optReg_setPoints_spec s (srcLvl + 1) k _ _ hq0
  have hc1 := collectIdnn_congr (propagateUpLoops (s.points srcLvl) (s.points (srcLvl + 1)))
    p { p with
        idepth := childIRSum (s.points srcLvl) k / childWeightSum (s.points srcLvl) k
        iR := childIRSum (s.points srcLvl) k / childWeightSum (s.points srcLvl) k
        isGood := true
        iRSumNum := childWeightSum (s.points srcLvl) k } rfl
  have hc2 := collectIdnn_congr (optRegUpTo s.regWeight
      (propagateUpLoops (s.points srcLvl) (s.points (srcLvl + 1))) k)
    p { p with
        idepth := childIRSum (s.points srcLvl) k / childWeightSum (s.points srcLvl) k
        iR := childIRSum (s.points srcLvl) k / childWeightSum (s.points srcLvl) k
        isGood := true
        iRSumNum := childWeightSum (s.points srcLvl) k } rfl
  rw [hc1] at h1 h2
  rw [hc2] at h2
  refine ⟨q, hq, ?_, ?_, ?_, ?_⟩
  · have := congrArg Pnt.isGood he
    simpa [Pnt.eraseIR] using this
  · have := congrArg Pnt.idepth he
    simpa [Pnt.eraseIR] using this
  · intro h
    rcases h with h | h
    · exact h1 (Or.inl h)
    · exact h1 (Or.inr (Or.inr h))
  · rintro ⟨hs, hn⟩
    exact h2 ⟨hs, rfl, hn⟩

/-- The weighted mean of `propagateUp` on the example with children `iR = 3, 6` and weights
`2, 1`: the coarse point 4 ends good with `idepth = iR = 4` while `snapped` is false. -/
theorem propagateUp_weighted_mean_witness :
    0 < childWeightSum ((exampleState false fineUp coarseUp).points 0) 4 ∧
      Option.map Pnt.isGood (((exampleState false fineUp coarseUp).propagateUp 0).points 1)[4]?
        = some true ∧
      Option.map Pnt.idepth (((exampleState false fineUp coarseUp).propagateUp 0).points 1)[4]?
        = some 4 ∧
      Option.map Pnt.iR (((exampleState false fineUp coarseUp).propagateUp 0).points 1)[4]?
        = some 4 := by
  have hS : 0 < childWeightSum ((exampleState false fineUp coarseUp).points 0) 4 := by decide!
  have hv : childIRSum ((exampleState false fineUp coarseUp).points 0) 4 /
      childWeightSum ((exampleState false fineUp coarseUp).points 0) 4 = 4 := by decide!
  obtain ⟨q, hq, hg, hd, h1, _⟩ := propagateUp_weighted_mean
    (exampleState false fineUp coarseUp) 0 4 (examplePnt true 1 1 1 (-1)) rfl hS
  refine ⟨hS, ?_, ?_, ?_⟩
  · rw [hq]; simp [hg]
  · rw [hq]; simp [hd]; exact hv
  · rw [hq]; simp [h1 (Or.inl rfl)]; exact hv

/-- C4, counterexample to the claim as stated: with `snapped` true, the coarse point 4 has two
good children with `lastHessian` 2 and 1 and `iR` 3 and 6 (weighted mean 4), yet after
`propagateUp(0)` its `iR` is `8/5`, because the final `optReg` blends the mean with the
median `1` of its neighbours. -/
theorem propagateUp_iR_counterexample :
    0 < childWeightSum ((exampleState true fineUp coarseUp).points 0) 4 ∧
      childIRSum ((exampleState true fineUp coarseUp).points 0) 4 /
        childWeightSum ((exampleState true fineUp coarseUp).points 0) 4 = 4 ∧
      Option.map Pnt.iR (((exampleState true fineUp coarseUp).propagateUp 0).points 1)[4]?
        = some (8 / 5) ∧
      Option.map Pnt.iR (((exampleState true fineUp coarseUp).propagateUp 0).points 1)[4]?
        ≠ some 4 := by
  decide!

theorem propagateDownPoint_inherit (ptss : List Pnt) (p : Pnt) (hbad : p.isGood = false)
    (hpar : (getPnt ptss p.parent).isGood = true)
    (hH : 1 / 10 ≤ (getPnt ptss p.parent).lastHessian) :
    propagateDownPoint ptss p =
      { p with
        iR := (getPnt ptss p.parent).iR
        idepth := (getPnt ptss p.parent).iR
        idepth_new := (getPnt ptss p.parent).iR
        isGood := true, lastHessian := 0 } := by
  have hlt : decide ((getPnt ptss p.parent).lastHessian < 1 / 10) = false :=
    decide_eq_false (not_lt.mpr hH)
  unfold propagateDownPoint
  simp only [hpar, hbad, hlt, Bool.not_true, Bool.not_false, Bool.or_self, Bool.false_eq_true,
    if_false, if_true]

theorem propagateDownPoint_blend (ptss : List Pnt) (p : Pnt) (hgood : p.isGood = true)
    (hpar : (getPnt ptss p.parent).isGood = true)
    (hH : 1 / 10 ≤ (getPnt ptss p.parent).lastHessian) :
    propagateDownPoint ptss p =
      { p with
        iR := (p.iR * p.lastHessian * 2 +
            (getPnt ptss p.parent).iR * (getPnt ptss p.parent).lastHessian) /
          (p.lastHessian * 2 + (getPnt ptss p.parent).lastHessian)
        idepth := (p.iR * p.lastHessian * 2 +
            (getPnt ptss p.parent).iR * (getPnt ptss p.parent).lastHessian) /
          (p.lastHessian * 2 + (getPnt ptss p.parent).lastHessian)
        idepth_new := (p.iR * p.lastHessian * 2 +
            (getPnt ptss p.parent).iR * (getPnt ptss p.parent).lastHessian) /
          (p.lastHessian * 2 + (getPnt ptss p.parent).lastHessian) } := by
  have hlt : decide ((getPnt ptss p.parent).lastHessian < 1 / 10) = false :=
    decide_eq_false (not_lt.mpr hH)
  unfold propagateDownPoint
  simp only [hpar, hgood, hlt, Bool.not_true, Bool.not_false, Bool.or_self, Bool.false_eq_true,
    if_false, if_true]

theorem getElem?_propagateDown_loop (ptss ptst : List Pnt) (i : Nat) :
    (ptst.map (propagateDownPoint ptss))[i]? = (ptst[i]?).map (propagateDownPoint ptss) :=
  List.getElem?_map _ _ _

/-- C5 (amended): a fine point of level `srcLvl-1` that is not good and whose parent at
`srcLvl` is good with `lastHessian >= 0.1` is, after `propagateDown(srcLvl)`, good with
`idepth = idepth_new = ` the parent's `iR` and `lastHessian = 0`.  Its `iR` equals the
parent's `iR` when `snapped` is false or the point has fewer than 3 good neighbours;
otherwise the final `optReg` of `propagateDown` replaces `iR` by
`(1 - regWeight) * parent.iR + regWeight * median`. -/
theorem propagateDown_inherit (s : CoarseInitializer) (srcLvl i : Nat) (p : Pnt)
    (hp : (s.points (srcLvl - 1))[i]? = some p)
    (hbad : p.isGood = false)
    (hpar : (getPnt (s.points srcLvl) p.parent).isGood = true)
    (hH : 1 / 10 ≤ (getPnt (s.points srcLvl) p.parent).lastHessian) :
    ∃ q : Pnt, ((s.propagateDown srcLvl).points (srcLvl - 1))[i]? = some q ∧
      q.isGood = true ∧
      q.idepth = (getPnt (s.points srcLvl) p.parent).iR ∧
      q.idepth_new = (getPnt (s.points srcLvl) p.parent).iR ∧
      q.lastHessian = 0 ∧
      (s.snapped = false ∨
        (collectIdnn ((s.points (srcLvl - 1)).map (propagateDownPoint (s.points srcLvl))) p).length
          < 3 →
        q.iR = (getPnt (s.points srcLvl) p.parent).iR) ∧
      (s.snapped = true ∧
        3 ≤ (collectIdnn ((s.points (srcLvl - 1)).map
          (propagateDownPoint (s.points srcLvl))) p).length →
        q.iR = (1 - s.regWeight) * (getPnt (s.points srcLvl) p.parent).iR +
          s.regWeight * nthElement
            (collectIdnn (optRegUpTo s.regWeight
              ((s.points (srcLvl - 1)).map (propagateDownPoint (s.points srcLvl))) i) p)
            ((collectIdnn ((s.points (srcLvl - 1)).map
              (propagateDownPoint (s.points srcLvl))) p).length / 2)) := by
  have hq0 : ((s.points (srcLvl - 1)).map (propagateDownPoint (s.points srcLvl)))[i]? =
      some { p with
        iR := (getPnt (s.points srcLvl) p.parent).iR
        idepth := (getPnt (s.points srcLvl) p.parent).iR
        idepth_new := (getPnt (s.points srcLvl) p.parent).iR
        isGood := true, lastHessian := 0 } := by
    rw [getElem?_propagateDown_loop, hp, Option.map_some',
      propagateDownPoint_inherit _ _ hbad hpar hH]
  obtain ⟨q, hq, he, h1, h2⟩ := optReg_setPoints_spec s (srcLvl - 1) i _ _ hq0
  have hc1 := collectIdnn_congr
    ((s.points (srcLvl - 1)).map (propagateDownPoint (s.points srcLvl)))
    p { p with
        iR := (getPnt (s.points srcLvl) p.parent).iR
        idepth := (getPnt (s.points srcLvl) p.parent).iR
        idepth_new := (getPnt (s.points srcLvl) p.parent).iR
        isGood := true, lastHessian := 0 } rfl
  have hc2 := collectIdnn_congr (optRegUpTo s.regWeight
      ((s.points (srcLvl - 1)).map (propagateDownPoint (s.points srcLvl))) i)
    p { p with
        iR := (getPnt (s.points srcLvl) p.parent).iR
        idepth := (getPnt (s.points srcLvl) p.parent).iR
        idepth_new := (getPnt (s.points srcLvl) p.parent).iR
        isGood := true, lastHessian := 0 } rfl
  rw [hc1] at h1 h2
  rw [hc2] at h2
  refine ⟨q, hq, ?_, ?_, ?_, ?_, ?_, ?_⟩
  · have := congrArg Pnt.isGood he
    simpa [Pnt.eraseIR] using this
  · have := congrArg Pnt.idepth he
    simpa [Pnt.eraseIR] using this
  · have := congrArg Pnt.idepth_new he
    simpa [Pnt.eraseIR] using this
  · have := congrArg Pnt.lastHessian he
    simpa [Pnt.eraseIR] using this
  · intro h
    rcases h with h | h
    · exact h1 (Or.inl h)
    · exact h1 (Or.inr (Or.inr h))
  · rintro ⟨hs, hn⟩
    exact h2 ⟨hs, rfl, hn⟩

/-- The inherit case of `propagateDown` on the example level: the bad point 0 takes `iR = 5`
from its parent while `snapped` is false. -/
theorem propagateDown_inherit_witness :
    ((exampleState false fineDown coarseDown).points (1 - 1))[0]?
        = some (examplePnt false 1 1 0 0) ∧
      (examplePnt false 1 1 0 0).isGood = false ∧
      (getPnt ((exampleState false fineDown coarseDown).points 1)
        (examplePnt false 1 1 0 0).parent).isGood = true ∧
      1 / 10 ≤ (getPnt ((exampleState false fineDown coarseDown).points 1)
        (examplePnt false 1 1 0 0).parent).lastHessian ∧
      Option.map Pnt.isGood (((exampleState false fineDown coarseDown).propagateDown 1).points 0)[0]?
        = some true ∧
      Option.map Pnt.iR (((exampleState false fineDown coarseDown).propagateDown 1).points 0)[0]?
        = some 5 := by
  have hH : 1 / 10 ≤ (getPnt ((exampleState false fineDown coarseDown).points 1)
      (examplePnt false 1 1 0 0).parent).lastHessian := by decide!
  have hv : (getPnt ((exampleState false fineDown coarseDown).points 1)
      (examplePnt false 1 1 0 0).parent).iR = 5 := by decide!
  obtain ⟨q, hq, hg, _, _, _, h1, _⟩ := propagateDown_inherit
    (exampleState false fineDown coarseDown) 1 0 (examplePnt false 1 1 0 0) rfl rfl rfl hH
  refine ⟨rfl, rfl, rfl, hH, ?_, ?_⟩
  · have hq2 : (((exampleState false fineDown coarseDown).propagateDown 1).points 0)[0]? = some q := hq
    rw [hq2]; simp [hg]
  · have hq2 : (((exampleState false fineDown coarseDown).propagateDown 1).points 0)[0]? = some q := hq
    rw [hq2]; simp [h1 (Or.inl rfl)]; exact hv

/-- C5, counterexample to the claim as stated: with `snapped` true, the bad fine point 0 has a
good parent with `iR = 5` and `lastHessian = 1`; after `propagateDown(1)` it is good with
`idepth = 5`, but its `iR` is `9/5`, not the parent's `iR`. -/
theorem propagateDown_inherit_iR_counterexample :
    Option.map Pnt.isGood ((exampleState true fineDown coarseDown).points 0)[0]? = some false ∧
      (getPnt ((exampleState true fineDown coarseDown).points 1) 0).isGood = true ∧
      (getPnt ((exampleState true fineDown coarseDown).points 1) 0).lastHessian = 1 ∧
      (getPnt ((exampleState true fineDown coarseDown).points 1) 0).iR = 5 ∧
      Option.map Pnt.parent ((exampleState true fineDown coarseDown).points 0)[0]? = some 0 ∧
      Option.map Pnt.idepth (((exampleState true fineDown coarseDown).propagateDown 1).points 0)[0]?
        = some 5 ∧
      Option.map Pnt.iR (((exampleState true fineDown coarseDown).propagateDown 1).points 0)[0]?
        = some (9 / 5) := by
  decide!

/-- C6 (amended): a fine point of level `srcLvl-1` that is already good and whose parent at
`srcLvl` is good with `lastHessian >= 0.1` gets from `propagateDown(srcLvl)` the blend
`b = (2*own.iR*own.lastHessian + parent.iR*parent.lastHessian) /
(2*own.lastHessian + parent.lastHessian)` as `idepth` and `idepth_new`, and keeps `isGood` and
`lastHessian`.  Its `iR` equals `b` when `snapped` is false or the point has fewer than 3 good
neighbours; otherwise the final `optReg` of `propagateDown` replaces `iR` by
`(1 - regWeight) * b + regWeight * median`. -/
theorem propagateDown_blend (s : CoarseInitializer) (srcLvl i : Nat) (p : Pnt)
    (hp : (s.points (srcLvl - 1))[i]? = some p)
    (hgood : p.isGood = true)
    (hpar : (getPnt (s.points srcLvl) p.parent).isGood = true)
    (hH : 1 / 10 ≤ (getPnt (s.points srcLvl) p.parent).lastHessian) :
    ∃ q : Pnt, ((s.propagateDown srcLvl).points (srcLvl - 1))[i]? = some q ∧
      q.isGood = p.isGood ∧ q.lastHessian = p.lastHessian ∧
      q.idepth = (2 * p.iR * p.lastHessian +
          (getPnt (s.points srcLvl) p.parent).iR * (getPnt (s.points srcLvl) p.parent).lastHessian) /
        (2 * p.lastHessian + (getPnt (s.points srcLvl) p.parent).lastHessian) ∧
      q.idepth_new = q.idepth ∧
      (s.snapped = false ∨
        (collectIdnn ((s.points (srcLvl - 1)).map (propagateDownPoint (s.points srcLvl))) p).length
          < 3 →
        q.iR = q.idepth) ∧
      (s.snapped = true ∧
        3 ≤ (collectIdnn ((s.points (srcLvl - 1)).map
          (propagateDownPoint (s.points srcLvl))) p).length →
        q.iR = (1 - s.regWeight) * q.idepth +
          s.regWeight * nthElement
            (collectIdnn (optRegUpTo s.regWeight
              ((s.points (srcLvl - 1)).map (propagateDownPoint (s.points srcLvl))) i) p)
            ((collectIdnn ((s.points (srcLvl - 1)).map
              (propagateDownPoint (s.points srcLvl))) p).length / 2)) := by
  have hq0 : ((s.points (srcLvl - 1)).map (propagateDownPoint (s.points srcLvl)))[i]? =
      some (propagateDownPoint (s.points srcLvl) p) := by
    rw [getElem?_propagateDown_loop, hp, Option.map_some']
  obtain ⟨q, hq, he, h1, h2⟩ := optReg_setPoints_spec s (srcLvl - 1) i _ _ hq0
  have hnb : (propagateDownPoint (s.points srcLvl) p).neighbours = p.neighbours := by
    rw [propagateDownPoint_blend _ _ hgood hpar hH]
  have hc1 := collectIdnn_congr
    ((s.points (srcLvl - 1)).map (propagateDownPoint (s.points srcLvl))) p _ hnb
  have hc2 := collectIdnn_congr (optRegUpTo s.regWeight
      ((s.points (srcLvl - 1)).map (propagateDownPoint (s.points srcLvl))) i) p _ hnb
  rw [hc1] at h1 h2
  rw [hc2] at h2
  have hb := propagateDownPoint_blend _ _ hgood hpar hH
  have hgq : q.isGood = p.isGood := by
    have := congrArg Pnt.isGood he
    rw [hb] at this
    simpa [Pnt.eraseIR] using this
  have hdq : q.idepth = (2 * p.iR * p.lastHessian +
          (getPnt (s.points srcLvl) p.parent).iR * (getPnt (s.points srcLvl) p.parent).lastHessian) /
        (2 * p.lastHessian + (getPnt (s.points srcLvl) p.parent).lastHessian) := by
    have := congrArg Pnt.idepth he
    rw [hb] at this
    simp only [Pnt.eraseIR] at this
    rw [this]
    congr 1 <;> ring
  have hd0 : (propagateDownPoint (s.points srcLvl) p).idepth = q.idepth := by
    have := congrArg Pnt.idepth he
    simpa [Pnt.eraseIR] using this.symm
  have hi0 : (propagateDownPoint (s.points srcLvl) p).iR = q.idepth := by
    rw [← hd0, hb]
  have hg0 : (propagateDownPoint (s.points srcLvl) p).isGood = true := by
    rw [hb]; exact hgood
  refine ⟨q, hq, hgq, ?_, hdq, ?_, ?_, ?_⟩
  · have := congrArg Pnt.lastHessian he
    rw [hb] at this
    simpa [Pnt.eraseIR] using this
  · have := congrArg Pnt.idepth_new he
    rw [hb] at this
    simp only [Pnt.eraseIR] at this
    rw [this, ← hd0, hb]
  · intro h
    rw [← hi0]
    rcases h with h | h
    · exact h1 (Or.inl h)
    · exact h1 (Or.inr (Or.inr h))
  · rintro ⟨hs, hn⟩
    rw [h2 ⟨hs, hg0, hn⟩, hd0]

/-- The blend case of `propagateDown` on the example level: the good point 1 gets
`idepth = iR = 5` while `snapped` is false. -/
theorem propagateDown_blend_witness :
    ((exampleState false fineDown coarseDown).points (1 - 1))[1]?
        = some (examplePnt true 2 2 1 1) ∧
      (examplePnt true 2 2 1 1).isGood = true ∧
      (getPnt ((exampleState false fineDown coarseDown).points 1)
        (examplePnt true 2 2 1 1).parent).isGood = true ∧
      1 / 10 ≤ (getPnt ((exampleState false fineDown coarseDown).points 1)
        (examplePnt true 2 2 1 1).parent).lastHessian ∧
      Option.map Pnt.idepth (((exampleState false fineDown coarseDown).propagateDown 1).points 0)[1]?
        = some 5 ∧
      Option.map Pnt.iR (((exampleState false fineDown coarseDown).propagateDown 1).points 0)[1]?
        = some 5 := by
  have hH : 1 / 10 ≤ (getPnt ((exampleState false fineDown coarseDown).points 1)
      (examplePnt true 2 2 1 1).parent).lastHessian := by decide!
  have hv : (2 * (examplePnt true 2 2 1 1).iR * (examplePnt true 2 2 1 1).lastHessian +
      (getPnt ((exampleState false fineDown coarseDown).points 1)
        (examplePnt true 2 2 1 1).parent).iR *
      (getPnt ((exampleState false fineDown coarseDown).points 1)
        (examplePnt true 2 2 1 1).parent).lastHessian) /
      (2 * (examplePnt true 2 2 1 1).lastHessian +
        (getPnt ((exampleState false fineDown coarseDown).points 1)
          (examplePnt true 2 2 1 1).parent).lastHessian) = 5 := by decide!
  obtain ⟨q, hq, _, _, hd, _, h1, _⟩ := propagateDown_blend
    (exampleState false fineDown coarseDown) 1 1 (examplePnt true 2 2 1 1) rfl rfl rfl hH
  have hq2 : (((exampleState false fineDown coarseDown).propagateDown 1).points 0)[1]? = some q := hq
  refine ⟨rfl, rfl, rfl, hH, ?_, ?_⟩
  · rw [hq2]; simp [hd]; exact hv
  · rw [hq2]; simp [h1 (Or.inl rfl), hd]; exact hv

/-- C6, counterexample to the claim as stated: with `snapped` true, the good fine point 1
(`iR = 2`, `lastHessian = 1`) has a good parent with `iR = 8`, `lastHessian = 2`, so the blend
is `(2*2*1 + 8*2) / (2*1 + 2) = 5`; after `propagateDown(1)` its `idepth` is 5 but its `iR` is
`9/5`. -/
theorem propagateDown_blend_iR_counterexample :
    Option.map Pnt.isGood ((exampleState true fineDown coarseDown).points 0)[1]? = some true ∧
      Option.map Pnt.iR ((exampleState true fineDown coarseDown).points 0)[1]? = some 2 ∧
      Option.map Pnt.lastHessian ((exampleState true fineDown coarseDown).points 0)[1]? = some 1 ∧
      Option.map Pnt.parent ((exampleState true fineDown coarseDown).points 0)[1]? = some 1 ∧
      (getPnt ((exampleState true fineDown coarseDown).points 1) 1).isGood = true ∧
      (getPnt ((exampleState true fineDown coarseDown).points 1) 1).lastHessian = 2 ∧
      (getPnt ((exampleState true fineDown coarseDown).points 1) 1).iR = 8 ∧
      Option.map Pnt.idepth (((exampleState true fineDown coarseDown).propagateDown 1).points 0)[1]?
        = some 5 ∧
      Option.map Pnt.iR (((exampleState true fineDown coarseDown).propagateDown 1).points 0)[1]?
        = some (9 / 5) := by
  decide!

end CoarseInitializer

/-- The normalised weights sum to 10 when the sum of the exponentials is not zero. -/
theorem neighbourWeights_sum {F : Type} [Field F] (expf : F → F) (c : F) (d : Fin 10 → F)
    (hS : ∑ j : Fin 10, expf (-d j * c) ≠ 0) : ∑ k, neighbourWeights expf c d k = 10 := by
  unfold neighbourWeights
  rw [← Finset.sum_mul, mul_div_assoc', mul_comm, mul_div_assoc, div_self hS, mul_one]

namespace CoarseInitializer

/-- The regularizer on ten mutually neighbouring good points with `iR = 1, .., 10`: point 0
gets `iR = 0.2*1 + 0.8*6 = 5`. -/
theorem optReg_blend_witness :
    (exampleState true rampLevel rampLevel).snapped = true ∧
      ((exampleState true rampLevel rampLevel).points 0)[0]? = some (examplePnt true 1 (((0 : ℕ) : ℚ) + 1) 1 (-1)) ∧
      Option.map Pnt.iR (((exampleState true rampLevel rampLevel).optReg 0).points 0)[0]?
        = some 5 := by
  obtain ⟨q, hq, _, _, _, _, h1, _⟩ := optReg_blend (exampleState true rampLevel rampLevel) 0 0
    (examplePnt true 1 (((0 : ℕ) : ℚ) + 1) 1 (-1)) rfl rfl
  have hn : (examplePnt true 1 (((0 : ℕ) : ℚ) + 1) 1 (-1)).isGood = true ∧
      3 ≤ (collectIdnn ((exampleState true rampLevel rampLevel).points 0)
        (examplePnt true 1 (((0 : ℕ) : ℚ) + 1) 1 (-1))).length := by decide!
  have hv : (1 - (exampleState true rampLevel rampLevel).regWeight) *
      (examplePnt true 1 (((0 : ℕ) : ℚ) + 1) 1 (-1)).idepth +
      (exampleState true rampLevel rampLevel).regWeight *
        nthElement (collectIdnn (optRegUpTo (exampleState true rampLevel rampLevel).regWeight
          ((exampleState true rampLevel rampLevel).points 0) 0) (examplePnt true 1 (((0 : ℕ) : ℚ) + 1) 1 (-1)))
          ((collectIdnn ((exampleState true rampLevel rampLevel).points 0)
            (examplePnt true 1 (((0 : ℕ) : ℚ) + 1) 1 (-1))).length / 2) = 5 := by decide!
  refine ⟨rfl, rfl, ?_⟩
  rw [hq]; simp [h1 hn]; exact hv

/-- C8: while `snapped` is false, `optReg(lvl)` is a no-op: the state after the call is the
state before it. -/
theorem optReg_noop (s : CoarseInitializer) (lvl : Nat) (hs : s.snapped = false) :
    s.optReg lvl = s := by
  simp [optReg, hs]

/-- The regularizer leaves an unsnapped example state as it is. -/
theorem optReg_noop_witness :
    (exampleState false rampLevel rampLevel).snapped = false ∧
      (exampleState false rampLevel rampLevel).optReg 0 = exampleState false rampLevel rampLevel :=
  ⟨rfl, optReg_noop (exampleState false rampLevel rampLevel) 0 rfl⟩

/-- C9 (amended): a second `optReg(lvl)` right after the first changes nothing when `snapped`
is false; when `snapped` is true it changes no field other than `iR`, leaves the other levels
alone, and leaves `iR` unchanged at every point that is bad or has fewer than 3 good
neighbours.  For a good point with at least 3 good neighbours the second call recomputes the
blend from the values left by the first call, which in general differ. -/
theorem optReg_twice (s : CoarseInitializer) (lvl : Nat) :
    (s.snapped = false → (s.optReg lvl).optReg lvl = s.optReg lvl) ∧
      (∀ (i : Nat) (p : Pnt), ((s.optReg lvl).points lvl)[i]? = some p →
        ∃ q : Pnt, (((s.optReg lvl).optReg lvl).points lvl)[i]? = some q ∧
          q = { p with iR := q.iR } ∧
          (p.isGood = false ∨ (collectIdnn ((s.optReg lvl).points lvl) p).length < 3 →
            q.iR = p.iR)) ∧
      (∀ l : Nat, l ≠ lvl → ((s.optReg lvl).optReg lvl).points l = (s.optReg lvl).points l) := by
  refine ⟨?_, ?_, ?_⟩
  · intro hs
    rw [optReg_of_not_snapped s lvl hs, optReg_of_not_snapped s lvl hs]
  · intro i p hp
    cases hs : s.snapped with
    | false =>
      rw [optReg_of_not_snapped s lvl hs] at hp ⊢
      rw [optReg_of_not_snapped s lvl hs]
      exact ⟨p, hp, rfl, fun _ => rfl⟩
    | true =>
      have hs1 : (s.optReg lvl).snapped = true := by rw [snapped_optReg]; exact hs
      have hlen := (sameButIR_optRegUpTo (s.optReg lvl).regWeight ((s.optReg lvl).points lvl)
        i).length_collectIdnn p p rfl
      refine ⟨optRegValue (s.optReg lvl).regWeight
        (optRegUpTo (s.optReg lvl).regWeight ((s.optReg lvl).points lvl) i) p, ?_, ?_, ?_⟩
      · rw [points_optReg_same _ _ hs1, getElem?_optRegLevel, hp]; rfl
      · exact eq_of_eraseIR_eq (eraseIR_optRegValue _ _ _)
      · intro h
        rw [optRegValue_of_not _ _ _ (by rw [hlen]; exact h)]
  · intro l hl
    exact points_optReg_ne _ lvl l hl

/-- C9, counterexample to the claim as stated: ten good points, each the neighbour of all,
with `idepth = 1` and `iR = 1, .., 10`, `snapped` true, `regWeight = 0.8`.  The first
`optReg(0)` gives point 0 the value `iR = 5`, the second call changes it to `21/5`. -/
theorem optReg_not_idempotent_counterexample :
    (exampleState true rampLevel rampLevel).snapped = true ∧
      Option.map Pnt.iR (((exampleState true rampLevel rampLevel).optReg 0).points 0)[0]?
        = some 5 ∧
      Option.map Pnt.iR
        ((((exampleState true rampLevel rampLevel).optReg 0).optReg 0).points 0)[0]?
        = some (21 / 5) := by
  decide!

/-- C3: after `setFirst`, whatever the state before and whatever the calibration and frame,
`snapped` is false, `thisToNext` is the identity transform (identity rotation, zero
translation) and `frameID = snappedAt = 0`. -/
theorem setFirst_resets (env : Env) (s : CoarseInitializer) (HCalib : CalibHessian)
    (newFrameHessian : FrameHessian) :
    (s.setFirst env HCalib newFrameHessian).snapped = false ∧
      (s.setFirst env HCalib newFrameHessian).thisToNext = SE3.identity ∧
      (∀ i j : Fin 3, (s.setFirst env HCalib newFrameHessian).thisToNext.rotationMatrix i j
        = if i = j then 1 else 0) ∧
      (∀ i : Fin 3, (s.setFirst env HCalib newFrameHessian).thisToNext.translation i = 0) ∧
      (s.setFirst env HCalib newFrameHessian).frameID = 0 ∧
      (s.setFirst env HCalib newFrameHessian).snappedAt = 0 :=
  ⟨rfl, rfl, fun _ _ => rfl, fun _ => rfl, rfl, rfl⟩

/-- C10 (amended): for every point of a level, `makeNN` stores the ten indices that the k-d
tree query returns and the ten weights `expf(-dist_k*0.05) * (10/sumDF)`, where `dist_k` are
the distances the query returns and `sumDF` is the sum of the ten exponentials.  When `sumDF`
is not zero the ten weights sum to 10 (in exact arithmetic).  For a non-negative `expf` every
weight is then non-negative, and a weight is positive exactly when its exponential is: a
neighbour whose exponential underflows to 0 gets the weight 0.  The source relies on the level
having at least 10 points for the query result to be defined. -/
theorem makeNN_weights (env : Env) (s : CoarseInitializer) (lvl : Nat)
    (hl : lvl < env.pyrLevelsUsed) (i : Nat) (p0 : Pnt) (hp0 : (s.points lvl)[i]? = some p0)
    (ret : (Fin 10 → Int) × (Fin 10 → ℚ))
    (hret : env.findNeighbors (s.points lvl) (p0.u, p0.v) = ret) :
    ∃ p, ((s.makeNN env).points lvl)[i]? = some p ∧
      p.neighbours = ret.1 ∧
      (∀ k, p.neighboursDist k =
        env.expf (-ret.2 k * (1 / 20)) * (10 / ∑ j, env.expf (-ret.2 j * (1 / 20)))) ∧
      ((∑ j, env.expf (-ret.2 j * (1 / 20))) ≠ 0 → ∑ k, p.neighboursDist k = 10) ∧
      ((∀ x, 0 ≤ env.expf x) → (∑ j, env.expf (-ret.2 j * (1 / 20))) ≠ 0 →
        ∀ k, 0 ≤ p.neighboursDist k ∧
          (0 < p.neighboursDist k ↔ 0 < env.expf (-ret.2 k * (1 / 20)))) := by
  subst hret
  have hpts : (s.makeNN env).points lvl =
      (s.points lvl).map (makeNNPoint env lvl (s.points lvl) (s.points (lvl + 1))) := by
    simp [makeNN, hl]
  have hw : (makeNNPoint env lvl (s.points lvl) (s.points (lvl + 1)) p0).neighboursDist =
      neighbourWeights env.expf (1 / 20) (env.findNeighbors (s.points lvl) (p0.u, p0.v)).2 := by
    unfold makeNNPoint
    simp only []
    split_ifs <;> rfl
  have hn : (makeNNPoint env lvl (s.points lvl) (s.points (lvl + 1)) p0).neighbours =
      (env.findNeighbors (s.points lvl) (p0.u, p0.v)).1 := by
    unfold makeNNPoint
    simp only []
    split_ifs <;> rfl
  refine ⟨makeNNPoint env lvl (s.points lvl) (s.points (lvl + 1)) p0, ?_, hn, fun k => ?_,
    fun hS => ?_, fun hexp hS k => ?_⟩
  · rw [hpts, List.getElem?_map, hp0]
    rfl
  · rw [hw]
    rfl
  · rw [hw]
    exact neighbourWeights_sum env.expf (1 / 20) _ hS
  · have hpos : 0 < ∑ j, env.expf (-(env.findNeighbors (s.points lvl) (p0.u, p0.v)).2 j * (1 / 20)) :=
      lt_of_le_of_ne (Finset.sum_nonneg fun j _ => hexp _) (Ne.symm hS)
    have hq : 0 < 10 / ∑ j, env.expf (-(env.findNeighbors (s.points lvl) (p0.u, p0.v)).2 j * (1 / 20)) :=
      div_pos (by norm_num) hpos
    rw [hw]
    show 0 ≤ env.expf _ * _ ∧ (0 < env.expf _ * _ ↔ 0 < env.expf _)
    exact ⟨mul_nonneg (hexp _) hq.le, ⟨fun h => (mul_pos_iff_of_pos_right hq).mp h, fun h => mul_pos h hq⟩⟩

end CoarseInitializer

namespace CoarseInitializer

theorem KeepsCounters.unchanged (s : CoarseInitializer) : KeepsCounters s s := ⟨rfl, rfl, id⟩

theorem KeepsCounters.andThen {s t u : CoarseInitializer} (h1 : KeepsCounters s t)
    (h2 : KeepsCounters t u) : KeepsCounters s u :=
  ⟨h2.1.trans h1.1, h2.2.1.trans h1.2.1, fun h => h2.2.2 (h1.2.2 h)⟩

theorem keepsCounters_optReg (s : CoarseInitializer) (lvl : Nat) : KeepsCounters s (s.optReg lvl) := by
  unfold optReg
  split_ifs
  · exact KeepsCounters.unchanged s
  · exact ⟨rfl, rfl, id⟩

theorem keepsCounters_propagateUp (s : CoarseInitializer) (srcLvl : Nat) :
    KeepsCounters s (s.propagateUp srcLvl) :=
  KeepsCounters.andThen ⟨rfl, rfl, id⟩ (keepsCounters_optReg _ _)

theorem keepsCounters_propagateDown (s : CoarseInitializer) (srcLvl : Nat) :
    KeepsCounters s (s.propagateDown srcLvl) :=
  KeepsCounters.andThen ⟨rfl, rfl, id⟩ (keepsCounters_optReg _ _)

theorem keepsCounters_resetPoints (env : Env) (s : CoarseInitializer) (lvl : Nat) :
    KeepsCounters s (s.resetPoints env lvl) := ⟨rfl, rfl, id⟩

theorem keepsCounters_doStep (s : CoarseInitializer) (lvl : Nat) (lambda : ℚ) (inc : Vec8f) :
    KeepsCounters s (s.doStep lvl lambda inc) := ⟨rfl, rfl, id⟩

theorem keepsCounters_applyStep (s : CoarseInitializer) (lvl : Nat) :
    KeepsCounters s (s.applyStep lvl) := ⟨rfl, rfl, id⟩

theorem keepsCounters_calcResAndGS (env : Env) (s : CoarseInitializer) (lvl : Nat) (T : SE3)
    (aff : AffLight) : KeepsCounters s (s.calcResAndGS env lvl T aff).1 := ⟨rfl, rfl, id⟩

theorem keepsCounters_levelTrial (env : Env) (lvl : Nat) (st : LevelState) :
    KeepsCounters st.s (levelTrial env lvl st).s :=
  (keepsCounters_doStep st.s lvl st.lambda _).andThen (keepsCounters_calcResAndGS env _ lvl _ _)

theorem keepsCounters_markSnapped (s : CoarseInitializer) (c : Prop) [Decidable c] :
    KeepsCounters s (if c then { s with snapped := true } else s) := by
  split_ifs
  · exact ⟨rfl, rfl, fun _ => rfl⟩
  · exact KeepsCounters.unchanged s

theorem keepsCounters_acceptState (lvl : Nat) (tr : Trial) :
    KeepsCounters tr.s (acceptState lvl tr) :=
  (keepsCounters_markSnapped tr.s _).andThen
    ((keepsCounters_applyStep _ lvl).andThen (keepsCounters_optReg _ lvl))

theorem keepsCounters_levelIteration (env : Env) (lvl : Nat) (st : LevelState) :
    KeepsCounters st.s (levelIteration env lvl st).s := by
  unfold levelIteration
  split_ifs
  · exact (keepsCounters_levelTrial env lvl st).andThen (keepsCounters_acceptState lvl _)
  · exact keepsCounters_levelTrial env lvl st

theorem keepsCounters_levelLoop (env : Env) (lvl fuel : Nat) (st : LevelState) :
    KeepsCounters st.s (levelLoop env lvl fuel st).s := by
  induction fuel generalizing st with
  | zero => exact keepsCounters_levelIteration env lvl st
  | succ fuel ih =>
    unfold levelLoop
    split_ifs
    · exact keepsCounters_levelIteration env lvl st
    · exact (keepsCounters_levelIteration env lvl st).andThen (ih _)

theorem keepsCounters_levelLoop_of (env : Env) (lvl fuel : Nat) (st : LevelState)
    (s0 : CoarseInitializer) (h : KeepsCounters s0 st.s) :
    KeepsCounters s0 (levelLoop env lvl fuel st).s :=
  h.andThen (keepsCounters_levelLoop env lvl fuel st)

theorem keepsCounters_trackLevel (env : Env) (ts : TrackState) (lvl : Nat) :
    KeepsCounters ts.s (trackLevel env ts lvl).s := by
  have h0 : KeepsCounters ts.s
      (if lvl < env.pyrLevelsUsed - 1 then ts.s.propagateDown (lvl + 1) else ts.s) := by
    split_ifs
    · exact keepsCounters_propagateDown _ _
    · exact KeepsCounters.unchanged _
  unfold trackLevel
  simp only []
  apply keepsCounters_levelLoop_of
  exact h0.andThen ((keepsCounters_resetPoints env _ lvl).andThen
    ((keepsCounters_calcResAndGS env _ lvl ts.refToNew_current ts.refToNew_aff_current).andThen
      (keepsCounters_applyStep _ lvl)))

theorem keepsCounters_foldl_trackLevel (env : Env) (lvls : List Nat) (ts : TrackState) :
    KeepsCounters ts.s (lvls.foldl (trackLevel env) ts).s := by
  induction lvls generalizing ts with
  | nil => exact KeepsCounters.unchanged _
  | cons l ls ih => exact (keepsCounters_trackLevel env ts l).andThen (ih _)

theorem keepsCounters_foldl_propagateUp (lvls : List Nat) (s : CoarseInitializer) :
    KeepsCounters s (lvls.foldl propagateUp s) := by
  induction lvls generalizing s with
  | nil => exact KeepsCounters.unchanged _
  | cons l ls ih => exact (keepsCounters_propagateUp s l).andThen (ih _)

theorem keepsCounters_unsnappedReset (env : Env) (s : CoarseInitializer) :
    KeepsCounters s (unsnappedReset env s) := by
  unfold unsnappedReset
  split_ifs
  · exact ⟨rfl, rfl, id⟩
  · exact KeepsCounters.unchanged _

/-- The body of `trackFrame` before the counter update leaves `frameID` and `snappedAt`
alone and never clears `snapped`. -/
theorem keepsCounters_trackFrameLevels (env : Env) (s : CoarseInitializer) (f : FrameHessian) :
    KeepsCounters s (trackFrameLevels env s f) := by
  unfold trackFrameLevels
  simp only []
  refine KeepsCounters.andThen (t := (List.foldl (trackLevel env) _ _).s) ?_ ⟨rfl, rfl, id⟩
  refine KeepsCounters.andThen ?_ (keepsCounters_foldl_trackLevel env _ _)
  exact KeepsCounters.andThen (t := trackFrameInit s f) ⟨rfl, rfl, id⟩
    (keepsCounters_unsnappedReset env _)

theorem keepsCounters_trackFrameCore (env : Env) (s : CoarseInitializer) (f : FrameHessian) :
    KeepsCounters s (trackFrameCore env s f) :=
  (keepsCounters_trackFrameLevels env s f).andThen (keepsCounters_foldl_propagateUp _ _)

theorem wrapInt32_of_range (x : Int) (h1 : -2147483648 ≤ x) (h2 : x < 2147483648) :
    wrapInt32 x = x := by
  unfold wrapInt32
  omega

theorem wrapInt32_range (x : Int) :
    -2147483648 ≤ wrapInt32 x ∧ wrapInt32 x < 2147483648 := by
  unfold wrapInt32
  omega

theorem wrapInt32_step (x k : Int) :
    wrapInt32 (wrapInt32 (x + 1) + k) = wrapInt32 (x + 1 + k) := by
  unfold wrapInt32
  omega

theorem trackFrame_flag (env : Env) (s : CoarseInitializer) (f : FrameHessian) :
    (s.trackFrame env f).2 = ((s.trackFrame env f).1.snapped &&
      decide ((s.trackFrame env f).1.frameID >
        wrapInt32 ((s.trackFrame env f).1.snappedAt + 5))) := rfl

theorem trackFrame_fst (env : Env) (s : CoarseInitializer) (f : FrameHessian) :
    (s.trackFrame env f).1 = updateCounters (trackFrameCore env s f) := rfl

theorem frameID_updateCounters (s : CoarseInitializer) :
    (updateCounters s).frameID = wrapInt32 (s.frameID + 1) := by
  unfold updateCounters
  simp only []
  split_ifs <;> rfl

theorem snapped_updateCounters (s : CoarseInitializer) :
    (updateCounters s).snapped = s.snapped := by
  unfold updateCounters
  simp only []
  split_ifs <;> rfl

theorem snappedAt_updateCounters_of_not (s : CoarseInitializer) (h : s.snapped = false) :
    (updateCounters s).snappedAt = 0 := by
  unfold updateCounters
  simp [h]

theorem snappedAt_updateCounters_of_snapped (s : CoarseInitializer) (h : s.snapped = true) :
    (updateCounters s).snappedAt =
      if s.snappedAt = 0 then wrapInt32 (s.frameID + 1) else s.snappedAt := by
  unfold updateCounters
  simp only [h, Bool.not_true, Bool.false_eq_true, if_false, Bool.true_and, decide_eq_true_eq]
  split_ifs <;> rfl

theorem trackFrames_cons_succ (env : Env) (s : CoarseInitializer) (f : FrameHessian)
    (fs : List FrameHessian) (n : Nat) :
    (trackFrames env s (f :: fs))[n + 1]? = (trackFrames env (s.trackFrame env f).1 fs)[n]? := by
  simp only [trackFrames, List.getElem?_cons_succ]

theorem trackFrames_flag (env : Env) (frames : List FrameHessian) (s : CoarseInitializer)
    (n : Nat) (r : CoarseInitializer × Bool) (hr : (trackFrames env s frames)[n]? = some r) :
    r.2 = (r.1.snapped && decide (r.1.frameID > wrapInt32 (r.1.snappedAt + 5))) := by
  induction frames generalizing s n with
  | nil => simp [trackFrames] at hr
  | cons f fs ih =>
    cases n with
    | zero =>
      simp only [trackFrames, List.getElem?_cons_zero, Option.some.injEq] at hr
      rw [← hr]; exact trackFrame_flag env s f
    | succ n =>
      simp only [trackFrames, List.getElem?_cons_succ] at hr
      exact ih _ n hr

/-- The counter `frameID` after the call number `n+1` of a run: the count of the calls added to
the initial value, wrapped into the 32-bit range. -/
theorem frameID_trackFrames (env : Env) (frames : List FrameHessian) (s : CoarseInitializer)
    (n : Nat) (r : CoarseInitializer × Bool) (hr : (trackFrames env s frames)[n]? = some r) :
    r.1.frameID = wrapInt32 (s.frameID + n + 1) := by
  induction frames generalizing s n with
  | nil => simp [trackFrames] at hr
  | cons f fs ih =>
    have hf1 : (s.trackFrame env f).1.frameID = wrapInt32 (s.frameID + 1) := by
      rw [trackFrame_fst, frameID_updateCounters, (keepsCounters_trackFrameCore env s f).1]
    cases n with
    | zero =>
      simp only [trackFrames, List.getElem?_cons_zero, Option.some.injEq] at hr
      rw [← hr, hf1]
      simp
    | succ n =>
      simp only [trackFrames, List.getElem?_cons_succ] at hr
      rw [ih _ n hr, hf1, add_assoc (wrapInt32 (s.frameID + 1)), wrapInt32_step]
      congr 1
      push_cast
      ring

/-- A call that ends with `snapped` false ends with `snappedAt = 0`. -/
theorem snappedAt_trackFrames_of_not (env : Env) (frames : List FrameHessian)
    (s : CoarseInitializer) (n : Nat) (r : CoarseInitializer × Bool)
    (hr : (trackFrames env s frames)[n]? = some r) (h : r.1.snapped = false) :
    r.1.snappedAt = 0 := by
  induction frames generalizing s n with
  | nil => simp [trackFrames] at hr
  | cons f fs ih =>
    cases n with
    | zero =>
      simp only [trackFrames, List.getElem?_cons_zero, Option.some.injEq] at hr
      rw [← hr] at h ⊢
      rw [trackFrame_fst] at h ⊢
      rw [snapped_updateCounters] at h
      exact snappedAt_updateCounters_of_not _ h
    | succ n =>
      simp only [trackFrames, List.getElem?_cons_succ] at hr
      exact ih _ n hr

/-- Once `snapped` holds with a non-zero `snappedAt`, every later call keeps both. -/
theorem trackFrames_of_snapped (env : Env) (frames : List FrameHessian) (s : CoarseInitializer)
    (hs : s.snapped = true) (ha : s.snappedAt ≠ 0)
    (n : Nat) (r : CoarseInitializer × Bool) (hr : (trackFrames env s frames)[n]? = some r) :
    r.1.snapped = true ∧ r.1.snappedAt = s.snappedAt := by
  induction frames generalizing s n with
  | nil => simp [trackFrames] at hr
  | cons f fs ih =>
    have hk := keepsCounters_trackFrameCore env s f
    have hs1 : (s.trackFrame env f).1.snapped = true := by
      rw [trackFrame_fst, snapped_updateCounters]; exact hk.2.2 hs
    have ha1 : (s.trackFrame env f).1.snappedAt = s.snappedAt := by
      rw [trackFrame_fst, snappedAt_updateCounters_of_snapped _ (hk.2.2 hs), hk.2.1, if_neg ha]
    cases n with
    | zero =>
      simp only [trackFrames, List.getElem?_cons_zero, Option.some.injEq] at hr
      rw [← hr]
      exact ⟨hs1, ha1⟩
    | succ n =>
      simp only [trackFrames, List.getElem?_cons_succ] at hr
      obtain ⟨h1, h2⟩ := ih _ hs1 (by rw [ha1]; exact ha) n hr
      exact ⟨h1, by rw [h2, ha1]⟩

/-- Calls of `trackFrame` from a state with `snapped = false` and `snappedAt = 0`, as long as
the counter `frameID` stays in the 32-bit range. -/
theorem trackFrames_of_not_snapped (env : Env) (frames : List FrameHessian)
    (s : CoarseInitializer) (hs : s.snapped = false) (ha : s.snappedAt = 0)
    (hm : 0 ≤ s.frameID)
    (n : Nat) (r : CoarseInitializer × Bool) (hr : (trackFrames env s frames)[n]? = some r)
    (hb : s.frameID + n + 1 < 2147483648) :
    r.1.frameID = s.frameID + n + 1 ∧ (r.1.snapped = false → r.1.snappedAt = 0) ∧
      (r.1.snapped = true → ∃ k : Nat, k ≤ n ∧ r.1.snappedAt = s.frameID + k + 1 ∧
        (∃ rk, (trackFrames env s frames)[k]? = some rk ∧ rk.1.snapped = true) ∧
        ∀ j : Nat, j < k → ∀ rj, (trackFrames env s frames)[j]? = some rj →
          rj.1.snapped = false) := by
  induction frames generalizing s n with
  | nil => simp [trackFrames] at hr
  | cons f fs ih =>
    have hk := keepsCounters_trackFrameCore env s f
    have hf1 : (s.trackFrame env f).1.frameID = s.frameID + 1 := by
      rw [trackFrame_fst, frameID_updateCounters, hk.1]
      exact wrapInt32_of_range _ (by omega) (by omega)
    cases hs1 : (s.trackFrame env f).1.snapped with
    | false =>
      have hc : (trackFrameCore env s f).snapped = false := by
        rw [trackFrame_fst, snapped_updateCounters] at hs1; exact hs1
      have ha1 : (s.trackFrame env f).1.snappedAt = 0 := by
        rw [trackFrame_fst]; exact snappedAt_updateCounters_of_not _ hc
      cases n with
      | zero =>
        simp only [trackFrames, List.getElem?_cons_zero, Option.some.injEq] at hr
        rw [← hr]
        refine ⟨by rw [hf1]; simp, fun _ => ha1, fun h => ?_⟩
        rw [hs1] at h; exact Bool.noConfusion h
      | succ n =>
        simp only [trackFrames, List.getElem?_cons_succ] at hr
        obtain ⟨h1, h2, h3⟩ := ih _ hs1 ha1 (by rw [hf1]; omega) n hr
          (by rw [hf1]; push_cast at hb; omega)
        refine ⟨by rw [h1, hf1]; push_cast; ring, h2, fun h => ?_⟩
        obtain ⟨k, hkn, hka, ⟨rk, hrk, hrks⟩, hj⟩ := h3 h
        refine ⟨k + 1, by omega, by rw [hka, hf1]; push_cast; ring, ⟨rk, ?_, hrks⟩, ?_⟩
        · simp only [trackFrames, List.getElem?_cons_succ]; exact hrk
        · intro j hjk rj hrj
          cases j with
          | zero =>
            simp only [trackFrames, List.getElem?_cons_zero, Option.some.injEq] at hrj
            rw [← hrj]; exact hs1
          | succ j =>
            simp only [trackFrames, List.getElem?_cons_succ] at hrj
            exact hj j (by omega) rj hrj
    | true =>
      have hc : (trackFrameCore env s f).snapped = true := by
        rw [trackFrame_fst, snapped_updateCounters] at hs1; exact hs1
      have ha1 : (s.trackFrame env f).1.snappedAt = s.frameID + 1 := by
        rw [trackFrame_fst, snappedAt_updateCounters_of_snapped _ hc, hk.2.1, ha, if_pos rfl, hk.1]
        exact wrapInt32_of_range _ (by omega) (by omega)
      have hfirst : ∃ rk, (trackFrames env s (f :: fs))[0]? = some rk ∧ rk.1.snapped = true :=
        ⟨s.trackFrame env f, by simp [trackFrames], hs1⟩
      cases n with
      | zero =>
        simp only [trackFrames, List.getElem?_cons_zero, Option.some.injEq] at hr
        rw [← hr]
        refine ⟨by rw [hf1]; simp, fun h => ?_, fun _ => ⟨0, le_refl 0, by rw [ha1]; simp, hfirst, ?_⟩⟩
        · rw [hs1] at h; exact Bool.noConfusion h
        · intro j hj; omega
      | succ n =>
        simp only [trackFrames, List.getElem?_cons_succ] at hr
        obtain ⟨h1, h2⟩ := trackFrames_of_snapped env fs _ hs1 (by rw [ha1]; omega) n r hr
        have h3 := frameID_trackFrames env fs _ n r hr
        rw [hf1, wrapInt32_of_range _ (by omega) (by push_cast at hb; omega)] at h3
        refine ⟨by rw [h3]; push_cast; ring, fun h => ?_,
          fun _ => ⟨0, Nat.zero_le _, by rw [h2, ha1]; simp, hfirst, ?_⟩⟩
        · rw [h1] at h; exact Bool.noConfusion h
        · intro j hj; omega

/-- C2 (amended): in a run of `trackFrame` calls after `setFirst`, the call number `n+1`
returns true if and only if, at the end of the call, `snapped` is true and
`frameID > snappedAt + 5`, the sum taken in 32-bit `int` arithmetic; `frameID` is the number
`n+1` of calls wrapped into the 32-bit range, and `snappedAt = 0` while `snapped` is false.
Within the first `2^31 - 6` calls nothing wraps: `frameID = n+1` counts the calls since
`setFirst`, the call returns true exactly when `snapped` is true and `frameID > snappedAt + 5`
as integers, and once `snapped` is true `snappedAt` is the `frameID` of the first call that
ended with `snapped` true. -/
theorem trackFrame_return (env : Env) (s0 : CoarseInitializer) (HCalib : CalibHessian)
    (f0 : FrameHessian) (frames : List FrameHessian) (n : Nat) (r : CoarseInitializer × Bool)
    (hr : (trackFrames env (s0.setFirst env HCalib f0) frames)[n]? = some r) :
    (r.2 = true ↔ r.1.snapped = true ∧ r.1.frameID > wrapInt32 (r.1.snappedAt + 5)) ∧
      r.1.frameID = wrapInt32 (n + 1) ∧
      (r.1.snapped = false → r.1.snappedAt = 0) ∧
      (n + 6 < 2147483648 →
        r.1.frameID = n + 1 ∧
        (r.2 = true ↔ r.1.snapped = true ∧ r.1.frameID > r.1.snappedAt + 5) ∧
        (r.1.snapped = true → ∃ k : Nat, k ≤ n ∧ r.1.snappedAt = k + 1 ∧
          (∃ rk, (trackFrames env (s0.setFirst env HCalib f0) frames)[k]? = some rk ∧
            rk.1.snapped = true) ∧
          ∀ j : Nat, j < k → ∀ rj,
            (trackFrames env (s0.setFirst env HCalib f0) frames)[j]? = some rj →
            rj.1.snapped = false)) := by
  have hflag := trackFrames_flag env frames _ n r hr
  have hfr := frameID_trackFrames env frames _ n r hr
  have hf0 : (s0.setFirst env HCalib f0).frameID = 0 := rfl
  rw [hf0, zero_add] at hfr
  refine ⟨by rw [hflag]; simp, hfr, snappedAt_trackFrames_of_not env frames _ n r hr,
    fun hb => ?_⟩
  obtain ⟨h1, h2, h3⟩ := trackFrames_of_not_snapped env frames (s0.setFirst env HCalib f0)
    rfl rfl (le_of_eq rfl) n r hr (by rw [hf0]; omega)
  rw [hf0] at h1 h3
  have hsn : r.1.snapped = true → ∃ k : Nat, k ≤ n ∧ r.1.snappedAt = k + 1 ∧
      (∃ rk, (trackFrames env (s0.setFirst env HCalib f0) frames)[k]? = some rk ∧
        rk.1.snapped = true) ∧
      ∀ j : Nat, j < k → ∀ rj,
        (trackFrames env (s0.setFirst env HCalib f0) frames)[j]? = some rj →
        rj.1.snapped = false := by
    intro h
    obtain ⟨k, hkn, hka, hrk, hj⟩ := h3 h
    exact ⟨k, hkn, by rw [hka]; simp, hrk, hj⟩
  refine ⟨by rw [h1]; simp, ?_, hsn⟩
  rw [hflag]
  cases hs : r.1.snapped with
  | false => simp
  | true =>
    obtain ⟨k, hkn, hka, _, _⟩ := hsn hs
    rw [hka, wrapInt32_of_range _ (by omega) (by omega)]
    simp

end CoarseInitializer

namespace CoarseInitializer

/-- The first call of `trackFrame` after `setFirst` on the example ends with `frameID = 1`. -/
theorem trackFrame_return_witness :
    (trackFrames exampleEnv
        ((construct exampleEnv rawMemory).setFirst exampleEnv
          { fxl := 20, fyl := 20, cxl := 13, cyl := 9 } (exampleFrame 50))
        [exampleFrame 53])[0]?
        = some (((construct exampleEnv rawMemory).setFirst exampleEnv
          { fxl := 20, fyl := 20, cxl := 13, cyl := 9 } (exampleFrame 50)).trackFrame
            exampleEnv (exampleFrame 53)) ∧
      (((construct exampleEnv rawMemory).setFirst exampleEnv
          { fxl := 20, fyl := 20, cxl := 13, cyl := 9 } (exampleFrame 50)).trackFrame
            exampleEnv (exampleFrame 53)).1.frameID = ((0 : Nat) : Int) + 1 :=
  ⟨rfl, ((trackFrame_return exampleEnv (construct exampleEnv rawMemory)
    { fxl := 20, fyl := 20, cxl := 13, cyl := 9 } (exampleFrame 50) [exampleFrame 53] 0 _
    rfl).2.2.2 (by decide)).1⟩

theorem exampleEnv_expf_pos (x : ℚ) : 0 < exampleEnv.expf x := by
  show 0 < (if x ≤ 0 then 1 / (1 - x) else 1 + x)
  split_ifs with h
  · exact div_pos one_pos (by linarith)
  · linarith

/-- The neighbour weights of the first point of the example level sum to 10. -/
theorem makeNN_weights_witness :
    0 < exampleEnv.pyrLevelsUsed ∧
      ((exampleState false fineUp coarseUp).points 0)[0]? = some (examplePnt true 1 1 1 0) ∧
      ∃ p, (((exampleState false fineUp coarseUp).makeNN exampleEnv).points 0)[0]? = some p ∧
        ∑ k, p.neighboursDist k = 10 :=
  ⟨by decide, rfl,
    (makeNN_weights exampleEnv (exampleState false fineUp coarseUp) 0 (by decide) 0
      (examplePnt true 1 1 1 0) rfl _ rfl).elim fun p hp =>
      ⟨p, hp.1, hp.2.2.2.1 (ne_of_gt (Finset.sum_pos (fun j _ => exampleEnv_expf_pos _)
        Finset.univ_nonempty))⟩⟩

set_option maxRecDepth 1000000 in
/-- C10, counterexample to the claim as stated: level 0 of the example after `setFirst` (ten
points, 12 pixels apart in two rows), with an `expf` that underflows as the binary32 one
does.  The tenth neighbour of the first point `(6.1, 6.1)` is the point at the far end of the
other row, at squared distance `48^2 + 12^2 = 2448`; its exponential `expf(-122.4)` is 0, so the
weight stored for it is 0, not positive. -/
theorem makeNN_weights_counterexample :
    exampleStartUnderflow.numPoints 0 = 10 ∧
      ((exampleStartUnderflow.points 0).getD 0 default).u = 61 / 10 ∧
      ((exampleStartUnderflow.points 0).getD 0 default).v = 61 / 10 ∧
      (exampleEnvUnderflow.findNeighbors (exampleStartUnderflow.points 0) (61 / 10, 61 / 10)).2 9
        = 2448 ∧
      exampleEnvUnderflow.expf (-2448 * (1 / 20)) = 0 ∧
      ((exampleStartUnderflow.points 0).getD 0 default).neighboursDist 9 = 0 ∧
      ¬ (0 < ((exampleStartUnderflow.points 0).getD 0 default).neighboursDist 9) := by
  decide!

end CoarseInitializer

theorem getPnt_mem_of_isGood (pts : List Pnt) (k : Int) (h : (getPnt pts k).isGood = true) :
    getPnt pts k ∈ pts := by
  unfold getPnt at h ⊢
  by_cases hk : 0 ≤ k
  · rw [if_pos hk] at h ⊢
    rw [List.getD_eq_getElem?_getD] at h ⊢
    cases hg : pts[k.toNat]? with
    | none => rw [hg] at h; exact Bool.noConfusion h
    | some p => exact List.mem_iff_getElem?.mpr ⟨k.toNat, by simpa using hg⟩
  · rw [if_neg hk] at h; exact Bool.noConfusion h

theorem levelBounded_set {pts : List Pnt} (h : LevelBounded pts) (i : Nat) (q : Pnt)
    (hq : q.Bounded) : LevelBounded (pts.set i q) := by
  intro p hp
  rcases List.mem_or_eq_of_mem_set hp with hp | hp
  · exact h p hp
  · rw [hp]; exact hq

theorem levelBounded_map {pts : List Pnt} (h : LevelBounded pts) (f : Pnt → Pnt)
    (hf : ∀ p ∈ pts, p.Bounded → (f p).Bounded) : LevelBounded (pts.map f) := by
  intro q hq
  obtain ⟨p, hp, rfl⟩ := List.mem_map.mp hq
  exact hf p hp (h p hp)

theorem mem_collectIdnn {pts : List Pnt} {point : Pnt} {x : ℚ} (hx : x ∈ collectIdnn pts point) :
    ∃ p ∈ pts, p.iR = x := by
  rw [collectIdnn_eq, List.mem_map] at hx
  obtain ⟨j, hj, rfl⟩ := hx
  rw [List.mem_filter] at hj
  have hg : (getPnt pts (point.neighbours j)).isGood = true := by
    have := hj.2
    simp only [Bool.and_eq_true] at this
    exact this.2
  exact ⟨_, getPnt_mem_of_isGood pts _ hg, rfl⟩

theorem inDepthRange_blend {w a b : ℚ} (hw0 : 0 ≤ w) (hw1 : w ≤ 1) (ha : InDepthRange a)
    (hb : InDepthRange b) : InDepthRange ((1 - w) * a + w * b) := by
  unfold InDepthRange at *
  constructor
  · nlinarith [ha.1, hb.1, mul_nonneg (sub_nonneg.mpr hw1) (sub_nonneg.mpr ha.1),
      mul_nonneg hw0 (sub_nonneg.mpr hb.1)]
  · nlinarith [ha.2, hb.2, mul_nonneg (sub_nonneg.mpr hw1) (sub_nonneg.mpr ha.2),
      mul_nonneg hw0 (sub_nonneg.mpr hb.2)]

theorem bounded_optRegValue (w : ℚ) (hw0 : 0 ≤ w) (hw1 : w ≤ 1) (pts : List Pnt) (p : Pnt)
    (hpts : LevelBounded pts) (hp : p.Bounded) : (optRegValue w pts p).Bounded := by
  unfold optRegValue
  split_ifs with h
  · obtain ⟨_, hn⟩ := h
    have hmem := nthElement_mem (collectIdnn pts p) ((collectIdnn pts p).length / 2)
      (Nat.div_lt_self (by omega) (by decide))
    obtain ⟨q, hq, hqx⟩ := mem_collectIdnn hmem
    have hm : InDepthRange (nthElement (collectIdnn pts p) ((collectIdnn pts p).length / 2)) := by
      rw [← hqx]; exact (hpts q hq).2.2.1
    exact ⟨hp.1, hp.2.1, inDepthRange_blend hw0 hw1 hp.1 hm, hp.2.2.2.1, hp.2.2.2.2⟩
  · exact hp

theorem levelBounded_optRegPoint (w : ℚ) (hw0 : 0 ≤ w) (hw1 : w ≤ 1) (pts : List Pnt) (i : Nat)
    (h : LevelBounded pts) : LevelBounded (optRegPoint w pts i) := by
  intro q hq
  obtain ⟨j, hj⟩ := List.mem_iff_getElem?.mp hq
  rw [getElem?_optRegPoint] at hj
  split_ifs at hj with hji
  · cases hp : pts[j]? with
    | none => rw [hp] at hj; simp at hj
    | some p =>
      rw [hp] at hj
      simp only [Option.map_some', Option.some.injEq] at hj
      rw [← hj]
      exact bounded_optRegValue w hw0 hw1 pts p h (h p (List.mem_iff_getElem?.mpr ⟨j, hp⟩))
  · exact h q (List.mem_iff_getElem?.mpr ⟨j, hj⟩)

theorem levelBounded_optRegUpTo (w : ℚ) (hw0 : 0 ≤ w) (hw1 : w ≤ 1) (pts : List Pnt) (n : Nat)
    (h : LevelBounded pts) : LevelBounded (optRegUpTo w pts n) := by
  induction n with
  | zero => simpa [optRegUpTo] using h
  | succ n ih =>
    rw [optRegUpTo_succ]
    exact levelBounded_optRegPoint w hw0 hw1 _ n ih

namespace CoarseInitializer

theorem bounded_setPoints {L : Nat} {s : CoarseInitializer} (h : s.Bounded L) (lvl : Nat)
    (pts : List Pnt) (hpts : lvl < L → LevelBounded pts) : (s.setPoints lvl pts).Bounded L := by
  refine ⟨fun l hl => ?_, h.2.1, h.2.2⟩
  by_cases hll : l = lvl
  · subst hll; rw [points_setPoints_same]; exact hpts hl
  · rw [points_setPoints_ne _ _ _ _ hll]; exact h.1 l hl

theorem bounded_optReg {L : Nat} {s : CoarseInitializer} (h : s.Bounded L) (lvl : Nat) :
    (s.optReg lvl).Bounded L := by
  unfold optReg
  split_ifs
  · exact h
  · exact bounded_setPoints h lvl _ fun hl =>
      levelBounded_optRegUpTo _ h.2.1 h.2.2 _ _ (h.1 lvl hl)

theorem bounded_applyStepPoint (p : Pnt) (hp : p.Bounded) : (applyStepPoint p).Bounded := by
  unfold applyStepPoint
  split_ifs
  · exact ⟨hp.2.2.1, hp.2.2.1, hp.2.2.1, hp.2.2.2.1, hp.2.2.2.2⟩
  · exact ⟨hp.2.1, hp.2.1, hp.2.2.1, hp.2.2.2.2, hp.2.2.2.2⟩

theorem bounded_applyStep {L : Nat} {s : CoarseInitializer} (h : s.Bounded L) (lvl : Nat) :
    (s.applyStep lvl).Bounded L :=
  bounded_setPoints h lvl _ fun hl =>
    levelBounded_map (h.1 lvl hl) _ fun p _ hp => bounded_applyStepPoint p hp

theorem inDepthRange_clamp (x : ℚ) :
    InDepthRange (if (if x < 1 / 1000 then 1 / 1000 else x) > 50 then 50
      else (if x < 1 / 1000 then 1 / 1000 else x)) := by
  unfold InDepthRange
  split_ifs with h1 h2 h3
  · norm_num
  · norm_num
  · norm_num
  · exact ⟨not_lt.mp h1, not_lt.mp h3⟩

theorem inDepthRange_doStepPoint (lambda : ℚ) (inc : Vec8f) (jb : Vec10f) (p : Pnt)
    (hg : p.isGood = true) : InDepthRange (doStepPoint lambda inc jb p).idepth_new := by
  unfold doStepPoint
  simp only [hg, Bool.not_true, Bool.false_eq_true, if_false]
  exact inDepthRange_clamp _

theorem bounded_doStepPoint (lambda : ℚ) (inc : Vec8f) (jb : Vec10f) (p : Pnt) (hp : p.Bounded) :
    (doStepPoint lambda inc jb p).Bounded := by
  cases hg : p.isGood with
  | false =>
    have : doStepPoint lambda inc jb p = p := by simp [doStepPoint, hg]
    rw [this]; exact hp
  | true =>
    have h1 := inDepthRange_doStepPoint lambda inc jb p hg
    have h2 : doStepPoint lambda inc jb p =
        { p with idepth_new := (doStepPoint lambda inc jb p).idepth_new } := by
      simp [doStepPoint, hg]
    rw [h2]
    exact ⟨hp.1, h1, hp.2.2.1, hp.2.2.2.1, hp.2.2.2.2⟩

theorem bounded_doStep {L : Nat} {s : CoarseInitializer} (h : s.Bounded L) (lvl : Nat)
    (lambda : ℚ) (inc : Vec8f) : (s.doStep lvl lambda inc).Bounded L :=
  bounded_setPoints h lvl _ fun hl => by
    intro q hq
    obtain ⟨i, hi, rfl⟩ := List.mem_mapIdx.mp hq
    exact bounded_doStepPoint _ _ _ _ (h.1 lvl hl _ (List.getElem_mem hi))

theorem inDepthRange_weighted {a b x y : ℚ} (ha : 0 ≤ a) (hb : 0 < b) (hx : InDepthRange x)
    (hy : InDepthRange y) : InDepthRange ((x * a * 2 + y * b) / (a * 2 + b)) := by
  unfold InDepthRange at *
  have hd : 0 < a * 2 + b := by linarith
  constructor
  · rw [le_div_iff₀ hd]
    nlinarith [mul_nonneg ha (sub_nonneg.mpr hx.1), mul_nonneg hb.le (sub_nonneg.mpr hy.1)]
  · rw [div_le_iff₀ hd]
    nlinarith [mul_nonneg ha (sub_nonneg.mpr hx.2), mul_nonneg hb.le (sub_nonneg.mpr hy.2)]

theorem bounded_propagateDownPoint (ptss : List Pnt) (hs : LevelBounded ptss) (p : Pnt)
    (hp : p.Bounded) : (propagateDownPoint ptss p).Bounded := by
  by_cases hpar : (getPnt ptss p.parent).isGood = true ∧
      1 / 10 ≤ (getPnt ptss p.parent).lastHessian
  · have hb := hs _ (getPnt_mem_of_isGood ptss _ hpar.1)
    cases hg : p.isGood with
    | false =>
      rw [propagateDownPoint_inherit ptss p hg hpar.1 hpar.2]
      exact ⟨hb.2.2.1, hb.2.2.1, hb.2.2.1, le_refl 0, hp.2.2.2.2⟩
    | true =>
      rw [propagateDownPoint_blend ptss p hg hpar.1 hpar.2]
      have hw := inDepthRange_weighted hp.2.2.2.1 (lt_of_lt_of_le (by norm_num) hpar.2)
        hp.2.2.1 hb.2.2.1
      exact ⟨hw, hw, hw, hp.2.2.2.1, hp.2.2.2.2⟩
  · have : propagateDownPoint ptss p = p := by
      unfold propagateDownPoint
      simp only []
      rw [if_pos]
      by_cases hg : (getPnt ptss p.parent).isGood = true
      · have hlt : (getPnt ptss p.parent).lastHessian < 1 / 10 := by
          by_contra hc
          exact hpar ⟨hg, not_lt.mp hc⟩
        simp only [Bool.or_eq_true, Bool.not_eq_true', decide_eq_true_eq]
        exact Or.inr hlt
      · simp [hg]
    rw [this]; exact hp

theorem bounded_propagateDown {L : Nat} {s : CoarseInitializer} (h : s.Bounded L)
    (srcLvl : Nat) (hsrc : srcLvl < L) : (s.propagateDown srcLvl).Bounded L :=
  bounded_optReg (bounded_setPoints h (srcLvl - 1) _ fun hl =>
    levelBounded_map (h.1 _ hl) _ fun p _ hp =>
      bounded_propagateDownPoint _ (h.1 srcLvl hsrc) p hp) (srcLvl - 1)

end CoarseInitializer

theorem resetNeighbourSum_fold_bounds (pts : List Pnt) (hb : LevelBounded pts) (point : Pnt)
    (js : List (Fin 10)) (acc : ℚ × ℚ)
    (hacc : 1 / 1000 * acc.2 ≤ acc.1 ∧ acc.1 ≤ 50 * acc.2 ∧ 0 ≤ acc.2) :
    1 / 1000 * (js.foldl (fun acc n =>
        if point.neighbours n = -1 || !(getPnt pts (point.neighbours n)).isGood then acc
        else (acc.1 + (getPnt pts (point.neighbours n)).iR, acc.2 + 1)) acc).2 ≤
      (js.foldl (fun acc n =>
        if point.neighbours n = -1 || !(getPnt pts (point.neighbours n)).isGood then acc
        else (acc.1 + (getPnt pts (point.neighbours n)).iR, acc.2 + 1)) acc).1 ∧
    (js.foldl (fun acc n =>
        if point.neighbours n = -1 || !(getPnt pts (point.neighbours n)).isGood then acc
        else (acc.1 + (getPnt pts (point.neighbours n)).iR, acc.2 + 1)) acc).1 ≤
      50 * (js.foldl (fun acc n =>
        if point.neighbours n = -1 || !(getPnt pts (point.neighbours n)).isGood then acc
        else (acc.1 + (getPnt pts (point.neighbours n)).iR, acc.2 + 1)) acc).2 ∧
    0 ≤ (js.foldl (fun acc n =>
        if point.neighbours n = -1 || !(getPnt pts (point.neighbours n)).isGood then acc
        else (acc.1 + (getPnt pts (point.neighbours n)).iR, acc.2 + 1)) acc).2 := by
  induction js generalizing acc with
  | nil => exact hacc
  | cons j js ih =>
    rw [List.foldl_cons]
    apply ih
    split_ifs with hc
    · exact hacc
    · have hg : (getPnt pts (point.neighbours j)).isGood = true := by
        simp only [Bool.or_eq_true, decide_eq_true_eq, Bool.not_eq_true', not_or,
          Bool.not_eq_false] at hc
        exact hc.2
      have hr := (hb _ (getPnt_mem_of_isGood pts _ hg)).2.2.1
      unfold InDepthRange at hr
      refine ⟨?_, ?_, ?_⟩
      · show 1 / 1000 * (acc.2 + 1) ≤ acc.1 + (getPnt pts (point.neighbours j)).iR
        linarith [hacc.1, hr.1]
      · show acc.1 + (getPnt pts (point.neighbours j)).iR ≤ 50 * (acc.2 + 1)
        linarith [hacc.2.1, hr.2]
      · show 0 ≤ acc.2 + 1
        linarith [hacc.2.2]

theorem inDepthRange_div {a b : ℚ} (h1 : 1 / 1000 * b ≤ a) (h2 : a ≤ 50 * b) (hb : 0 < b) :
    InDepthRange (a / b) := by
  unfold InDepthRange
  constructor
  · rw [le_div_iff₀ hb]; exact h1
  · rw [div_le_iff₀ hb]; exact h2

theorem levelBounded_resetPointsPoint (coarsest : Bool) (pts : List Pnt) (i : Nat)
    (h : LevelBounded pts) : LevelBounded (resetPointsPoint coarsest pts i) := by
  unfold resetPointsPoint
  cases hp : pts[i]? with
  | none => exact h
  | some p =>
    have hpb : p.Bounded := h p (List.mem_iff_getElem?.mpr ⟨i, hp⟩)
    have hp1 : ({ p with energy := (0, 0), idepth_new := p.idepth } : Pnt).Bounded :=
      ⟨hpb.1, hpb.1, hpb.2.2.1, hpb.2.2.2.1, hpb.2.2.2.2⟩
    have h1 := levelBounded_set h i _ hp1
    simp only []
    split_ifs with hc hpos
    · apply levelBounded_set h1
      have hb := resetNeighbourSum_fold_bounds
        (pts.set i { p with energy := (0, 0), idepth_new := p.idepth }) h1
        { p with energy := (0, 0), idepth_new := p.idepth } (List.finRange 10) (0, 0)
        ⟨by norm_num, by norm_num, le_refl 0⟩
      have hm := inDepthRange_div hb.1 hb.2.1 hpos
      exact ⟨hm, hm, hm, hpb.2.2.2.1, hpb.2.2.2.2⟩
    · exact h1
    · exact h1

theorem levelBounded_resetPointsLevel (coarsest : Bool) (pts : List Pnt) (h : LevelBounded pts) :
    LevelBounded (resetPointsLevel coarsest pts) := by
  unfold resetPointsLevel
  generalize List.range pts.length = js
  induction js generalizing pts with
  | nil => exact h
  | cons j js ih =>
    rw [List.foldl_cons]
    exact ih _ (levelBounded_resetPointsPoint coarsest pts j h)

theorem childSums_bounds (ptss : List Pnt) (hb : LevelBounded ptss) (k : Int) :
    1 / 1000 * childWeightSum ptss k ≤ childIRSum ptss k ∧
      childIRSum ptss k ≤ 50 * childWeightSum ptss k := by
  induction ptss with
  | nil => simp [childIRSum, childWeightSum]
  | cons c cs ih =>
    have hc := hb c (List.mem_cons_self _ _)
    have ih2 := ih fun p hp => hb p (List.mem_cons_of_mem _ hp)
    rw [childIRSum_cons, childWeightSum_cons]
    split_ifs
    · have hr := hc.2.2.1
      have hl := hc.2.2.2.1
      unfold InDepthRange at hr
      constructor
      · nlinarith [mul_nonneg hl (sub_nonneg.mpr hr.1), ih2.1]
      · nlinarith [mul_nonneg hl (sub_nonneg.mpr hr.2), ih2.2]
    · simpa using ih2

/-- Third loop of `propagateUp`: with children in range, the coarse point keeps every bounded
field except possibly `iR`. -/
theorem propagateUpFinish_bounds (ptss : List Pnt) (hb : LevelBounded ptss) (k : Nat) (p : Pnt)
    (hp : p.Bounded) :
    InDepthRange (propagateUpFinish
        { p with iR := childIRSum ptss k, iRSumNum := childWeightSum ptss k }).idepth ∧
      InDepthRange (propagateUpFinish
        { p with iR := childIRSum ptss k, iRSumNum := childWeightSum ptss k }).idepth_new ∧
      0 ≤ (propagateUpFinish
        { p with iR := childIRSum ptss k, iRSumNum := childWeightSum ptss k }).lastHessian ∧
      0 ≤ (propagateUpFinish
        { p with iR := childIRSum ptss k, iRSumNum := childWeightSum ptss k }).lastHessian_new := by
  unfold propagateUpFinish
  split_ifs with hS
  · have hcs := childSums_bounds ptss hb k
    exact ⟨inDepthRange_div hcs.1 hcs.2 hS, hp.2.1, hp.2.2.2.1, hp.2.2.2.2⟩
  · exact ⟨hp.1, hp.2.1, hp.2.2.2.1, hp.2.2.2.2⟩

namespace CoarseInitializer

theorem bounded_resetPoints {L : Nat} {s : CoarseInitializer} (h : s.Bounded L) (env : Env)
    (lvl : Nat) : (s.resetPoints env lvl).Bounded L :=
  bounded_setPoints h lvl _ fun hl => levelBounded_resetPointsLevel _ _ (h.1 lvl hl)

theorem optReg_setPoints_none (s : CoarseInitializer) (lvl i : Nat) (pts1 : List Pnt)
    (h : pts1[i]? = none) :
    (((s.setPoints lvl pts1).optReg lvl).points lvl)[i]? = none := by
  cases hs : s.snapped with
  | false =>
    rw [optReg_of_not_snapped _ _ (by rw [snapped_setPoints]; exact hs), points_setPoints_same]
    exact h
  | true =>
    rw [points_optReg_same _ _ (by rw [snapped_setPoints]; exact hs), points_setPoints_same,
      getElem?_optRegLevel, h]
    rfl

/-- After `propagateUp`, every bounded field except possibly `iR` is still in range. -/
theorem propagateUp_bounds {L : Nat} {s : CoarseInitializer} (h : s.Bounded L) (srcLvl : Nat)
    (lvl : Nat) (hl : lvl < L) (q : Pnt) (hq : q ∈ (s.propagateUp srcLvl).points lvl) :
    InDepthRange q.idepth ∧ InDepthRange q.idepth_new ∧ 0 ≤ q.lastHessian ∧
      0 ≤ q.lastHessian_new := by
  by_cases hll : lvl = srcLvl + 1
  · subst hll
    obtain ⟨j, hj⟩ := List.mem_iff_getElem?.mp hq
    have hsrc : srcLvl < L := by omega
    cases hp : (s.points (srcLvl + 1))[j]? with
    | none =>
      have hnone : (propagateUpLoops (s.points srcLvl) (s.points (srcLvl + 1)))[j]? = none := by
        rw [getElem?_propagateUpLoops, hp]; rfl
      have := optReg_setPoints_none s (srcLvl + 1) j _ hnone
      have hj2 : (((s.setPoints (srcLvl + 1) (propagateUpLoops (s.points srcLvl)
          (s.points (srcLvl + 1)))).optReg (srcLvl + 1)).points (srcLvl + 1))[j]? = some q := hj
      rw [this] at hj2
      exact Option.noConfusion hj2
    | some p =>
      have hpb := h.1 _ hl p (List.mem_iff_getElem?.mpr ⟨j, hp⟩)
      have hq0 : (propagateUpLoops (s.points srcLvl) (s.points (srcLvl + 1)))[j]? = some
          (propagateUpFinish { p with iR := childIRSum (s.points srcLvl) j
                                      iRSumNum := childWeightSum (s.points srcLvl) j }) := by
        rw [getElem?_propagateUpLoops, hp]; rfl
      obtain ⟨q1, hq1, he, _, _⟩ := optReg_setPoints_spec s (srcLvl + 1) j _ _ hq0
      have hqq : q = q1 := by
        have : ((s.propagateUp srcLvl).points (srcLvl + 1))[j]? = some q1 := hq1
        rw [hj] at this
        exact Option.some.inj this
      have hfb := propagateUpFinish_bounds (s.points srcLvl) (h.1 _ hsrc) j p hpb
      have e1 := congrArg Pnt.idepth he
      have e2 := congrArg Pnt.idepth_new he
      have e3 := congrArg Pnt.lastHessian he
      have e4 := congrArg Pnt.lastHessian_new he
      simp only [Pnt.eraseIR] at e1 e2 e3 e4
      rw [hqq, e1, e2, e3, e4]
      exact hfb
  · have hsame : (s.propagateUp srcLvl).points lvl = s.points lvl := by
      unfold propagateUp
      rw [points_optReg_ne _ _ _ hll, points_setPoints_ne _ _ _ _ hll]
    rw [hsame] at hq
    have hb := h.1 lvl hl q hq
    exact ⟨hb.1, hb.2.1, hb.2.2.2.1, hb.2.2.2.2⟩

end CoarseInitializer

theorem patternLoop_jb9_nonneg (samples : List (Option Sample)) (acc : PatternAcc)
    (h : 0 ≤ acc.jb 9) : 0 ≤ (patternLoop samples acc).2.jb 9 := by
  induction samples generalizing acc with
  | nil => exact h
  | cons sm rest ih =>
    cases sm with
    | none => exact h
    | some sm =>
      unfold patternLoop
      apply ih
      show 0 ≤ (patternStep acc sm).jb 9
      unfold patternStep
      simp only []
      have h9 : ¬ ((9 : Fin 10).val < 8) := by decide
      have h98 : ¬ ((9 : Fin 10).val = 8) := by decide
      rw [dif_neg h9, if_neg h98]
      nlinarith [mul_self_nonneg sm.dd]

theorem bounded_of_depthFields_eq {p q : Pnt} (h : q.depthFields = p.depthFields)
    (hp : p.Bounded) : q.Bounded := by
  simp only [Pnt.depthFields, Prod.mk.injEq] at h
  obtain ⟨h1, h2, h3, h4, h5⟩ := h
  unfold Pnt.Bounded at *
  rw [h1, h2, h3, h4, h5]
  exact hp

/-- Effect of the body of the point loop of `calcResAndGS` at index `i`: other indices are
untouched, the depth fields of the point are kept, and a point marked `isGood_new` has a
non-negative entry 9 (the sum of the `dd*dd`) in `JbBuffer_new`. -/
theorem processPoint_spec (samples : Pnt → List (Option Sample)) (st : PassAcc) (i : Nat) :
    (processPoint samples st i).pts.length = st.pts.length ∧
    (∀ j, j ≠ i → (processPoint samples st i).pts[j]? = st.pts[j]? ∧
      (processPoint samples st i).jbNew j = st.jbNew j) ∧
    (∀ p, st.pts[i]? = some p → ∃ q, (processPoint samples st i).pts[i]? = some q ∧
      q.depthFields = p.depthFields ∧
      (q.isGood_new = true → 0 ≤ (processPoint samples st i).jbNew i 9)) := by
  unfold processPoint
  cases hp : st.pts[i]? with
  | none =>
    refine ⟨rfl, fun j _ => ⟨rfl, rfl⟩, fun p hp2 => Option.noConfusion hp2⟩
  | some point0 =>
    have hi : i < st.pts.length := (List.getElem?_eq_some_iff.mp hp).1
    simp only []
    split_ifs with hg hbad
    · refine ⟨by simp, fun j hj => ⟨?_, rfl⟩, fun p hp2 => ?_⟩
      · exact List.getElem?_set_ne (fun e => hj e.symm)
      · cases hp2
        refine ⟨_, List.getElem?_set_self hi, rfl, fun h => ?_⟩
        exact Bool.noConfusion h
    · refine ⟨by simp, fun j hj => ⟨?_, ?_⟩, fun p hp2 => ?_⟩
      · exact List.getElem?_set_ne (fun e => hj e.symm)
      · exact Function.update_noteq hj _ _
      · cases hp2
        refine ⟨_, List.getElem?_set_self hi, rfl, fun h => ?_⟩
        exact Bool.noConfusion h
    · refine ⟨by simp, fun j hj => ⟨?_, ?_⟩, fun p hp2 => ?_⟩
      · exact List.getElem?_set_ne (fun e => hj e.symm)
      · exact Function.update_noteq hj _ _
      · cases hp2
        refine ⟨_, List.getElem?_set_self hi, rfl, fun _ => ?_⟩
        show 0 ≤ Function.update st.jbNew i _ i 9
        rw [Function.update_same]
        exact patternLoop_jb9_nonneg _ _ (le_refl 0)

theorem processPoint_fold_inv (samples : Pnt → List (Option Sample)) (n : Nat) (st : PassAcc)
    (hb : LevelBounded st.pts) :
    LevelBounded ((List.range n).foldl (processPoint samples) st).pts ∧
      ((List.range n).foldl (processPoint samples) st).pts.length = st.pts.length ∧
      ∀ i p, ((List.range n).foldl (processPoint samples) st).pts[i]? = some p → i < n →
        p.isGood_new = true → 0 ≤ ((List.range n).foldl (processPoint samples) st).jbNew i 9 := by
  induction n with
  | zero =>
    refine ⟨hb, rfl, fun i p _ hi => ?_⟩
    omega
  | succ n ih =>
    rw [List.range_succ, List.foldl_append, List.foldl_cons, List.foldl_nil]
    obtain ⟨ih1, ih2, ih3⟩ := ih
    obtain ⟨s1, s2, s3⟩ := processPoint_spec samples ((List.range n).foldl (processPoint samples) st) n
    refine ⟨?_, by rw [s1, ih2], ?_⟩
    · intro q hq
      obtain ⟨j, hj⟩ := List.mem_iff_getElem?.mp hq
      by_cases hjn : j = n
      · subst hjn
        cases hp : ((List.range j).foldl (processPoint samples) st).pts[j]? with
        | none =>
          have hlen : ¬ j < ((List.range j).foldl (processPoint samples) st).pts.length := by
            intro hlt
            rw [List.getElem?_eq_getElem hlt] at hp
            exact Option.noConfusion hp
          have : j < (processPoint samples ((List.range j).foldl (processPoint samples) st) j).pts.length :=
            (List.getElem?_eq_some_iff.mp hj).1
          rw [s1] at this
          exact absurd this hlen
        | some p =>
          obtain ⟨q1, hq1, hd, _⟩ := s3 p hp
          rw [hj] at hq1
          cases hq1
          exact bounded_of_depthFields_eq hd (ih1 p (List.mem_iff_getElem?.mpr ⟨j, hp⟩))
      · rw [(s2 j hjn).1] at hj
        exact ih1 q (List.mem_iff_getElem?.mpr ⟨j, hj⟩)
    · intro i p hip hi hgood
      by_cases hin : i = n
      · subst hin
        cases hp : ((List.range i).foldl (processPoint samples) st).pts[i]? with
        | none =>
          have hlen : ¬ i < ((List.range i).foldl (processPoint samples) st).pts.length := by
            intro hlt
            rw [List.getElem?_eq_getElem hlt] at hp
            exact Option.noConfusion hp
          have : i < (processPoint samples ((List.range i).foldl (processPoint samples) st) i).pts.length :=
            (List.getElem?_eq_some_iff.mp hip).1
          rw [s1] at this
          exact absurd this hlen
        | some p0 =>
          obtain ⟨q1, hq1, _, hjb⟩ := s3 p0 hp
          rw [hip] at hq1
          cases hq1
          exact hjb hgood
      · rw [(s2 i hin).2]
        rw [(s2 i hin).1] at hip
        exact ih3 i p hip (by omega) hgood

theorem schurPoint_spec (alphaOpt cw : ℚ) (st : SchurAcc) (i : Nat) :
    (schurPoint alphaOpt cw st i).pts.length = st.pts.length ∧
    (∀ j, j ≠ i → (schurPoint alphaOpt cw st i).pts[j]? = st.pts[j]? ∧
      (schurPoint alphaOpt cw st i).jbNew j = st.jbNew j) ∧
    (∀ p, st.pts[i]? = some p → ∃ q, (schurPoint alphaOpt cw st i).pts[i]? = some q ∧
      q.isGood_new = p.isGood_new ∧
      q.idepth = p.idepth ∧ q.idepth_new = p.idepth_new ∧ q.iR = p.iR ∧
      q.lastHessian = p.lastHessian ∧
      q.lastHessian_new = if p.isGood_new = true then st.jbNew i 9 else p.lastHessian_new) := by
  unfold schurPoint
  cases hp : st.pts[i]? with
  | none => exact ⟨rfl, fun j _ => ⟨rfl, rfl⟩, fun p hp2 => Option.noConfusion hp2⟩
  | some point =>
    have hi : i < st.pts.length := (List.getElem?_eq_some_iff.mp hp).1
    simp only []
    by_cases hg : (!point.isGood_new) = true
    · rw [if_pos hg]
      refine ⟨rfl, fun j _ => ⟨rfl, rfl⟩, fun p hp2 => ?_⟩
      cases hp2
      have hf : point.isGood_new = false := by simpa using hg
      exact ⟨point, hp, rfl, rfl, rfl, rfl, rfl, by simp [hf]⟩
    · rw [if_neg hg]
      refine ⟨by simp, fun j hj => ⟨?_, ?_⟩, fun p hp2 => ?_⟩
      · exact List.getElem?_set_ne (fun e => hj e.symm)
      · exact Function.update_noteq hj _ _
      · cases hp2
        have ht : point.isGood_new = true := by simpa using hg
        exact ⟨_, List.getElem?_set_self hi, rfl, rfl, rfl, rfl, rfl, by simp [ht]⟩

theorem schurPoint_fold_inv (alphaOpt cw : ℚ) (n : Nat) (st : SchurAcc)
    (hb : LevelBounded st.pts)
    (hjb : ∀ i p, st.pts[i]? = some p → p.isGood_new = true → 0 ≤ st.jbNew i 9) :
    LevelBounded ((List.range n).foldl (schurPoint alphaOpt cw) st).pts ∧
      ∀ i p, ((List.range n).foldl (schurPoint alphaOpt cw) st).pts[i]? = some p → n ≤ i →
        p.isGood_new = true →
        0 ≤ ((List.range n).foldl (schurPoint alphaOpt cw) st).jbNew i 9 := by
  induction n with
  | zero => exact ⟨hb, fun i p hip _ hg => hjb i p hip hg⟩
  | succ n ih =>
    rw [List.range_succ, List.foldl_append, List.foldl_cons, List.foldl_nil]
    obtain ⟨ih1, ih2⟩ := ih
    obtain ⟨s1, s2, s3⟩ := schurPoint_spec alphaOpt cw
      ((List.range n).foldl (schurPoint alphaOpt cw) st) n
    refine ⟨?_, ?_⟩
    · intro q hq
      obtain ⟨j, hj⟩ := List.mem_iff_getElem?.mp hq
      by_cases hjn : j = n
      · subst hjn
        cases hp : ((List.range j).foldl (schurPoint alphaOpt cw) st).pts[j]? with
        | none =>
          have hlen : ¬ j < ((List.range j).foldl (schurPoint alphaOpt cw) st).pts.length := by
            intro hlt
            rw [List.getElem?_eq_getElem hlt] at hp
            exact Option.noConfusion hp
          have : j < (schurPoint alphaOpt cw
              ((List.range j).foldl (schurPoint alphaOpt cw) st) j).pts.length :=
            (List.getElem?_eq_some_iff.mp hj).1
          rw [s1] at this
          exact absurd this hlen
        | some p =>
          obtain ⟨q1, hq1, hgn, h1, h2, h3, h4, h5⟩ := s3 p hp
          rw [hj] at hq1
          cases hq1
          have hpb := ih1 p (List.mem_iff_getElem?.mpr ⟨j, hp⟩)
          refine ⟨by rw [h1]; exact hpb.1, by rw [h2]; exact hpb.2.1, by rw [h3]; exact hpb.2.2.1,
            by rw [h4]; exact hpb.2.2.2.1, ?_⟩
          rw [h5]
          split_ifs with hg
          · exact ih2 j p hp (le_refl j) hg
          · exact hpb.2.2.2.2
      · rw [(s2 j hjn).1] at hj
        exact ih1 q (List.mem_iff_getElem?.mpr ⟨j, hj⟩)
    · intro i p hip hi hgood
      have hin : i ≠ n := by omega
      rw [(s2 i hin).2]
      rw [(s2 i hin).1] at hip
      exact ih2 i p hip (by omega) hgood

theorem alphaPoint_fields (p : Pnt) :
    (alphaPoint p).1.depthFields = p.depthFields ∧ (alphaPoint p).1.isGood_new = p.isGood_new := by
  unfold alphaPoint
  split_ifs <;> exact ⟨rfl, rfl⟩

namespace CoarseInitializer

theorem bounded_calcResAndGS {L : Nat} {s : CoarseInitializer} (h : s.Bounded L) (env : Env)
    (lvl : Nat) (refToNew : SE3) (refToNew_aff : AffLight) :
    (s.calcResAndGS env lvl refToNew refToNew_aff).1.Bounded L := by
  refine ⟨fun l hl => ?_, h.2.1, h.2.2⟩
  by_cases hll : l = lvl
  · subst hll
    have hpts : (s.calcResAndGS env l refToNew refToNew_aff).1.points l = _ :=
      Function.update_same l _ s.points
    rw [hpts]
    obtain ⟨p1, p2, p3⟩ := processPoint_fold_inv
      (patternSamples env s l refToNew refToNew_aff) (s.numPoints l)
      { pts := s.points l, jbNew := s.JbBuffer_new, acc9 := fun _ _ => 0,
        E := Accumulator11.initialize } (h.1 l hl)
    refine (schurPoint_fold_inv _ _ _ _ ?_ ?_).1
    · exact levelBounded_map p1 _ fun p _ hp =>
        bounded_of_depthFields_eq (alphaPoint_fields p).1 hp
    · intro i q hq hg
      simp only [List.getElem?_map] at hq
      cases hp : ((List.range (s.numPoints l)).foldl
          (processPoint (patternSamples env s l refToNew refToNew_aff))
          { pts := s.points l, jbNew := s.JbBuffer_new, acc9 := fun _ _ => 0,
            E := Accumulator11.initialize }).pts[i]? with
      | none => rw [hp] at hq; exact Option.noConfusion hq
      | some p =>
        rw [hp] at hq
        simp only [Option.map_some', Option.some.injEq] at hq
        have hi : i < s.numPoints l := by
          have := (List.getElem?_eq_some_iff.mp hp).1
          rw [p2] at this
          exact this
        apply p3 i p hp hi
        rw [← (alphaPoint_fields p).2, hq]
        exact hg
  · have hpts : (s.calcResAndGS env lvl refToNew refToNew_aff).1.points l = s.points l :=
      Function.update_noteq hll _ s.points
    rw [hpts]
    exact h.1 l hl

theorem bounded_markSnapped {L : Nat} {s : CoarseInitializer} (h : s.Bounded L) (c : Prop)
    [Decidable c] : (if c then { s with snapped := true } else s).Bounded L := by
  split_ifs
  · exact h
  · exact h

theorem bounded_acceptState {L : Nat} (lvl : Nat) (tr : Trial) (h : tr.s.Bounded L) :
    (acceptState lvl tr).Bounded L :=
  bounded_optReg (bounded_applyStep (bounded_markSnapped h _) lvl) lvl

theorem bounded_levelTrial {L : Nat} (env : Env) (lvl : Nat) (st : LevelState)
    (h : st.s.Bounded L) : (levelTrial env lvl st).s.Bounded L :=
  bounded_calcResAndGS (bounded_doStep h lvl st.lambda _) env lvl _ _

theorem bounded_levelIteration {L : Nat} (env : Env) (lvl : Nat) (st : LevelState)
    (h : st.s.Bounded L) : (levelIteration env lvl st).s.Bounded L := by
  unfold levelIteration
  split_ifs
  · exact bounded_acceptState lvl _ (bounded_levelTrial env lvl st h)
  · exact bounded_levelTrial env lvl st h

theorem bounded_levelLoop {L : Nat} (env : Env) (lvl fuel : Nat) (st : LevelState)
    (h : st.s.Bounded L) : (levelLoop env lvl fuel st).s.Bounded L := by
  induction fuel generalizing st with
  | zero => exact bounded_levelIteration env lvl st h
  | succ fuel ih =>
    unfold levelLoop
    split_ifs
    · exact bounded_levelIteration env lvl st h
    · exact ih _ (bounded_levelIteration env lvl st h)

theorem bounded_trackLevel (env : Env) (ts : TrackState) (lvl : Nat)
    (h : ts.s.Bounded env.pyrLevelsUsed) : (trackLevel env ts lvl).s.Bounded env.pyrLevelsUsed := by
  have h0 : (if lvl < env.pyrLevelsUsed - 1 then ts.s.propagateDown (lvl + 1) else ts.s).Bounded
      env.pyrLevelsUsed := by
    split_ifs with hl
    · exact bounded_propagateDown h _ (by omega)
    · exact h
  unfold trackLevel
  simp only []
  apply bounded_levelLoop
  exact bounded_applyStep (bounded_calcResAndGS (bounded_resetPoints h0 env lvl) env lvl
    ts.refToNew_current ts.refToNew_aff_current) lvl

theorem bounded_foldl_trackLevel (env : Env) (lvls : List Nat) (ts : TrackState)
    (h : ts.s.Bounded env.pyrLevelsUsed) :
    (lvls.foldl (trackLevel env) ts).s.Bounded env.pyrLevelsUsed := by
  induction lvls generalizing ts with
  | nil => exact h
  | cons l ls ih => exact ih _ (bounded_trackLevel env ts l h)

/-- The block `if(!snapped)` establishes the invariant from the bounds on `idepth` and
`lastHessian_new` alone when `snapped` is false. -/
theorem bounded_unsnappedReset_of_not_snapped (env : Env) (s : CoarseInitializer)
    (hs : s.snapped = false)
    (hd : ∀ lvl, lvl < env.pyrLevelsUsed → ∀ p ∈ s.points lvl,
      InDepthRange p.idepth ∧ 0 ≤ p.lastHessian_new)
    (hw : 0 ≤ s.regWeight ∧ s.regWeight ≤ 1) :
    (unsnappedReset env s).Bounded env.pyrLevelsUsed := by
  unfold unsnappedReset
  simp only [hs, Bool.not_false, if_true]
  refine ⟨fun lvl hl => ?_, hw.1, hw.2⟩
  show LevelBounded (if lvl < env.pyrLevelsUsed then _ else _)
  rw [if_pos hl]
  intro q hq
  obtain ⟨p, hp, rfl⟩ := List.mem_map.mp hq
  have := hd lvl hl p hp
  exact ⟨this.1, by unfold InDepthRange; norm_num, by unfold InDepthRange; norm_num, le_refl 0,
    this.2⟩

theorem bounded_unsnappedReset (env : Env) (s : CoarseInitializer)
    (h : s.Bounded env.pyrLevelsUsed) : (unsnappedReset env s).Bounded env.pyrLevelsUsed := by
  cases hs : s.snapped with
  | false =>
    exact bounded_unsnappedReset_of_not_snapped env s hs
      (fun lvl hl p hp => ⟨(h.1 lvl hl p hp).1, (h.1 lvl hl p hp).2.2.2.2⟩) h.2
  | true =>
    unfold unsnappedReset
    simp only [hs, Bool.not_true, Bool.false_eq_true, if_false]
    exact h

theorem bounded_trackFrameLevels_of (env : Env) (s : CoarseInitializer) (f : FrameHessian)
    (h : (unsnappedReset env (trackFrameInit s f)).Bounded env.pyrLevelsUsed) :
    (trackFrameLevels env s f).Bounded env.pyrLevelsUsed := by
  unfold trackFrameLevels
  simp only []
  have := bounded_foldl_trackLevel env (List.range env.pyrLevelsUsed).reverse
    { s := unsnappedReset env (trackFrameInit s f)
      refToNew_current := (unsnappedReset env (trackFrameInit s f)).thisToNext
      refToNew_aff_current :=
        if (unsnappedReset env (trackFrameInit s f)).firstFrame.ab_exposure > 0 ∧
            (unsnappedReset env (trackFrameInit s f)).newFrame.ab_exposure > 0 then
          { a := env.logf ((unsnappedReset env (trackFrameInit s f)).newFrame.ab_exposure /
              (unsnappedReset env (trackFrameInit s f)).firstFrame.ab_exposure), b := 0 }
        else (unsnappedReset env (trackFrameInit s f)).thisToNext_aff
      latestRes := fun _ => 0 } h
  exact ⟨this.1, this.2.1, this.2.2⟩

theorem bounded_trackFrameLevels (env : Env) (s : CoarseInitializer) (f : FrameHessian)
    (h : ∀ lvl, lvl < env.pyrLevelsUsed → LevelBounded (s.points lvl)) :
    (trackFrameLevels env s f).Bounded env.pyrLevelsUsed :=
  bounded_trackFrameLevels_of env s f (bounded_unsnappedReset env _
    ⟨h, by show (0 : ℚ) ≤ 4 / 5; norm_num, by show (4 / 5 : ℚ) ≤ 1; norm_num⟩)

end CoarseInitializer

theorem makePoint_fields (env : Env) (frame : FrameHessian) (lvl wl : Nat) (fresh : Pnt)
    (x y : Nat) (q : Pnt) (hm : makePoint env frame lvl wl fresh x y = some q) :
    q.idepth = 1 ∧ q.iR = 1 ∧ q.isGood = true ∧ q.lastHessian = 0 ∧ q.lastHessian_new = 0 := by
  unfold makePoint at hm
  by_cases hc : (lvl ≠ 0 ∧ env.statusMapB frame lvl (x + y * wl) = true) ∨
      (lvl = 0 ∧ env.statusMap frame (x + y * wl) ≠ 0)
  · rw [if_pos hc] at hm
    cases hm
    exact ⟨rfl, rfl, rfl, rfl, rfl⟩
  · rw [if_neg hc] at hm
    exact Option.noConfusion hm

theorem selectPoints_fields (env : Env) (frame : FrameHessian) (lvl wl hl : Nat) :
    ∀ p ∈ selectPoints env frame lvl wl hl,
      p.idepth = 1 ∧ p.iR = 1 ∧ p.isGood = true ∧ p.lastHessian = 0 ∧ p.lastHessian_new = 0 := by
  unfold selectPoints
  generalize pixelWindow env wl hl = win
  suffices hgen : ∀ (pl : List Pnt),
      (∀ p ∈ pl, p.idepth = 1 ∧ p.iR = 1 ∧ p.isGood = true ∧ p.lastHessian = 0 ∧
        p.lastHessian_new = 0) →
      ∀ p ∈ win.foldl (fun pl xy =>
        match makePoint env frame lvl wl (env.freshPnt lvl pl.length) xy.1 xy.2 with
        | some p => pl ++ [p]
        | none => pl) pl,
        p.idepth = 1 ∧ p.iR = 1 ∧ p.isGood = true ∧ p.lastHessian = 0 ∧ p.lastHessian_new = 0 from
    hgen [] (fun p hp => absurd hp (List.not_mem_nil p))
  induction win with
  | nil => intro pl h; exact h
  | cons xy rest ih =>
    intro pl h
    rw [List.foldl_cons]
    apply ih
    cases hm : makePoint env frame lvl wl (env.freshPnt lvl pl.length) xy.1 xy.2 with
    | none => exact h
    | some q =>
      intro p hp
      rcases List.mem_append.mp hp with hp | hp
      · exact h p hp
      · have hpq : p = q := by simpa using hp
        rw [hpq]
        exact makePoint_fields env frame lvl wl _ _ _ q hm

theorem makeNNPoint_fields (env : Env) (lvl : Nat) (pts ptsUp : List Pnt) (p : Pnt) :
    (makeNNPoint env lvl pts ptsUp p).idepth = p.idepth ∧
      (makeNNPoint env lvl pts ptsUp p).iR = p.iR ∧
      (makeNNPoint env lvl pts ptsUp p).isGood = p.isGood ∧
      (makeNNPoint env lvl pts ptsUp p).lastHessian = p.lastHessian ∧
      (makeNNPoint env lvl pts ptsUp p).lastHessian_new = p.lastHessian_new := by
  unfold makeNNPoint
  simp only []
  split_ifs <;> exact ⟨rfl, rfl, rfl, rfl, rfl⟩

namespace CoarseInitializer

/-- Every point created by `setFirst` starts with `idepth = iR = 1`, good, with zero
confidence. -/
theorem setFirst_points (env : Env) (s : CoarseInitializer) (HCalib : CalibHessian)
    (f : FrameHessian) (lvl : Nat) (hl : lvl < env.pyrLevelsUsed) :
    ∀ p ∈ (s.setFirst env HCalib f).points lvl,
      p.idepth = 1 ∧ p.iR = 1 ∧ p.isGood = true ∧ p.lastHessian = 0 ∧ p.lastHessian_new = 0 := by
  intro p hp
  have hpts : (s.setFirst env HCalib f).points lvl =
      (selectPoints env f lvl ((s.makeK env HCalib).w lvl) ((s.makeK env HCalib).h lvl)).map
        (makeNNPoint env lvl
          (selectPoints env f lvl ((s.makeK env HCalib).w lvl) ((s.makeK env HCalib).h lvl))
          (if lvl + 1 < env.pyrLevelsUsed then
            selectPoints env f (lvl + 1) ((s.makeK env HCalib).w (lvl + 1))
              ((s.makeK env HCalib).h (lvl + 1))
           else (s.makeK env HCalib).points (lvl + 1))) := by
    simp only [setFirst, makeNN, hl, if_true]
  rw [hpts] at hp
  obtain ⟨p0, hp0, rfl⟩ := List.mem_map.mp hp
  have h0 := selectPoints_fields env f lvl _ _ p0 hp0
  have h1 := makeNNPoint_fields env lvl
    (selectPoints env f lvl ((s.makeK env HCalib).w lvl) ((s.makeK env HCalib).h lvl))
    (if lvl + 1 < env.pyrLevelsUsed then
      selectPoints env f (lvl + 1) ((s.makeK env HCalib).w (lvl + 1))
        ((s.makeK env HCalib).h (lvl + 1))
     else (s.makeK env HCalib).points (lvl + 1)) p0
  rw [h1.1, h1.2.1, h1.2.2.1, h1.2.2.2.1, h1.2.2.2.2]
  exact h0

theorem bounded_trackFrameLevels_setFirst (env : Env) (s0 : CoarseInitializer)
    (HCalib : CalibHessian) (f0 f : FrameHessian) :
    (trackFrameLevels env (s0.setFirst env HCalib f0) f).Bounded env.pyrLevelsUsed := by
  apply bounded_trackFrameLevels_of
  apply bounded_unsnappedReset_of_not_snapped
  · rfl
  · intro lvl hl p hp
    have := setFirst_points env s0 HCalib f0 lvl hl p hp
    rw [this.1, this.2.2.2.2]
    exact ⟨by unfold InDepthRange; norm_num, le_refl 0⟩
  · constructor
    · show (0 : ℚ) ≤ 4 / 5; norm_num
    · show (4 / 5 : ℚ) ≤ 1; norm_num

/-- C1 (amended): every point created by `setFirst` has `idepth = 1`.  The invariant
"`idepth`, `idepth_new` and `iR` lie in `[1e-3, 50]` and `lastHessian`, `lastHessian_new` are
non-negative, on every level in use" is preserved by `resetPoints`, `doStep`, `applyStep`,
`optReg`, `propagateDown`, the residual pass and the unsnapped reset, hence by the whole
coarse-to-fine loop of `trackFrame`; it holds throughout that loop in the first call after
`setFirst`.  `propagateUp` keeps `idepth` (and `idepth_new`, `lastHessian`,
`lastHessian_new`) in range but not `iR`, which it leaves at 0 on a coarse point without
child weight. -/
theorem idepth_bound_steps (env : Env) (s : CoarseInitializer)
    (hs : s.Bounded env.pyrLevelsUsed) :
    (∀ lvl, (s.resetPoints env lvl).Bounded env.pyrLevelsUsed) ∧
      (∀ lvl lambda inc, (s.doStep lvl lambda inc).Bounded env.pyrLevelsUsed) ∧
      (∀ lvl, (s.applyStep lvl).Bounded env.pyrLevelsUsed) ∧
      (∀ lvl, (s.optReg lvl).Bounded env.pyrLevelsUsed) ∧
      (∀ srcLvl, srcLvl < env.pyrLevelsUsed →
        (s.propagateDown srcLvl).Bounded env.pyrLevelsUsed) ∧
      (∀ lvl refToNew refToNew_aff,
        (s.calcResAndGS env lvl refToNew refToNew_aff).1.Bounded env.pyrLevelsUsed) ∧
      (unsnappedReset env s).Bounded env.pyrLevelsUsed ∧
      (∀ f, (trackFrameLevels env s f).Bounded env.pyrLevelsUsed) ∧
      (∀ srcLvl lvl, lvl < env.pyrLevelsUsed → ∀ q ∈ (s.propagateUp srcLvl).points lvl,
        InDepthRange q.idepth ∧ InDepthRange q.idepth_new ∧ 0 ≤ q.lastHessian ∧
          0 ≤ q.lastHessian_new) ∧
      (∀ (s0 : CoarseInitializer) (HCalib : CalibHessian) (f0 f : FrameHessian),
        (∀ lvl, lvl < env.pyrLevelsUsed → ∀ p ∈ (s0.setFirst env HCalib f0).points lvl,
          p.idepth = 1) ∧
        (trackFrameLevels env (s0.setFirst env HCalib f0) f).Bounded env.pyrLevelsUsed) :=
  ⟨fun lvl => bounded_resetPoints hs env lvl,
    fun lvl lambda inc => bounded_doStep hs lvl lambda inc,
    fun lvl => bounded_applyStep hs lvl,
    fun lvl => bounded_optReg hs lvl,
    fun srcLvl h => bounded_propagateDown hs srcLvl h,
    fun lvl refToNew refToNew_aff => bounded_calcResAndGS hs env lvl refToNew refToNew_aff,
    bounded_unsnappedReset env s hs,
    fun f => bounded_trackFrameLevels env s f hs.1,
    fun srcLvl lvl hl q hq => propagateUp_bounds hs srcLvl lvl hl q hq,
    fun s0 HCalib f0 f =>
      ⟨fun lvl hl p hp => (setFirst_points env s0 HCalib f0 lvl hl p hp).1,
        bounded_trackFrameLevels_setFirst env s0 HCalib f0 f⟩⟩

/-- The example state satisfies the invariant, and so do the states after `applyStep(0)` and
`propagateDown(1)`. -/
theorem idepth_bound_steps_witness :
    (exampleState false fineUp coarseUp).Bounded exampleEnv.pyrLevelsUsed ∧
      ((exampleState false fineUp coarseUp).applyStep 0).Bounded exampleEnv.pyrLevelsUsed ∧
      ((exampleState false fineUp coarseUp).propagateDown 1).Bounded exampleEnv.pyrLevelsUsed :=
  have hB : (exampleState false fineUp coarseUp).Bounded exampleEnv.pyrLevelsUsed := by decide!
  ⟨hB, (idepth_bound_steps exampleEnv _ hB).2.2.1 0,
    (idepth_bound_steps exampleEnv _ hB).2.2.2.2.1 1 (by decide)⟩

end CoarseInitializer

namespace CoarseInitializer

theorem trackLevel_eq (env : Env) (ts : TrackState) (lvl : Nat) :
    trackLevel env ts lvl =
      { s := (levelLoop env lvl ((iterationCap env lvl).toNat) (levelStart env ts lvl)).s
        refToNew_current :=
          (levelLoop env lvl ((iterationCap env lvl).toNat) (levelStart env ts lvl)).refToNew_current
        refToNew_aff_current :=
          (levelLoop env lvl ((iterationCap env lvl).toNat) (levelStart env ts lvl)).refToNew_aff_current
        latestRes := (levelLoop env lvl ((iterationCap env lvl).toNat) (levelStart env ts lvl)).resOld } :=
  rfl

theorem levelTrace_ne_nil (env : Env) (lvl fuel : Nat) (st : LevelState) :
    levelTrace env lvl fuel st ≠ [] := by
  cases fuel with
  | zero => simp [levelTrace]
  | succ n =>
    unfold levelTrace
    split_ifs <;> simp

theorem levelLoop_eq_getLast (env : Env) (lvl fuel : Nat) (st : LevelState) :
    levelLoop env lvl fuel st =
      (levelTrace env lvl fuel st).getLast (levelTrace_ne_nil env lvl fuel st) := by
  induction fuel generalizing st with
  | zero => simp [levelLoop, levelTrace]
  | succ n ih =>
    unfold levelLoop
    by_cases hq : quitOpt env lvl (levelIteration env lvl st) = true
    · simp [levelTrace, hq]
    · rw [if_neg hq]
      have : levelTrace env lvl (n + 1) st = levelIteration env lvl st ::
          levelTrace env lvl n (nextPass (levelIteration env lvl st)) := by
        rw [levelTrace, if_neg hq]
      simp only [this]
      rw [List.getLast_cons (levelTrace_ne_nil env lvl n _)]
      exact ih _

theorem accept_levelIteration (env : Env) (lvl : Nat) (st : LevelState) :
    (levelIteration env lvl st).accept = acceptTest st (levelTrial env lvl st) := by
  unfold levelIteration
  by_cases h : acceptTest st (levelTrial env lvl st) = true
  · rw [if_pos h, h]; rfl
  · rw [if_neg h]
    simp only [Bool.not_eq_true] at h
    rw [h]; rfl

theorem levelIteration_of_accept (env : Env) (lvl : Nat) (st : LevelState)
    (h : (levelIteration env lvl st).accept = true) :
    levelIteration env lvl st = commitAccept lvl st (levelTrial env lvl st) := by
  rw [accept_levelIteration] at h
  unfold levelIteration
  rw [if_pos h]

theorem levelIteration_of_reject (env : Env) (lvl : Nat) (st : LevelState)
    (h : (levelIteration env lvl st).accept = false) :
    levelIteration env lvl st = commitReject st (levelTrial env lvl st) := by
  rw [accept_levelIteration] at h
  unfold levelIteration
  rw [if_neg (by simp [h])]


theorem lambda_levelIteration (env : Env) (lvl : Nat) (st : LevelState) :
    ((levelIteration env lvl st).accept = true →
      (levelIteration env lvl st).lambda = max (st.lambda * (1 / 2)) (1 / 10000) ∧
        (levelIteration env lvl st).fails = 0) ∧
    ((levelIteration env lvl st).accept = false →
      (levelIteration env lvl st).lambda = min (st.lambda * 4) 10000 ∧
        (levelIteration env lvl st).fails = st.fails + 1) := by
  refine ⟨fun h => ?_, fun h => ?_⟩
  · rw [levelIteration_of_accept env lvl st h]
    refine ⟨?_, rfl⟩
    show (if st.lambda * (1 / 2) < 1 / 10000 then 1 / 10000 else st.lambda * (1 / 2)) = _
    split_ifs with hlt
    · exact (max_eq_right hlt.le).symm
    · exact (max_eq_left (not_lt.mp hlt)).symm
  · rw [levelIteration_of_reject env lvl st h]
    refine ⟨?_, rfl⟩
    show (if st.lambda * 4 > 10000 then 10000 else st.lambda * 4) = _
    split_ifs with hgt
    · exact (min_eq_right (le_of_lt hgt)).symm
    · exact (min_eq_left (not_lt.mp hgt)).symm

theorem iteration_levelIteration (env : Env) (lvl : Nat) (st : LevelState) :
    (levelIteration env lvl st).iteration = st.iteration := by
  cases h : (levelIteration env lvl st).accept with
  | true => rw [levelIteration_of_accept env lvl st h]; rfl
  | false => rw [levelIteration_of_reject env lvl st h]; rfl

theorem lambda_range_levelIteration (env : Env) (lvl : Nat) (st : LevelState)
    (h : 1 / 10000 ≤ st.lambda ∧ st.lambda ≤ 10000) :
    1 / 10000 ≤ (levelIteration env lvl st).lambda ∧ (levelIteration env lvl st).lambda ≤ 10000 := by
  cases ha : (levelIteration env lvl st).accept with
  | true =>
    rw [((lambda_levelIteration env lvl st).1 ha).1]
    refine ⟨le_max_right _ _, max_le ?_ (by norm_num)⟩
    linarith [h.2]
  | false =>
    rw [((lambda_levelIteration env lvl st).2 ha).1]
    refine ⟨le_min ?_ (by norm_num), min_le_right _ _⟩
    linarith [h.1]

theorem lambda_range_levelTrace (env : Env) (lvl fuel : Nat) (st : LevelState)
    (h : 1 / 10000 ≤ st.lambda ∧ st.lambda ≤ 10000) :
    ∀ x ∈ levelTrace env lvl fuel st, 1 / 10000 ≤ x.lambda ∧ x.lambda ≤ 10000 := by
  induction fuel generalizing st with
  | zero =>
    intro x hx
    simp only [levelTrace, List.mem_singleton] at hx
    rw [hx]
    exact lambda_range_levelIteration env lvl st h
  | succ n ih =>
    intro x hx
    unfold levelTrace at hx
    split_ifs at hx
    · simp only [List.mem_singleton] at hx
      rw [hx]
      exact lambda_range_levelIteration env lvl st h
    · rcases List.mem_cons.mp hx with hx | hx
      · rw [hx]
        exact lambda_range_levelIteration env lvl st h
      · exact ih (nextPass (levelIteration env lvl st))
          (lambda_range_levelIteration env lvl st h) x hx

/-- C13 (damping update).  The loop of every level is entered with `lambda = 0.1` and
`fails = 0`.  An accepted pass sets `lambda := max(0.5*lambda, 1e-4)` and `fails := 0`, a
rejected pass sets `lambda := min(4*lambda, 1e4)` and `fails := fails + 1`.  Hence
`1e-4 <= lambda <= 1e4` holds on entry and after every pass of the loop. -/
theorem damping_update (env : Env) (ts : TrackState) (lvl : Nat) (st : LevelState) :
    ((levelStart env ts lvl).lambda = 1 / 10 ∧ (levelStart env ts lvl).fails = 0) ∧
    ((levelIteration env lvl st).accept = true →
      (levelIteration env lvl st).lambda = max (st.lambda * (1 / 2)) (1 / 10000) ∧
        (levelIteration env lvl st).fails = 0) ∧
    ((levelIteration env lvl st).accept = false →
      (levelIteration env lvl st).lambda = min (st.lambda * 4) 10000 ∧
        (levelIteration env lvl st).fails = st.fails + 1) ∧
    (∀ fuel, ∀ x ∈ levelStart env ts lvl :: levelTrace env lvl fuel (levelStart env ts lvl),
      1 / 10000 ≤ x.lambda ∧ x.lambda ≤ 10000) ∧
    1 / 10000 ≤ (levelLoop env lvl ((iterationCap env lvl).toNat) (levelStart env ts lvl)).lambda ∧
    (levelLoop env lvl ((iterationCap env lvl).toNat) (levelStart env ts lvl)).lambda ≤ 10000 := by
  have h0 : 1 / 10000 ≤ (levelStart env ts lvl).lambda ∧ (levelStart env ts lvl).lambda ≤ 10000 := by
    have : (levelStart env ts lvl).lambda = 1 / 10 := rfl
    rw [this]
    constructor <;> norm_num
  refine ⟨⟨rfl, rfl⟩, (lambda_levelIteration env lvl st).1, (lambda_levelIteration env lvl st).2,
    fun fuel x hx => ?_, ?_⟩
  · rcases List.mem_cons.mp hx with hx | hx
    · rw [hx]; exact h0
    · exact lambda_range_levelTrace env lvl fuel _ h0 x hx
  · rw [levelLoop_eq_getLast]
    exact lambda_range_levelTrace env lvl _ _ h0 _ (List.getLast_mem _)


theorem levelTrace_head (env : Env) (lvl fuel : Nat) (st : LevelState) :
    (levelTrace env lvl fuel st)[0]? = some (levelIteration env lvl st) := by
  cases fuel with
  | zero => rfl
  | succ n =>
    unfold levelTrace
    split_ifs <;> simp

theorem levelTrace_step (env : Env) (lvl fuel : Nat) (st : LevelState) (k : Nat)
    (x y : LevelState) (hy : (levelTrace env lvl fuel st)[k]? = some y)
    (hx : (levelTrace env lvl fuel st)[k + 1]? = some x) :
    x = levelIteration env lvl (nextPass y) := by
  induction fuel generalizing st k with
  | zero => simp [levelTrace] at hx
  | succ n ih =>
    unfold levelTrace at hx hy
    by_cases hq : quitOpt env lvl (levelIteration env lvl st) = true
    · rw [if_pos hq] at hx
      simp at hx
    · rw [if_neg hq] at hx hy
      rw [List.getElem?_cons_succ] at hx
      cases k with
      | zero =>
        rw [List.getElem?_cons_zero] at hy
        cases hy
        rw [levelTrace_head] at hx
        exact (Option.some.inj hx).symm
      | succ k =>
        rw [List.getElem?_cons_succ] at hy
        exact ih _ k hy hx

theorem levelTrace_iteration (env : Env) (lvl fuel : Nat) (st : LevelState) (k : Nat)
    (x : LevelState) (hx : (levelTrace env lvl fuel st)[k]? = some x) :
    x.iteration = st.iteration + k := by
  induction k generalizing x with
  | zero =>
    rw [levelTrace_head] at hx
    cases hx
    exact iteration_levelIteration env lvl st
  | succ k ih =>
    cases hy : (levelTrace env lvl fuel st)[k]? with
    | none =>
      have hlen := List.getElem?_eq_none_iff.mp hy
      have := (List.getElem?_eq_some_iff.mp hx).1
      omega
    | some y =>
      rw [levelTrace_step env lvl fuel st k x y hy hx, iteration_levelIteration]
      show y.iteration + 1 = _
      rw [ih y hy]
      omega

theorem quitOpt_iff (env : Env) (lvl : Nat) (x : LevelState) :
    quitOpt env lvl x = true ↔
      ¬ (x.incNorm > 1 / 10000) ∨ (x.iteration : Int) ≥ iterationCap env lvl ∨ x.fails ≥ 2 := by
  unfold quitOpt
  simp only [Bool.or_eq_true, Bool.not_eq_true', decide_eq_false_iff_not, decide_eq_true_eq]
  tauto

theorem iterationCap_of_lt (env : Env) (lvl : Nat) (h : lvl < 5) :
    iterationCap env lvl = ((maxIterations.getD lvl 0 : Nat) : Int) := by
  unfold iterationCap
  rw [if_pos (show lvl < maxIterations.length from h)]

theorem iterationCap_of_ge (env : Env) (lvl : Nat) (h : 5 ≤ lvl) :
    iterationCap env lvl = env.maxIterationsPast lvl := by
  unfold iterationCap
  rw [if_neg (show ¬ lvl < maxIterations.length from Nat.not_lt.mpr h)]

theorem quitOpt_iff_toNat (env : Env) (lvl : Nat) (x : LevelState) :
    quitOpt env lvl x = true ↔
      ¬ (x.incNorm > 1 / 10000) ∨ x.iteration ≥ (iterationCap env lvl).toNat ∨ x.fails ≥ 2 := by
  rw [quitOpt_iff]
  simp only [ge_iff_le, Int.toNat_le]

theorem length_levelTrace_le (env : Env) (lvl fuel : Nat) (st : LevelState) :
    (levelTrace env lvl fuel st).length ≤ fuel + 1 := by
  induction fuel generalizing st with
  | zero => simp [levelTrace]
  | succ n ih =>
    unfold levelTrace
    split_ifs
    · simp
    · simp only [List.length_cons]
      have := ih (nextPass (levelIteration env lvl st))
      omega

theorem levelTrace_quit (env : Env) (lvl fuel : Nat) (st : LevelState)
    (hfuel : (iterationCap env lvl).toNat ≤ st.iteration + fuel) (k : Nat) (x : LevelState)
    (hx : (levelTrace env lvl fuel st)[k]? = some x) :
    quitOpt env lvl x = true ↔ k + 1 = (levelTrace env lvl fuel st).length := by
  induction fuel generalizing st k with
  | zero =>
    simp only [levelTrace] at hx ⊢
    cases k with
    | zero =>
      simp only [List.getElem?_cons_zero, Option.some.injEq] at hx
      subst hx
      simp only [List.length_singleton, zero_add, iff_true]
      rw [quitOpt_iff_toNat]
      right; left
      rw [iteration_levelIteration]
      simpa using hfuel
    | succ k => simp at hx
  | succ n ih =>
    unfold levelTrace at hx ⊢
    by_cases hq : quitOpt env lvl (levelIteration env lvl st) = true
    · rw [if_pos hq] at hx ⊢
      cases k with
      | zero =>
        simp only [List.getElem?_cons_zero, Option.some.injEq] at hx
        subst hx
        simp [hq]
      | succ k => simp at hx
    · rw [if_neg hq] at hx ⊢
      cases k with
      | zero =>
        simp only [List.getElem?_cons_zero, Option.some.injEq] at hx
        subst hx
        have hne := levelTrace_ne_nil env lvl n (nextPass (levelIteration env lvl st))
        have hpos : 0 < (levelTrace env lvl n (nextPass (levelIteration env lvl st))).length :=
          List.length_pos.mpr hne
        simp only [List.length_cons]
        constructor
        · intro h; exact absurd h hq
        · intro h; omega
      | succ k =>
        rw [List.getElem?_cons_succ] at hx
        have h2 : (iterationCap env lvl).toNat ≤ (nextPass (levelIteration env lvl st)).iteration + n := by
          show _ ≤ (levelIteration env lvl st).iteration + 1 + n
          rw [iteration_levelIteration]
          omega
        rw [ih _ h2 k hx]
        simp only [List.length_cons]
        omega

theorem levelTrace_fuel (env : Env) (lvl fuel : Nat) (st : LevelState)
    (hfuel : (iterationCap env lvl).toNat ≤ st.iteration + fuel) (extra : Nat) :
    levelTrace env lvl (fuel + extra) st = levelTrace env lvl fuel st := by
  induction fuel generalizing st with
  | zero =>
    have hq : quitOpt env lvl (levelIteration env lvl st) = true := by
      rw [quitOpt_iff_toNat]
      right; left
      rw [iteration_levelIteration]
      simpa using hfuel
    cases extra with
    | zero => rfl
    | succ e =>
      rw [Nat.zero_add]
      unfold levelTrace
      rw [if_pos hq]
  | succ n ih =>
    have e : n + 1 + extra = (n + extra) + 1 := by omega
    rw [e]
    unfold levelTrace
    by_cases hq : quitOpt env lvl (levelIteration env lvl st) = true
    · rw [if_pos hq, if_pos hq]
    · rw [if_neg hq, if_neg hq]
      congr 1
      apply ih
      show _ ≤ (levelIteration env lvl st).iteration + 1 + n
      rw [iteration_levelIteration]
      omega

theorem fails_pos_iff (env : Env) (lvl : Nat) (st : LevelState) :
    1 ≤ (levelIteration env lvl st).fails ↔ (levelIteration env lvl st).accept = false := by
  cases h : (levelIteration env lvl st).accept with
  | true =>
    rw [((lambda_levelIteration env lvl st).1 h).2]
    simp
  | false =>
    rw [((lambda_levelIteration env lvl st).2 h).2]
    simp

/-- C14 (the level loop as the code runs it).  The cap that the quit test reads as
`maxIterations[lvl]` is the entry of the five-entry array for `lvl < 5`; on a level `lvl >= 5`
(six pyramid levels) the read is past the end of the array and yields whatever is stored
there.  With that cap, on every level and for every outcome of the passes, the loop entered by
`trackFrame` leaves after a pass exactly when the test
`!(incNorm > 1e-4) || iteration >= maxIterations[lvl] || fails >= 2` holds: the test holds at
the last pass and at no earlier one.  The pass number `k` (from 0) runs with `iteration = k`,
and `fails >= 2` holds after a pass exactly when that pass and the one before it were both
rejected.  Hence the body runs at most `cap + 1` times for a cap `>= 0` and once for a negative
cap, and the bound on the number of passes of the model is never what ends the loop: any larger
bound gives the same passes. -/
theorem level_loop_termination (env : Env) (ts : TrackState) (lvl extra : Nat) :
    (lvl < 5 → iterationCap env lvl = ((maxIterations.getD lvl 0 : Nat) : Int)) ∧
    (5 ≤ lvl → iterationCap env lvl = env.maxIterationsPast lvl) ∧
    levelTrace env lvl ((iterationCap env lvl).toNat + extra) (levelStart env ts lvl) =
      levelTrace env lvl ((iterationCap env lvl).toNat) (levelStart env ts lvl) ∧
    (levelTrace env lvl ((iterationCap env lvl).toNat) (levelStart env ts lvl)).length ≤
      (iterationCap env lvl).toNat + 1 ∧
    (levelLoop env lvl ((iterationCap env lvl).toNat) (levelStart env ts lvl) ∈
      (levelTrace env lvl ((iterationCap env lvl).toNat) (levelStart env ts lvl)).getLast?) ∧
    (∀ k x, (levelTrace env lvl ((iterationCap env lvl).toNat) (levelStart env ts lvl))[k]? = some x →
      x.iteration = k ∧
      (quitOpt env lvl x = true ↔
        k + 1 = (levelTrace env lvl ((iterationCap env lvl).toNat) (levelStart env ts lvl)).length) ∧
      (quitOpt env lvl x = true ↔
        ¬ (x.incNorm > 1 / 10000) ∨ (x.iteration : Int) ≥ iterationCap env lvl ∨ x.fails ≥ 2) ∧
      (x.fails ≥ 2 ↔ x.accept = false ∧ ∃ j y, k = j + 1 ∧
        (levelTrace env lvl ((iterationCap env lvl).toNat) (levelStart env ts lvl))[j]? = some y ∧
          y.accept = false)) := by
  have hfuel : (iterationCap env lvl).toNat ≤ (levelStart env ts lvl).iteration +
      (iterationCap env lvl).toNat := Nat.le_add_left _ _
  refine ⟨iterationCap_of_lt env lvl, iterationCap_of_ge env lvl,
    levelTrace_fuel env lvl _ _ hfuel extra, length_levelTrace_le env lvl _ _, ?_,
    fun k x hx => ⟨?_, levelTrace_quit env lvl _ _ hfuel k x hx, quitOpt_iff env lvl x, ?_⟩⟩
  · rw [levelLoop_eq_getLast, List.getLast?_eq_getLast _ (levelTrace_ne_nil env lvl _ _)]
    exact rfl
  · have := levelTrace_iteration env lvl _ _ k x hx
    rw [this]
    show 0 + k = k
    omega
  · cases k with
    | zero =>
      rw [levelTrace_head] at hx
      cases hx
      constructor
      · intro h
        exfalso
        cases ha : (levelIteration env lvl (levelStart env ts lvl)).accept with
        | true =>
          rw [((lambda_levelIteration env lvl _).1 ha).2] at h
          omega
        | false =>
          rw [((lambda_levelIteration env lvl _).2 ha).2] at h
          have : (levelStart env ts lvl).fails = 0 := rfl
          omega
      · rintro ⟨_, j, y, hj, _⟩
        omega
    | succ j =>
      cases hy : (levelTrace env lvl ((iterationCap env lvl).toNat) (levelStart env ts lvl))[j]? with
      | none =>
        have hlen := List.getElem?_eq_none_iff.mp hy
        have := (List.getElem?_eq_some_iff.mp hx).1
        omega
      | some y =>
        have hxe := levelTrace_step env lvl _ _ j x y hy hx
        have hyf : 1 ≤ y.fails ↔ y.accept = false := by
          cases j with
          | zero =>
            rw [levelTrace_head] at hy
            cases hy
            exact fails_pos_iff env lvl _
          | succ i =>
            cases hz : (levelTrace env lvl ((iterationCap env lvl).toNat)
                (levelStart env ts lvl))[i]? with
            | none =>
              have hlen := List.getElem?_eq_none_iff.mp hz
              have := (List.getElem?_eq_some_iff.mp hy).1
              omega
            | some z =>
              rw [levelTrace_step env lvl _ _ i y z hz hy]
              exact fails_pos_iff env lvl _
        constructor
        · intro h
          cases ha : x.accept with
          | true =>
            exfalso
            rw [hxe] at ha h
            rw [((lambda_levelIteration env lvl _).1 ha).2] at h
            omega
          | false =>
            refine ⟨rfl, j, y, rfl, hy, ?_⟩
            rw [hxe] at ha h
            rw [((lambda_levelIteration env lvl _).2 ha).2] at h
            apply hyf.mp
            have : (nextPass y).fails = y.fails := rfl
            omega
        · rintro ⟨ha, j', y', hj, hy', hya⟩
          have hjj : j' = j := by omega
          subst hjj
          rw [hy] at hy'
          cases hy'
          rw [hxe] at ha ⊢
          rw [((lambda_levelIteration env lvl _).2 ha).2]
          have : (nextPass y).fails = y.fails := rfl
          have := hyf.mpr hya
          omega

/-- C15, the iteration caps as the code has them: `maxIterations = {5, 5, 10, 30, 50}` is
indexed by the level number, and the quit test of level `lvl` compares `iteration` with
`maxIterations[lvl]`.  So the cap does not decrease with the level number: of two levels the
coarser one (larger index) has a cap at least as large as the finer one. -/
theorem iteration_caps (env : Env) (l1 l2 : Nat) (h12 : l1 ≤ l2) (h2 : l2 < 5) :
    maxIterations = [5, 5, 10, 30, 50] ∧
    maxIterations.getD l1 0 ≤ maxIterations.getD l2 0 ∧
    (∀ st : LevelState, st.iteration ≥ maxIterations.getD l1 0 → quitOpt env l1 st = true) := by
  refine ⟨rfl, ?_, fun st h => ?_⟩
  · have h1 : l1 < 5 := by omega
    interval_cases l2 <;> interval_cases l1 <;> simp_all [maxIterations]
  · unfold quitOpt
    rw [Bool.or_eq_true, Bool.or_eq_true]
    refine Or.inl (Or.inr (decide_eq_true ?_))
    rw [iterationCap_of_lt env l1 (by omega)]
    exact_mod_cast h

theorem iteration_caps_witness :
    (0 : Nat) ≤ 4 ∧ (4 : Nat) < 5 ∧ maxIterations.getD 0 0 ≤ maxIterations.getD 4 0 :=
  ⟨by decide, by decide, (iteration_caps exampleEnv 0 4 (by decide) (by decide)).2.1⟩

/-- C15, counterexample to the claim as stated: the finest level 0 has the cap 5 and the
coarser level 4 the cap 50, so the finer level does not have a cap at least as large as the
coarser one. -/
theorem iteration_caps_counterexample :
    maxIterations.getD 0 0 = 5 ∧ maxIterations.getD 4 0 = 50 ∧
      ¬ (maxIterations.getD 4 0 ≤ maxIterations.getD 0 0) := by
  decide

theorem doStepPoint_of_good (lambda : ℚ) (inc : Vec8f) (jb : Vec10f) (p : Pnt)
    (hg : p.isGood = true) :
    doStepPoint lambda inc jb p =
      { p with
        idepth_new :=
          min 50 (max (1 / 1000) (p.idepth +
            max (-(min (1 / 4 * p.maxstep) (10 ^ 10)))
              (min (-(jb 8 + ∑ k : Fin 8, jb (Fin.castLE (by decide) k) * inc k) * jb 9 /
                (1 + lambda)) (min (1 / 4 * p.maxstep) (10 ^ 10))))) } := by
  unfold doStepPoint
  simp only [hg, Bool.not_true, Bool.false_eq_true, if_false]
  congr 1
  have hm : (if (1 / 4 : ℚ) * p.maxstep > 10 ^ 10 then (10 ^ 10 : ℚ) else 1 / 4 * p.maxstep) =
      min (1 / 4 * p.maxstep) (10 ^ 10) := by
    split_ifs with h
    · exact (min_eq_right (le_of_lt h)).symm
    · exact (min_eq_left (not_lt.mp h)).symm
  rw [hm]
  generalize min (1 / 4 * p.maxstep) (10 ^ 10) = m
  generalize -(jb 8 + ∑ k : Fin 8, jb (Fin.castLE (by decide) k) * inc k) * jb 9 /
    (1 + lambda) = step
  have h1 : (if step > m then m else step) = min step m := by
    split_ifs with h
    · exact (min_eq_right (le_of_lt h)).symm
    · exact (min_eq_left (not_lt.mp h)).symm
  rw [h1]
  generalize min step m = step1
  have h2 : (if step1 < -m then -m else step1) = max (-m) step1 := by
    split_ifs with h
    · exact (max_eq_left (le_of_lt h)).symm
    · exact (max_eq_right (not_lt.mp h)).symm
  rw [h2]
  generalize p.idepth + max (-m) step1 = x
  have h3 : (if x < 1 / 1000 then (1 / 1000 : ℚ) else x) = max (1 / 1000) x := by
    split_ifs with h
    · exact (max_eq_left (le_of_lt h)).symm
    · exact (max_eq_right (not_lt.mp h)).symm
  rw [h3]
  generalize max (1 / 1000) x = y
  split_ifs with h
  · exact (min_eq_left (le_of_lt h)).symm
  · exact (min_eq_right (not_lt.mp h)).symm

/-- C16 (trial depth step).  For a good point `doStep` computes
`step = -(Jb[8] + Jb[0..7]·inc) * Jb[9] / (1 + lambda)` from the current buffer `JbBuffer[i]`,
clips it to `[-m, m]` with `m = min(0.25*maxstep, 1e10)` (first from above, then from below),
and stores `idepth + step` clamped to `[1e-3, 50]` as `idepth_new`; so a good point has
`1e-3 <= idepth_new <= 50` afterwards.  No other field of the point changes, in particular
not `idepth`; a bad point and the points of the other levels are left as they are. -/
theorem doStep_trial_depth (s : CoarseInitializer) (lvl : Nat) (lambda : ℚ) (inc : Vec8f)
    (i : Nat) (p : Pnt) (hp : (s.points lvl)[i]? = some p) :
    ∃ q, ((s.doStep lvl lambda inc).points lvl)[i]? = some q ∧
      q.idepth = p.idepth ∧
      (p.isGood = false → q = p) ∧
      (p.isGood = true →
        q =
          { p with
            idepth_new :=
              min 50 (max (1 / 1000) (p.idepth +
                max (-(min (1 / 4 * p.maxstep) (10 ^ 10)))
                  (min (-(s.JbBuffer i 8 + ∑ k : Fin 8,
                      s.JbBuffer i (Fin.castLE (by decide) k) * inc k) * s.JbBuffer i 9 /
                    (1 + lambda)) (min (1 / 4 * p.maxstep) (10 ^ 10))))) } ∧
        1 / 1000 ≤ q.idepth_new ∧ q.idepth_new ≤ 50) ∧
      (s.doStep lvl lambda inc).numPoints lvl = s.numPoints lvl ∧
      (∀ l, l ≠ lvl → (s.doStep lvl lambda inc).points l = s.points l) := by
  have hpts : (s.doStep lvl lambda inc).points lvl =
      (s.points lvl).mapIdx fun i p => doStepPoint lambda inc (s.JbBuffer i) p :=
    points_setPoints_same s lvl _
  refine ⟨doStepPoint lambda inc (s.JbBuffer i) p, ?_, ?_, ?_, ?_, ?_, ?_⟩
  · rw [hpts, List.getElem?_mapIdx, hp]
    rfl
  · unfold doStepPoint
    split_ifs <;> rfl
  · intro hb
    unfold doStepPoint
    simp [hb]
  · intro hg
    rw [doStepPoint_of_good lambda inc (s.JbBuffer i) p hg]
    refine ⟨rfl, ?_, ?_⟩
    · exact le_min (by norm_num) (le_max_left _ _)
    · exact min_le_left _ _
  · unfold numPoints
    rw [hpts, List.length_mapIdx]
  · intro l hl
    exact points_setPoints_ne s lvl l _ hl

/-- Point 3 of the example level (good, `idepth = 3`, zero buffer): the step is 0, so `doStep`
leaves `idepth = 3` and stores `idepth_new = 3`. -/
theorem doStep_trial_depth_witness :
    ((exampleState false fineUp coarseUp).points 0)[3]? = some (examplePnt true 3 3 2 4) ∧
      Option.map Pnt.idepth
        (((exampleState false fineUp coarseUp).doStep 0 (1 / 10) 0).points 0)[3]? = some 3 ∧
      Option.map Pnt.idepth_new
        (((exampleState false fineUp coarseUp).doStep 0 (1 / 10) 0).points 0)[3]? = some 3 := by
  obtain ⟨q, hq, hid, _, hg, _⟩ := doStep_trial_depth (exampleState false fineUp coarseUp) 0
    (1 / 10) 0 3 (examplePnt true 3 3 2 4) rfl
  refine ⟨rfl, ?_, ?_⟩
  · rw [hq]
    exact congrArg some hid
  · rw [hq, (hg rfl).1]
    decide!

theorem halved_eq (x0 : ℚ) (l : Nat) : halved x0 l = x0 / 2 ^ l := by
  induction l with
  | zero => simp [halved]
  | succ n ih =>
    rw [halved, ih, pow_succ]
    field_simp

/-- C19 (pyramid intrinsics).  After `makeK`, for every level `l` with
`1 <= l < pyrLevelsUsed`: `fx[l] = fx[l-1]/2` and `fy[l] = fy[l-1]/2`, so `fx[l] = fx[0]/2^l`;
`cx[l] = (cx[0] + 0.5)/2^l - 0.5` and `cy[l]` likewise, so `cx[l] + 0.5 = (cx[l-1] + 0.5)/2`;
`w[l] = floor(w[0]/2^l)` and `h[l] = floor(h[0]/2^l)`.  Level 0 holds the base calibration.
For every level below `pyrLevelsUsed` with `fx` and `fy` non-zero the stored inverse
intrinsics are `fxi = 1/fx`, `fyi = 1/fy`, `cxi = -cx/fx`, `cyi = -cy/fy`. -/
theorem makeK_pyramid (env : Env) (s : CoarseInitializer) (HCalib : CalibHessian) (l : Nat)
    (h1 : 1 ≤ l) (hl : l < env.pyrLevelsUsed) :
    ((s.makeK env HCalib).fx 0 = HCalib.fxl ∧ (s.makeK env HCalib).fy 0 = HCalib.fyl ∧
      (s.makeK env HCalib).cx 0 = HCalib.cxl ∧ (s.makeK env HCalib).cy 0 = HCalib.cyl ∧
      (s.makeK env HCalib).w 0 = env.wG0 ∧ (s.makeK env HCalib).h 0 = env.hG0) ∧
    ((s.makeK env HCalib).fx l = (s.makeK env HCalib).fx (l - 1) / 2 ∧
      (s.makeK env HCalib).fy l = (s.makeK env HCalib).fy (l - 1) / 2 ∧
      (s.makeK env HCalib).fx l = (s.makeK env HCalib).fx 0 / 2 ^ l ∧
      (s.makeK env HCalib).fy l = (s.makeK env HCalib).fy 0 / 2 ^ l) ∧
    ((s.makeK env HCalib).cx l = ((s.makeK env HCalib).cx 0 + 1 / 2) / 2 ^ l - 1 / 2 ∧
      (s.makeK env HCalib).cy l = ((s.makeK env HCalib).cy 0 + 1 / 2) / 2 ^ l - 1 / 2 ∧
      (s.makeK env HCalib).cx l + 1 / 2 = ((s.makeK env HCalib).cx (l - 1) + 1 / 2) / 2 ∧
      (s.makeK env HCalib).cy l + 1 / 2 = ((s.makeK env HCalib).cy (l - 1) + 1 / 2) / 2) ∧
    ((s.makeK env HCalib).w l = (s.makeK env HCalib).w 0 / 2 ^ l ∧
      (s.makeK env HCalib).h l = (s.makeK env HCalib).h 0 / 2 ^ l) ∧
    (∀ level, level < env.pyrLevelsUsed → (s.makeK env HCalib).fx level ≠ 0 →
      (s.makeK env HCalib).fy level ≠ 0 →
      (s.makeK env HCalib).fxi level = 1 / (s.makeK env HCalib).fx level ∧
      (s.makeK env HCalib).fyi level = 1 / (s.makeK env HCalib).fy level ∧
      (s.makeK env HCalib).cxi level =
        -(s.makeK env HCalib).cx level / (s.makeK env HCalib).fx level ∧
      (s.makeK env HCalib).cyi level =
        -(s.makeK env HCalib).cy level / (s.makeK env HCalib).fy level) := by
  have hl0 : l ≠ 0 := by omega
  have hmax : l < max 1 env.pyrLevelsUsed := lt_max_of_lt_right hl
  have hmax1 : l - 1 < max 1 env.pyrLevelsUsed := by omega
  have hmax0 : 0 < max 1 env.pyrLevelsUsed := lt_max_of_lt_left Nat.one_pos
  have hfx : ∀ level, level < max 1 env.pyrLevelsUsed →
      (s.makeK env HCalib).fx level = halved HCalib.fxl level := by
    intro level h
    show (if level < max 1 env.pyrLevelsUsed then halved HCalib.fxl level else s.fx level) = _
    rw [if_pos h]
  have hfy : ∀ level, level < max 1 env.pyrLevelsUsed →
      (s.makeK env HCalib).fy level = halved HCalib.fyl level := by
    intro level h
    show (if level < max 1 env.pyrLevelsUsed then halved HCalib.fyl level else s.fy level) = _
    rw [if_pos h]
  have hcx : ∀ level, (s.makeK env HCalib).cx level =
      if level = 0 then HCalib.cxl
      else if 1 ≤ level ∧ level < env.pyrLevelsUsed then
        (HCalib.cxl + 1 / 2) / (2 ^ level : ℚ) - 1 / 2 else s.cx level := fun _ => rfl
  have hcy : ∀ level, (s.makeK env HCalib).cy level =
      if level = 0 then HCalib.cyl
      else if 1 ≤ level ∧ level < env.pyrLevelsUsed then
        (HCalib.cyl + 1 / 2) / (2 ^ level : ℚ) - 1 / 2 else s.cy level := fun _ => rfl
  have hw : ∀ level, (s.makeK env HCalib).w level =
      if level = 0 then env.wG0
      else if 1 ≤ level ∧ level < env.pyrLevelsUsed then env.wG0 >>> level else s.w level :=
    fun _ => rfl
  have hh : ∀ level, (s.makeK env HCalib).h level =
      if level = 0 then env.hG0
      else if 1 ≤ level ∧ level < env.pyrLevelsUsed then env.hG0 >>> level else s.h level :=
    fun _ => rfl
  have hcxl : (s.makeK env HCalib).cx l = (HCalib.cxl + 1 / 2) / (2 ^ l : ℚ) - 1 / 2 := by
    rw [hcx, if_neg hl0, if_pos ⟨h1, hl⟩]
  have hcyl : (s.makeK env HCalib).cy l = (HCalib.cyl + 1 / 2) / (2 ^ l : ℚ) - 1 / 2 := by
    rw [hcy, if_neg hl0, if_pos ⟨h1, hl⟩]
  have hcx0 : (s.makeK env HCalib).cx 0 = HCalib.cxl := by rw [hcx, if_pos rfl]
  have hcy0 : (s.makeK env HCalib).cy 0 = HCalib.cyl := by rw [hcy, if_pos rfl]
  have hpow : (2 : ℚ) ^ l = 2 ^ (l - 1) * 2 := by
    rw [← pow_succ]
    congr 1
    omega
  have hcxp : (s.makeK env HCalib).cx (l - 1) + 1 / 2 = (HCalib.cxl + 1 / 2) / 2 ^ (l - 1) := by
    rw [hcx]
    by_cases h0 : l - 1 = 0
    · rw [if_pos h0, h0]; simp
    · rw [if_neg h0, if_pos ⟨by omega, by omega⟩]; ring
  have hcyp : (s.makeK env HCalib).cy (l - 1) + 1 / 2 = (HCalib.cyl + 1 / 2) / 2 ^ (l - 1) := by
    rw [hcy]
    by_cases h0 : l - 1 = 0
    · rw [if_pos h0, h0]; simp
    · rw [if_neg h0, if_pos ⟨by omega, by omega⟩]; ring
  have hp2 : (2 : ℚ) ^ (l - 1) ≠ 0 := pow_ne_zero _ (by norm_num)
  refine ⟨⟨?_, ?_, hcx0, hcy0, ?_, ?_⟩, ⟨?_, ?_, ?_, ?_⟩, ⟨?_, ?_, ?_, ?_⟩, ⟨?_, ?_⟩, ?_⟩
  · rw [hfx 0 hmax0]; rfl
  · rw [hfy 0 hmax0]; rfl
  · rw [hw, if_pos rfl]
  · rw [hh, if_pos rfl]
  · rw [hfx l hmax, hfx (l - 1) hmax1, halved_eq, halved_eq, hpow]
    field_simp
  · rw [hfy l hmax, hfy (l - 1) hmax1, halved_eq, halved_eq, hpow]
    field_simp
  · rw [hfx l hmax, hfx 0 hmax0, halved_eq]; rfl
  · rw [hfy l hmax, hfy 0 hmax0, halved_eq]; rfl
  · rw [hcxl, hcx0]
  · rw [hcyl, hcy0]
  · rw [hcxl, hcxp, hpow]
    field_simp
    ring
  · rw [hcyl, hcyp, hpow]
    field_simp
    ring
  · rw [hw l, if_neg hl0, if_pos ⟨h1, hl⟩, hw 0, if_pos rfl, Nat.shiftRight_eq_div_pow]
  · rw [hh l, if_neg hl0, if_pos ⟨h1, hl⟩, hh 0, if_pos rfl, Nat.shiftRight_eq_div_pow]
  · intro level hlev hfx0 hfy0
    have hKi : (s.makeK env HCalib).Ki level = mat33Inverse
        ![![(s.makeK env HCalib).fx level, 0, (s.makeK env HCalib).cx level],
          ![0, (s.makeK env HCalib).fy level, (s.makeK env HCalib).cy level], ![0, 0, 1]] := by
      show (if level < env.pyrLevelsUsed then mat33Inverse _ else s.Ki level) = _
      rw [if_pos hlev]
      show mat33Inverse (if level < env.pyrLevelsUsed then _ else s.K level) = _
      rw [if_pos hlev]
      rfl
    have e1 : (s.makeK env HCalib).fxi level = (s.makeK env HCalib).Ki level 0 0 := by
      show (if level < env.pyrLevelsUsed then _ else s.fxi level) = _
      rw [if_pos hlev]
      rfl
    have e2 : (s.makeK env HCalib).fyi level = (s.makeK env HCalib).Ki level 1 1 := by
      show (if level < env.pyrLevelsUsed then _ else s.fyi level) = _
      rw [if_pos hlev]
      rfl
    have e3 : (s.makeK env HCalib).cxi level = (s.makeK env HCalib).Ki level 0 2 := by
      show (if level < env.pyrLevelsUsed then _ else s.cxi level) = _
      rw [if_pos hlev]
      rfl
    have e4 : (s.makeK env HCalib).cyi level = (s.makeK env HCalib).Ki level 1 2 := by
      show (if level < env.pyrLevelsUsed then _ else s.cyi level) = _
      rw [if_pos hlev]
      rfl
    rw [e1, e2, e3, e4, hKi]
    generalize (s.makeK env HCalib).fx level = fx at hfx0 ⊢
    generalize (s.makeK env HCalib).fy level = fy at hfy0 ⊢
    generalize (s.makeK env HCalib).cx level = cx
    generalize (s.makeK env HCalib).cy level = cy
    unfold mat33Inverse
    simp only [Matrix.cons_val_zero, Matrix.cons_val_one, Matrix.head_cons, Matrix.cons_val_two,
      Matrix.tail_cons]
    refine ⟨?_, ?_, ?_, ?_⟩ <;> field_simp <;> ring

/-- Level 1 of the example pyramid (base calibration `fx = fy = 50`, `cx = 30.7`, `cy = 12.7`,
68 x 32 pixels): `fx[1] = fy[1] = 25`, `cx[1] = 15.1`, `cy[1] = 6.1`, 34 x 16 pixels,
`fxi[1] = 1/25` and `cxi[1] = -15.1/25`. -/
theorem makeK_pyramid_witness :
    1 ≤ 1 ∧ 1 < exampleEnv.pyrLevelsUsed ∧
      ((construct exampleEnv rawMemory).makeK exampleEnv
        { fxl := 50, fyl := 50, cxl := 307 / 10, cyl := 127 / 10 }).fx 1 = 25 ∧
      ((construct exampleEnv rawMemory).makeK exampleEnv
        { fxl := 50, fyl := 50, cxl := 307 / 10, cyl := 127 / 10 }).cx 1 = 151 / 10 ∧
      ((construct exampleEnv rawMemory).makeK exampleEnv
        { fxl := 50, fyl := 50, cxl := 307 / 10, cyl := 127 / 10 }).cy 1 = 61 / 10 ∧
      ((construct exampleEnv rawMemory).makeK exampleEnv
        { fxl := 50, fyl := 50, cxl := 307 / 10, cyl := 127 / 10 }).w 1 = 34 ∧
      ((construct exampleEnv rawMemory).makeK exampleEnv
        { fxl := 50, fyl := 50, cxl := 307 / 10, cyl := 127 / 10 }).h 1 = 16 ∧
      ((construct exampleEnv rawMemory).makeK exampleEnv
        { fxl := 50, fyl := 50, cxl := 307 / 10, cyl := 127 / 10 }).fxi 1 = 1 / 25 ∧
      ((construct exampleEnv rawMemory).makeK exampleEnv
        { fxl := 50, fyl := 50, cxl := 307 / 10, cyl := 127 / 10 }).cxi 1 = -(151 / 10) / 25 := by
  obtain ⟨⟨hfx0, _, hcx0, hcy0, hw0, hh0⟩, ⟨hfx, _, _, _⟩, ⟨hcx, hcy, _, _⟩, ⟨hw, hh⟩, hinv⟩ :=
    makeK_pyramid exampleEnv (construct exampleEnv rawMemory)
      { fxl := 50, fyl := 50, cxl := 307 / 10, cyl := 127 / 10 } 1 (le_refl 1) (by decide)
  have h25 : ((construct exampleEnv rawMemory).makeK exampleEnv
      { fxl := 50, fyl := 50, cxl := 307 / 10, cyl := 127 / 10 }).fx 1 = 25 := by
    rw [hfx, hfx0]
    norm_num
  have h151 : ((construct exampleEnv rawMemory).makeK exampleEnv
      { fxl := 50, fyl := 50, cxl := 307 / 10, cyl := 127 / 10 }).cx 1 = 151 / 10 := by
    rw [hcx, hcx0]
    norm_num
  obtain ⟨hfxi, _, hcxi, _⟩ := hinv 1 (by decide) (by rw [h25]; norm_num) (by decide!)
  refine ⟨le_refl 1, by decide, h25, h151, ?_, ?_, ?_, ?_, ?_⟩
  · rw [hcy, hcy0]
    norm_num
  · rw [hw, hw0]
    rfl
  · rw [hh, hh0]
    rfl
  · rw [hfxi, h25]
  · rw [hcxi, h151, h25]

end CoarseInitializer

theorem processPoint_pts (samples : Pnt → List (Option Sample)) (st : PassAcc) (i : Nat) :
    (processPoint samples st i).pts =
      match st.pts[i]? with
      | none => st.pts
      | some p => st.pts.set i (processPointPnt samples p) := by
  unfold processPoint processPointPnt pointPattern
  cases hp : st.pts[i]? with
  | none => rfl
  | some point0 =>
    simp only []
    split_ifs <;> rfl

theorem getElem?_processPoint (samples : Pnt → List (Option Sample)) (st : PassAcc)
    (i j : Nat) :
    (processPoint samples st i).pts[j]? =
      if j = i then st.pts[j]?.map (processPointPnt samples) else st.pts[j]? := by
  rw [processPoint_pts]
  cases hp : st.pts[i]? with
  | none =>
    by_cases hj : j = i
    · subst hj; simp [hp]
    · simp [hj]
  | some p =>
    have hi : i < st.pts.length := (List.getElem?_eq_some_iff.mp hp).1
    by_cases hj : j = i
    · subst hj
      simp [hp, List.getElem?_set_self hi]
    · have hne : i ≠ j := fun e => hj e.symm
      simp [hj, List.getElem?_set_ne hne]

theorem getElem?_foldl_processPoint (samples : Pnt → List (Option Sample)) (n : Nat)
    (st : PassAcc) (j : Nat) :
    ((List.range n).foldl (processPoint samples) st).pts[j]? =
      if j < n then st.pts[j]?.map (processPointPnt samples) else st.pts[j]? := by
  induction n with
  | zero => simp
  | succ n ih =>
    rw [List.range_succ, List.foldl_append, List.foldl_cons, List.foldl_nil,
      getElem?_processPoint, ih]
    by_cases hj : j = n
    · subst hj; simp
    · by_cases hlt : j < n
      · have : j < n + 1 := by omega
        simp [hj, hlt, this]
      · have : ¬ j < n + 1 := by omega
        simp [hj, hlt, this]

theorem length_foldl_processPoint (samples : Pnt → List (Option Sample)) (n : Nat)
    (st : PassAcc) :
    ((List.range n).foldl (processPoint samples) st).pts.length = st.pts.length := by
  induction n with
  | zero => rfl
  | succ n ih =>
    rw [List.range_succ, List.foldl_append, List.foldl_cons, List.foldl_nil,
      (processPoint_spec samples _ n).1, ih]

theorem foldl_processPoint_pts (samples : Pnt → List (Option Sample)) (st : PassAcc) :
    ((List.range st.pts.length).foldl (processPoint samples) st).pts =
      st.pts.map (processPointPnt samples) := by
  apply List.ext_getElem?
  intro j
  rw [getElem?_foldl_processPoint, List.getElem?_map]
  split_ifs with h
  · rfl
  · rw [List.getElem?_eq_none (not_lt.mp h)]
    rfl

theorem num_processPoint (samples : Pnt → List (Option Sample)) (st : PassAcc) (i : Nat) :
    (processPoint samples st i).E.num = st.E.num + if i < st.pts.length then 1 else 0 := by
  unfold processPoint
  cases hp : st.pts[i]? with
  | none =>
    have : ¬ i < st.pts.length := by
      intro h
      rw [List.getElem?_eq_getElem h] at hp
      exact Option.noConfusion hp
    simp [this]
  | some point0 =>
    have hi : i < st.pts.length := (List.getElem?_eq_some_iff.mp hp).1
    simp only [if_pos hi]
    split_ifs <;> rfl

theorem num_foldl_processPoint (samples : Pnt → List (Option Sample)) (n : Nat)
    (st : PassAcc) (hn : n ≤ st.pts.length) :
    ((List.range n).foldl (processPoint samples) st).E.num = st.E.num + n := by
  induction n with
  | zero => rfl
  | succ n ih =>
    rw [List.range_succ, List.foldl_append, List.foldl_cons, List.foldl_nil,
      num_processPoint, ih (by omega), length_foldl_processPoint, if_pos (by omega)]
    rfl

theorem num_foldl_updateSingle (f : Pnt → ℚ) (l : List Pnt) (E : Accumulator11) :
    (l.foldl (fun e p => e.updateSingle (f p)) E).num = E.num + l.length := by
  induction l generalizing E with
  | nil => rfl
  | cons a l ih =>
    rw [List.foldl_cons, ih, List.length_cons]
    show E.num + 1 + l.length = _
    omega

theorem schurPoint_pts (alphaOpt cw : ℚ) (st : SchurAcc) (i : Nat) :
    (schurPoint alphaOpt cw st i).pts =
      match st.pts[i]? with
      | none => st.pts
      | some p => st.pts.set i (schurPointPnt (st.jbNew i 9) p) := by
  unfold schurPoint schurPointPnt
  cases hp : st.pts[i]? with
  | none => rfl
  | some point =>
    have hi : i < st.pts.length := (List.getElem?_eq_some_iff.mp hp).1
    simp only []
    split_ifs
    · apply List.ext_getElem?
      intro j
      by_cases hj : i = j
      · subst hj
        rw [List.getElem?_set_self hi, hp]
      · rw [List.getElem?_set_ne hj]
    all_goals rfl

theorem getElem?_schurPoint (alphaOpt cw : ℚ) (st : SchurAcc) (i j : Nat) :
    (schurPoint alphaOpt cw st i).pts[j]? =
      if j = i then st.pts[j]?.map (schurPointPnt (st.jbNew i 9)) else st.pts[j]? := by
  rw [schurPoint_pts]
  cases hp : st.pts[i]? with
  | none =>
    by_cases hj : j = i
    · subst hj; simp [hp]
    · simp [hj]
  | some p =>
    have hi : i < st.pts.length := (List.getElem?_eq_some_iff.mp hp).1
    by_cases hj : j = i
    · subst hj
      simp [hp, List.getElem?_set_self hi]
    · have hne : i ≠ j := fun e => hj e.symm
      simp [hj, List.getElem?_set_ne hne]

theorem getElem?_foldl_schurPoint (alphaOpt cw : ℚ) (n : Nat) (st : SchurAcc) :
    (∀ j, ((List.range n).foldl (schurPoint alphaOpt cw) st).pts[j]? =
      if j < n then st.pts[j]?.map (schurPointPnt (st.jbNew j 9)) else st.pts[j]?) ∧
    ∀ j, n ≤ j → ((List.range n).foldl (schurPoint alphaOpt cw) st).jbNew j = st.jbNew j := by
  induction n with
  | zero => exact ⟨fun j => by simp, fun j _ => rfl⟩
  | succ n ih =>
    rw [List.range_succ, List.foldl_append, List.foldl_cons, List.foldl_nil]
    obtain ⟨ih1, ih2⟩ := ih
    refine ⟨fun j => ?_, fun j hj => ?_⟩
    · rw [getElem?_schurPoint, ih1, ih2 n (le_refl n)]
      by_cases hj : j = n
      · subst hj; simp
      · by_cases hlt : j < n
        · have : j < n + 1 := by omega
          simp [hj, hlt, this]
        · have : ¬ j < n + 1 := by omega
          simp [hj, hlt, this]
    · rw [((schurPoint_spec alphaOpt cw _ n).2.1 j (by omega)).2]
      exact ih2 j (by omega)

theorem length_foldl_schurPoint (alphaOpt cw : ℚ) (n : Nat) (st : SchurAcc) :
    ((List.range n).foldl (schurPoint alphaOpt cw) st).pts.length = st.pts.length := by
  induction n with
  | zero => rfl
  | succ n ih =>
    rw [List.range_succ, List.foldl_append, List.foldl_cons, List.foldl_nil,
      (schurPoint_spec alphaOpt cw _ n).1, ih]

theorem patternSample_maxstep (env : Env) (s : CoarseInitializer) (lvl : Nat) (refToNew : SE3)
    (refToNew_aff : AffLight) (p : Pnt) (m : ℚ) :
    patternSamples env s lvl refToNew refToNew_aff { p with maxstep := m } =
      patternSamples env s lvl refToNew refToNew_aff p := rfl

theorem patternLoop_fst (l : List (Option Sample)) (acc : PatternAcc) :
    (patternLoop l acc).1 = false ↔ none ∈ l := by
  induction l generalizing acc with
  | nil => simp [patternLoop]
  | cons a l ih =>
    cases a with
    | none => simp [patternLoop]
    | some sm =>
      rw [patternLoop, ih]
      simp

theorem patternLoop_energy (l : List (Option Sample)) (acc : PatternAcc) (h : none ∉ l) :
    (patternLoop l acc).2.energy =
      acc.energy + (l.map fun o => (o.map Sample.energy).getD 0).sum := by
  induction l generalizing acc with
  | nil => simp [patternLoop]
  | cons a l ih =>
    cases a with
    | none => exact absurd (List.mem_cons_self _ _) h
    | some sm =>
      rw [patternLoop, ih _ (fun hm => h (List.mem_cons_of_mem _ hm))]
      simp [patternStep, add_assoc]

theorem patternSample_eq_none (env : Env) (s : CoarseInitializer) (lvl : Nat) (refToNew : SE3)
    (refToNew_aff : AffLight) (point : Pnt) (idx : Nat) :
    patternSample env s lvl refToNew refToNew_aff point idx = none ↔
      ¬ (1 < (projectSample s lvl refToNew point (env.patternP idx).1 (env.patternP idx).2).Ku ∧
          1 < (projectSample s lvl refToNew point (env.patternP idx).1 (env.patternP idx).2).Kv ∧
          (projectSample s lvl refToNew point (env.patternP idx).1 (env.patternP idx).2).Ku <
            (s.w lvl : ℚ) - 2 ∧
          (projectSample s lvl refToNew point (env.patternP idx).1 (env.patternP idx).2).Kv <
            (s.h lvl : ℚ) - 2) ∨
        (projectSample s lvl refToNew point (env.patternP idx).1
          (env.patternP idx).2).new_idepth ≤ 0 ∨
        env.getInterpolatedElement33 (s.newFrame.dIp lvl)
          (projectSample s lvl refToNew point (env.patternP idx).1 (env.patternP idx).2).Ku
          (projectSample s lvl refToNew point (env.patternP idx).1 (env.patternP idx).2).Kv
          (s.w lvl) = none ∨
        env.getInterpolatedElement31 (s.firstFrame.dIp lvl)
          (point.u + ((env.patternP idx).1 : ℚ)) (point.v + ((env.patternP idx).2 : ℚ))
          (s.w lvl) = none := by
  unfold patternSample
  simp only []
  generalize projectSample s lvl refToNew point (env.patternP idx).1 (env.patternP idx).2 = pr
  by_cases hin : sampleInside (s.w lvl) (s.h lvl) pr = true
  · have hin2 := hin
    unfold sampleInside at hin2
    simp only [Bool.and_eq_true, decide_eq_true_eq] at hin2
    obtain ⟨⟨⟨⟨h1, h2⟩, h3⟩, h4⟩, h5⟩ := hin2
    have hnot : ¬ ((!sampleInside (s.w lvl) (s.h lvl) pr) = true) := by simp [hin]
    rw [if_neg hnot]
    cases h33 : env.getInterpolatedElement33 (s.newFrame.dIp lvl) pr.Ku pr.Kv (s.w lvl) with
    | none => simp
    | some hit =>
      cases h31 : env.getInterpolatedElement31 (s.firstFrame.dIp lvl)
          (point.u + ((env.patternP idx).1 : ℚ)) (point.v + ((env.patternP idx).2 : ℚ))
          (s.w lvl) with
      | none => simp
      | some rlR =>
        constructor
        · intro h
          exact Option.noConfusion h
        · intro h
          rcases h with h | h | h | h
          · exact absurd ⟨h1, h2, h3, h4⟩ h
          · exact absurd h5 (not_lt.mpr h)
          · exact Option.noConfusion h
          · exact Option.noConfusion h
  · have hpos : (!sampleInside (s.w lvl) (s.h lvl) pr) = true := by simpa using hin
    rw [if_pos hpos]
    simp only [true_iff]
    unfold sampleInside at hin
    simp only [Bool.and_eq_true, decide_eq_true_eq] at hin
    by_cases hm : 1 < pr.Ku ∧ 1 < pr.Kv ∧ pr.Ku < (s.w lvl : ℚ) - 2 ∧ pr.Kv < (s.h lvl : ℚ) - 2
    · right; left
      by_contra hd
      exact hin ⟨⟨⟨⟨hm.1, hm.2.1⟩, hm.2.2.1⟩, hm.2.2.2⟩, not_le.mp hd⟩
    · exact Or.inl hm

theorem processPoint_of_bad (samples : Pnt → List (Option Sample)) (st : PassAcc) (i : Nat)
    (p : Pnt) (hp : st.pts[i]? = some p) (hbad : (processPointPnt samples p).isGood_new = false) :
    (processPoint samples st i).acc9 = st.acc9 ∧
      (processPoint samples st i).E = st.E.updateSingle p.energy.1 := by
  unfold processPointPnt pointPattern at hbad
  unfold processPoint
  rw [hp]
  simp only [] at hbad ⊢
  split_ifs at hbad ⊢
  all_goals exact ⟨rfl, rfl⟩

theorem schurPoint_of_bad (alphaOpt cw : ℚ) (st : SchurAcc) (i : Nat) (x : Pnt)
    (hx : st.pts[i]? = some x) (hbad : x.isGood_new = false) :
    schurPoint alphaOpt cw st i = st := by
  unfold schurPoint
  rw [hx]
  simp [hbad]

theorem isGood_new_processPointPnt (samples : Pnt → List (Option Sample)) (p : Pnt)
    (hg : p.isGood = true) :
    ((processPointPnt samples p).isGood_new = false ↔
      none ∈ samples { p with maxstep := 10 ^ 10 } ∨
        (pointPattern samples p).2.energy > p.outlierTH * 20) ∧
    ((processPointPnt samples p).isGood_new = false →
      processPointPnt samples p =
        { p with
          maxstep := (pointPattern samples p).2.maxstep, isGood_new := false
          energy_new := p.energy }) := by
  have hfst : (pointPattern samples p).1 = false ↔ none ∈ samples { p with maxstep := 10 ^ 10 } :=
    patternLoop_fst _ _
  unfold processPointPnt
  simp only []
  have hng : ¬ ((!p.isGood) = true) := by simp [hg]
  rw [if_neg hng]
  by_cases hc : (!(pointPattern samples p).1 ||
      decide ((pointPattern samples p).2.energy > p.outlierTH * 20)) = true
  · rw [if_pos hc]
    refine ⟨⟨fun _ => ?_, fun _ => rfl⟩, fun _ => rfl⟩
    rw [Bool.or_eq_true, decide_eq_true_eq] at hc
    rcases hc with h | h
    · exact Or.inl (hfst.mp (by simpa using h))
    · exact Or.inr h
  · rw [if_neg hc]
    refine ⟨⟨fun h => Bool.noConfusion h, fun h => ?_⟩, fun h => Bool.noConfusion h⟩
    exfalso
    apply hc
    rw [Bool.or_eq_true, decide_eq_true_eq]
    rcases h with h | h
    · exact Or.inl (by simp [hfst.mpr h])
    · exact Or.inr h

namespace CoarseInitializer

theorem getElem?_points_calcResAndGS (env : Env) (s : CoarseInitializer) (lvl : Nat)
    (refToNew : SE3) (refToNew_aff : AffLight) (i : Nat) :
    ((s.calcResAndGS env lvl refToNew refToNew_aff).1.points lvl)[i]? =
      (s.points lvl)[i]?.map fun p =>
        schurPointPnt
          (((List.range (s.numPoints lvl)).foldl
            (processPoint (patternSamples env s lvl refToNew refToNew_aff))
            { pts := s.points lvl, jbNew := s.JbBuffer_new, acc9 := fun _ _ => 0,
              E := Accumulator11.initialize }).jbNew i 9)
          (alphaPoint (processPointPnt (patternSamples env s lvl refToNew refToNew_aff) p)).1 := by
  have hpts : (s.calcResAndGS env lvl refToNew refToNew_aff).1.points lvl = _ :=
    Function.update_same lvl _ s.points
  rw [hpts, (getElem?_foldl_schurPoint _ _ _ _).1 i]
  simp only [List.getElem?_map]
  have hfold := foldl_processPoint_pts (patternSamples env s lvl refToNew refToNew_aff)
    { pts := s.points lvl, jbNew := s.JbBuffer_new, acc9 := fun _ _ => 0,
      E := Accumulator11.initialize }
  simp only [] at hfold
  unfold numPoints
  rw [hfold, List.getElem?_map]
  by_cases hi : i < (s.points lvl).length
  · rw [if_pos hi]
    cases (s.points lvl)[i]? <;> rfl
  · rw [if_neg hi, List.getElem?_eq_none (not_lt.mp hi)]
    rfl

theorem res2_calcResAndGS (env : Env) (s : CoarseInitializer) (lvl : Nat)
    (refToNew : SE3) (refToNew_aff : AffLight) :
    (s.calcResAndGS env lvl refToNew refToNew_aff).2.res 2 = 2 * (s.numPoints lvl : ℚ) := by
  have h1 := num_foldl_processPoint (patternSamples env s lvl refToNew refToNew_aff)
    (s.numPoints lvl)
    { pts := s.points lvl, jbNew := s.JbBuffer_new, acc9 := fun _ _ => 0,
      E := Accumulator11.initialize } (le_refl _)
  have h2 := length_foldl_processPoint (patternSamples env s lvl refToNew refToNew_aff)
    (s.numPoints lvl)
    { pts := s.points lvl, jbNew := s.JbBuffer_new, acc9 := fun _ _ => 0,
      E := Accumulator11.initialize }
  have key : ∀ pass : PassAcc, pass.E.num = 0 + s.numPoints lvl →
      pass.pts.length = s.numPoints lvl →
      (((pass.pts.foldl (fun e p => e.updateSingle (alphaPoint p).2) pass.E.finish).num : ℕ) : ℚ)
        = 2 * (s.numPoints lvl : ℚ) := by
    intro pass e1 e2
    rw [num_foldl_updateSingle]
    show ((pass.E.num + pass.pts.length : ℕ) : ℚ) = _
    rw [e1, e2]
    push_cast
    ring
  exact key _ h1 h2

end CoarseInitializer

namespace CoarseInitializer

/-- C18 (failure of a point in the residual pass).  Let `p` be a good point at index `i` of the
level and `q` the point that `calcResAndGS` leaves there.  Then `q.isGood_new = false` exactly
when the body of the pattern loop fails for some pattern index (`patternSample .. = none`) or
the energy summed by the pattern loop exceeds `20 * outlierTH`; the body fails for an index
exactly when the projection is outside the margin
`Ku > 1, Kv > 1, Ku < w-2, Kv < h-2`, or `new_idepth <= 0`, or the interpolated intensity of
the new frame or of the reference frame is not finite.  When no index fails, the summed energy
is the sum of the energy terms of all pattern indices.  In the failing case `q` is `p` with
`isGood_new = false`, `energy_new = energy` and the `maxstep` left by the pattern loop; the
body of the point loop leaves the 9x9 accumulator (whose blocks are the 8x8 matrix and the
8x1 vector) as it is and passes the previous energy `energy[0]` to the energy accumulator;
and the body of the Schur-complement loop changes nothing at all.  The pass visits every
point: the number of points is unchanged and the count returned as `res[2]` is twice the
number of points (one `updateSingle` per point in the point loop and one in the alpha
loop). -/
theorem residual_pass_failure (env : Env) (s : CoarseInitializer) (lvl : Nat) (refToNew : SE3)
    (refToNew_aff : AffLight) (i : Nat) (p : Pnt) (hp : (s.points lvl)[i]? = some p)
    (hg : p.isGood = true) :
    (∃ q, ((s.calcResAndGS env lvl refToNew refToNew_aff).1.points lvl)[i]? = some q ∧
      (q.isGood_new = false ↔
        (∃ idx, idx < env.patternNum ∧
          patternSample env s lvl refToNew refToNew_aff p idx = none) ∨
        (pointPattern (patternSamples env s lvl refToNew refToNew_aff) p).2.energy > p.outlierTH * 20) ∧
      (q.isGood_new = false →
        q = { p with
              maxstep := (pointPattern (patternSamples env s lvl refToNew refToNew_aff) p).2.maxstep
              isGood_new := false, energy_new := p.energy } ∧
        (∀ st : PassAcc, st.pts[i]? = some p →
          (processPoint (patternSamples env s lvl refToNew refToNew_aff) st i).acc9 = st.acc9 ∧
          (processPoint (patternSamples env s lvl refToNew refToNew_aff) st i).E = st.E.updateSingle p.energy.1) ∧
        (∀ (alphaOpt cw : ℚ) (st : SchurAcc), st.pts[i]? = some q →
          schurPoint alphaOpt cw st i = st))) ∧
    (∀ idx, patternSample env s lvl refToNew refToNew_aff p idx = none ↔
      ¬ (1 < (projectSample s lvl refToNew p (env.patternP idx).1 (env.patternP idx).2).Ku ∧
          1 < (projectSample s lvl refToNew p (env.patternP idx).1 (env.patternP idx).2).Kv ∧
          (projectSample s lvl refToNew p (env.patternP idx).1 (env.patternP idx).2).Ku <
            (s.w lvl : ℚ) - 2 ∧
          (projectSample s lvl refToNew p (env.patternP idx).1 (env.patternP idx).2).Kv <
            (s.h lvl : ℚ) - 2) ∨
        (projectSample s lvl refToNew p (env.patternP idx).1
          (env.patternP idx).2).new_idepth ≤ 0 ∨
        env.getInterpolatedElement33 (s.newFrame.dIp lvl)
          (projectSample s lvl refToNew p (env.patternP idx).1 (env.patternP idx).2).Ku
          (projectSample s lvl refToNew p (env.patternP idx).1 (env.patternP idx).2).Kv
          (s.w lvl) = none ∨
        env.getInterpolatedElement31 (s.firstFrame.dIp lvl)
          (p.u + ((env.patternP idx).1 : ℚ)) (p.v + ((env.patternP idx).2 : ℚ))
          (s.w lvl) = none) ∧
    ((∀ idx, idx < env.patternNum →
        patternSample env s lvl refToNew refToNew_aff p idx ≠ none) →
      (pointPattern (patternSamples env s lvl refToNew refToNew_aff) p).2.energy =
        ((List.range env.patternNum).map fun idx =>
          ((patternSample env s lvl refToNew refToNew_aff p idx).map Sample.energy).getD 0).sum) ∧
    (s.calcResAndGS env lvl refToNew refToNew_aff).1.numPoints lvl = s.numPoints lvl ∧
    (s.calcResAndGS env lvl refToNew refToNew_aff).2.res 2 = 2 * (s.numPoints lvl : ℚ) := by
  have hmem : none ∈ patternSamples env s lvl refToNew refToNew_aff { p with maxstep := 10 ^ 10 } ↔
      ∃ idx, idx < env.patternNum ∧
        patternSample env s lvl refToNew refToNew_aff p idx = none := by
    rw [patternSample_maxstep]
    unfold patternSamples
    rw [List.mem_map]
    constructor
    · rintro ⟨idx, hidx, h⟩
      exact ⟨idx, List.mem_range.mp hidx, h⟩
    · rintro ⟨idx, hidx, h⟩
      exact ⟨idx, List.mem_range.mpr hidx, h⟩
  obtain ⟨hiff, hval⟩ := isGood_new_processPointPnt (patternSamples env s lvl refToNew refToNew_aff) p hg
  have hq := getElem?_points_calcResAndGS env s lvl refToNew refToNew_aff i
  rw [hp] at hq
  simp only [Option.map_some'] at hq
  have hgn : ∀ jb9 : ℚ, (schurPointPnt jb9 (alphaPoint (processPointPnt (patternSamples env s lvl refToNew refToNew_aff) p)).1).isGood_new =
      (processPointPnt (patternSamples env s lvl refToNew refToNew_aff) p).isGood_new := by
    intro jb9
    rw [← (alphaPoint_fields (processPointPnt (patternSamples env s lvl refToNew refToNew_aff) p)).2]
    unfold schurPointPnt
    split_ifs <;> rfl
  have hbadq : ∀ jb9 : ℚ, (processPointPnt (patternSamples env s lvl refToNew refToNew_aff) p).isGood_new = false →
      schurPointPnt jb9 (alphaPoint (processPointPnt (patternSamples env s lvl refToNew refToNew_aff) p)).1 = processPointPnt (patternSamples env s lvl refToNew refToNew_aff) p := by
    intro jb9 hb
    have ha : (alphaPoint (processPointPnt (patternSamples env s lvl refToNew refToNew_aff) p)).1 = processPointPnt (patternSamples env s lvl refToNew refToNew_aff) p := by
      unfold alphaPoint
      simp [hb]
    rw [ha]
    unfold schurPointPnt
    simp [hb]
  refine ⟨⟨_, hq, ?_, ?_⟩, fun idx => patternSample_eq_none env s lvl refToNew refToNew_aff p idx,
    ?_, ?_, res2_calcResAndGS env s lvl refToNew refToNew_aff⟩
  · rw [hgn, hiff, hmem]
  · intro hb
    rw [hgn] at hb
    rw [hbadq _ hb]
    refine ⟨hval hb, fun st hst => processPoint_of_bad _ st i p hst hb, ?_⟩
    intro alphaOpt cw st hst
    exact schurPoint_of_bad alphaOpt cw st i _ hst hb
  · intro hall
    have hnot : none ∉ patternSamples env s lvl refToNew refToNew_aff { p with maxstep := 10 ^ 10 } := by
      rw [hmem]
      rintro ⟨idx, hidx, h⟩
      exact hall idx hidx h
    have he := patternLoop_energy (patternSamples env s lvl refToNew refToNew_aff { p with maxstep := 10 ^ 10 })
      { jb := fun _ => 0, energy := 0, maxstep := 10 ^ 10, rows := [] } hnot
    have he2 : (pointPattern (patternSamples env s lvl refToNew refToNew_aff) p).2.energy = _ := he
    rw [he2, patternSample_maxstep]
    unfold patternSamples
    rw [List.map_map]
    show (0 : ℚ) + _ = _
    rw [zero_add]
    rfl
  · unfold numPoints
    have hlen := length_foldl_processPoint (patternSamples env s lvl refToNew refToNew_aff) (s.numPoints lvl)
      { pts := s.points lvl, jbNew := s.JbBuffer_new, acc9 := fun _ _ => 0,
        E := Accumulator11.initialize }
    have hpts : (s.calcResAndGS env lvl refToNew refToNew_aff).1.points lvl = _ :=
      Function.update_same lvl _ s.points
    rw [hpts]
    rw [length_foldl_schurPoint, List.length_map, hlen]

/-- Point 0 of the example level is good; the example state has images of width 0, so the
first pattern pixel is outside the margin, and `calcResAndGS` leaves the point with
`isGood_new = false` and `energy_new = energy`. -/
theorem residual_pass_failure_witness :
    ((exampleState false fineUp coarseUp).points 0)[0]? = some (examplePnt true 1 1 1 0) ∧
      (examplePnt true 1 1 1 0).isGood = true ∧
      (patternSample exampleEnv (exampleState false fineUp coarseUp) 0 SE3.identity
        { a := 0, b := 0 } (examplePnt true 1 1 1 0) 0).isNone = true ∧
      Option.map Pnt.isGood_new
        ((((exampleState false fineUp coarseUp).calcResAndGS exampleEnv 0 SE3.identity
          { a := 0, b := 0 }).1.points 0)[0]?) = some false ∧
      Option.map Pnt.energy_new
        ((((exampleState false fineUp coarseUp).calcResAndGS exampleEnv 0 SE3.identity
          { a := 0, b := 0 }).1.points 0)[0]?) = some (examplePnt true 1 1 1 0).energy := by
  obtain ⟨⟨q, hq, hiff, hbad⟩, _⟩ := residual_pass_failure exampleEnv
    (exampleState false fineUp coarseUp) 0 SE3.identity { a := 0, b := 0 } 0
    (examplePnt true 1 1 1 0) rfl rfl
  have hs : (patternSample exampleEnv (exampleState false fineUp coarseUp) 0 SE3.identity
      { a := 0, b := 0 } (examplePnt true 1 1 1 0) 0).isNone = true := by decide!
  have hf : q.isGood_new = false :=
    hiff.mpr (Or.inl ⟨0, by decide, Option.isNone_iff_eq_none.mp hs⟩)
  refine ⟨rfl, rfl, hs, ?_, ?_⟩
  · rw [hq]
    exact congrArg some hf
  · rw [hq, (hbad hf).1]
    rfl

end CoarseInitializer

theorem mat33Inverse_K (fx fy cx cy : ℚ) (hfx : fx ≠ 0) (hfy : fy ≠ 0) :
    mat33Inverse ![![fx, 0, cx], ![0, fy, cy], ![0, 0, 1]] =
      ![![1 / fx, 0, -cx / fx], ![0, 1 / fy, -cy / fy], ![0, 0, 1]] := by
  have e1 : fy / (fx * fy) = 1 / fx := by field_simp; ring
  have e2 : -(cx * fy) / (fx * fy) = -cx / fx := by field_simp; ring
  have e3 : fx / (fx * fy) = 1 / fy := by field_simp
  have e4 : -(fx * cy) / (fx * fy) = -cy / fy := by field_simp; ring
  have e5 : fx * fy / (fx * fy) = 1 := div_self (mul_ne_zero hfx hfy)
  unfold mat33Inverse
  simp only [Matrix.cons_val_zero, Matrix.cons_val_one, Matrix.head_cons, Matrix.cons_val_two,
    Matrix.tail_cons]
  have hdet : fx * (fy * 1 - cy * 0) - 0 * (0 * 1 - cy * 0) + cx * (0 * 0 - fy * 0) = fx * fy := by
    ring
  rw [hdet]
  simp only [mul_one, mul_zero, zero_mul, sub_zero, zero_sub, zero_div, sub_self]
  rw [e1, e2, e3, e4, e5]

theorem projectSample_identity (s : CoarseInitializer) (lvl : Nat) (point : Pnt) (dx dy : Int)
    (hfx : s.fx lvl ≠ 0) (hfy : s.fy lvl ≠ 0)
    (hKi : s.Ki lvl =
      mat33Inverse ![![s.fx lvl, 0, s.cx lvl], ![0, s.fy lvl, s.cy lvl], ![0, 0, 1]]) :
    projectSample s lvl SE3.identity point dx dy =
      { pt2 := 1
        u := (point.u + (dx : ℚ) - s.cx lvl) / s.fx lvl
        v := (point.v + (dy : ℚ) - s.cy lvl) / s.fy lvl
        Ku := point.u + (dx : ℚ)
        Kv := point.v + (dy : ℚ)
        new_idepth := point.idepth_new } := by
  unfold projectSample
  rw [hKi, mat33Inverse_K _ _ _ _ hfx hfy]
  simp only [SE3.identity, Fin.sum_univ_three, Matrix.cons_val_zero, Matrix.cons_val_one,
    Matrix.head_cons, Matrix.cons_val_two, Matrix.tail_cons]
  simp
  refine ⟨?_, ?_, ?_, ?_⟩
  · ring
  · ring
  · field_simp
  · field_simp

namespace CoarseInitializer

/-- C17, the sampling alignment as the code has it.  Let the intrinsics of the level be
consistent (`Ki = K^-1` with `fx, fy` non-zero, as `makeK` leaves them), the transform the
identity and the affine parameters `a = b = 0` with `exp(0) = 1`.  For a point with
`idepth_new` in `[1e-3, 50]` and a pattern pixel `(u + dx, v + dy)` inside the margin, the
projection is the pattern pixel itself with unchanged inverse depth, both frames are sampled at
that pixel, the body of the pattern loop succeeds, and its residual is
`hitIntensity - referenceIntensity`.  When the absolute residual is below the Huber threshold
the stored residual `r[idx]` is this value and the energy term is its square. -/
theorem sampling_alignment (env : Env) (s : CoarseInitializer) (lvl : Nat) (point : Pnt)
    (idx : Nat) (hit : Vec3f) (rlR : ℚ)
    (hexp : env.exp 0 = 1) (hfx : s.fx lvl ≠ 0) (hfy : s.fy lvl ≠ 0)
    (hKi : s.Ki lvl =
      mat33Inverse ![![s.fx lvl, 0, s.cx lvl], ![0, s.fy lvl, s.cy lvl], ![0, 0, 1]])
    (hd : InDepthRange point.idepth_new)
    (hin : 1 < point.u + ((env.patternP idx).1 : ℚ) ∧ 1 < point.v + ((env.patternP idx).2 : ℚ) ∧
      point.u + ((env.patternP idx).1 : ℚ) < (s.w lvl : ℚ) - 2 ∧
      point.v + ((env.patternP idx).2 : ℚ) < (s.h lvl : ℚ) - 2)
    (hhit : env.getInterpolatedElement33 (s.newFrame.dIp lvl)
      (point.u + ((env.patternP idx).1 : ℚ)) (point.v + ((env.patternP idx).2 : ℚ)) (s.w lvl)
        = some hit)
    (href : env.getInterpolatedElement31 (s.firstFrame.dIp lvl)
      (point.u + ((env.patternP idx).1 : ℚ)) (point.v + ((env.patternP idx).2 : ℚ)) (s.w lvl)
        = some rlR) :
    (projectSample s lvl SE3.identity point (env.patternP idx).1 (env.patternP idx).2).Ku =
        point.u + ((env.patternP idx).1 : ℚ) ∧
      (projectSample s lvl SE3.identity point (env.patternP idx).1 (env.patternP idx).2).Kv =
        point.v + ((env.patternP idx).2 : ℚ) ∧
      (projectSample s lvl SE3.identity point (env.patternP idx).1
        (env.patternP idx).2).new_idepth = point.idepth_new ∧
      patternSample env s lvl SE3.identity { a := 0, b := 0 } point idx =
        some (sampleValues env s lvl SE3.identity { a := 0, b := 0 }
          (projectSample s lvl SE3.identity point (env.patternP idx).1 (env.patternP idx).2)
          hit rlR) ∧
      sampleResidual env { a := 0, b := 0 } hit rlR = hit 0 - rlR ∧
      (|hit 0 - rlR| < env.setting_huberTH →
        (sampleValues env s lvl SE3.identity { a := 0, b := 0 }
          (projectSample s lvl SE3.identity point (env.patternP idx).1 (env.patternP idx).2)
          hit rlR).r = hit 0 - rlR ∧
        (sampleValues env s lvl SE3.identity { a := 0, b := 0 }
          (projectSample s lvl SE3.identity point (env.patternP idx).1 (env.patternP idx).2)
          hit rlR).energy = (hit 0 - rlR) * (hit 0 - rlR)) := by
  have hproj := projectSample_identity s lvl point (env.patternP idx).1 (env.patternP idx).2
    hfx hfy hKi
  have hres : sampleResidual env { a := 0, b := 0 } hit rlR = hit 0 - rlR := by
    unfold sampleResidual
    rw [hexp]
    ring
  have hpos : 0 < point.idepth_new := lt_of_lt_of_le (by norm_num) hd.1
  refine ⟨by rw [hproj], by rw [hproj], by rw [hproj], ?_, hres, ?_⟩
  · unfold patternSample
    simp only []
    have hinside : sampleInside (s.w lvl) (s.h lvl)
        (projectSample s lvl SE3.identity point (env.patternP idx).1 (env.patternP idx).2)
          = true := by
      rw [hproj]
      unfold sampleInside
      simp only [Bool.and_eq_true, decide_eq_true_eq]
      exact ⟨⟨⟨⟨hin.1, hin.2.1⟩, hin.2.2.1⟩, hin.2.2.2⟩, hpos⟩
    have hnot : ¬ ((!sampleInside (s.w lvl) (s.h lvl)
        (projectSample s lvl SE3.identity point (env.patternP idx).1 (env.patternP idx).2))
          = true) := by
      simp [hinside]
    rw [if_neg hnot]
    have h33 : env.getInterpolatedElement33 (s.newFrame.dIp lvl)
        (projectSample s lvl SE3.identity point (env.patternP idx).1 (env.patternP idx).2).Ku
        (projectSample s lvl SE3.identity point (env.patternP idx).1 (env.patternP idx).2).Kv
        (s.w lvl) = some hit := by
      rw [hproj]
      exact hhit
    rw [h33, href]
  · intro hsmall
    have hw : huberWeight env (hit 0 - rlR) = 1 := by
      unfold huberWeight
      rw [if_pos hsmall]
    unfold sampleValues
    simp only [hres, hw]
    refine ⟨?_, ?_⟩
    · rw [if_neg (lt_irrefl 1)]
      ring
    · ring

/-- The first point of level 1 of the example (`u = v = 3.1`, `idepth_new = 1`) after
`resetPoints`, with a reference frame of intensity 50 and a new frame of intensity 53, at the
pattern centre (index 4): the stored residual is `53 - 50 = 3`. -/
theorem sampling_alignment_witness :
    exampleEnv.exp 0 = 1 ∧ ((trackFrameInit exampleStart (exampleFrame 53)).resetPoints exampleEnv 1).fx 1 ≠ 0 ∧ ((trackFrameInit exampleStart (exampleFrame 53)).resetPoints exampleEnv 1).fy 1 ≠ 0 ∧
      InDepthRange ((((trackFrameInit exampleStart (exampleFrame 53)).resetPoints exampleEnv 1).points 1).getD 0 default).idepth_new ∧
      exampleEnv.patternP 4 = (0, 0) ∧
      exampleEnv.getInterpolatedElement33 (((trackFrameInit exampleStart (exampleFrame 53)).resetPoints exampleEnv 1).newFrame.dIp 1)
        (((((trackFrameInit exampleStart (exampleFrame 53)).resetPoints exampleEnv 1).points 1).getD 0 default).u + ((exampleEnv.patternP 4).1 : ℚ)) (((((trackFrameInit exampleStart (exampleFrame 53)).resetPoints exampleEnv 1).points 1).getD 0 default).v + ((exampleEnv.patternP 4).2 : ℚ))
        (((trackFrameInit exampleStart (exampleFrame 53)).resetPoints exampleEnv 1).w 1) = some ![53, 0, 0] ∧
      exampleEnv.getInterpolatedElement31 (((trackFrameInit exampleStart (exampleFrame 53)).resetPoints exampleEnv 1).firstFrame.dIp 1)
        (((((trackFrameInit exampleStart (exampleFrame 53)).resetPoints exampleEnv 1).points 1).getD 0 default).u + ((exampleEnv.patternP 4).1 : ℚ)) (((((trackFrameInit exampleStart (exampleFrame 53)).resetPoints exampleEnv 1).points 1).getD 0 default).v + ((exampleEnv.patternP 4).2 : ℚ))
        (((trackFrameInit exampleStart (exampleFrame 53)).resetPoints exampleEnv 1).w 1) = some 50 ∧
      Option.map Sample.r
        (patternSample exampleEnv ((trackFrameInit exampleStart (exampleFrame 53)).resetPoints exampleEnv 1) 1 SE3.identity { a := 0, b := 0 } ((((trackFrameInit exampleStart (exampleFrame 53)).resetPoints exampleEnv 1).points 1).getD 0 default) 4) = some (53 - 50) := by
  have hexp : exampleEnv.exp 0 = 1 := by decide!
  have hfx : ((trackFrameInit exampleStart (exampleFrame 53)).resetPoints exampleEnv 1).fx 1 ≠ 0 := by decide!
  have hfy : ((trackFrameInit exampleStart (exampleFrame 53)).resetPoints exampleEnv 1).fy 1 ≠ 0 := by decide!
  have hd : InDepthRange ((((trackFrameInit exampleStart (exampleFrame 53)).resetPoints exampleEnv 1).points 1).getD 0 default).idepth_new := by decide!
  have hhit : exampleEnv.getInterpolatedElement33 (((trackFrameInit exampleStart (exampleFrame 53)).resetPoints exampleEnv 1).newFrame.dIp 1)
      (((((trackFrameInit exampleStart (exampleFrame 53)).resetPoints exampleEnv 1).points 1).getD 0 default).u + ((exampleEnv.patternP 4).1 : ℚ)) (((((trackFrameInit exampleStart (exampleFrame 53)).resetPoints exampleEnv 1).points 1).getD 0 default).v + ((exampleEnv.patternP 4).2 : ℚ))
      (((trackFrameInit exampleStart (exampleFrame 53)).resetPoints exampleEnv 1).w 1) = some ![53, 0, 0] :=
    congrArg some (by decide!)
  have href : exampleEnv.getInterpolatedElement31 (((trackFrameInit exampleStart (exampleFrame 53)).resetPoints exampleEnv 1).firstFrame.dIp 1)
      (((((trackFrameInit exampleStart (exampleFrame 53)).resetPoints exampleEnv 1).points 1).getD 0 default).u + ((exampleEnv.patternP 4).1 : ℚ)) (((((trackFrameInit exampleStart (exampleFrame 53)).resetPoints exampleEnv 1).points 1).getD 0 default).v + ((exampleEnv.patternP 4).2 : ℚ))
      (((trackFrameInit exampleStart (exampleFrame 53)).resetPoints exampleEnv 1).w 1) = some 50 := by decide!
  obtain ⟨_, _, _, hs, _, hr⟩ := sampling_alignment exampleEnv ((trackFrameInit exampleStart (exampleFrame 53)).resetPoints exampleEnv 1) 1 ((((trackFrameInit exampleStart (exampleFrame 53)).resetPoints exampleEnv 1).points 1).getD 0 default) 4 ![53, 0, 0] 50 hexp hfx
    hfy (by decide!) hd (by decide!) hhit href
  refine ⟨hexp, hfx, hfy, hd, by decide, hhit, href, ?_⟩
  rw [hs]
  exact congrArg some (hr (by decide!)).1

set_option maxRecDepth 1000000 in
/-- C17, counterexample to the claim as stated: the first point of level 1 of the example
after `resetPoints` (`idepth_new = 1`), identity transform, `a = b = 0`, pattern centre
(index 4).  The reference frame has intensity 50 and the new frame intensity 53 at the pixel;
the residual stored by the pattern loop is `3 = hit - reference`, not `reference - hit = -3`. -/
theorem sampling_alignment_counterexample :
    exampleEnv.patternP 4 = (0, 0) ∧
      InDepthRange ((((trackFrameInit exampleStart (exampleFrame 53)).resetPoints exampleEnv 1).points 1).getD 0 default).idepth_new ∧
      exampleEnv.getInterpolatedElement31 (((trackFrameInit exampleStart (exampleFrame 53)).resetPoints exampleEnv 1).firstFrame.dIp 1) ((((trackFrameInit exampleStart (exampleFrame 53)).resetPoints exampleEnv 1).points 1).getD 0 default).u ((((trackFrameInit exampleStart (exampleFrame 53)).resetPoints exampleEnv 1).points 1).getD 0 default).v (((trackFrameInit exampleStart (exampleFrame 53)).resetPoints exampleEnv 1).w 1) = some 50 ∧
      exampleEnv.getInterpolatedElement33 (((trackFrameInit exampleStart (exampleFrame 53)).resetPoints exampleEnv 1).newFrame.dIp 1) ((((trackFrameInit exampleStart (exampleFrame 53)).resetPoints exampleEnv 1).points 1).getD 0 default).u ((((trackFrameInit exampleStart (exampleFrame 53)).resetPoints exampleEnv 1).points 1).getD 0 default).v (((trackFrameInit exampleStart (exampleFrame 53)).resetPoints exampleEnv 1).w 1) =
        some ![53, 0, 0] ∧
      Option.map Sample.r
        (patternSample exampleEnv ((trackFrameInit exampleStart (exampleFrame 53)).resetPoints exampleEnv 1) 1 SE3.identity { a := 0, b := 0 } ((((trackFrameInit exampleStart (exampleFrame 53)).resetPoints exampleEnv 1).points 1).getD 0 default) 4) = some 3 ∧
      ¬ ((3 : ℚ) = 50 - 53) :=
  ⟨by decide, by decide!, by decide!, congrArg some (by decide!), by decide!, by decide!⟩

end CoarseInitializer

namespace CoarseInitializer

/-- C11 (accept rule).  In one pass through the loop of a level of `trackFrame` the trial step
is accepted exactly when the old total is greater than the new total,
`resOld[0] + resOld[1] + regEnergy[0] > resNew[0] + resNew[1] + regEnergy[1]`; here
`resOld[0]`, `resNew[0]` are the photometric energies, and the regularizer of each side is
the alpha energy (`resOld[1]`, `resNew[1]`) plus the coupling energy that `calcEC` recomputes
after the trial residual pass from the current `iR` targets of the points marked
`isGood_new` (`regEnergy[0]` with `idepth`, `regEnergy[1]` with `idepth_new`; both are 0 before
the state has snapped).  `resNew` is the result of the residual pass on the state after
`doStep`, at the trial transform.  Equal totals reject.  An accepted pass stores `resNew` as
`resOld`, a rejected pass keeps `resOld`. -/
theorem accept_rule (env : Env) (lvl : Nat) (st : LevelState) :
    ((levelIteration env lvl st).accept = true ↔
      st.resOld 0 + (st.resOld 1 + ((levelTrial env lvl st).s.calcEC lvl) 0) >
        (levelTrial env lvl st).out.res 0 +
          ((levelTrial env lvl st).out.res 1 + ((levelTrial env lvl st).s.calcEC lvl) 1)) ∧
    (st.resOld 0 + (st.resOld 1 + ((levelTrial env lvl st).s.calcEC lvl) 0) =
        (levelTrial env lvl st).out.res 0 +
          ((levelTrial env lvl st).out.res 1 + ((levelTrial env lvl st).s.calcEC lvl) 1) →
      (levelIteration env lvl st).accept = false) ∧
    ((levelTrial env lvl st).s, (levelTrial env lvl st).out) =
      (st.s.doStep lvl st.lambda (levelTrial env lvl st).inc).calcResAndGS env lvl
        (levelTrial env lvl st).refToNew_new (levelTrial env lvl st).refToNew_aff_new ∧
    ((levelTrial env lvl st).s.snapped = false →
      ((levelTrial env lvl st).s.calcEC lvl) 0 = 0 ∧ ((levelTrial env lvl st).s.calcEC lvl) 1 = 0) ∧
    ((levelTrial env lvl st).s.snapped = true →
      ((levelTrial env lvl st).s.calcEC lvl) 0 = (levelTrial env lvl st).s.couplingWeight *
        ((((levelTrial env lvl st).s.points lvl).filter fun p => p.isGood_new).map fun p =>
          (p.idepth - p.iR) * (p.idepth - p.iR)).sum ∧
      ((levelTrial env lvl st).s.calcEC lvl) 1 = (levelTrial env lvl st).s.couplingWeight *
        ((((levelTrial env lvl st).s.points lvl).filter fun p => p.isGood_new).map fun p =>
          (p.idepth_new - p.iR) * (p.idepth_new - p.iR)).sum) ∧
    ((levelIteration env lvl st).accept = true →
      (levelIteration env lvl st).resOld = (levelTrial env lvl st).out.res) ∧
    ((levelIteration env lvl st).accept = false →
      (levelIteration env lvl st).resOld = st.resOld) := by
  have hacc : (levelIteration env lvl st).accept = true ↔
      st.resOld 0 + (st.resOld 1 + ((levelTrial env lvl st).s.calcEC lvl) 0) >
        (levelTrial env lvl st).out.res 0 +
          ((levelTrial env lvl st).out.res 1 + ((levelTrial env lvl st).s.calcEC lvl) 1) := by
    rw [accept_levelIteration]
    unfold acceptTest eTotalOld eTotalNew
    rw [decide_eq_true_iff]
    have h1 : (levelTrial env lvl st).regEnergy = (levelTrial env lvl st).s.calcEC lvl := rfl
    rw [h1, add_assoc, add_assoc]
  refine ⟨hacc, fun heq => ?_, rfl, fun hs => ?_, fun hs => ?_, fun h => ?_, fun h => ?_⟩
  · cases hv : (levelIteration env lvl st).accept with
    | false => rfl
    | true => exact absurd (hacc.mp hv) (by rw [heq]; exact lt_irrefl _)
  · unfold calcEC
    simp [hs]
  · unfold calcEC
    simp [hs]
  · rw [levelIteration_of_accept env lvl st h]; rfl
  · rw [levelIteration_of_reject env lvl st h]; rfl

end CoarseInitializer

namespace CoarseInitializer

theorem snapped_levelTrial (env : Env) (lvl : Nat) (st : LevelState) :
    (levelTrial env lvl st).s.snapped = st.s.snapped := rfl

theorem regEnergy_of_unsnapped (env : Env) (lvl : Nat) (st : LevelState)
    (hs : st.s.snapped = false) :
    (levelTrial env lvl st).regEnergy 0 = 0 ∧ (levelTrial env lvl st).regEnergy 1 = 0 := by
  have h1 : (levelTrial env lvl st).regEnergy = (levelTrial env lvl st).s.calcEC lvl := rfl
  have h2 : (levelTrial env lvl st).s.snapped = false := hs
  rw [h1]
  unfold calcEC
  simp [h2]

theorem energy_levelIteration (env : Env) (lvl : Nat) (st : LevelState) :
    ((levelIteration env lvl st).accept = true →
      eTotalNew (levelTrial env lvl st) < eTotalOld st (levelTrial env lvl st) ∧
      (levelIteration env lvl st).resOld = (levelTrial env lvl st).out.res) ∧
    ((levelIteration env lvl st).accept = false →
      (levelIteration env lvl st).resOld = st.resOld) := by
  refine ⟨fun h => ⟨?_, ?_⟩, fun h => ?_⟩
  · rw [accept_levelIteration] at h
    unfold acceptTest at h
    exact of_decide_eq_true h
  · rw [levelIteration_of_accept env lvl st h]; rfl
  · rw [levelIteration_of_reject env lvl st h]; rfl

theorem resOld_levelIteration_of_unsnapped (env : Env) (lvl : Nat) (st : LevelState)
    (hs : st.s.snapped = false) :
    ((levelIteration env lvl st).accept = true →
      (levelIteration env lvl st).resOld 0 + (levelIteration env lvl st).resOld 1 <
        st.resOld 0 + st.resOld 1) ∧
    ((levelIteration env lvl st).accept = false →
      (levelIteration env lvl st).resOld 0 + (levelIteration env lvl st).resOld 1 =
        st.resOld 0 + st.resOld 1) := by
  obtain ⟨h0, h1⟩ := regEnergy_of_unsnapped env lvl st hs
  refine ⟨fun h => ?_, fun h => ?_⟩
  · obtain ⟨hlt, hres⟩ := (energy_levelIteration env lvl st).1 h
    unfold eTotalNew eTotalOld at hlt
    rw [h0, h1] at hlt
    rw [hres]
    linarith
  · rw [(energy_levelIteration env lvl st).2 h]

/-- C12, the monotonicity as the code has it.  An accepted pass has
`eTotalNew < eTotalOld`, both totals formed in that pass (photometric energy, alpha energy and
the coupling energy that `calcEC` computes after the trial), and stores `resNew` as `resOld`;
a rejected pass keeps `resOld`.  While the state has not snapped the coupling energy is 0, the
totals are `resOld[0] + resOld[1]` and `resNew[0] + resNew[1]`, and so along the passes of one
level the committed energy `resOld[0] + resOld[1]` strictly decreases at every accepted pass
and is unchanged by a rejected one: from one pass to the next it does not increase as long as
the earlier of the two states has not snapped. -/
theorem energy_monotone_unsnapped (env : Env) (lvl : Nat) (st : LevelState) :
    ((levelIteration env lvl st).accept = true →
      eTotalNew (levelTrial env lvl st) < eTotalOld st (levelTrial env lvl st) ∧
      (levelIteration env lvl st).resOld = (levelTrial env lvl st).out.res) ∧
    ((levelIteration env lvl st).accept = false →
      (levelIteration env lvl st).resOld = st.resOld) ∧
    (st.s.snapped = false →
      eTotalOld st (levelTrial env lvl st) = st.resOld 0 + st.resOld 1 ∧
      eTotalNew (levelTrial env lvl st) =
        (levelTrial env lvl st).out.res 0 + (levelTrial env lvl st).out.res 1 ∧
      ((levelIteration env lvl st).accept = true →
        (levelIteration env lvl st).resOld 0 + (levelIteration env lvl st).resOld 1 <
          st.resOld 0 + st.resOld 1)) ∧
    (∀ (fuel k : Nat) (x y : LevelState), (levelTrace env lvl fuel st)[k]? = some x →
      (levelTrace env lvl fuel st)[k + 1]? = some y → x.s.snapped = false →
      y.resOld 0 + y.resOld 1 ≤ x.resOld 0 + x.resOld 1 ∧
      (y.accept = true → y.resOld 0 + y.resOld 1 < x.resOld 0 + x.resOld 1)) := by
  refine ⟨(energy_levelIteration env lvl st).1, (energy_levelIteration env lvl st).2,
    fun hs => ?_, fun fuel k x y hx hy hs => ?_⟩
  · obtain ⟨h0, h1⟩ := regEnergy_of_unsnapped env lvl st hs
    refine ⟨?_, ?_, (resOld_levelIteration_of_unsnapped env lvl st hs).1⟩
    · unfold eTotalOld
      rw [h0, add_zero]
    · unfold eTotalNew
      rw [h1, add_zero]
  · have hstep := levelTrace_step env lvl fuel st k y x hx hy
    have hs2 : (nextPass x).s.snapped = false := hs
    have hr : (nextPass x).resOld = x.resOld := rfl
    obtain ⟨ha, hb⟩ := resOld_levelIteration_of_unsnapped env lvl (nextPass x) hs2
    rw [hr, ← hstep] at ha hb
    refine ⟨?_, ha⟩
    cases hacc : y.accept with
    | true => exact le_of_lt (ha hacc)
    | false => exact le_of_eq (hb hacc)

end CoarseInitializer

theorem huberWeight_of_lt (env : Env) (r : ℚ) (h : |r| < env.setting_huberTH) :
    huberWeight env r = 1 := by
  unfold huberWeight
  rw [if_pos h]

theorem huberWeight_of_ge (env : Env) (r : ℚ) (h : env.setting_huberTH ≤ |r|) :
    huberWeight env r = env.setting_huberTH / |r| := by
  unfold huberWeight
  rw [if_neg (not_lt.mpr h)]

theorem huber_energy_of_lt (env : Env) (r : ℚ) (h : |r| < env.setting_huberTH) :
    huberWeight env r * r * r * (2 - huberWeight env r) = |r| * |r| := by
  rw [huberWeight_of_lt env r h, abs_mul_abs_self]
  ring

theorem huber_energy_of_ge (env : Env) (r : ℚ) (hth : 0 < env.setting_huberTH)
    (h : env.setting_huberTH ≤ |r|) :
    huberWeight env r * r * r * (2 - huberWeight env r) =
      2 * env.setting_huberTH * |r| - env.setting_huberTH * env.setting_huberTH := by
  have hpos : 0 < |r| := lt_of_lt_of_le hth h
  have hne : |r| ≠ 0 := ne_of_gt hpos
  rw [huberWeight_of_ge env r h]
  have hr : r * r = |r| * |r| := (abs_mul_abs_self r).symm
  have e : env.setting_huberTH / |r| * r * r * (2 - env.setting_huberTH / |r|) =
      env.setting_huberTH / |r| * (r * r) * (2 - env.setting_huberTH / |r|) := by ring
  rw [e, hr]
  generalize |r| = a at hne ⊢
  field_simp
  ring

/-- C24 (Huber loss).  With the threshold `th = setting_huberTH > 0` and the weight
`hw = 1` for `|r| < th`, `hw = th/|r|` otherwise, the energy term `hw*r*r*(2 - hw)` of the
pattern loop is `r^2` for `|r| < th` and `2*th*|r| - th^2` for `|r| >= th`; it is
non-negative, at most `r^2`, and does not decrease when `|r|` grows.  It is the energy term of
every sample of `calcResAndGS`. -/
theorem huber_loss (env : Env) (r : ℚ) (hth : 0 < env.setting_huberTH) :
    (|r| < env.setting_huberTH →
      huberWeight env r = 1 ∧ huberWeight env r * r * r * (2 - huberWeight env r) = r ^ 2) ∧
    (env.setting_huberTH ≤ |r| →
      huberWeight env r = env.setting_huberTH / |r| ∧
      huberWeight env r * r * r * (2 - huberWeight env r) =
        2 * env.setting_huberTH * |r| - env.setting_huberTH ^ 2) ∧
    0 ≤ huberWeight env r * r * r * (2 - huberWeight env r) ∧
    huberWeight env r * r * r * (2 - huberWeight env r) ≤ r ^ 2 ∧
    (∀ r2 : ℚ, |r| ≤ |r2| →
      huberWeight env r * r * r * (2 - huberWeight env r) ≤
        huberWeight env r2 * r2 * r2 * (2 - huberWeight env r2)) ∧
    (∀ (s : CoarseInitializer) (lvl : Nat) (refToNew : SE3) (refToNew_aff : AffLight)
        (p : Projected) (hitColor : Vec3f) (rlR : ℚ),
      (sampleValues env s lvl refToNew refToNew_aff p hitColor rlR).energy =
        huberWeight env (sampleResidual env refToNew_aff hitColor rlR) *
          sampleResidual env refToNew_aff hitColor rlR *
          sampleResidual env refToNew_aff hitColor rlR *
          (2 - huberWeight env (sampleResidual env refToNew_aff hitColor rlR))) := by
  have habs : r ^ 2 = |r| * |r| := by rw [abs_mul_abs_self]; ring
  have h0 : 0 ≤ |r| := abs_nonneg r
  refine ⟨fun h => ⟨huberWeight_of_lt env r h, ?_⟩, fun h => ⟨huberWeight_of_ge env r h, ?_⟩,
    ?_, ?_, fun r2 hle => ?_, fun s lvl refToNew refToNew_aff p hitColor rlR => rfl⟩
  · rw [huber_energy_of_lt env r h, habs]
  · rw [huber_energy_of_ge env r hth h]
    ring
  · by_cases h : |r| < env.setting_huberTH
    · rw [huber_energy_of_lt env r h]
      exact mul_nonneg h0 h0
    · rw [huber_energy_of_ge env r hth (not_lt.mp h)]
      nlinarith [not_lt.mp h]
  · rw [habs]
    by_cases h : |r| < env.setting_huberTH
    · rw [huber_energy_of_lt env r h]
    · rw [huber_energy_of_ge env r hth (not_lt.mp h)]
      nlinarith [sq_nonneg (|r| - env.setting_huberTH)]
  · have h02 : 0 ≤ |r2| := abs_nonneg r2
    by_cases h : |r| < env.setting_huberTH
    · rw [huber_energy_of_lt env r h]
      by_cases h2 : |r2| < env.setting_huberTH
      · rw [huber_energy_of_lt env r2 h2]
        exact mul_le_mul hle hle h0 h02
      · rw [huber_energy_of_ge env r2 hth (not_lt.mp h2)]
        have h2' := not_lt.mp h2
        nlinarith [sq_nonneg (|r| - env.setting_huberTH), mul_nonneg h0 h0]
    · have h' := not_lt.mp h
      have h2' : env.setting_huberTH ≤ |r2| := le_trans h' hle
      rw [huber_energy_of_ge env r hth h', huber_energy_of_ge env r2 hth h2']
      nlinarith

/-- With the threshold 9 of the example: the residual 3 gives the energy 9, the residual 12
gives `2*9*12 - 81 = 135`. -/
theorem huber_loss_witness :
    0 < exampleEnv.setting_huberTH ∧
      huberWeight exampleEnv 3 * 3 * 3 * (2 - huberWeight exampleEnv 3) = 3 ^ 2 ∧
      huberWeight exampleEnv 12 * 12 * 12 * (2 - huberWeight exampleEnv 12) =
        2 * exampleEnv.setting_huberTH * |12| - exampleEnv.setting_huberTH ^ 2 :=
  ⟨by decide!, ((huber_loss exampleEnv 3 (by decide!)).1 (by decide!)).2,
    ((huber_loss exampleEnv 12 (by decide!)).2.1 (by decide!)).2⟩

theorem patternSample_of_valid (env : Env) (s : CoarseInitializer) (lvl : Nat) (refToNew : SE3)
    (refToNew_aff : AffLight) (point : Pnt) (idx : Nat) (hit : Vec3f) (rlR : ℚ)
    (hin : sampleInside (s.w lvl) (s.h lvl)
      (projectSample s lvl refToNew point (env.patternP idx).1 (env.patternP idx).2) = true)
    (h33 : env.getInterpolatedElement33 (s.newFrame.dIp lvl)
      (projectSample s lvl refToNew point (env.patternP idx).1 (env.patternP idx).2).Ku
      (projectSample s lvl refToNew point (env.patternP idx).1 (env.patternP idx).2).Kv
      (s.w lvl) = some hit)
    (h31 : env.getInterpolatedElement31 (s.firstFrame.dIp lvl)
      (point.u + ((env.patternP idx).1 : ℚ)) (point.v + ((env.patternP idx).2 : ℚ))
      (s.w lvl) = some rlR) :
    patternSample env s lvl refToNew refToNew_aff point idx =
      some (sampleValues env s lvl refToNew refToNew_aff
        (projectSample s lvl refToNew point (env.patternP idx).1 (env.patternP idx).2)
        hit rlR) := by
  unfold patternSample
  simp only []
  have hnot : ¬ ((!sampleInside (s.w lvl) (s.h lvl)
      (projectSample s lvl refToNew point (env.patternP idx).1 (env.patternP idx).2))
        = true) := by
    simp [hin]
  rw [if_neg hnot, h33, h31]

theorem patternSample_eq_some (env : Env) (s : CoarseInitializer) (lvl : Nat) (refToNew : SE3)
    (refToNew_aff : AffLight) (point : Pnt) (idx : Nat) (sm : Sample)
    (h : patternSample env s lvl refToNew refToNew_aff point idx = some sm) :
    sampleInside (s.w lvl) (s.h lvl)
      (projectSample s lvl refToNew point (env.patternP idx).1 (env.patternP idx).2) = true ∧
    ∃ hit rlR,
      env.getInterpolatedElement33 (s.newFrame.dIp lvl)
        (projectSample s lvl refToNew point (env.patternP idx).1 (env.patternP idx).2).Ku
        (projectSample s lvl refToNew point (env.patternP idx).1 (env.patternP idx).2).Kv
        (s.w lvl) = some hit ∧
      env.getInterpolatedElement31 (s.firstFrame.dIp lvl)
        (point.u + ((env.patternP idx).1 : ℚ)) (point.v + ((env.patternP idx).2 : ℚ))
        (s.w lvl) = some rlR ∧
      sm = sampleValues env s lvl refToNew refToNew_aff
        (projectSample s lvl refToNew point (env.patternP idx).1 (env.patternP idx).2)
        hit rlR := by
  unfold patternSample at h
  simp only [] at h
  by_cases hin : sampleInside (s.w lvl) (s.h lvl)
      (projectSample s lvl refToNew point (env.patternP idx).1 (env.patternP idx).2) = true
  · have hnot : ¬ ((!sampleInside (s.w lvl) (s.h lvl)
        (projectSample s lvl refToNew point (env.patternP idx).1 (env.patternP idx).2))
          = true) := by
      simp [hin]
    rw [if_neg hnot] at h
    refine ⟨hin, ?_⟩
    cases h33 : env.getInterpolatedElement33 (s.newFrame.dIp lvl)
        (projectSample s lvl refToNew point (env.patternP idx).1 (env.patternP idx).2).Ku
        (projectSample s lvl refToNew point (env.patternP idx).1 (env.patternP idx).2).Kv
        (s.w lvl) with
    | none =>
      rw [h33] at h
      exact Option.noConfusion h
    | some hit =>
      cases h31 : env.getInterpolatedElement31 (s.firstFrame.dIp lvl)
          (point.u + ((env.patternP idx).1 : ℚ)) (point.v + ((env.patternP idx).2 : ℚ))
          (s.w lvl) with
      | none =>
        rw [h33, h31] at h
        exact Option.noConfusion h
      | some rlR =>
        rw [h33, h31] at h
        exact ⟨hit, rlR, rfl, rfl, (Option.some.inj h).symm⟩
  · have hpos : (!sampleInside (s.w lvl) (s.h lvl)
        (projectSample s lvl refToNew point (env.patternP idx).1 (env.patternP idx).2))
          = true := by
      simpa using hin
    rw [if_pos hpos] at h
    exact Option.noConfusion h

namespace CoarseInitializer

/-- C23 (definition of the residual).  For every pattern sample of `calcResAndGS` that passes
the validity checks there are the interpolated new-frame value `hitColor` at the projected
pixel `(Ku, Kv)` and the interpolated anchor intensity `rlR` at the pattern pixel
`(u + dx, v + dy)`, and the residual of the sample is
`hitColor[0] - exp(a)*rlR - b` for the affine pair `(a, b)` passed to the call; the energy term
and the stored residual `r[idx]` are formed from this value with the Huber weight.  In the
loop of `trackFrame` the call is made with the trial pair. -/
theorem residual_definition (env : Env) (s : CoarseInitializer) (lvl : Nat) (refToNew : SE3)
    (refToNew_aff : AffLight) (point : Pnt) (idx : Nat) (sm : Sample)
    (h : patternSample env s lvl refToNew refToNew_aff point idx = some sm) :
    (∃ hit rlR,
      env.getInterpolatedElement33 (s.newFrame.dIp lvl)
        (projectSample s lvl refToNew point (env.patternP idx).1 (env.patternP idx).2).Ku
        (projectSample s lvl refToNew point (env.patternP idx).1 (env.patternP idx).2).Kv
        (s.w lvl) = some hit ∧
      env.getInterpolatedElement31 (s.firstFrame.dIp lvl)
        (point.u + ((env.patternP idx).1 : ℚ)) (point.v + ((env.patternP idx).2 : ℚ))
        (s.w lvl) = some rlR ∧
      sampleResidual env refToNew_aff hit rlR =
        hit 0 - env.exp refToNew_aff.a * rlR - refToNew_aff.b ∧
      sm.energy =
        huberWeight env (sampleResidual env refToNew_aff hit rlR) *
          sampleResidual env refToNew_aff hit rlR * sampleResidual env refToNew_aff hit rlR *
          (2 - huberWeight env (sampleResidual env refToNew_aff hit rlR)) ∧
      sm.r =
        (if huberWeight env (sampleResidual env refToNew_aff hit rlR) < 1 then
            env.sqrtf (huberWeight env (sampleResidual env refToNew_aff hit rlR))
          else huberWeight env (sampleResidual env refToNew_aff hit rlR)) *
          sampleResidual env refToNew_aff hit rlR) ∧
    (∀ st : LevelState,
      ((levelTrial env lvl st).s, (levelTrial env lvl st).out) =
        (st.s.doStep lvl st.lambda (levelTrial env lvl st).inc).calcResAndGS env lvl
          (levelTrial env lvl st).refToNew_new (levelTrial env lvl st).refToNew_aff_new) := by
  obtain ⟨_, hit, rlR, h33, h31, hsm⟩ :=
    patternSample_eq_some env s lvl refToNew refToNew_aff point idx sm h
  refine ⟨⟨hit, rlR, h33, h31, rfl, ?_, ?_⟩, fun st => rfl⟩
  · rw [hsm]; rfl
  · rw [hsm]; rfl

/-- The first point of level 1 of the example after `resetPoints`, reference intensity 50, new
intensity 53, pattern index 0, affine pair `(0, 0)`: the sample is valid and its residual is
`53 - exp(0)*50 - 0 = 3`. -/
theorem residual_definition_witness :
    (patternSample exampleEnv ((trackFrameInit exampleStart (exampleFrame 53)).resetPoints exampleEnv 1) 1 SE3.identity { a := 0, b := 0 } ((((trackFrameInit exampleStart (exampleFrame 53)).resetPoints exampleEnv 1).points 1).getD 0 default) 0).isSome = true ∧
      sampleResidual exampleEnv { a := 0, b := 0 } ![53, 0, 0] 50 = 3 ∧
      Option.map Sample.r
        (patternSample exampleEnv ((trackFrameInit exampleStart (exampleFrame 53)).resetPoints exampleEnv 1) 1 SE3.identity { a := 0, b := 0 } ((((trackFrameInit exampleStart (exampleFrame 53)).resetPoints exampleEnv 1).points 1).getD 0 default) 0) = some 3 := by
  have h33 : exampleEnv.getInterpolatedElement33 (((trackFrameInit exampleStart (exampleFrame 53)).resetPoints exampleEnv 1).newFrame.dIp 1)
      (projectSample ((trackFrameInit exampleStart (exampleFrame 53)).resetPoints exampleEnv 1) 1 SE3.identity ((((trackFrameInit exampleStart (exampleFrame 53)).resetPoints exampleEnv 1).points 1).getD 0 default) (exampleEnv.patternP 0).1 (exampleEnv.patternP 0).2).Ku
      (projectSample ((trackFrameInit exampleStart (exampleFrame 53)).resetPoints exampleEnv 1) 1 SE3.identity ((((trackFrameInit exampleStart (exampleFrame 53)).resetPoints exampleEnv 1).points 1).getD 0 default) (exampleEnv.patternP 0).1 (exampleEnv.patternP 0).2).Kv
      (((trackFrameInit exampleStart (exampleFrame 53)).resetPoints exampleEnv 1).w 1) = some ![53, 0, 0] :=
    congrArg some (by decide!)
  have h31 : exampleEnv.getInterpolatedElement31 (((trackFrameInit exampleStart (exampleFrame 53)).resetPoints exampleEnv 1).firstFrame.dIp 1)
      (((((trackFrameInit exampleStart (exampleFrame 53)).resetPoints exampleEnv 1).points 1).getD 0 default).u + ((exampleEnv.patternP 0).1 : ℚ)) (((((trackFrameInit exampleStart (exampleFrame 53)).resetPoints exampleEnv 1).points 1).getD 0 default).v + ((exampleEnv.patternP 0).2 : ℚ))
      (((trackFrameInit exampleStart (exampleFrame 53)).resetPoints exampleEnv 1).w 1) = some 50 := by decide!
  have hsome := patternSample_of_valid exampleEnv ((trackFrameInit exampleStart (exampleFrame 53)).resetPoints exampleEnv 1) 1 SE3.identity { a := 0, b := 0 } ((((trackFrameInit exampleStart (exampleFrame 53)).resetPoints exampleEnv 1).points 1).getD 0 default) 0
    ![53, 0, 0] 50 (by decide!) h33 h31
  obtain ⟨⟨hit, rlR, g33, g31, hres, _, hr⟩, _⟩ := residual_definition exampleEnv ((trackFrameInit exampleStart (exampleFrame 53)).resetPoints exampleEnv 1) 1
    SE3.identity { a := 0, b := 0 } ((((trackFrameInit exampleStart (exampleFrame 53)).resetPoints exampleEnv 1).points 1).getD 0 default) 0 _ hsome
  have e1 : hit = ![53, 0, 0] := Option.some.inj (g33.symm.trans h33)
  have e2 : rlR = 50 := Option.some.inj (g31.symm.trans h31)
  subst e1 e2
  have h3 : sampleResidual exampleEnv { a := 0, b := 0 } ![53, 0, 0] 50 = 3 := by
    rw [hres]
    decide!
  refine ⟨by rw [hsome]; rfl, h3, ?_⟩
  rw [hsome]
  show some _ = some 3
  rw [hr, h3]
  exact congrArg some (by decide!)

/-- C26 (decision on `alphaOpt`).  In `calcResAndGS` the uncapped alpha-energy is
`alphaW * (0 + |t|^2 * npts)`.  `alphaOpt` is 0 or `alphaW`; for `alphaW` not zero (`trackFrame`
sets it to `150*150` before any call) it is 0 exactly when the uncapped value exceeds
`alphaK * npts`, and then the returned alpha-energy `res[1]` is `alphaK * npts`; otherwise
`alphaOpt = alphaW` and `res[1]` is the uncapped value.  So `res[1] <= alphaK * npts`.
`alphaOpt` is the weight that enters the first three diagonal entries of `H_out` and the
Schur-complement loop. -/
theorem alphaOpt_decision (env : Env) (s : CoarseInitializer) (lvl : Nat) (refToNew : SE3)
    (refToNew_aff : AffLight) (hW : s.alphaW ≠ 0) :
    (s.alphaOpt lvl refToNew = 0 ∨ s.alphaOpt lvl refToNew = s.alphaW) ∧
    (s.alphaOpt lvl refToNew = 0 ↔
      s.alphaEnergyRaw lvl refToNew > s.alphaK * (s.numPoints lvl : ℚ)) ∧
    (s.alphaEnergyRaw lvl refToNew > s.alphaK * (s.numPoints lvl : ℚ) →
      (s.calcResAndGS env lvl refToNew refToNew_aff).2.res 1 =
        s.alphaK * (s.numPoints lvl : ℚ)) ∧
    (¬ s.alphaEnergyRaw lvl refToNew > s.alphaK * (s.numPoints lvl : ℚ) →
      s.alphaOpt lvl refToNew = s.alphaW ∧
      (s.calcResAndGS env lvl refToNew refToNew_aff).2.res 1 = s.alphaEnergyRaw lvl refToNew) ∧
    (s.calcResAndGS env lvl refToNew refToNew_aff).2.res 1 ≤ s.alphaK * (s.numPoints lvl : ℚ) ∧
    s.alphaEnergyRaw lvl refToNew =
      s.alphaW * ((refToNew.translation 0 * refToNew.translation 0 +
        refToNew.translation 1 * refToNew.translation 1 +
        refToNew.translation 2 * refToNew.translation 2) * (s.numPoints lvl : ℚ)) ∧
    (∀ a : Fin 8, a.val < 3 →
      (s.calcResAndGS env lvl refToNew refToNew_aff).2.H_out a a =
        (s.pointPass env lvl refToNew refToNew_aff).acc9.topLeft a a +
          s.alphaOpt lvl refToNew * (s.numPoints lvl : ℚ) +
          (if a.val = 1 then env.setting_weightZeroPriorDSOInitY else 0) +
          (if a.val = 0 then env.setting_weightZeroPriorDSOInitX else 0)) ∧
    (s.calcResAndGS env lvl refToNew refToNew_aff).1.points lvl =
      ((List.range (s.numPoints lvl)).foldl
        (schurPoint (s.alphaOpt lvl refToNew) s.couplingWeight)
        { pts := (s.pointPass env lvl refToNew refToNew_aff).pts.map fun p => (alphaPoint p).1
          jbNew := (s.pointPass env lvl refToNew refToNew_aff).jbNew
          acc9SC := fun _ _ => 0 }).pts := by
  have hres : (s.calcResAndGS env lvl refToNew refToNew_aff).2.res 1 =
      if s.alphaEnergyRaw lvl refToNew > s.alphaK * (s.numPoints lvl : ℚ) then
        s.alphaK * (s.numPoints lvl : ℚ)
      else s.alphaEnergyRaw lvl refToNew := rfl
  refine ⟨?_, ?_, fun h => ?_, fun h => ⟨?_, ?_⟩, ?_, ?_, fun a ha => ?_, ?_⟩
  · unfold alphaOpt
    split_ifs
    · exact Or.inl rfl
    · exact Or.inr rfl
  · unfold alphaOpt
    split_ifs with h
    · exact ⟨fun _ => h, fun _ => rfl⟩
    · exact ⟨fun h0 => absurd h0 hW, fun h1 => absurd h1 h⟩
  · rw [hres, if_pos h]
  · unfold alphaOpt
    rw [if_neg h]
  · rw [hres, if_neg h]
  · rw [hres]
    split_ifs with h
    · exact le_refl _
    · exact not_lt.mp h
  · unfold alphaEnergyRaw
    show s.alphaW * ((0 : ℚ) + _) = _
    rw [zero_add]
  · have hH : (s.calcResAndGS env lvl refToNew refToNew_aff).2.H_out a a =
        (s.pointPass env lvl refToNew refToNew_aff).acc9.topLeft a a
          + (if a = a ∧ a.val < 3 then s.alphaOpt lvl refToNew * (s.numPoints lvl : ℚ) else 0)
          + (if a = a ∧ a.val = 1 then env.setting_weightZeroPriorDSOInitY else 0)
          + (if a = a ∧ a.val = 0 then env.setting_weightZeroPriorDSOInitX else 0) := rfl
    rw [hH, if_pos ⟨rfl, ha⟩]
    simp only [true_and]
  · exact Function.update_same lvl _ s.points

/-- The state of the example after `trackFrameInit`: `alphaW = 22500` is not zero, and with
the translation `(0.01, 0, 0)` and ten points the alpha-energy `22.5` is below the cap
`62.5`, so `alphaOpt = alphaW`. -/
theorem alphaOpt_decision_witness :
    (trackFrameInit exampleStart (exampleFrame 50)).alphaW ≠ 0 ∧
      (trackFrameInit exampleStart (exampleFrame 50)).alphaOpt 1 exampleSnapped.thisToNext =
        22500 ∧
      ((trackFrameInit exampleStart (exampleFrame 50)).calcResAndGS exampleEnv 1
        exampleSnapped.thisToNext { a := 0, b := 0 }).2.res 1 = 45 / 2 := by
  have hW : (trackFrameInit exampleStart (exampleFrame 50)).alphaW ≠ 0 := by decide!
  have hn : ¬ (trackFrameInit exampleStart (exampleFrame 50)).alphaEnergyRaw 1
      exampleSnapped.thisToNext >
      (trackFrameInit exampleStart (exampleFrame 50)).alphaK *
        ((trackFrameInit exampleStart (exampleFrame 50)).numPoints 1 : ℚ) := by decide!
  obtain ⟨h1, h2⟩ := (alphaOpt_decision exampleEnv (trackFrameInit exampleStart (exampleFrame 50))
    1 exampleSnapped.thisToNext { a := 0, b := 0 } hW).2.2.2.1 hn
  refine ⟨hW, ?_, ?_⟩
  · rw [h1]
    decide!
  · rw [h2]
    decide!

/-- C27, what the code computes.  The alpha-energy returned by `calcResAndGS` is the value
`alphaW * |t|^2 * npts`, capped at `alphaK * npts`: the accumulator `EAlpha` is initialised and
finished with no update in between (the loop over the points passes
`(idepth_new - 1)^2` to `accE[0]`, as the comment in the source notes), so the sum of the
squared depth deviations does not enter.  Hence two states with the same `alphaW`, `alphaK`
and number of points give the same uncapped and the same returned alpha-energy for the same
transform, whatever the depths of their points. -/
theorem alpha_energy_ignores_depth (env : Env) (s s1 : CoarseInitializer) (lvl : Nat)
    (refToNew : SE3) (aff aff1 : AffLight) (hW : s1.alphaW = s.alphaW)
    (hK : s1.alphaK = s.alphaK) (hn : s1.numPoints lvl = s.numPoints lvl) :
    s.alphaEnergyRaw lvl refToNew =
        s.alphaW * ((refToNew.translation 0 * refToNew.translation 0 +
          refToNew.translation 1 * refToNew.translation 1 +
          refToNew.translation 2 * refToNew.translation 2) * (s.numPoints lvl : ℚ)) ∧
      s1.alphaEnergyRaw lvl refToNew = s.alphaEnergyRaw lvl refToNew ∧
      (s1.calcResAndGS env lvl refToNew aff1).2.res 1 =
        (s.calcResAndGS env lvl refToNew aff).2.res 1 := by
  have hraw : ∀ x : CoarseInitializer, x.alphaEnergyRaw lvl refToNew =
      x.alphaW * ((refToNew.translation 0 * refToNew.translation 0 +
        refToNew.translation 1 * refToNew.translation 1 +
        refToNew.translation 2 * refToNew.translation 2) * (x.numPoints lvl : ℚ)) := by
    intro x
    unfold alphaEnergyRaw
    show x.alphaW * ((0 : ℚ) + _) = _
    rw [zero_add]
  have hres : ∀ (x : CoarseInitializer) (a : AffLight),
      (x.calcResAndGS env lvl refToNew a).2.res 1 =
        if x.alphaEnergyRaw lvl refToNew > x.alphaK * (x.numPoints lvl : ℚ) then
          x.alphaK * (x.numPoints lvl : ℚ)
        else x.alphaEnergyRaw lvl refToNew := fun _ _ => rfl
  have h1 : s1.alphaEnergyRaw lvl refToNew = s.alphaEnergyRaw lvl refToNew := by
    rw [hraw s1, hraw s, hW, hn]
  refine ⟨hraw s, h1, ?_⟩
  rw [hres s1 aff1, hres s aff, h1, hK, hn]

/-- The failing input of C27: level 1 of the example after `resetPoints`, with the
translation `(0.01, 0, 0)`, once with `idepth_new = 1` at all ten points and once with
`idepth_new = 10` at the first point.  The sums of `(idepth_new - 1)^2` are 0 and 81; the
alpha-energy returned is the same. -/
theorem alpha_energy_ignores_depth_witness :
    ((trackFrameInit exampleSnapped (exampleFrame 50)).resetPoints exampleEnv 1).alphaW =
        ((trackFrameInit exampleStart (exampleFrame 50)).resetPoints exampleEnv 1).alphaW ∧
      ((trackFrameInit exampleSnapped (exampleFrame 50)).resetPoints exampleEnv 1).alphaK =
        ((trackFrameInit exampleStart (exampleFrame 50)).resetPoints exampleEnv 1).alphaK ∧
      ((trackFrameInit exampleSnapped (exampleFrame 50)).resetPoints exampleEnv 1).numPoints 1 =
        ((trackFrameInit exampleStart (exampleFrame 50)).resetPoints exampleEnv 1).numPoints 1 ∧
      ((((trackFrameInit exampleStart (exampleFrame 50)).resetPoints exampleEnv 1).points 1).map
        fun p => (p.idepth_new - 1) * (p.idepth_new - 1)).sum = 0 ∧
      ((((trackFrameInit exampleSnapped (exampleFrame 50)).resetPoints exampleEnv 1).points 1).map
        fun p => (p.idepth_new - 1) * (p.idepth_new - 1)).sum = 81 ∧
      (((trackFrameInit exampleSnapped (exampleFrame 50)).resetPoints exampleEnv 1).calcResAndGS
          exampleEnv 1 exampleSnapped.thisToNext { a := 0, b := 0 }).2.res 1 =
        (((trackFrameInit exampleStart (exampleFrame 50)).resetPoints exampleEnv 1).calcResAndGS
          exampleEnv 1 exampleSnapped.thisToNext { a := 0, b := 0 }).2.res 1 :=
  have hW : ((trackFrameInit exampleSnapped (exampleFrame 50)).resetPoints exampleEnv 1).alphaW =
      ((trackFrameInit exampleStart (exampleFrame 50)).resetPoints exampleEnv 1).alphaW := rfl
  have hK : ((trackFrameInit exampleSnapped (exampleFrame 50)).resetPoints exampleEnv 1).alphaK =
      ((trackFrameInit exampleStart (exampleFrame 50)).resetPoints exampleEnv 1).alphaK := rfl
  have hn : ((trackFrameInit exampleSnapped (exampleFrame 50)).resetPoints exampleEnv 1).numPoints 1 =
      ((trackFrameInit exampleStart (exampleFrame 50)).resetPoints exampleEnv 1).numPoints 1 := by
    decide!
  ⟨hW, hK, hn, by decide!, by decide!,
    (alpha_energy_ignores_depth exampleEnv _ _ 1 exampleSnapped.thisToNext { a := 0, b := 0 }
      { a := 0, b := 0 } hW hK hn).2.2⟩

end CoarseInitializer

namespace CoarseInitializer

theorem trackFrameLevels_eq (env : Env) (s : CoarseInitializer) (f : FrameHessian) :
    trackFrameLevels env s f =
      { (((List.range env.pyrLevelsUsed).reverse).foldl (trackLevel env) (trackStart env s f)).s
        with
        thisToNext :=
          (((List.range env.pyrLevelsUsed).reverse).foldl (trackLevel env)
            (trackStart env s f)).refToNew_current
        thisToNext_aff :=
          (((List.range env.pyrLevelsUsed).reverse).foldl (trackLevel env)
            (trackStart env s f)).refToNew_aff_current } := rfl

theorem levelTrace_eq_map (env : Env) (lvl fuel : Nat) (st : LevelState) :
    levelTrace env lvl fuel st = (passInputs env lvl fuel st).map (levelIteration env lvl) := by
  induction fuel generalizing st with
  | zero => rfl
  | succ n ih =>
    unfold levelTrace passInputs
    split_ifs
    · rfl
    · rw [List.map_cons, ih]

theorem snapped_applyStep (s : CoarseInitializer) (lvl : Nat) :
    (s.applyStep lvl).snapped = s.snapped := rfl

theorem snapped_levelIteration (env : Env) (lvl : Nat) (st : LevelState) :
    (levelIteration env lvl st).s.snapped =
      (st.s.snapped || ((levelIteration env lvl st).accept &&
        decide ((levelTrial env lvl st).out.res 1 =
          (levelTrial env lvl st).s.alphaK * ((levelTrial env lvl st).s.numPoints lvl : ℚ)))) := by
  have htr : (levelTrial env lvl st).s.snapped = st.s.snapped := rfl
  cases ha : (levelIteration env lvl st).accept with
  | true =>
    rw [levelIteration_of_accept env lvl st ha]
    show (acceptState lvl (levelTrial env lvl st)).snapped = _
    unfold acceptState
    rw [snapped_optReg, snapped_applyStep]
    by_cases hc : (levelTrial env lvl st).out.res 1 =
        (levelTrial env lvl st).s.alphaK * ((levelTrial env lvl st).s.numPoints lvl : ℚ)
    · rw [if_pos hc]
      simp [hc]
    · rw [if_neg hc, htr]
      simp [hc]
  | false =>
    rw [levelIteration_of_reject env lvl st ha]
    show (levelTrial env lvl st).s.snapped = _
    rw [htr]
    simp

theorem snapped_levelLoop_cases (env : Env) (lvl fuel : Nat) (st : LevelState)
    (h0 : st.s.snapped = false) (h1 : (levelLoop env lvl fuel st).s.snapped = true) :
    ∃ y ∈ passInputs env lvl fuel st, y.s.snapped = false ∧
      (levelIteration env lvl y).accept = true ∧
      (levelTrial env lvl y).out.res 1 =
        (levelTrial env lvl y).s.alphaK * ((levelTrial env lvl y).s.numPoints lvl : ℚ) ∧
      (levelIteration env lvl y).s.snapped = true := by
  have hone : ∀ y : LevelState, y.s.snapped = false → (levelIteration env lvl y).s.snapped = true →
      (levelIteration env lvl y).accept = true ∧
      (levelTrial env lvl y).out.res 1 =
        (levelTrial env lvl y).s.alphaK * ((levelTrial env lvl y).s.numPoints lvl : ℚ) := by
    intro y hy hy1
    rw [snapped_levelIteration, hy, Bool.false_or, Bool.and_eq_true, decide_eq_true_eq] at hy1
    exact hy1
  induction fuel generalizing st with
  | zero =>
    have h1' : (levelIteration env lvl st).s.snapped = true := h1
    exact ⟨st, List.mem_singleton.mpr rfl, h0, (hone st h0 h1').1, (hone st h0 h1').2, h1'⟩
  | succ n ih =>
    unfold levelLoop at h1
    unfold passInputs
    by_cases hq : quitOpt env lvl (levelIteration env lvl st) = true
    · rw [if_pos hq] at h1 ⊢
      exact ⟨st, List.mem_singleton.mpr rfl, h0, (hone st h0 h1).1, (hone st h0 h1).2, h1⟩
    · rw [if_neg hq] at h1 ⊢
      cases hs : (levelIteration env lvl st).s.snapped with
      | true =>
        exact ⟨st, List.mem_cons_self _ _, h0, (hone st h0 hs).1, (hone st h0 hs).2, hs⟩
      | false =>
        obtain ⟨y, hy, hrest⟩ := ih (nextPass (levelIteration env lvl st)) hs h1
        exact ⟨y, List.mem_cons_of_mem _ hy, hrest⟩

theorem snapped_propagateDown (s : CoarseInitializer) (srcLvl : Nat) :
    (s.propagateDown srcLvl).snapped = s.snapped := by
  unfold propagateDown
  rw [snapped_optReg, snapped_setPoints]

theorem snapped_propagateUp (s : CoarseInitializer) (srcLvl : Nat) :
    (s.propagateUp srcLvl).snapped = s.snapped := by
  unfold propagateUp
  rw [snapped_optReg, snapped_setPoints]

theorem snapped_levelStart (env : Env) (ts : TrackState) (lvl : Nat) :
    (levelStart env ts lvl).s.snapped = ts.s.snapped := by
  show ((if lvl < env.pyrLevelsUsed - 1 then ts.s.propagateDown (lvl + 1) else ts.s).resetPoints
    env lvl).snapped = _
  show (if lvl < env.pyrLevelsUsed - 1 then ts.s.propagateDown (lvl + 1) else ts.s).snapped = _
  split_ifs
  · exact snapped_propagateDown _ _
  · rfl

theorem snapped_foldl_propagateUp (lvls : List Nat) (s : CoarseInitializer) :
    (lvls.foldl propagateUp s).snapped = s.snapped := by
  induction lvls generalizing s with
  | nil => rfl
  | cons a l ih => rw [List.foldl_cons, ih, snapped_propagateUp]

theorem snapped_unsnappedReset (env : Env) (s : CoarseInitializer) :
    (unsnappedReset env s).snapped = s.snapped := by
  unfold unsnappedReset
  split_ifs <;> rfl

theorem snapped_trackFrame (env : Env) (s : CoarseInitializer) (f : FrameHessian) :
    (s.trackFrame env f).1.snapped =
      (((List.range env.pyrLevelsUsed).reverse).foldl (trackLevel env)
        (trackStart env s f)).s.snapped ∧
    (trackStart env s f).s.snapped = s.snapped := by
  refine ⟨?_, ?_⟩
  · rw [trackFrame_fst, snapped_updateCounters]
    unfold trackFrameCore
    rw [snapped_foldl_propagateUp, trackFrameLevels_eq]
  · show (unsnappedReset env (trackFrameInit s f)).snapped = _
    rw [snapped_unsnappedReset]
    rfl

theorem trackFrames_snapped_of_snapped (env : Env) (frames : List FrameHessian)
    (s : CoarseInitializer) (hs : s.snapped = true) (n : Nat) (r : CoarseInitializer × Bool)
    (hr : (trackFrames env s frames)[n]? = some r) : r.1.snapped = true := by
  induction frames generalizing s n with
  | nil => simp [trackFrames] at hr
  | cons g gs ih =>
    have h1 : (s.trackFrame env g).1.snapped = true := by
      rw [trackFrame_fst, snapped_updateCounters]
      exact (keepsCounters_trackFrameCore env s g).2.2 hs
    unfold trackFrames at hr
    cases n with
    | zero =>
      rw [List.getElem?_cons_zero] at hr
      cases hr
      exact h1
    | succ n =>
      rw [List.getElem?_cons_succ] at hr
      exact ih _ h1 n hr

theorem foldl_first_flip (env : Env) (lvls : List Nat) (ts : TrackState)
    (h0 : ts.s.snapped = false) (h1 : (lvls.foldl (trackLevel env) ts).s.snapped = true) :
    ∃ pre lvl post, lvls = pre ++ lvl :: post ∧
      (pre.foldl (trackLevel env) ts).s.snapped = false ∧
      (trackLevel env (pre.foldl (trackLevel env) ts) lvl).s.snapped = true := by
  induction lvls generalizing ts with
  | nil => rw [List.foldl_nil, h0] at h1; exact Bool.noConfusion h1
  | cons a l ih =>
    cases hs : (trackLevel env ts a).s.snapped with
    | true => exact ⟨[], a, l, rfl, h0, hs⟩
    | false =>
      obtain ⟨pre, lvl, post, hl, hp, hq⟩ := ih (trackLevel env ts a) hs h1
      exact ⟨a :: pre, lvl, post, by rw [hl]; rfl, hp, hq⟩

/-- C25 (snap marking).  One pass through the loop of a level leaves `snapped` true exactly
when it was true before or the pass is accepted and the new alpha-energy `resNew[1]` equals
`alphaK * numPoints[lvl]`.  Nothing else in `trackFrame` writes `snapped`: the state on entry
to the loop of a level has the flag of the state before the level, and the flag returned by
`trackFrame` is that of the state after the coarse-to-fine loop, which starts with the flag of
the object.  So if `trackFrame` turns `snapped` from false to true, there are a level of the
coarse-to-fine loop and a pass of its loop, entered with `snapped` false, that is accepted with
`resNew[1] = alphaK * numPoints[lvl]`.  `trackFrame` never clears the flag, so in a run of
`trackFrame` calls it is monotone; `setFirst` sets it to false. -/
theorem snap_marking (env : Env) (s : CoarseInitializer) (f : FrameHessian) :
    (∀ (lvl : Nat) (st : LevelState),
      (levelIteration env lvl st).s.snapped =
        (st.s.snapped || ((levelIteration env lvl st).accept &&
          decide ((levelTrial env lvl st).out.res 1 =
            (levelTrial env lvl st).s.alphaK *
              ((levelTrial env lvl st).s.numPoints lvl : ℚ))))) ∧
    (∀ (ts : TrackState) (lvl : Nat), (levelStart env ts lvl).s.snapped = ts.s.snapped) ∧
    ((s.trackFrame env f).1.snapped =
      (((List.range env.pyrLevelsUsed).reverse).foldl (trackLevel env)
        (trackStart env s f)).s.snapped ∧
      (trackStart env s f).s.snapped = s.snapped) ∧
    (s.snapped = false → (s.trackFrame env f).1.snapped = true →
      ∃ pre lvl post y, (List.range env.pyrLevelsUsed).reverse = pre ++ lvl :: post ∧
        y ∈ passInputs env lvl ((iterationCap env lvl).toNat)
          (levelStart env (pre.foldl (trackLevel env) (trackStart env s f)) lvl) ∧
        y.s.snapped = false ∧
        (levelIteration env lvl y).accept = true ∧
        (levelTrial env lvl y).out.res 1 =
          (levelTrial env lvl y).s.alphaK * ((levelTrial env lvl y).s.numPoints lvl : ℚ) ∧
        (levelIteration env lvl y).s.snapped = true) ∧
    (s.snapped = true → (s.trackFrame env f).1.snapped = true) ∧
    (∀ (frames : List FrameHessian) (n m : Nat) (r1 r2 : CoarseInitializer × Bool), n ≤ m →
      (trackFrames env s frames)[n]? = some r1 → (trackFrames env s frames)[m]? = some r2 →
      r1.1.snapped = true → r2.1.snapped = true) ∧
    (∀ (HCalib : CalibHessian) (f0 : FrameHessian), (s.setFirst env HCalib f0).snapped = false) := by
  have hmono : ∀ (s0 : CoarseInitializer) (f0 : FrameHessian), s0.snapped = true →
      (s0.trackFrame env f0).1.snapped = true := by
    intro s0 f0 h
    rw [trackFrame_fst, snapped_updateCounters]
    exact (keepsCounters_trackFrameCore env s0 f0).2.2 h
  refine ⟨snapped_levelIteration env, snapped_levelStart env, snapped_trackFrame env s f,
    fun h0 h1 => ?_, hmono s f, ?_, fun _ _ => rfl⟩
  · rw [(snapped_trackFrame env s f).1] at h1
    have hst : (trackStart env s f).s.snapped = false := by
      rw [(snapped_trackFrame env s f).2, h0]
    obtain ⟨pre, lvl, post, hl, hp, hq⟩ := foldl_first_flip env _ _ hst h1
    rw [trackLevel_eq] at hq
    have hq' : (levelLoop env lvl ((iterationCap env lvl).toNat)
        (levelStart env (pre.foldl (trackLevel env) (trackStart env s f)) lvl)).s.snapped = true :=
      hq
    obtain ⟨y, hy, hrest⟩ := snapped_levelLoop_cases env lvl _ _
      (by rw [snapped_levelStart]; exact hp) hq'
    exact ⟨pre, lvl, post, y, hl, hy, hrest⟩
  · intro frames
    induction frames generalizing s with
    | nil =>
      intro n m r1 r2 _ h1
      simp [trackFrames] at h1
    | cons g gs ih =>
      intro n m r1 r2 hnm h1 h2 hs
      unfold trackFrames at h1 h2
      cases m with
      | zero =>
        have hn : n = 0 := by omega
        subst hn
        rw [h1] at h2
        cases h2
        exact hs
      | succ m =>
        rw [List.getElem?_cons_succ] at h2
        cases n with
        | zero =>
          rw [List.getElem?_cons_zero] at h1
          cases h1
          exact trackFrames_snapped_of_snapped env gs _ hs m r2 h2
        | succ n =>
          rw [List.getElem?_cons_succ] at h1
          exact ih (s.trackFrame env g).1 n m r1 r2 (by omega) h1 h2 hs

end CoarseInitializer

namespace CoarseInitializer

theorem computeInc_fixAffine (env : Env) (s : CoarseInitializer) (lvl : Nat) (H : Mat88f)
    (b : Vec8f) (Hsc : Mat88f) (bsc : Vec8f) (lambda : ℚ) (hfix : s.fixAffine = true)
    (k : Fin 8) (hk : 6 ≤ k.val) :
    computeInc env s lvl H b Hsc bsc lambda k = 0 := by
  unfold computeInc
  simp only [hfix, if_true]
  rw [dif_neg (by omega)]

theorem fixAffine_optReg (s : CoarseInitializer) (lvl : Nat) :
    (s.optReg lvl).fixAffine = s.fixAffine ∧ (s.optReg lvl).thisToNext_aff = s.thisToNext_aff := by
  unfold optReg
  split_ifs
  · exact ⟨rfl, rfl⟩
  · exact ⟨rfl, rfl⟩

theorem fixAffine_levelTrial (env : Env) (lvl : Nat) (st : LevelState) :
    (levelTrial env lvl st).s.fixAffine = st.s.fixAffine := rfl

theorem fixAffine_levelIteration (env : Env) (lvl : Nat) (st : LevelState) :
    (levelIteration env lvl st).s.fixAffine = st.s.fixAffine := by
  cases ha : (levelIteration env lvl st).accept with
  | true =>
    rw [levelIteration_of_accept env lvl st ha]
    show (acceptState lvl (levelTrial env lvl st)).fixAffine = _
    unfold acceptState
    rw [(fixAffine_optReg _ _).1]
    show (if _ then _ else _ : CoarseInitializer).fixAffine = _
    split_ifs <;> rfl
  | false =>
    rw [levelIteration_of_reject env lvl st ha]
    rfl

theorem aff_levelTrial (env : Env) (lvl : Nat) (st : LevelState) (hfix : st.s.fixAffine = true) :
    (levelTrial env lvl st).inc 6 = 0 ∧ (levelTrial env lvl st).inc 7 = 0 ∧
      (levelTrial env lvl st).refToNew_aff_new = st.refToNew_aff_current := by
  have h6 : (levelTrial env lvl st).inc 6 = 0 :=
    computeInc_fixAffine env st.s lvl st.H st.b st.Hsc st.bsc st.lambda hfix 6 (by decide)
  have h7 : (levelTrial env lvl st).inc 7 = 0 :=
    computeInc_fixAffine env st.s lvl st.H st.b st.Hsc st.bsc st.lambda hfix 7 (by decide)
  refine ⟨h6, h7, ?_⟩
  show ({ a := st.refToNew_aff_current.a + (levelTrial env lvl st).inc 6,
          b := st.refToNew_aff_current.b + (levelTrial env lvl st).inc 7 } : AffLight) = _
  rw [h6, h7, add_zero, add_zero]

theorem aff_levelIteration (env : Env) (lvl : Nat) (st : LevelState)
    (hfix : st.s.fixAffine = true) :
    (levelIteration env lvl st).refToNew_aff_current = st.refToNew_aff_current := by
  cases ha : (levelIteration env lvl st).accept with
  | true =>
    rw [levelIteration_of_accept env lvl st ha]
    exact (aff_levelTrial env lvl st hfix).2.2
  | false =>
    rw [levelIteration_of_reject env lvl st ha]
    rfl

theorem aff_levelLoop (env : Env) (lvl fuel : Nat) (st : LevelState)
    (hfix : st.s.fixAffine = true) :
    (levelLoop env lvl fuel st).refToNew_aff_current = st.refToNew_aff_current ∧
      (levelLoop env lvl fuel st).s.fixAffine = true := by
  induction fuel generalizing st with
  | zero =>
    exact ⟨aff_levelIteration env lvl st hfix, by
      show (levelIteration env lvl st).s.fixAffine = true
      rw [fixAffine_levelIteration, hfix]⟩
  | succ n ih =>
    unfold levelLoop
    split_ifs
    · exact ⟨aff_levelIteration env lvl st hfix, by rw [fixAffine_levelIteration, hfix]⟩
    · have hn : (nextPass (levelIteration env lvl st)).s.fixAffine = true := by
        show (levelIteration env lvl st).s.fixAffine = true
        rw [fixAffine_levelIteration, hfix]
      obtain ⟨h1, h2⟩ := ih (nextPass (levelIteration env lvl st)) hn
      exact ⟨h1.trans (aff_levelIteration env lvl st hfix), h2⟩

theorem fixAffine_levelStart (env : Env) (ts : TrackState) (lvl : Nat) :
    (levelStart env ts lvl).s.fixAffine = ts.s.fixAffine ∧
      (levelStart env ts lvl).refToNew_aff_current = ts.refToNew_aff_current := by
  refine ⟨?_, rfl⟩
  show (if lvl < env.pyrLevelsUsed - 1 then ts.s.propagateDown (lvl + 1) else ts.s).fixAffine = _
  split_ifs
  · unfold propagateDown
    rw [(fixAffine_optReg _ _).1]
    rfl
  · rfl

theorem aff_trackLevel (env : Env) (ts : TrackState) (lvl : Nat) (hfix : ts.s.fixAffine = true) :
    (trackLevel env ts lvl).refToNew_aff_current = ts.refToNew_aff_current ∧
      (trackLevel env ts lvl).s.fixAffine = true := by
  rw [trackLevel_eq]
  have h0 : (levelStart env ts lvl).s.fixAffine = true := by
    rw [(fixAffine_levelStart env ts lvl).1, hfix]
  obtain ⟨h1, h2⟩ := aff_levelLoop env lvl ((iterationCap env lvl).toNat) (levelStart env ts lvl) h0
  exact ⟨h1.trans (fixAffine_levelStart env ts lvl).2, h2⟩

theorem aff_foldl_trackLevel (env : Env) (lvls : List Nat) (ts : TrackState)
    (hfix : ts.s.fixAffine = true) :
    (lvls.foldl (trackLevel env) ts).refToNew_aff_current = ts.refToNew_aff_current ∧
      (lvls.foldl (trackLevel env) ts).s.fixAffine = true := by
  induction lvls generalizing ts with
  | nil => exact ⟨rfl, hfix⟩
  | cons a l ih =>
    rw [List.foldl_cons]
    obtain ⟨h1, h2⟩ := aff_trackLevel env ts a hfix
    obtain ⟨h3, h4⟩ := ih (trackLevel env ts a) h2
    exact ⟨h3.trans h1, h4⟩

theorem aff_foldl_propagateUp (lvls : List Nat) (s : CoarseInitializer) :
    (lvls.foldl propagateUp s).thisToNext_aff = s.thisToNext_aff ∧
      (lvls.foldl propagateUp s).fixAffine = s.fixAffine := by
  induction lvls generalizing s with
  | nil => exact ⟨rfl, rfl⟩
  | cons a l ih =>
    rw [List.foldl_cons]
    obtain ⟨h1, h2⟩ := ih (s.propagateUp a)
    have h3 : (s.propagateUp a).thisToNext_aff = s.thisToNext_aff := by
      unfold propagateUp
      rw [(fixAffine_optReg _ _).2]
      rfl
    have h4 : (s.propagateUp a).fixAffine = s.fixAffine := by
      unfold propagateUp
      rw [(fixAffine_optReg _ _).1]
      rfl
    exact ⟨h1.trans h3, h2.trans h4⟩

theorem aff_updateCounters (s : CoarseInitializer) :
    (updateCounters s).thisToNext_aff = s.thisToNext_aff ∧
      (updateCounters s).fixAffine = s.fixAffine := by
  unfold updateCounters
  simp only []
  split_ifs <;> exact ⟨rfl, rfl⟩

theorem fixAffine_trackStart (env : Env) (s : CoarseInitializer) (f : FrameHessian) :
    (trackStart env s f).s.fixAffine = s.fixAffine := by
  show (unsnappedReset env (trackFrameInit s f)).fixAffine = _
  unfold unsnappedReset
  split_ifs <;> rfl

/-- C28 (frozen affine parameters).  Let `fixAffine` be set, as the constructor leaves it (and
`setFirst` does not change it).  Then the last two components of every increment are 0, every
trial affine pair equals the current one, a pass of the loop keeps the current pair and the
flag, and the pair that `trackFrame` stores in `thisToNext_aff` is the pair the optimization
was seeded with: `(logf(exposure ratio), 0)` when both exposures are positive, else the pair
stored before. -/
theorem frozen_affine (env : Env) (s : CoarseInitializer) (f : FrameHessian)
    (hfix : s.fixAffine = true) :
    (∀ (lvl : Nat) (H : Mat88f) (b : Vec8f) (Hsc : Mat88f) (bsc : Vec8f) (lambda : ℚ),
      computeInc env s lvl H b Hsc bsc lambda 6 = 0 ∧
      computeInc env s lvl H b Hsc bsc lambda 7 = 0) ∧
    (∀ (lvl : Nat) (st : LevelState), st.s.fixAffine = true →
      (levelTrial env lvl st).inc 6 = 0 ∧ (levelTrial env lvl st).inc 7 = 0 ∧
      (levelTrial env lvl st).refToNew_aff_new = st.refToNew_aff_current ∧
      (levelIteration env lvl st).refToNew_aff_current = st.refToNew_aff_current ∧
      (levelIteration env lvl st).s.fixAffine = true) ∧
    (s.trackFrame env f).1.thisToNext_aff = (trackStart env s f).refToNew_aff_current ∧
    (trackStart env s f).refToNew_aff_current =
      (if s.firstFrame.ab_exposure > 0 ∧ f.ab_exposure > 0 then
        { a := env.logf (f.ab_exposure / s.firstFrame.ab_exposure), b := 0 }
      else s.thisToNext_aff) ∧
    (s.trackFrame env f).1.fixAffine = true ∧
    (∀ raw : CoarseInitializer, (construct env raw).fixAffine = true) ∧
    (∀ (HCalib : CalibHessian) (f0 : FrameHessian),
      (s.setFirst env HCalib f0).fixAffine = true) := by
  have hts : (trackStart env s f).s.fixAffine = true := by
    rw [fixAffine_trackStart, hfix]
  obtain ⟨hl1, hl2⟩ := aff_foldl_trackLevel env ((List.range env.pyrLevelsUsed).reverse)
    (trackStart env s f) hts
  refine ⟨fun lvl H b Hsc bsc lambda =>
      ⟨computeInc_fixAffine env s lvl H b Hsc bsc lambda hfix 6 (by decide),
        computeInc_fixAffine env s lvl H b Hsc bsc lambda hfix 7 (by decide)⟩,
    fun lvl st h => ?_, ?_, ?_, ?_, fun raw => rfl, fun HCalib f0 => hfix⟩
  · obtain ⟨h6, h7, ht⟩ := aff_levelTrial env lvl st h
    exact ⟨h6, h7, ht, aff_levelIteration env lvl st h, by rw [fixAffine_levelIteration, h]⟩
  · rw [trackFrame_fst, (aff_updateCounters _).1]
    unfold trackFrameCore
    rw [(aff_foldl_propagateUp _ _).1, trackFrameLevels_eq]
    exact hl1
  · show (if (unsnappedReset env (trackFrameInit s f)).firstFrame.ab_exposure > 0 ∧
        (unsnappedReset env (trackFrameInit s f)).newFrame.ab_exposure > 0 then _
      else (unsnappedReset env (trackFrameInit s f)).thisToNext_aff) = _
    have e1 : (unsnappedReset env (trackFrameInit s f)).firstFrame = s.firstFrame := by
      unfold unsnappedReset
      split_ifs <;> rfl
    have e2 : (unsnappedReset env (trackFrameInit s f)).newFrame = f := by
      unfold unsnappedReset
      split_ifs <;> rfl
    have e3 : (unsnappedReset env (trackFrameInit s f)).thisToNext_aff = s.thisToNext_aff := by
      unfold unsnappedReset
      split_ifs <;> rfl
    rw [e1, e2, e3]
  · rw [trackFrame_fst, (aff_updateCounters _).2]
    unfold trackFrameCore
    rw [(aff_foldl_propagateUp _ _).2, trackFrameLevels_eq]
    exact hl2

/-- The example object after `setFirst` has `fixAffine` set; tracking a frame of exposure 1
against the anchor of exposure 1 stores the seed `(logf(1), 0) = (0, 0)`. -/
theorem frozen_affine_witness :
    exampleStart.fixAffine = true ∧
      (exampleStart.trackFrame exampleEnv (exampleFrame 53)).1.thisToNext_aff.a = 0 ∧
      (exampleStart.trackFrame exampleEnv (exampleFrame 53)).1.thisToNext_aff.b = 0 := by
  have hfix : exampleStart.fixAffine = true := by decide!
  obtain ⟨_, _, h3, _⟩ := frozen_affine exampleEnv exampleStart (exampleFrame 53) hfix
  refine ⟨hfix, ?_, ?_⟩
  · rw [h3]
    decide!
  · rw [h3]
    decide!

end CoarseInitializer

theorem Pnt.row_injective : Function.Injective Pnt.row := by
  intro p q h
  obtain ⟨u, v, idepth, isGood, energy, isGood_new, idepth_new, energy_new, iR, iRSumNum,
    lastHessian, lastHessian_new, maxstep, parent, parentDist, neighbours, neighboursDist,
    my_type, outlierTH⟩ := p
  obtain ⟨u1, v1, idepth1, isGood1, energy1, isGood_new1, idepth_new1, energy_new1, iR1,
    iRSumNum1, lastHessian1, lastHessian_new1, maxstep1, parent1, parentDist1, neighbours1,
    neighboursDist1, my_type1, outlierTH1⟩ := q
  simp only [Pnt.row, PntRow.mk.injEq] at h
  obtain ⟨h1, h2, h3, h4, h5, h6, h7, h8, h9, h10, h11, h12, h13, h14, h15, h16, h17, h18, h19⟩ := h
  have hn := List.ofFn_injective h16
  have hd := List.ofFn_injective h17
  subst_vars
  rfl

namespace CoarseInitializer

theorem constants_setPoints (s : CoarseInitializer) (lvl : Nat) (pts : List Pnt) :
    (s.setPoints lvl pts).constants = s.constants := rfl

theorem constants_optReg (s : CoarseInitializer) (lvl : Nat) :
    (s.optReg lvl).constants = s.constants := by
  unfold optReg
  split <;> rfl

theorem constants_propagateDown (s : CoarseInitializer) (srcLvl : Nat) :
    (s.propagateDown srcLvl).constants = s.constants := by
  unfold propagateDown
  rw [constants_optReg]
  rfl

theorem constants_levelTrial (env : Env) (lvl : Nat) (st : LevelState) :
    (levelTrial env lvl st).s.constants = st.s.constants := rfl

theorem constants_acceptState (lvl : Nat) (tr : Trial) :
    (acceptState lvl tr).constants = tr.s.constants := by
  unfold acceptState
  rw [constants_optReg]
  split <;> rfl

theorem constants_levelIteration (env : Env) (lvl : Nat) (st : LevelState) :
    (levelIteration env lvl st).s.constants = st.s.constants := by
  unfold levelIteration
  split
  · exact (constants_acceptState lvl _).trans (constants_levelTrial env lvl st)
  · exact constants_levelTrial env lvl st

theorem constants_levelStart (env : Env) (ts : TrackState) (lvl : Nat) :
    (levelStart env ts lvl).s.constants = ts.s.constants := by
  have h : (levelStart env ts lvl).s.constants =
      (if lvl < env.pyrLevelsUsed - 1 then ts.s.propagateDown (lvl + 1) else ts.s).constants :=
    rfl
  rw [h]
  split
  · exact constants_propagateDown _ _
  · rfl

theorem constants_unsnappedReset (env : Env) (s : CoarseInitializer) :
    (unsnappedReset env s).constants = s.constants := by
  unfold unsnappedReset
  split <;> rfl

theorem points_calcResAndGS_ne (env : Env) (s : CoarseInitializer) (lvl l : Nat) (T : SE3)
    (aff : AffLight) (h : l ≠ lvl) : (s.calcResAndGS env lvl T aff).1.points l = s.points l :=
  Function.update_noteq h _ _

theorem points_applyStep_ne (s : CoarseInitializer) (lvl l : Nat) (h : l ≠ lvl) :
    (s.applyStep lvl).points l = s.points l :=
  Function.update_noteq h _ _

theorem points_doStep_ne (s : CoarseInitializer) (lvl l : Nat) (lambda : ℚ) (inc : Vec8f)
    (h : l ≠ lvl) : (s.doStep lvl lambda inc).points l = s.points l :=
  Function.update_noteq h _ _

theorem points_resetPoints_ne (env : Env) (s : CoarseInitializer) (lvl l : Nat) (h : l ≠ lvl) :
    (s.resetPoints env lvl).points l = s.points l :=
  Function.update_noteq h _ _

theorem points_levelTrial_ne (env : Env) (lvl l : Nat) (st : LevelState) (h : l ≠ lvl) :
    (levelTrial env lvl st).s.points l = st.s.points l :=
  (points_calcResAndGS_ne env _ lvl l _ _ h).trans (points_doStep_ne _ lvl l _ _ h)

theorem points_acceptState_ne (lvl l : Nat) (tr : Trial) (h : l ≠ lvl) :
    (acceptState lvl tr).points l = tr.s.points l := by
  unfold acceptState
  rw [points_optReg_ne _ lvl l h, points_applyStep_ne _ lvl l h]
  split <;> rfl

theorem points_levelIteration_ne (env : Env) (lvl l : Nat) (st : LevelState) (h : l ≠ lvl) :
    (levelIteration env lvl st).s.points l = st.s.points l := by
  unfold levelIteration
  split
  · exact (points_acceptState_ne lvl l _ h).trans (points_levelTrial_ne env lvl l st h)
  · exact points_levelTrial_ne env lvl l st h

theorem points_levelStart_ne (env : Env) (ts : TrackState) (lvl l : Nat) (h : l ≠ lvl) :
    (levelStart env ts lvl).s.points l = ts.s.points l := by
  have e : (levelStart env ts lvl).s =
      (((if lvl < env.pyrLevelsUsed - 1 then ts.s.propagateDown (lvl + 1) else
        ts.s).resetPoints env lvl).calcResAndGS env lvl ts.refToNew_current
          ts.refToNew_aff_current).1.applyStep lvl := rfl
  rw [e, points_applyStep_ne _ lvl l h, points_calcResAndGS_ne env _ lvl l _ _ h,
    points_resetPoints_ne env _ lvl l h]
  split
  · unfold propagateDown
    rw [points_optReg_ne _ _ l (by simpa using h)]
    exact Function.update_noteq (by simpa using h) _ _
  · rfl

theorem LevelState.eq_patch (lvl : Nat) (other : Nat → List Pnt) (X A : LevelState)
    (hc : X.s.constants = A.s.constants) (ho : ∀ l, l ≠ lvl → X.s.points l = other l)
    (h : X.Agrees lvl A ∧ X.AgreesSystem A) : X = X.patch lvl other A := by
  obtain ⟨h, hsys⟩ := h
  obtain ⟨hp, hjb, hsn, hTr, hTt, haa, hab, hres, hRr, hRt, hra, hrb,
    hlam, hfails, hit, hinc, hacc⟩ := h
  obtain ⟨hH, hb, hHsc, hbsc⟩ := hsys
  obtain ⟨s, H, b, Hsc, bsc, resOld, T, aff, lam, fails, it, incN, acc⟩ := X
  obtain ⟨s1, H1, b1, Hsc1, bsc1, resOld1, T1, aff1, lam1, fails1, it1, incN1, acc1⟩ := A
  obtain ⟨Tr, Tt⟩ := T
  obtain ⟨Tr1, Tt1⟩ := T1
  obtain ⟨affa, affb⟩ := aff
  obtain ⟨affa1, affb1⟩ := aff1
  simp only at hp hjb hsn hTr hTt haa hab hH hb hHsc hbsc hres ho
  simp only at hRr hRt hra hrb hlam hfails hit hinc hacc hc
  subst hRr hRt hra hrb hlam hfails hit hinc hacc
  have e1 : H = fun i j => if i.val < 6 ∧ j.val < 6 then H1 i j else H i j := by
    funext i j
    split_ifs with hij
    · exact hH ⟨i.val, hij.1⟩ ⟨j.val, hij.2⟩
    · rfl
  have e2 : b = fun i => if i.val < 6 then b1 i else b i := by
    funext i
    split_ifs with hi
    · exact hb ⟨i.val, hi⟩
    · rfl
  have e3 : Hsc = fun i j => if i.val < 6 ∧ j.val < 6 then Hsc1 i j else Hsc i j := by
    funext i j
    split_ifs with hij
    · exact hHsc ⟨i.val, hij.1⟩ ⟨j.val, hij.2⟩
    · rfl
  have e4 : bsc = fun i => if i.val < 6 then bsc1 i else bsc i := by
    funext i
    split_ifs with hi
    · exact hbsc ⟨i.val, hi⟩
    · rfl
  have e5 : resOld = fun i => if i.val < 2 then resOld1 i else resOld i := by
    funext i
    split_ifs with hi
    · exact hres ⟨i.val, hi⟩
    · rfl
  have e6 : s =
      { s1 with
        points := fun l => if l = lvl then s1.points lvl else other l
        JbBuffer := fun i => if i < 10 then s1.JbBuffer i else s.JbBuffer i
        JbBuffer_new := s.JbBuffer_new } := by
    obtain ⟨points, thisToNext, thisToNext_aff, firstFrame, newFrame, JbBuffer, JbBuffer_new,
      snapped, frameID, snappedAt, fixAffine, alphaK, alphaW, regWeight, couplingWeight, w, h,
      fx, fy, cx, cy, K, Ki, fxi, fyi, cxi, cyi⟩ := s
    obtain ⟨points1, thisToNext1, thisToNext_aff1, firstFrame1, newFrame1, JbBuffer1,
      JbBuffer_new1, snapped1, frameID1, snappedAt1, fixAffine1, alphaK1, alphaW1, regWeight1,
      couplingWeight1, w1, h1, fx1, fy1, cx1, cy1, K1, Ki1, fxi1, fyi1, cxi1, cyi1⟩ := s1
    obtain ⟨tr, tt⟩ := thisToNext
    obtain ⟨tr1, tt1⟩ := thisToNext1
    obtain ⟨ta, tb⟩ := thisToNext_aff
    obtain ⟨ta1, tb1⟩ := thisToNext_aff1
    simp only [constants, Prod.mk.injEq] at hc
    obtain ⟨c1, c2, c3, c4, c5, c6, c7, c8, c9, c10, c11, c12, c13, c14, c15, c16, c17, c18,
      c19, c20, c21⟩ := hc
    simp only at hp hjb hsn hTr hTt haa hab ho
    subst c1 c2 c3 c4 c5 c6 c7 c8 c9 c10 c11 c12 c13 c14 c15 c16 c17 c18 c19 c20 c21
    subst hsn hTr hTt haa hab
    have p1 : points = fun l => if l = lvl then points1 lvl else other l := by
      funext l
      split_ifs with hl
      · subst hl
        exact List.map_injective_iff.mpr Pnt.row_injective hp
      · exact ho l hl
    have p2 : JbBuffer = fun i => if i < 10 then JbBuffer1 i else JbBuffer i := by
      funext i
      split_ifs with hi
      · exact hjb ⟨i, hi⟩
      · rfl
    simp only [CoarseInitializer.mk.injEq, and_true, true_and]
    exact ⟨p1, p2⟩
  simp only [LevelState.patch, LevelState.mk.injEq, and_true, true_and]
  exact ⟨e6, e1, e2, e3, e4, e5⟩

theorem constants_trackStart (env : Env) (s : CoarseInitializer) (f : FrameHessian) :
    (trackStart env s f).s.constants = (trackFrameInit s f).constants :=
  constants_unsnappedReset env _

end CoarseInitializer


namespace CoarseInitializer

set_option maxRecDepth 1000000 in
theorem exampleEntry1_eq :
    levelStart exampleEnv (trackStart exampleEnv exampleStart exampleFrame1) 1 =
      exampleEntry1 :=
  LevelState.eq_patch 1 _ _ _
    ((constants_levelStart _ _ _).trans (constants_trackStart _ _ _))
    (fun l hl => points_levelStart_ne _ _ _ l hl) (by decide!)

theorem trackLevel_eq_trackOf (env : Env) (ts : TrackState) (lvl : Nat) :
    trackLevel env ts lvl =
      trackOf (levelLoop env lvl ((iterationCap env lvl).toNat) (levelStart env ts lvl)) := rfl

theorem trackFrame_two_levels (env : Env) (s : CoarseInitializer) (f : FrameHessian)
    (hL : env.pyrLevelsUsed = 2) :
    (s.trackFrame env f).1 =
      updateCounters (propagateUp (finishTrack
        (trackLevel env (trackLevel env (trackStart env s f) 1) 0)) 0) := by
  rw [trackFrame_fst]
  unfold trackFrameCore
  rw [trackFrameLevels_eq, hL]
  rfl

theorem exampleAfter1_eq : exampleAfter1 = exampleRest1 := by
  unfold exampleAfter1 exampleRest1
  rw [trackFrame_two_levels exampleEnv exampleStart exampleFrame1 rfl,
    trackLevel_eq_trackOf exampleEnv (trackStart exampleEnv exampleStart exampleFrame1) 1,
    exampleEntry1_eq]

set_option maxRecDepth 1000000 in
/-- The first call of `trackFrame` on the example and the head of the second call, evaluated:
the flags and depths of the coarse level after the first call and after `resetPoints(1)` of
the second. -/
theorem exampleAfter1_trace :
    (exampleStart.points 1).map Pnt.idepth = List.replicate 10 1 ∧
      exampleAfter1.snapped = true ∧
      (exampleAfter1.points 1).map Pnt.isGood =
        [false, false, true, true, false, false, false, false, false, false] ∧
      (exampleAfter1.points 1).map Pnt.idepth = List.replicate 10 1 ∧
      (exampleAfter1.points 1).map Pnt.iR = List.replicate 10 0 ∧
      (((unsnappedReset exampleEnv (trackFrameInit exampleAfter1 (exampleFrame 50))).resetPoints
        exampleEnv 1).points 1).map Pnt.idepth = [0, 0, 1, 1, 0, 0, 0, 0, 0, 0] ∧
      ¬ InDepthRange 0 := by
  rw [exampleAfter1_eq]
  decide!

/-- C1, counterexample to the claim as stated: two levels of ten points each.  After
`setFirst` every `idepth` is 1.  In the first call of `trackFrame` the coarse level accepts a
step with a translation large enough to set `snapped`; eight coarse points are outliers in
the accepted pass and become bad, every point of level 0 is an outlier, and `propagateUp(0)`
leaves `iR = 0` on every coarse point (the two good ones have too few good neighbours for
`optReg`).  In the second call `snapped` is true, so nothing resets `iR`, and `resetPoints(1)`
gives each bad coarse point the mean `iR` of its good neighbours: `idepth = 0 < 1e-3`. -/
theorem idepth_bound_counterexample :
    (exampleStart.points 1).map Pnt.idepth = List.replicate 10 1 ∧
      exampleAfter1.snapped = true ∧
      (exampleAfter1.points 1).map Pnt.isGood =
        [false, false, true, true, false, false, false, false, false, false] ∧
      (exampleAfter1.points 1).map Pnt.idepth = List.replicate 10 1 ∧
      (exampleAfter1.points 1).map Pnt.iR = List.replicate 10 0 ∧
      (((unsnappedReset exampleEnv (trackFrameInit exampleAfter1 (exampleFrame 50))).resetPoints
        exampleEnv 1).points 1).map Pnt.idepth = [0, 0, 1, 1, 0, 0, 0, 0, 0, 0] ∧
      ¬ InDepthRange 0 :=
  exampleAfter1_trace

end CoarseInitializer


namespace CoarseInitializer

set_option maxRecDepth 1000000 in
theorem exampleSnappedEntry0_eq : exampleSnappedLoop = exampleSnappedEntry0 :=
  LevelState.eq_patch 1 _ _ _
    ((constants_levelStart _ _ _).trans (constants_unsnappedReset _ _))
    (fun l hl => points_levelStart_ne _ _ _ l hl) (by decide!)

set_option maxRecDepth 1000000 in
/-- C12, counterexample to the claim as stated: the loop of level 1 for `exampleDrift` and
the frame `exampleStripFrame`.  The first two passes are accepted.  At the first accepted pass the
new total is `250483/217800` (about 1.15: photometric `51529/108900`, alpha `225/968`, coupling
`4/9`); `optReg` then moves `iR` of point 5 from 10 to `8/3`, so the old total of the second
pass is larger, and the second accepted pass commits the larger new total
`13351777/10672200` (about 1.25).  The photometric plus alpha energy stored in `resOld` rises
as well, from about 0.71 to about 0.81, and so does the photometric plus coupling energy. -/
theorem energy_monotone_counterexample :
    exampleSnappedLoop.s.snapped = true ∧
      ((levelTrace exampleEnv 1 5 exampleSnappedLoop).map LevelState.accept).take 2 = [true, true] ∧
      ((levelTrace exampleEnv 1 5 exampleSnappedLoop).map LevelState.committedEnergy).take 2 =
        [51529 / 108900 + 225 / 968, 1075369 / 1334025 + 25 / 47432] ∧
      eTotalNew (levelTrial exampleEnv 1 exampleSnappedLoop) =
        51529 / 108900 + 225 / 968 + 4 / 9 ∧
      eTotalNew (levelTrial exampleEnv 1
          (nextPass (levelIteration exampleEnv 1 exampleSnappedLoop))) =
        1075369 / 1334025 + 25 / 47432 + 4 / 9 ∧
      (51529 / 108900 + 225 / 968 : ℚ) < 1075369 / 1334025 + 25 / 47432 ∧
      (51529 / 108900 + 225 / 968 + 4 / 9 : ℚ) < 1075369 / 1334025 + 25 / 47432 + 4 / 9 ∧
      (51529 / 108900 + 4 / 9 : ℚ) < 1075369 / 1334025 + 4 / 9 := by
  rw [exampleSnappedEntry0_eq]
  decide!

end CoarseInitializer

namespace CoarseInitializer

/-- C39: the block `if(!snapped)` at the head of `trackFrame`, on entry to the coarse-to-fine
loop (`trackStart`, the state the first level is optimized from).  If `snapped` is false on
entry, the translation of `thisToNext` is zero while its rotation is kept, every level in use
holds the old points with `iR = 1`, `idepth_new = 1` and `lastHessian = 0`, and the
optimization is seeded with that transform.  If `snapped` is true on entry, `thisToNext` and
the points of every level are as they were.  The whole call is the coarse-to-fine loop run
from this state, followed by the upward propagation and the counters. -/
theorem unsnapped_reset (env : Env) (s : CoarseInitializer) (f : FrameHessian) :
    (s.snapped = false →
      (trackStart env s f).s.thisToNext.translation = (fun _ => 0) ∧
      (trackStart env s f).s.thisToNext.rotationMatrix = s.thisToNext.rotationMatrix ∧
      (trackStart env s f).refToNew_current.translation = (fun _ => 0) ∧
      (∀ lvl, lvl < env.pyrLevelsUsed →
        (trackStart env s f).s.points lvl =
          (s.points lvl).map fun p => { p with iR := 1, idepth_new := 1, lastHessian := 0 }) ∧
      (∀ lvl, lvl < env.pyrLevelsUsed → ∀ p ∈ (trackStart env s f).s.points lvl,
        p.iR = 1 ∧ p.idepth_new = 1 ∧ p.lastHessian = 0)) ∧
    (s.snapped = true →
      (trackStart env s f).s.thisToNext = s.thisToNext ∧
      (trackStart env s f).refToNew_current = s.thisToNext ∧
      (trackStart env s f).s.points = s.points) ∧
    (s.trackFrame env f).1 =
      updateCounters ((List.range (env.pyrLevelsUsed - 1)).foldl propagateUp
        (finishTrack (((List.range env.pyrLevelsUsed).reverse).foldl (trackLevel env)
          (trackStart env s f)))) := by
  have hs1 : (trackStart env s f).s = unsnappedReset env (trackFrameInit s f) := rfl
  have hr1 : (trackStart env s f).refToNew_current = (trackStart env s f).s.thisToNext := rfl
  refine ⟨fun hs => ?_, fun hs => ?_, rfl⟩
  · have hu : unsnappedReset env (trackFrameInit s f) =
        { trackFrameInit s f with
          thisToNext := { (trackFrameInit s f).thisToNext with translation := fun _ => 0 }
          points := fun lvl =>
            if lvl < env.pyrLevelsUsed then
              ((trackFrameInit s f).points lvl).map fun p =>
                { p with iR := 1, idepth_new := 1, lastHessian := 0 }
            else (trackFrameInit s f).points lvl } := by
      unfold unsnappedReset
      rw [if_pos]
      show (!s.snapped) = true
      rw [hs]; rfl
    have hp : ∀ lvl, lvl < env.pyrLevelsUsed →
        (trackStart env s f).s.points lvl =
          (s.points lvl).map fun p => { p with iR := 1, idepth_new := 1, lastHessian := 0 } := by
      intro lvl hl
      rw [hs1, hu]
      show (if lvl < env.pyrLevelsUsed then _ else _) = _
      rw [if_pos hl]
      rfl
    refine ⟨by rw [hs1, hu], by rw [hs1, hu]; rfl, by rw [hr1, hs1, hu], hp, ?_⟩
    intro lvl hl p hp1
    rw [hp lvl hl] at hp1
    obtain ⟨p0, _, rfl⟩ := List.mem_map.mp hp1
    exact ⟨rfl, rfl, rfl⟩
  · have hu : unsnappedReset env (trackFrameInit s f) = trackFrameInit s f := by
      unfold unsnappedReset
      rw [if_neg]
      show ¬ (!s.snapped) = true
      rw [hs]; simp
    refine ⟨by rw [hs1, hu]; rfl, by rw [hr1, hs1, hu]; rfl, by rw [hs1, hu]; rfl⟩

/-- C31: `calcEC(lvl)` returns `(0, 0, numPoints[lvl])` while `snapped` is false.  When
`snapped` is true its first two components are `couplingWeight` times the sums, over the
points with `isGood_new`, of `(idepth - iR)^2` and `(idepth_new - iR)^2`, and the third is the
number of those points.  With a non-negative `couplingWeight` (the value is 1 in every call of
`trackFrame`) both energies are non-negative. -/
theorem calcEC_regularizer (s : CoarseInitializer) (lvl : Nat) (hc : 0 ≤ s.couplingWeight) :
    (s.snapped = false → s.calcEC lvl = ![0, 0, (s.numPoints lvl : ℚ)]) ∧
    (s.snapped = true →
      s.calcEC lvl 0 = s.couplingWeight *
        (((s.points lvl).filter fun p => p.isGood_new).map
          fun p => (p.idepth - p.iR) ^ 2).sum ∧
      s.calcEC lvl 1 = s.couplingWeight *
        (((s.points lvl).filter fun p => p.isGood_new).map
          fun p => (p.idepth_new - p.iR) ^ 2).sum ∧
      s.calcEC lvl 2 = (((s.points lvl).filter fun p => p.isGood_new).length : ℚ)) ∧
    0 ≤ s.calcEC lvl 0 ∧ 0 ≤ s.calcEC lvl 1 ∧
    ∀ f, (trackFrameInit s f).couplingWeight = 1 := by
  have hsq : ∀ (l : List Pnt) (g : Pnt → ℚ), 0 ≤ (l.map fun p => g p * g p).sum := by
    intro l g
    apply List.sum_nonneg
    intro x hx
    obtain ⟨p, _, rfl⟩ := List.mem_map.mp hx
    exact mul_self_nonneg _
  have hpow : ∀ (l : List Pnt) (g : Pnt → ℚ),
      (l.map fun p => g p ^ 2) = l.map fun p => g p * g p := by
    intro l g
    apply List.map_congr_left
    intro p _
    ring
  cases hs : s.snapped with
  | false =>
    have h0 : s.calcEC lvl = ![0, 0, (s.numPoints lvl : ℚ)] := by
      unfold calcEC; simp [hs]
    refine ⟨fun _ => h0, fun h => Bool.noConfusion h, ?_, ?_, fun _ => rfl⟩
    · rw [h0]; exact le_refl 0
    · rw [h0]; exact le_refl 0
  | true =>
    have h0 : s.calcEC lvl = ![s.couplingWeight *
          (((s.points lvl).filter fun p => p.isGood_new).map
            fun p => (p.idepth - p.iR) * (p.idepth - p.iR)).sum,
        s.couplingWeight *
          (((s.points lvl).filter fun p => p.isGood_new).map
            fun p => (p.idepth_new - p.iR) * (p.idepth_new - p.iR)).sum,
        (((s.points lvl).filter fun p => p.isGood_new).length : ℚ)] := by
      unfold calcEC; simp [hs]
    refine ⟨fun h => Bool.noConfusion h, fun _ => ⟨?_, ?_, ?_⟩, ?_, ?_, fun _ => rfl⟩
    · rw [h0, hpow _ fun p => p.idepth - p.iR]; rfl
    · rw [h0, hpow _ fun p => p.idepth_new - p.iR]; rfl
    · rw [h0]; rfl
    · rw [h0]
      exact mul_nonneg hc (hsq _ fun p => p.idepth - p.iR)
    · rw [h0]
      exact mul_nonneg hc (hsq _ fun p => p.idepth_new - p.iR)

/-- The regularizer energy of the fine level of the example with `snapped` true: ten good
points, `iR = idepth` except for the two children of the coarse point 4. -/
theorem calcEC_regularizer_witness :
    0 ≤ (exampleState true fineUp coarseUp).couplingWeight ∧
      0 ≤ (exampleState true fineUp coarseUp).calcEC 0 0 ∧
      0 ≤ (exampleState true fineUp coarseUp).calcEC 0 1 :=
  have hc : 0 ≤ (exampleState true fineUp coarseUp).couplingWeight := by decide!
  ⟨hc, (calcEC_regularizer (exampleState true fineUp coarseUp) 0 hc).2.2.1,
    (calcEC_regularizer (exampleState true fineUp coarseUp) 0 hc).2.2.2.1⟩

theorem isGood_new_applyStep (s : CoarseInitializer) (lvl : Nat) :
    ((s.applyStep lvl).points lvl).map Pnt.isGood_new = (s.points lvl).map Pnt.isGood_new := by
  have h : ((s.applyStep lvl).points lvl) = (s.points lvl).map applyStepPoint := by
    unfold applyStep setPoints
    simp
  rw [h, List.map_map]
  apply List.map_congr_left
  intro p _
  unfold applyStepPoint
  simp only [Function.comp]
  split_ifs <;> rfl

/-- C29 (amended): the third component returned by `calcResAndGS` is not the good-point
count.  It is the number of entries of the energy accumulator `accE[0]`.  The residual loop
adds exactly one entry for every point of the level, whatever the point's `isGood` or
`isGood_new` flag (a bad or rejected point enters with its old energy), so after that loop the
count is `numPoints[lvl]`.  The count is read after the alpha loop, whose `updateSingle` calls
also land on `accE[0]` (the line that the source comment marks as meant for `EAlpha`) and add
one entry per point more. -/
theorem return_count (env : Env) (s : CoarseInitializer) (lvl : Nat) (refToNew : SE3)
    (refToNew_aff : AffLight) :
    (pointLoop env s lvl refToNew refToNew_aff).E.num = s.numPoints lvl ∧
    (pointLoop env s lvl refToNew refToNew_aff).pts.length = s.numPoints lvl ∧
    (s.calcResAndGS env lvl refToNew refToNew_aff).2.res 2 =
      ((((pointLoop env s lvl refToNew refToNew_aff).pts.foldl
        (fun e p => e.updateSingle (alphaPoint p).2)
        (pointLoop env s lvl refToNew refToNew_aff).E.finish).num : Nat) : ℚ) ∧
    (s.calcResAndGS env lvl refToNew refToNew_aff).2.res 2 =
      (((pointLoop env s lvl refToNew refToNew_aff).E.num : Nat) : ℚ) + (s.numPoints lvl : ℚ) := by
  have h1 : (pointLoop env s lvl refToNew refToNew_aff).E.num = s.numPoints lvl := by
    have := num_foldl_processPoint (patternSamples env s lvl refToNew refToNew_aff)
      (s.numPoints lvl)
      { pts := s.points lvl, jbNew := s.JbBuffer_new, acc9 := fun _ _ => 0,
        E := Accumulator11.initialize } (le_refl _)
    rw [pointLoop, this]
    exact Nat.zero_add _
  have h2 : (pointLoop env s lvl refToNew refToNew_aff).pts.length = s.numPoints lvl :=
    length_foldl_processPoint (patternSamples env s lvl refToNew refToNew_aff)
      (s.numPoints lvl)
      { pts := s.points lvl, jbNew := s.JbBuffer_new, acc9 := fun _ _ => 0,
        E := Accumulator11.initialize }
  refine ⟨h1, h2, rfl, ?_⟩
  rw [res2_calcResAndGS, h1]
  ring

/-- C29, counterexample to the claim as stated: level 1 of the example `exampleDrift` with the
frame `exampleStripFrame`, after `resetPoints`, at the transform of the state.  The level has
ten points; seven of them project outside the image margin and are not `isGood_new` after the
pass, three are.  The third returned component is 20: neither the good-point count 3 nor the
number of points. -/
theorem return_count_counterexample :
    ((unsnappedReset exampleEnv (trackFrameInit exampleDrift exampleStripFrame)).resetPoints
        exampleEnv 1).numPoints 1 = 10 ∧
      ((((unsnappedReset exampleEnv (trackFrameInit exampleDrift exampleStripFrame)).resetPoints
        exampleEnv 1).calcResAndGS exampleEnv 1 exampleDrift.thisToNext
          { a := 0, b := 0 }).1.points 1).map Pnt.isGood_new =
        [false, false, false, false, false, true, true, true, false, false] ∧
      (((unsnappedReset exampleEnv (trackFrameInit exampleDrift exampleStripFrame)).resetPoints
        exampleEnv 1).calcResAndGS exampleEnv 1 exampleDrift.thisToNext
          { a := 0, b := 0 }).2.res 2 = 20 := by
  have hn : ((unsnappedReset exampleEnv (trackFrameInit exampleDrift
      exampleStripFrame)).resetPoints exampleEnv 1).numPoints 1 = 10 := by decide!
  have hflags : (exampleSnappedLoop.s.points 1).map Pnt.isGood_new =
      [false, false, false, false, false, true, true, true, false, false] := by
    rw [exampleSnappedEntry0_eq]
    decide!
  refine ⟨hn, ?_, ?_⟩
  · rw [← hflags]
    show _ = ((((((unsnappedReset exampleEnv (trackFrameInit exampleDrift
      exampleStripFrame)).resetPoints exampleEnv 1).calcResAndGS exampleEnv 1
        exampleDrift.thisToNext { a := 0, b := 0 }).1.applyStep 1).points 1).map Pnt.isGood_new)
    rw [isGood_new_applyStep]
  · rw [res2_calcResAndGS, hn]
    norm_num

theorem trackFrames_snapped_mono (env : Env) (frames : List FrameHessian)
    (s : CoarseInitializer) (n m : Nat) (r1 r2 : CoarseInitializer × Bool) (hnm : n ≤ m)
    (h1 : (trackFrames env s frames)[n]? = some r1)
    (h2 : (trackFrames env s frames)[m]? = some r2) (hs : r1.1.snapped = true) :
    r2.1.snapped = true := by
  induction frames generalizing s n m with
  | nil => simp [trackFrames] at h1
  | cons f fs ih =>
    cases n with
    | zero =>
      simp only [trackFrames, List.getElem?_cons_zero, Option.some.injEq] at h1
      cases m with
      | zero =>
        simp only [trackFrames, List.getElem?_cons_zero, Option.some.injEq] at h2
        rw [← h2, h1]; exact hs
      | succ m =>
        simp only [trackFrames, List.getElem?_cons_succ] at h2
        exact trackFrames_snapped_of_snapped env fs _ (by rw [h1]; exact hs) m r2 h2
    | succ n =>
      cases m with
      | zero => omega
      | succ m =>
        simp only [trackFrames, List.getElem?_cons_succ] at h1 h2
        exact ih _ n m (by omega) h1 h2

theorem length_trackFrames (env : Env) (frames : List FrameHessian) (s : CoarseInitializer) :
    (trackFrames env s frames).length = frames.length := by
  induction frames generalizing s with
  | nil => rfl
  | cons f fs ih => simp [trackFrames, ih]

/-- C34 (amended): a sequence of calls of `trackFrame` after `setFirst`, one result per frame.
Each of the first 6 calls returns false whatever the frames are, and once a call has returned
true every later call of the sequence returns true, as long as it is one of the first
`2^31 - 1` calls (the 32-bit counter `frameID` has not wrapped). -/
theorem handoff_hysteresis (env : Env) (s0 : CoarseInitializer) (HCalib : CalibHessian)
    (f0 : FrameHessian) (frames : List FrameHessian) :
    (trackFrames env (s0.setFirst env HCalib f0) frames).length = frames.length ∧
    (∀ (n : Nat) (r : CoarseInitializer × Bool), n < 6 →
      (trackFrames env (s0.setFirst env HCalib f0) frames)[n]? = some r → r.2 = false) ∧
    (∀ (n m : Nat) (r1 r2 : CoarseInitializer × Bool), n ≤ m → m + 1 < 2147483648 →
      (trackFrames env (s0.setFirst env HCalib f0) frames)[n]? = some r1 →
      (trackFrames env (s0.setFirst env HCalib f0) frames)[m]? = some r2 →
      r1.2 = true → r2.2 = true) := by
  have key : ∀ (n : Nat) (r : CoarseInitializer × Bool), n + 1 < 2147483648 →
      (trackFrames env (s0.setFirst env HCalib f0) frames)[n]? = some r →
      r.1.frameID = (n : Int) + 1 ∧
      (r.1.snapped = true → ∃ k : Nat, k ≤ n ∧ r.1.snappedAt = (k : Int) + 1 ∧
        (∃ rk, (trackFrames env (s0.setFirst env HCalib f0) frames)[k]? = some rk ∧
          rk.1.snapped = true) ∧
        ∀ j : Nat, j < k → ∀ rj, (trackFrames env (s0.setFirst env HCalib f0) frames)[j]? =
          some rj → rj.1.snapped = false) := by
    intro n r hn hr
    have hf : (s0.setFirst env HCalib f0).frameID = 0 := rfl
    have h := trackFrames_of_not_snapped env frames (s0.setFirst env HCalib f0) rfl rfl
      (le_refl _) n r hr (by rw [hf]; omega)
    rw [hf] at h
    simp only [zero_add] at h
    exact ⟨h.1, h.2.2⟩
  refine ⟨length_trackFrames env frames _, fun n r hn hr => ?_,
    fun n m r1 r2 hnm hm h1 h2 ht => ?_⟩
  · rw [trackFrames_flag env frames _ n r hr]
    obtain ⟨hf, hsn⟩ := key n r (by omega) hr
    cases hs : r.1.snapped with
    | false => rfl
    | true =>
      obtain ⟨k, hk, hka, _, _⟩ := hsn hs
      simp only [Bool.true_and, decide_eq_false_iff_not, not_lt]
      rw [hf, hka, wrapInt32_of_range _ (by omega) (by omega)]
      have : (n : Int) < 6 := by exact_mod_cast hn
      have : (0 : Int) ≤ k := Int.natCast_nonneg k
      omega
  · rw [trackFrames_flag env frames _ n r1 h1] at ht
    rw [trackFrames_flag env frames _ m r2 h2]
    simp only [Bool.and_eq_true, decide_eq_true_eq] at ht ⊢
    obtain ⟨hs1, hgt⟩ := ht
    obtain ⟨hf1, hsn1⟩ := key n r1 (by omega) h1
    obtain ⟨hf2, hsn2⟩ := key m r2 hm h2
    obtain ⟨k1, hk1, hka1, ⟨rk1, hrk1, hrks1⟩, hj1⟩ := hsn1 hs1
    have hs2 : r2.1.snapped = true :=
      trackFrames_snapped_mono env frames _ n m r1 r2 hnm h1 h2 hs1
    obtain ⟨k2, hk2, hka2, ⟨rk2, hrk2, hrks2⟩, hj2⟩ := hsn2 hs2
    have hkk : k1 = k2 := by
      rcases Nat.lt_trichotomy k1 k2 with h | h | h
      · have := hj2 k1 h rk1 hrk1
        rw [hrks1] at this
        exact Bool.noConfusion this
      · exact h
      · have := hj1 k2 h rk2 hrk2
        rw [hrks2] at this
        exact Bool.noConfusion this
    refine ⟨hs2, ?_⟩
    rw [hf2, hka2, ← hkk]
    rw [hf1, hka1] at hgt
    have : (n : Int) ≤ m := by exact_mod_cast hnm
    omega

theorem exampleAfter1_counters :
    exampleAfter1.snapped = true ∧ exampleAfter1.snappedAt = 1 ∧ exampleAfter1.frameID = 1 := by
  have hs : exampleAfter1.snapped = true := exampleAfter1_trace.2.1
  have hk := keepsCounters_trackFrameCore exampleEnv exampleStart exampleFrame1
  have hc : (trackFrameCore exampleEnv exampleStart exampleFrame1).snapped = true := by
    have h := hs
    unfold exampleAfter1 at h
    rw [trackFrame_fst, snapped_updateCounters] at h
    exact h
  refine ⟨hs, ?_, ?_⟩
  · show (exampleStart.trackFrame exampleEnv exampleFrame1).1.snappedAt = 1
    rw [trackFrame_fst, snappedAt_updateCounters_of_snapped _ hc, hk.2.1, hk.1]
    rfl
  · show (exampleStart.trackFrame exampleEnv exampleFrame1).1.frameID = 1
    rw [trackFrame_fst, frameID_updateCounters, hk.1]
    rfl

/-- The run of the example: `setFirst`, the frame `exampleFrame1`, at which the state snaps,
and `2^31 - 1` further frames.  The call number `j + 2` ends with `snapped` true,
`snappedAt = 1` and `frameID` the wrapped count, and returns the comparison of that count
with 6. -/
theorem exampleRun_call (j : Nat) (hj : j < 2147483647) :
    ∃ r : CoarseInitializer × Bool,
      (trackFrames exampleEnv exampleStart
        (exampleFrame1 :: List.replicate 2147483647 (exampleFrame 50)))[j + 1]? = some r ∧
      r.1.snapped = true ∧ r.1.snappedAt = 1 ∧ r.1.frameID = wrapInt32 ((j : Int) + 2) ∧
      r.2 = decide (wrapInt32 ((j : Int) + 2) > 6) := by
  obtain ⟨hs, ha, hf⟩ := exampleAfter1_counters
  have hlen : j < (trackFrames exampleEnv exampleAfter1
      (List.replicate 2147483647 (exampleFrame 50))).length := by
    rw [length_trackFrames, List.length_replicate]
    exact hj
  have hr : (trackFrames exampleEnv exampleAfter1
      (List.replicate 2147483647 (exampleFrame 50)))[j]? =
      some ((trackFrames exampleEnv exampleAfter1
        (List.replicate 2147483647 (exampleFrame 50))).get ⟨j, hlen⟩) :=
    List.getElem?_eq_getElem hlen
  obtain ⟨h1, h2⟩ := trackFrames_of_snapped exampleEnv _ exampleAfter1 hs
    (by rw [ha]; decide) j _ hr
  have h3 := frameID_trackFrames exampleEnv _ exampleAfter1 j _ hr
  have h4 := trackFrames_flag exampleEnv _ exampleAfter1 j _ hr
  rw [hf] at h3
  rw [ha] at h2
  have e : (1 : Int) + (j : Int) + 1 = (j : Int) + 2 := by ring
  rw [e] at h3
  refine ⟨_, (trackFrames_cons_succ exampleEnv exampleStart exampleFrame1 _ j).trans hr,
    h1, h2, h3, ?_⟩
  have e6 : wrapInt32 (1 + 5) = 6 := by
    unfold wrapInt32
    norm_num
  rw [h4, h1, h2, h3, e6, Bool.true_and]

/-- C2, counterexample to the claim as stated: the run of the example, in which the first call
after `setFirst` ends with `snapped` true.  At the call number `2^31` the counter `frameID`
has wrapped to `-2^31`: it is not the number of calls, and the call returns false although
`snapped` has held since the first call. -/
theorem trackFrame_return_counterexample :
    ∃ r : CoarseInitializer × Bool,
      (trackFrames exampleEnv exampleStart
        (exampleFrame1 :: List.replicate 2147483647 (exampleFrame 50)))[2147483647]? = some r ∧
      r.1.snapped = true ∧ r.1.snappedAt = 1 ∧ r.1.frameID = -2147483648 ∧
      r.1.frameID ≠ 2147483648 ∧ r.2 = false := by
  obtain ⟨r, hr, hs, ha, hf, hflag⟩ := exampleRun_call 2147483646 (by norm_num)
  have hw : wrapInt32 (((2147483646 : Nat) : Int) + 2) = -2147483648 := by
    unfold wrapInt32
    norm_num
  rw [hw] at hf hflag
  exact ⟨r, hr, hs, ha, hf, by rw [hf]; norm_num, by rw [hflag]; rfl⟩

/-- C34, counterexample to the claim as stated: the run of the example, in which the first
call after `setFirst` ends with `snapped` true.  The call number 7 returns true; the later call
number `2^31`, at which `frameID` wraps to `-2^31`, returns false. -/
theorem handoff_hysteresis_counterexample :
    ∃ r7 rN : CoarseInitializer × Bool,
      (trackFrames exampleEnv exampleStart
        (exampleFrame1 :: List.replicate 2147483647 (exampleFrame 50)))[6]? = some r7 ∧
      r7.2 = true ∧
      (trackFrames exampleEnv exampleStart
        (exampleFrame1 :: List.replicate 2147483647 (exampleFrame 50)))[2147483647]? =
          some rN ∧
      rN.2 = false := by
  obtain ⟨r7, h7, _, _, _, hflag7⟩ := exampleRun_call 5 (by norm_num)
  obtain ⟨rN, hN, _, _, _, hflagN⟩ := exampleRun_call 2147483646 (by norm_num)
  have hw7 : wrapInt32 (((5 : Nat) : Int) + 2) = 7 := by
    unfold wrapInt32
    norm_num
  have hwN : wrapInt32 (((2147483646 : Nat) : Int) + 2) = -2147483648 := by
    unfold wrapInt32
    norm_num
  rw [hw7] at hflag7
  rw [hwN] at hflagN
  exact ⟨r7, rN, h7, by rw [hflag7]; rfl, hN, by rw [hflagN]; rfl⟩

end CoarseInitializer

theorem childSums_zero (ptss : List Pnt) (k : Int)
    (hzero : ∀ c ∈ ptss, c.isGood = true → c.parent = k → c.lastHessian = 0) :
    childWeightSum ptss k = 0 ∧ childIRSum ptss k = 0 := by
  unfold childWeightSum childIRSum
  constructor
  · apply List.sum_eq_zero
    intro x hx
    obtain ⟨c, hc, rfl⟩ := List.mem_map.mp hx
    rw [List.mem_filter] at hc
    simp only [Bool.and_eq_true, decide_eq_true_eq] at hc
    exact hzero c hc.1 hc.2.1 hc.2.2
  · apply List.sum_eq_zero
    intro x hx
    obtain ⟨c, hc, rfl⟩ := List.mem_map.mp hx
    rw [List.mem_filter] at hc
    simp only [Bool.and_eq_true, decide_eq_true_eq] at hc
    rw [hzero c hc.1 hc.2.1 hc.2.2, mul_zero]

namespace CoarseInitializer

/-- C37: with the identity transform and consistent intrinsics of the level (`fx`, `fy`
non-zero and `Ki = K^-1`, as `makeK` leaves them), for every point and every offset
`(dx, dy)` the projection of `calcResAndGS` has `pt[2] = 1`, `(Ku, Kv) = (u + dx, v + dy)`
and `new_idepth = idepth_new`; the depth derivatives `dxdd = (t0 - t2*u)/pt2` and
`dydd = (t1 - t2*v)/pt2` are 0, and so is the depth Jacobian `dd` of every sample. -/
theorem identity_projection (s : CoarseInitializer) (lvl : Nat) (point : Pnt) (dx dy : Int)
    (hfx : s.fx lvl ≠ 0) (hfy : s.fy lvl ≠ 0)
    (hKi : s.Ki lvl =
      mat33Inverse ![![s.fx lvl, 0, s.cx lvl], ![0, s.fy lvl, s.cy lvl], ![0, 0, 1]]) :
    (projectSample s lvl SE3.identity point dx dy).Ku = point.u + (dx : ℚ) ∧
      (projectSample s lvl SE3.identity point dx dy).Kv = point.v + (dy : ℚ) ∧
      (projectSample s lvl SE3.identity point dx dy).new_idepth = point.idepth_new ∧
      (projectSample s lvl SE3.identity point dx dy).pt2 = 1 ∧
      (SE3.identity.translation 0 - SE3.identity.translation 2 *
          (projectSample s lvl SE3.identity point dx dy).u) /
        (projectSample s lvl SE3.identity point dx dy).pt2 = 0 ∧
      (SE3.identity.translation 1 - SE3.identity.translation 2 *
          (projectSample s lvl SE3.identity point dx dy).v) /
        (projectSample s lvl SE3.identity point dx dy).pt2 = 0 ∧
      ∀ (env : Env) (aff : AffLight) (hitColor : Vec3f) (rlR : ℚ),
        (sampleValues env s lvl SE3.identity aff
          (projectSample s lvl SE3.identity point dx dy) hitColor rlR).dd = 0 := by
  have ht : ∀ i, SE3.identity.translation i = 0 := fun _ => rfl
  rw [projectSample_identity s lvl point dx dy hfx hfy hKi]
  refine ⟨rfl, rfl, rfl, rfl, ?_, ?_, ?_⟩
  · rw [ht 0, ht 2]; simp
  · rw [ht 1, ht 2]; simp
  · intro env aff hitColor rlR
    unfold sampleValues
    simp only [ht]
    simp

/-- The first point of level 1 of the example (`u = v = 3.1`) with the offset `(1, -2)`: the
projected pixel is `(4.1, 1.1)`. -/
theorem identity_projection_witness :
    (trackFrameInit exampleStart (exampleFrame 53)).fx 1 ≠ 0 ∧
      (trackFrameInit exampleStart (exampleFrame 53)).fy 1 ≠ 0 ∧
      (projectSample (trackFrameInit exampleStart (exampleFrame 53)) 1 SE3.identity
        (((trackFrameInit exampleStart (exampleFrame 53)).points 1).getD 0 default) 1 (-2)).Ku
        = 31 / 10 + 1 ∧
      (projectSample (trackFrameInit exampleStart (exampleFrame 53)) 1 SE3.identity
        (((trackFrameInit exampleStart (exampleFrame 53)).points 1).getD 0 default) 1 (-2)).Kv
        = 31 / 10 - 2 := by
  have hfx : (trackFrameInit exampleStart (exampleFrame 53)).fx 1 ≠ 0 := by decide!
  have hfy : (trackFrameInit exampleStart (exampleFrame 53)).fy 1 ≠ 0 := by decide!
  have hu : (((trackFrameInit exampleStart (exampleFrame 53)).points 1).getD 0 default).u
      = 31 / 10 := by decide!
  have hv : (((trackFrameInit exampleStart (exampleFrame 53)).points 1).getD 0 default).v
      = 31 / 10 := by decide!
  have h := identity_projection (trackFrameInit exampleStart (exampleFrame 53)) 1
    (((trackFrameInit exampleStart (exampleFrame 53)).points 1).getD 0 default) 1 (-2) hfx hfy
    (by decide!)
  refine ⟨hfx, hfy, ?_, ?_⟩
  · rw [h.1, hu]; norm_num
  · rw [h.2.1, hv]; norm_num

/-- C35: let the coarse point `k` of level `srcLvl + 1` have no good child with non-zero
`lastHessian` on level `srcLvl`.  The three loops of `propagateUp(srcLvl)` leave it as it was
except for `iR = 0` and `iRSumNum = 0`; the final `optReg` keeps every field except `iR`, so
after `propagateUp(srcLvl)` the point has its old `idepth` and `isGood`, and when `snapped` is
false, or the point is bad, or it has fewer than 3 good neighbours, its `iR` is 0, which is
outside `[1e-3, 50]`. -/
theorem propagateUp_no_evidence (s : CoarseInitializer) (srcLvl k : Nat) (p : Pnt)
    (hp : (s.points (srcLvl + 1))[k]? = some p)
    (hzero : ∀ c ∈ s.points srcLvl, c.isGood = true → c.parent = (k : Int) →
      c.lastHessian = 0) :
    (propagateUpLoops (s.points srcLvl) (s.points (srcLvl + 1)))[k]? =
        some { p with iR := 0, iRSumNum := 0 } ∧
      (∃ q, ((s.propagateUp srcLvl).points (srcLvl + 1))[k]? = some q ∧
        q.idepth = p.idepth ∧ q.isGood = p.isGood ∧
        (s.snapped = false ∨ p.isGood = false ∨
          (collectIdnn (propagateUpLoops (s.points srcLvl) (s.points (srcLvl + 1)))
            { p with iR := 0, iRSumNum := 0 }).length < 3 → q.iR = 0)) ∧
      ¬ InDepthRange 0 := by
  obtain ⟨hw, hi⟩ := childSums_zero (s.points srcLvl) k hzero
  have hq0 : (propagateUpLoops (s.points srcLvl) (s.points (srcLvl + 1)))[k]? =
      some { p with iR := 0, iRSumNum := 0 } := by
    rw [getElem?_propagateUpLoops, hp, Option.map_some', hw, hi]
    unfold propagateUpFinish
    rw [if_neg (lt_irrefl _)]
  refine ⟨hq0, ?_, by unfold InDepthRange; norm_num⟩
  obtain ⟨q, hq, he, hiR, _⟩ := optReg_setPoints_spec s (srcLvl + 1) k _ _ hq0
  refine ⟨q, hq, ?_, ?_, fun hc => ?_⟩
  · have := congrArg Pnt.idepth he
    exact this
  · have := congrArg Pnt.isGood he
    exact this
  · exact hiR hc

/-- The coarse point 3 of the example has no child on the fine level: with `snapped` false
its `iR` is 0 after `propagateUp(0)`. -/
theorem propagateUp_no_evidence_witness :
    Option.map Pnt.iR (((exampleState false fineUp coarseUp).points (0 + 1))[3]?) = some 1 ∧
      (∀ c ∈ (exampleState false fineUp coarseUp).points 0, c.isGood = true →
        c.parent = ((3 : Nat) : Int) → c.lastHessian = 0) ∧
      Option.map Pnt.iR ((((exampleState false fineUp coarseUp).propagateUp 0).points
        (0 + 1))[3]?) = some 0 := by
  have hp : ((exampleState false fineUp coarseUp).points (0 + 1))[3]? =
      some (examplePnt true 1 1 1 (-1)) := rfl
  have hzero : ∀ c ∈ (exampleState false fineUp coarseUp).points 0, c.isGood = true →
      c.parent = ((3 : Nat) : Int) → c.lastHessian = 0 := by decide!
  obtain ⟨q, hq, _, _, h0⟩ :=
    (propagateUp_no_evidence (exampleState false fineUp coarseUp) 0 3 _ hp hzero).2.1
  refine ⟨by rw [hp]; rfl, hzero, ?_⟩
  rw [hq, Option.map_some', h0 (Or.inl rfl)]

end CoarseInitializer

theorem makePoint_eq_some (env : Env) (frame : FrameHessian) (lvl wl : Nat) (fresh : Pnt)
    (x y : Nat) (q : Pnt) (hm : makePoint env frame lvl wl fresh x y = some q) :
    pixelSelected env frame lvl wl (x, y) = true ∧ q.u = (x : ℚ) + 1 / 10 ∧
      q.v = (y : ℚ) + 1 / 10 := by
  unfold makePoint at hm
  by_cases hc : (lvl ≠ 0 ∧ env.statusMapB frame lvl (x + y * wl) = true) ∨
      (lvl = 0 ∧ env.statusMap frame (x + y * wl) ≠ 0)
  · rw [if_pos hc] at hm
    cases hm
    exact ⟨decide_eq_true hc, rfl, rfl⟩
  · rw [if_neg hc] at hm
    exact Option.noConfusion hm

theorem makePoint_eq_none (env : Env) (frame : FrameHessian) (lvl wl : Nat) (fresh : Pnt)
    (x y : Nat) (hm : makePoint env frame lvl wl fresh x y = none) :
    pixelSelected env frame lvl wl (x, y) = false := by
  unfold makePoint at hm
  by_cases hc : (lvl ≠ 0 ∧ env.statusMapB frame lvl (x + y * wl) = true) ∨
      (lvl = 0 ∧ env.statusMap frame (x + y * wl) ≠ 0)
  · rw [if_pos hc] at hm
    exact Option.noConfusion hm
  · exact decide_eq_false hc

/-- The points created by the pixel loops of `setFirst` sit, in order, on the selected pixels
of the window. -/
theorem selectPoints_pixels (env : Env) (frame : FrameHessian) (lvl wl hl : Nat) :
    (selectPoints env frame lvl wl hl).map (fun p => (p.u, p.v)) =
      ((pixelWindow env wl hl).filter (pixelSelected env frame lvl wl)).map
        fun xy => ((xy.1 : ℚ) + 1 / 10, (xy.2 : ℚ) + 1 / 10) := by
  unfold selectPoints
  generalize pixelWindow env wl hl = win
  suffices hgen : ∀ (pl : List Pnt),
      (win.foldl (fun pl xy =>
        match makePoint env frame lvl wl (env.freshPnt lvl pl.length) xy.1 xy.2 with
        | some p => pl ++ [p]
        | none => pl) pl).map (fun p => (p.u, p.v)) =
      pl.map (fun p => (p.u, p.v)) ++
        (win.filter (pixelSelected env frame lvl wl)).map
          fun xy => ((xy.1 : ℚ) + 1 / 10, (xy.2 : ℚ) + 1 / 10) by
    simpa using hgen []
  induction win with
  | nil => intro pl; simp
  | cons xy rest ih =>
    intro pl
    rw [List.foldl_cons, ih]
    cases hm : makePoint env frame lvl wl (env.freshPnt lvl pl.length) xy.1 xy.2 with
    | none =>
      have hsel := makePoint_eq_none env frame lvl wl _ _ _ hm
      rw [List.filter_cons_of_neg (by rw [hsel]; exact Bool.false_ne_true)]
    | some q =>
      obtain ⟨hsel, hu, hv⟩ := makePoint_eq_some env frame lvl wl _ _ _ q hm
      rw [List.filter_cons_of_pos hsel]
      simp only [List.map_append, List.map_cons, List.map_nil, List.append_assoc,
        List.singleton_append, hu, hv]

theorem mem_pixelWindow (env : Env) (wl hl : Nat) (xy : Nat × Nat) :
    xy ∈ pixelWindow env wl hl ↔
      (env.patternPadding + 1 ≤ xy.1 ∧ xy.1 + env.patternPadding + 2 < wl) ∧
      (env.patternPadding + 1 ≤ xy.2 ∧ xy.2 + env.patternPadding + 2 < hl) := by
  unfold pixelWindow
  simp only [List.mem_flatMap, List.mem_map, List.mem_range'_1]
  constructor
  · rintro ⟨y, hy, x, hx, rfl⟩
    constructor
    · constructor
      · exact hx.1
      · show x + env.patternPadding + 2 < wl
        omega
    · constructor
      · exact hy.1
      · show y + env.patternPadding + 2 < hl
        omega
  · rintro ⟨hx, hy⟩
    refine ⟨xy.2, ⟨hy.1, by omega⟩, xy.1, ⟨hx.1, by omega⟩, rfl⟩

theorem makeNNPoint_uv (env : Env) (lvl : Nat) (pts ptsUp : List Pnt) (p : Pnt) :
    (makeNNPoint env lvl pts ptsUp p).u = p.u ∧ (makeNNPoint env lvl pts ptsUp p).v = p.v := by
  unfold makeNNPoint
  simp only []
  split_ifs <;> exact ⟨rfl, rfl⟩

namespace CoarseInitializer

/-- C33: on every level in use, the points created by `setFirst` are, in order, the selected
pixels of the window `patternPadding + 1 <= x < w[lvl] - patternPadding - 2`,
`patternPadding + 1 <= y < h[lvl] - patternPadding - 2`, each with `u = x + 0.1` and
`v = y + 0.1`.  Hence every point has such coordinates, no pixel outside the window becomes a
point, and `numPoints[lvl]` is the number of selected pixels of the window. -/
theorem edge_margin (env : Env) (s : CoarseInitializer) (HCalib : CalibHessian)
    (f : FrameHessian) (lvl : Nat) (hl : lvl < env.pyrLevelsUsed) :
    ((s.setFirst env HCalib f).points lvl).map (fun p => (p.u, p.v)) =
        ((pixelWindow env ((s.setFirst env HCalib f).w lvl)
          ((s.setFirst env HCalib f).h lvl)).filter
            (pixelSelected env f lvl ((s.setFirst env HCalib f).w lvl))).map
          (fun xy => ((xy.1 : ℚ) + 1 / 10, (xy.2 : ℚ) + 1 / 10)) ∧
      (s.setFirst env HCalib f).numPoints lvl =
        ((pixelWindow env ((s.setFirst env HCalib f).w lvl)
          ((s.setFirst env HCalib f).h lvl)).filter
            (pixelSelected env f lvl ((s.setFirst env HCalib f).w lvl))).length ∧
      (∀ p ∈ (s.setFirst env HCalib f).points lvl, ∃ x y : Nat,
        p.u = (x : ℚ) + 1 / 10 ∧ p.v = (y : ℚ) + 1 / 10 ∧
        pixelSelected env f lvl ((s.setFirst env HCalib f).w lvl) (x, y) = true ∧
        env.patternPadding + 1 ≤ x ∧
        x + env.patternPadding + 2 < (s.setFirst env HCalib f).w lvl ∧
        env.patternPadding + 1 ≤ y ∧
        y + env.patternPadding + 2 < (s.setFirst env HCalib f).h lvl) ∧
      (∀ xy : Nat × Nat,
        xy ∈ pixelWindow env ((s.setFirst env HCalib f).w lvl)
            ((s.setFirst env HCalib f).h lvl) ↔
          (env.patternPadding + 1 ≤ xy.1 ∧
            xy.1 + env.patternPadding + 2 < (s.setFirst env HCalib f).w lvl) ∧
          (env.patternPadding + 1 ≤ xy.2 ∧
            xy.2 + env.patternPadding + 2 < (s.setFirst env HCalib f).h lvl)) := by
  have hpts : (s.setFirst env HCalib f).points lvl =
      (selectPoints env f lvl ((s.makeK env HCalib).w lvl) ((s.makeK env HCalib).h lvl)).map
        (makeNNPoint env lvl
          (selectPoints env f lvl ((s.makeK env HCalib).w lvl) ((s.makeK env HCalib).h lvl))
          (if lvl + 1 < env.pyrLevelsUsed then
            selectPoints env f (lvl + 1) ((s.makeK env HCalib).w (lvl + 1))
              ((s.makeK env HCalib).h (lvl + 1))
           else (s.makeK env HCalib).points (lvl + 1))) := by
    simp only [setFirst, makeNN, hl, if_true]
  have hw : (s.setFirst env HCalib f).w lvl = (s.makeK env HCalib).w lvl := rfl
  have hh : (s.setFirst env HCalib f).h lvl = (s.makeK env HCalib).h lvl := rfl
  have hmap : ((s.setFirst env HCalib f).points lvl).map (fun p => (p.u, p.v)) =
      ((pixelWindow env ((s.setFirst env HCalib f).w lvl)
        ((s.setFirst env HCalib f).h lvl)).filter
          (pixelSelected env f lvl ((s.setFirst env HCalib f).w lvl))).map
        (fun xy => ((xy.1 : ℚ) + 1 / 10, (xy.2 : ℚ) + 1 / 10)) := by
    rw [hpts, hw, hh, ← selectPoints_pixels, List.map_map]
    apply List.map_congr_left
    intro p _
    show ((makeNNPoint env lvl _ _ p).u, (makeNNPoint env lvl _ _ p).v) = (p.u, p.v)
    rw [(makeNNPoint_uv env lvl _ _ p).1, (makeNNPoint_uv env lvl _ _ p).2]
  refine ⟨hmap, ?_, ?_, fun xy => mem_pixelWindow env _ _ xy⟩
  · have := congrArg List.length hmap
    rw [List.length_map, List.length_map] at this
    exact this
  · intro p hp
    have hmem : (p.u, p.v) ∈ ((s.setFirst env HCalib f).points lvl).map (fun p => (p.u, p.v)) :=
      List.mem_map.mpr ⟨p, hp, rfl⟩
    rw [hmap] at hmem
    obtain ⟨xy, hxy, he⟩ := List.mem_map.mp hmem
    rw [List.mem_filter] at hxy
    have hwin := (mem_pixelWindow env _ _ xy).mp hxy.1
    simp only [Prod.mk.injEq] at he
    exact ⟨xy.1, xy.2, he.1.symm, he.2.symm, hxy.2, hwin.1.1, hwin.1.2, hwin.2.1, hwin.2.2⟩

/-- Level 1 of the example: the ten points of `exampleStart`. -/
theorem edge_margin_witness :
    1 < exampleEnv.pyrLevelsUsed ∧
      exampleStart.numPoints 1 =
        ((pixelWindow exampleEnv (exampleStart.w 1) (exampleStart.h 1)).filter
          (pixelSelected exampleEnv (exampleFrame 50) 1 (exampleStart.w 1))).length ∧
      exampleStart.numPoints 1 = 10 :=
  ⟨by decide, (edge_margin exampleEnv (construct exampleEnv rawMemory)
    { fxl := 50, fyl := 50, cxl := 307 / 10, cyl := 127 / 10 } (exampleFrame 50) 1
    (by decide)).2.1, by decide!⟩

end CoarseInitializer

theorem getElem?_resetPointsPoint (c : Bool) (pts : List Pnt) (i j : Nat) :
    (resetPointsPoint c pts i)[j]? =
      if j = i then pts[j]?.map (resetPointsValue c pts i) else pts[j]? := by
  unfold resetPointsPoint
  cases h : pts[i]? with
  | none =>
    by_cases hj : j = i
    · subst hj; simp [h]
    · simp [hj]
  | some p =>
    have hi : i < pts.length := (List.getElem?_eq_some_iff.mp h).1
    by_cases hj : j = i
    · subst hj
      rw [if_pos rfl, h, Option.map_some']
      unfold resetPointsValue
      simp only []
      split_ifs
      · rw [List.getElem?_set_self (by simpa using hi)]
      · rw [List.getElem?_set_self hi]
      · rw [List.getElem?_set_self hi]
    · have hne : i ≠ j := fun e => hj e.symm
      rw [if_neg hj]
      simp only []
      split_ifs
      · rw [List.getElem?_set_ne hne, List.getElem?_set_ne hne]
      · rw [List.getElem?_set_ne hne]
      · rw [List.getElem?_set_ne hne]

/-- Index `i` is written only by the pass number `i` of the loop of `resetPoints`. -/
theorem getElem?_foldl_resetPointsPoint (c : Bool) (pts : List Pnt) (n i : Nat) :
    ((List.range n).foldl (resetPointsPoint c) pts)[i]? =
      if i < n then
        pts[i]?.map (resetPointsValue c ((List.range i).foldl (resetPointsPoint c) pts) i)
      else pts[i]? := by
  induction n with
  | zero => simp
  | succ n ih =>
    rw [List.range_succ, List.foldl_append, List.foldl_cons, List.foldl_nil,
      getElem?_resetPointsPoint]
    by_cases hin : i = n
    · subst hin
      simp [ih]
    · rw [if_neg hin, ih]
      by_cases hlt : i < n
      · simp [hlt, Nat.lt_succ_of_lt hlt]
      · have : ¬ i < n + 1 := by omega
        simp [hlt, this]

theorem getElem?_resetPointsLevel (c : Bool) (pts : List Pnt) (i : Nat) :
    (resetPointsLevel c pts)[i]? =
      pts[i]?.map (resetPointsValue c ((List.range i).foldl (resetPointsPoint c) pts) i) := by
  unfold resetPointsLevel
  rw [getElem?_foldl_resetPointsPoint]
  by_cases hi : i < pts.length
  · rw [if_pos hi]
  · rw [if_neg hi]
    have : pts[i]? = none := List.getElem?_eq_none (by omega)
    simp [this]

theorem resetNeighbourSum_eq (pts : List Pnt) (point : Pnt) :
    resetNeighbourSum pts point =
      ((collectIdnn pts point).sum, ((collectIdnn pts point).length : ℚ)) := by
  unfold resetNeighbourSum collectIdnn
  suffices hgen : ∀ (js : List (Fin 10)) (acc : ℚ × ℚ),
      js.foldl (fun acc n =>
        if point.neighbours n = -1 || !(getPnt pts (point.neighbours n)).isGood then acc
        else (acc.1 + (getPnt pts (point.neighbours n)).iR, acc.2 + 1)) acc =
      (acc.1 + (js.filterMap fun j =>
          if point.neighbours j = -1 then none
          else if (getPnt pts (point.neighbours j)).isGood then
            some (getPnt pts (point.neighbours j)).iR
          else none).sum,
        acc.2 + ((js.filterMap fun j =>
          if point.neighbours j = -1 then none
          else if (getPnt pts (point.neighbours j)).isGood then
            some (getPnt pts (point.neighbours j)).iR
          else none).length : ℚ)) by
    rw [hgen]
    simp
  intro js
  induction js with
  | nil => intro acc; simp
  | cons j js ih =>
    intro acc
    rw [List.foldl_cons, ih]
    by_cases h1 : point.neighbours j = -1
    · simp [List.filterMap_cons, h1]
    · by_cases h2 : (getPnt pts (point.neighbours j)).isGood = true
      · simp [List.filterMap_cons, h1, h2]
        constructor <;> ring
      · simp [List.filterMap_cons, h1, h2]

/-- A bad point does not see itself among its good neighbours: writing a bad point at its
own index leaves the collected values as they were. -/
theorem collectIdnn_set_bad (pts : List Pnt) (i : Nat) (p p1 : Pnt) (hp : pts[i]? = some p)
    (hb : p.isGood = false) (hb1 : p1.isGood = false) (hn : p1.neighbours = p.neighbours) :
    collectIdnn (pts.set i p1) p1 = collectIdnn pts p := by
  have hi : i < pts.length := (List.getElem?_eq_some_iff.mp hp).1
  have hget : ∀ k : Int, (getPnt (pts.set i p1) k).isGood = (getPnt pts k).isGood ∧
      ((getPnt pts k).isGood = true → (getPnt (pts.set i p1) k).iR = (getPnt pts k).iR) := by
    intro k
    unfold getPnt
    by_cases hk : 0 ≤ k
    · rw [if_pos hk, if_pos hk, List.getD_eq_getElem?_getD, List.getD_eq_getElem?_getD]
      by_cases hki : k.toNat = i
      · rw [hki, List.getElem?_set_self hi, hp]
        simp only [Option.getD_some]
        exact ⟨by rw [hb, hb1], fun h => by rw [hb] at h; exact Bool.noConfusion h⟩
      · rw [List.getElem?_set_ne (fun e => hki e.symm)]
        exact ⟨rfl, fun _ => rfl⟩
    · rw [if_neg hk, if_neg hk]
      exact ⟨rfl, fun _ => rfl⟩
  unfold collectIdnn
  rw [hn]
  apply List.filterMap_congr
  intro j _
  by_cases h1 : p.neighbours j = -1
  · rw [if_pos h1, if_pos h1]
  · rw [if_neg h1, if_neg h1, (hget _).1]
    by_cases h2 : (getPnt pts (p.neighbours j)).isGood = true
    · rw [if_pos h2, if_pos h2, (hget _).2 h2]
    · rw [if_neg h2, if_neg h2]

theorem mean_between (l : List ℚ) (hl : l ≠ []) (lo hi : ℚ)
    (h : ∀ x ∈ l, lo ≤ x ∧ x ≤ hi) :
    lo ≤ l.sum / (l.length : ℚ) ∧ l.sum / (l.length : ℚ) ≤ hi := by
  have hpos : (0 : ℚ) < (l.length : ℚ) := by
    have : 0 < l.length := List.length_pos.mpr hl
    exact_mod_cast this
  have h1 := List.card_nsmul_le_sum l lo (fun x hx => (h x hx).1)
  have h2 := List.sum_le_card_nsmul l hi (fun x hx => (h x hx).2)
  rw [nsmul_eq_mul] at h1 h2
  constructor
  · rw [le_div_iff₀ hpos]; linarith
  · rw [div_le_iff₀ hpos]; linarith

namespace CoarseInitializer

/-- C40: `resetPoints(lvl)`, point by point.  Let `p` be the point at index `i` before the
call and `cur` the array as the in-place loop holds it when it reaches `i` (the points before
`i` already reset).  After the call the point has zero energy and `idepth_new = idepth`.  A
good point, any point of a level that is not the coarsest, and a bad point of the coarsest
level none of whose non-sentinel neighbours is good in `cur`, keep every other field: a bad
one stays bad.  A bad point of the coarsest level with a good neighbour in `cur` becomes good
with `iR = idepth = idepth_new` the arithmetic mean of those neighbours' `iR`, which lies
within any bounds that hold for all of them. -/
theorem resetPoints_spec (env : Env) (s : CoarseInitializer) (lvl i : Nat) (p : Pnt)
    (hp : (s.points lvl)[i]? = some p) :
    ∃ q, ((s.resetPoints env lvl).points lvl)[i]? = some q ∧
      q.energy = (0, 0) ∧ q.idepth_new = q.idepth ∧
      (p.isGood = true ∨ (lvl : Int) ≠ (env.pyrLevelsUsed : Int) - 1 ∨
        collectIdnn ((List.range i).foldl
          (resetPointsPoint (decide ((lvl : Int) = (env.pyrLevelsUsed : Int) - 1)))
          (s.points lvl)) p = [] →
        q = { p with energy := (0, 0), idepth_new := p.idepth }) ∧
      (p.isGood = false → (lvl : Int) = (env.pyrLevelsUsed : Int) - 1 →
        collectIdnn ((List.range i).foldl
          (resetPointsPoint (decide ((lvl : Int) = (env.pyrLevelsUsed : Int) - 1)))
          (s.points lvl)) p ≠ [] →
        q.isGood = true ∧
        q.iR = (collectIdnn ((List.range i).foldl
            (resetPointsPoint (decide ((lvl : Int) = (env.pyrLevelsUsed : Int) - 1)))
            (s.points lvl)) p).sum /
          ((collectIdnn ((List.range i).foldl
            (resetPointsPoint (decide ((lvl : Int) = (env.pyrLevelsUsed : Int) - 1)))
            (s.points lvl)) p).length : ℚ) ∧
        q.idepth = q.iR ∧ q.idepth_new = q.iR ∧
        ∀ lo hi : ℚ,
          (∀ x ∈ collectIdnn ((List.range i).foldl
            (resetPointsPoint (decide ((lvl : Int) = (env.pyrLevelsUsed : Int) - 1)))
            (s.points lvl)) p, lo ≤ x ∧ x ≤ hi) → lo ≤ q.iR ∧ q.iR ≤ hi) := by
  generalize hc : decide ((lvl : Int) = (env.pyrLevelsUsed : Int) - 1) = c
  generalize hcur : (List.range i).foldl (resetPointsPoint c) (s.points lvl) = cur
  have hq : ((s.resetPoints env lvl).points lvl)[i]? = some (resetPointsValue c cur i p) := by
    unfold resetPoints
    rw [points_setPoints_same, getElem?_resetPointsLevel, hp, hc, hcur]
    rfl
  have hcuri : cur[i]? = some p := by
    rw [← hcur, getElem?_foldl_resetPointsPoint, if_neg (lt_irrefl i)]
    exact hp
  refine ⟨_, hq, ?_, ?_, ?_, ?_⟩
  · unfold resetPointsValue
    simp only []
    split_ifs <;> rfl
  · unfold resetPointsValue
    simp only []
    split_ifs <;> rfl
  · intro h
    unfold resetPointsValue
    by_cases hcb : (c && !p.isGood) = true
    · rw [if_pos hcb]
      simp only [Bool.and_eq_true, Bool.not_eq_true'] at hcb
      have hempty : collectIdnn cur p = [] := by
        rcases h with h | h | h
        · rw [hcb.2] at h; exact Bool.noConfusion h
        · rw [← hc] at hcb
          exact absurd (of_decide_eq_true hcb.1) h
        · exact h
      rw [resetNeighbourSum_eq, collectIdnn_set_bad cur i p
        { p with energy := (0, 0), idepth_new := p.idepth } hcuri hcb.2 hcb.2 rfl, hempty]
      simp
    · rw [if_neg hcb]
  · intro hb hl hne
    have hct : c = true := by rw [← hc]; exact decide_eq_true hl
    have hpos : (0 : ℚ) < ((collectIdnn cur p).length : ℚ) := by
      have : 0 < (collectIdnn cur p).length := List.length_pos.mpr hne
      exact_mod_cast this
    have hv : resetPointsValue c cur i p =
        { p with
          energy := (0, 0)
          isGood := true
          iR := (collectIdnn cur p).sum / ((collectIdnn cur p).length : ℚ)
          idepth := (collectIdnn cur p).sum / ((collectIdnn cur p).length : ℚ)
          idepth_new := (collectIdnn cur p).sum / ((collectIdnn cur p).length : ℚ) } := by
      unfold resetPointsValue
      rw [if_pos (by rw [hct, hb]; rfl)]
      simp only []
      rw [resetNeighbourSum_eq, collectIdnn_set_bad cur i p
        { p with energy := (0, 0), idepth_new := p.idepth } hcuri hb hb rfl]
      simp only []
      rw [if_pos hpos]
    rw [hv]
    exact ⟨rfl, rfl, rfl, rfl, fun lo hi hx => mean_between _ hne lo hi hx⟩

/-- The array `fineDown` as the coarsest level: its point 0 is bad, its nine good neighbours
have `iR = 2, 1, .., 1`, and `resetPoints(1)` makes it good with `iR = 10/9`. -/
theorem resetPoints_spec_witness :
    Option.map Pnt.isGood ((exampleState false coarseUp fineDown).points 1)[0]? = some false ∧
      Option.map Pnt.energy
        (((exampleState false coarseUp fineDown).resetPoints exampleEnv 1).points 1)[0]? =
          some (0, 0) ∧
      Option.map Pnt.isGood
        (((exampleState false coarseUp fineDown).resetPoints exampleEnv 1).points 1)[0]? =
          some true ∧
      Option.map Pnt.iR
        (((exampleState false coarseUp fineDown).resetPoints exampleEnv 1).points 1)[0]? =
          some (10 / 9) := by
  have hp : ((exampleState false coarseUp fineDown).points 1)[0]? =
      some (examplePnt false 1 1 0 0) := rfl
  obtain ⟨q, hq, he, _, _, h5⟩ :=
    resetPoints_spec exampleEnv (exampleState false coarseUp fineDown) 1 0 _ hp
  obtain ⟨hg, hr, _, _, _⟩ := h5 rfl (by decide) (by decide!)
  have hm : (collectIdnn ((List.range 0).foldl
        (resetPointsPoint (decide (((1 : Nat) : Int) = (exampleEnv.pyrLevelsUsed : Int) - 1)))
        ((exampleState false coarseUp fineDown).points 1)) (examplePnt false 1 1 0 0)).sum /
      ((collectIdnn ((List.range 0).foldl
        (resetPointsPoint (decide (((1 : Nat) : Int) = (exampleEnv.pyrLevelsUsed : Int) - 1)))
        ((exampleState false coarseUp fineDown).points 1))
        (examplePnt false 1 1 0 0)).length : ℚ) = 10 / 9 := by decide!
  refine ⟨by rw [hp]; rfl, ?_, ?_, ?_⟩
  · rw [hq]; exact congrArg some he
  · rw [hq]; exact congrArg some hg
  · rw [hq]; exact congrArg some (hr.trans hm)

end CoarseInitializer

theorem buffered_processPoint (samples : Pnt → List (Option Sample)) (st : PassAcc) (i : Nat) :
    (processPoint samples st i).E.buffered = st.E.buffered +
      match st.pts[i]? with
      | none => 0
      | some p => (processPointPnt samples p).energy_new.1 := by
  unfold processPoint processPointPnt pointPattern
  cases hp : st.pts[i]? with
  | none => simp
  | some point0 =>
    simp only []
    split_ifs <;> rfl

theorem buffered_foldl_processPoint (samples : Pnt → List (Option Sample)) (n : Nat)
    (st : PassAcc) :
    ((List.range n).foldl (processPoint samples) st).E.buffered = st.E.buffered +
      ((st.pts.take n).map fun p => (processPointPnt samples p).energy_new.1).sum := by
  induction n with
  | zero => simp
  | succ n ih =>
    rw [List.range_succ, List.foldl_append, List.foldl_cons, List.foldl_nil,
      buffered_processPoint, ih, getElem?_foldl_processPoint, if_neg (lt_irrefl n)]
    cases hp : st.pts[n]? with
    | none =>
      have hlen : st.pts.length ≤ n := by
        by_contra h
        rw [List.getElem?_eq_getElem (not_le.mp h)] at hp
        exact Option.noConfusion hp
      rw [List.take_of_length_le hlen, List.take_of_length_le (by omega)]
      simp
    | some p =>
      have hi : n < st.pts.length := (List.getElem?_eq_some_iff.mp hp).1
      have hpe : st.pts[n] = p := by
        have := List.getElem?_eq_getElem hi
        rw [hp] at this
        exact (Option.some.inj this).symm
      rw [List.take_succ, hp]
      simp only [Option.toList_some, List.map_append, List.map_cons, List.map_nil,
        List.sum_append, List.sum_cons, List.sum_nil, add_zero]
      ring

theorem A_foldl_updateSingle (pts : List Pnt) (f : Pnt → ℚ) (E : Accumulator11) :
    (pts.foldl (fun e p => e.updateSingle (f p)) E).A = E.A := by
  induction pts generalizing E with
  | nil => rfl
  | cons p ps ih => rw [List.foldl_cons, ih]; rfl

theorem energy_new_schurPointPnt (jb9 : ℚ) (p : Pnt) :
    (schurPointPnt jb9 (alphaPoint p).1).energy_new.1 = p.energy_new.1 ∧
      (schurPointPnt jb9 (alphaPoint p).1).isGood_new = p.isGood_new ∧
      (schurPointPnt jb9 (alphaPoint p).1).energy = p.energy := by
  unfold schurPointPnt alphaPoint
  split_ifs <;> exact ⟨rfl, rfl, rfl⟩

theorem energy_new_processPointPnt (samples : Pnt → List (Option Sample)) (p : Pnt) :
    (processPointPnt samples p).energy = p.energy ∧
    ((processPointPnt samples p).isGood_new = true →
      p.isGood = true ∧
      (processPointPnt samples p).energy_new.1 = (pointPattern samples p).2.energy) ∧
    ((processPointPnt samples p).isGood_new = false →
      (processPointPnt samples p).energy_new.1 = p.energy.1) := by
  unfold processPointPnt
  simp only []
  split_ifs with h1 h2
  · exact ⟨rfl, by simp, by simp⟩
  · exact ⟨rfl, by simp, by simp⟩
  · exact ⟨rfl, fun _ => ⟨by simpa using h1, rfl⟩, by simp⟩

namespace CoarseInitializer

/-- C30: the first component returned by `calcResAndGS` is the total published by the
`finish` of the point loop's energy accumulator, untouched by the alpha loop, and equals the
sum over the points of the level of `energy_new[0]` as the pass leaves it.  For a point marked
`isGood_new` (it was good before the pass) that entry is the energy summed by its pattern
loop; for a point left with `isGood_new` false (already bad, or rejected in this pass) it is
the point's committed `energy[0]`, which the pass does not change. -/
theorem photometric_energy_sum (env : Env) (s : CoarseInitializer) (lvl : Nat) (refToNew : SE3)
    (refToNew_aff : AffLight) :
    (s.calcResAndGS env lvl refToNew refToNew_aff).2.res 0 =
        (pointPass env s lvl refToNew refToNew_aff).E.finish.A ∧
      (s.calcResAndGS env lvl refToNew refToNew_aff).2.res 0 =
        (((s.calcResAndGS env lvl refToNew refToNew_aff).1.points lvl).map
          fun q => q.energy_new.1).sum ∧
      (s.calcResAndGS env lvl refToNew refToNew_aff).2.res 0 =
        ((s.points lvl).map fun p =>
          if (processPointPnt (patternSamples env s lvl refToNew refToNew_aff) p).isGood_new
          then (pointPattern (patternSamples env s lvl refToNew refToNew_aff) p).2.energy
          else p.energy.1).sum ∧
      ∀ (i : Nat) (p : Pnt), (s.points lvl)[i]? = some p →
        ∃ q, ((s.calcResAndGS env lvl refToNew refToNew_aff).1.points lvl)[i]? = some q ∧
          q.energy = p.energy ∧
          q.isGood_new =
            (processPointPnt (patternSamples env s lvl refToNew refToNew_aff) p).isGood_new ∧
          (q.isGood_new = true → p.isGood = true ∧ q.energy_new.1 =
            (pointPattern (patternSamples env s lvl refToNew refToNew_aff) p).2.energy) ∧
          (q.isGood_new = false → q.energy_new.1 = p.energy.1) := by
  have h0 : (s.calcResAndGS env lvl refToNew refToNew_aff).2.res 0 =
      (pointPass env s lvl refToNew refToNew_aff).E.finish.A :=
    A_foldl_updateSingle _ _ _
  have hb := buffered_foldl_processPoint (patternSamples env s lvl refToNew refToNew_aff)
    (s.numPoints lvl)
    { pts := s.points lvl, jbNew := s.JbBuffer_new, acc9 := fun _ _ => 0,
      E := Accumulator11.initialize }
  have hsum : (pointPass env s lvl refToNew refToNew_aff).E.finish.A =
      ((s.points lvl).map fun p =>
        (processPointPnt (patternSamples env s lvl refToNew refToNew_aff)
          p).energy_new.1).sum := by
    show (pointPass env s lvl refToNew refToNew_aff).E.buffered = _
    unfold pointPass
    rw [hb]
    show (0 : ℚ) + (((s.points lvl).take (s.points lvl).length).map _).sum = _
    rw [List.take_length, zero_add]
  have hpt : ∀ (i : Nat) (p : Pnt), (s.points lvl)[i]? = some p →
      ∃ q, ((s.calcResAndGS env lvl refToNew refToNew_aff).1.points lvl)[i]? = some q ∧
        q.energy = p.energy ∧
        q.isGood_new =
          (processPointPnt (patternSamples env s lvl refToNew refToNew_aff) p).isGood_new ∧
        q.energy_new.1 =
          (processPointPnt (patternSamples env s lvl refToNew refToNew_aff) p).energy_new.1 := by
    intro i p hp
    rw [getElem?_points_calcResAndGS, hp]
    refine ⟨_, rfl, ?_, ?_, ?_⟩
    · rw [(energy_new_schurPointPnt _ _).2.2]
      exact (energy_new_processPointPnt _ p).1
    · exact (energy_new_schurPointPnt _ _).2.1
    · exact (energy_new_schurPointPnt _ _).1
  refine ⟨h0, ?_, ?_, ?_⟩
  · rw [h0, hsum]
    congr 1
    apply List.ext_getElem?
    intro i
    rw [List.getElem?_map, List.getElem?_map]
    cases hp : (s.points lvl)[i]? with
    | none =>
      rw [getElem?_points_calcResAndGS, hp]
      rfl
    | some p =>
      obtain ⟨q, hq, _, _, he⟩ := hpt i p hp
      rw [hq]
      simp only [Option.map_some', he]
  · rw [h0, hsum]
    congr 1
    apply List.map_congr_left
    intro p _
    have h := energy_new_processPointPnt (patternSamples env s lvl refToNew refToNew_aff) p
    cases hg : (processPointPnt (patternSamples env s lvl refToNew refToNew_aff) p).isGood_new
      with
    | true => simp only [if_true]; exact (h.2.1 hg).2
    | false => simp only [Bool.false_eq_true, if_false]; exact h.2.2 hg
  · intro i p hp
    obtain ⟨q, hq, h1, h2, h3⟩ := hpt i p hp
    have h := energy_new_processPointPnt (patternSamples env s lvl refToNew refToNew_aff) p
    refine ⟨q, hq, h1, h2, fun hg => ?_, fun hg => ?_⟩
    · rw [h2] at hg
      exact ⟨(h.2.1 hg).1, by rw [h3]; exact (h.2.1 hg).2⟩
    · rw [h2] at hg
      rw [h3]; exact h.2.2 hg

theorem buffers_optReg (s : CoarseInitializer) (lvl : Nat) :
    (s.optReg lvl).JbBuffer = s.JbBuffer ∧ (s.optReg lvl).JbBuffer_new = s.JbBuffer_new := by
  unfold optReg
  split_ifs <;> exact ⟨rfl, rfl⟩

theorem buffers_acceptState (lvl : Nat) (tr : Trial) :
    (acceptState lvl tr).JbBuffer = tr.s.JbBuffer_new ∧
      (acceptState lvl tr).JbBuffer_new = tr.s.JbBuffer := by
  unfold acceptState
  rw [(buffers_optReg _ lvl).1, (buffers_optReg _ lvl).2]
  split_ifs <;> exact ⟨rfl, rfl⟩

theorem buffers_levelTrial (env : Env) (lvl : Nat) (st : LevelState) :
    (levelTrial env lvl st).s.JbBuffer = st.s.JbBuffer := rfl

theorem bufferCoherent_levelIteration (env : Env) (lvl : Nat) (st : LevelState)
    (h : st.BufferCoherent env lvl) : (levelIteration env lvl st).BufferCoherent env lvl := by
  unfold levelIteration
  split_ifs
  · exact ⟨st.s.doStep lvl st.lambda (levelTrial env lvl st).inc,
      (levelTrial env lvl st).refToNew_new, (levelTrial env lvl st).refToNew_aff_new,
      (buffers_acceptState lvl _).1, rfl, rfl, rfl, rfl, rfl⟩
  · obtain ⟨s0, T, aff, h1, h2, h3, h4, h5, h6⟩ := h
    exact ⟨s0, T, aff, h1, h2, h3, h4, h5, h6⟩

theorem bufferCoherent_passInputs (env : Env) (lvl fuel : Nat) (st : LevelState)
    (h : st.BufferCoherent env lvl) :
    ∀ x ∈ passInputs env lvl fuel st, x.BufferCoherent env lvl := by
  induction fuel generalizing st with
  | zero =>
    intro x hx
    simp only [passInputs, List.mem_singleton] at hx
    rw [hx]; exact h
  | succ fuel ih =>
    intro x hx
    unfold passInputs at hx
    split_ifs at hx
    · simp only [List.mem_singleton] at hx
      rw [hx]; exact h
    · rcases List.mem_cons.mp hx with hx | hx
      · rw [hx]; exact h
      · obtain ⟨s0, T, aff, h1, h2, h3, h4, h5, h6⟩ :=
          bufferCoherent_levelIteration env lvl st h
        exact ih (nextPass (levelIteration env lvl st)) ⟨s0, T, aff, h1, h2, h3, h4, h5, h6⟩
          x hx

/-- C32: the Jacobian double buffer in the loop of one level.  The first `applyStep` and every
accepted pass swap the two buffers, so that the current buffer is the one the residual pass
just wrote and the committed `resOld`, `H`, `b`, `Hsc`, `bsc` are the outputs of that pass; a
rejected pass leaves the current buffer and the committed outputs as they were and only
overwrites the new buffer.  Hence at the head of every pass of the loop the state is coherent:
`doStep`, which reads the current buffer, reads the buffer written by the residual pass that
produced the committed `resOld`, `H` and `b`. -/
theorem jacobian_double_buffer (env : Env) (ts : TrackState) (lvl fuel : Nat) :
    (∀ st : LevelState, (levelIteration env lvl st).accept = true →
      (levelIteration env lvl st).s.JbBuffer = (levelTrial env lvl st).s.JbBuffer_new ∧
      (levelIteration env lvl st).s.JbBuffer_new = st.s.JbBuffer ∧
      (levelIteration env lvl st).resOld = (levelTrial env lvl st).out.res ∧
      (levelIteration env lvl st).H = (levelTrial env lvl st).out.H_out ∧
      (levelIteration env lvl st).b = (levelTrial env lvl st).out.b_out) ∧
    (∀ st : LevelState, (levelIteration env lvl st).accept = false →
      (levelIteration env lvl st).s.JbBuffer = st.s.JbBuffer ∧
      (levelIteration env lvl st).s.JbBuffer_new = (levelTrial env lvl st).s.JbBuffer_new ∧
      (levelIteration env lvl st).resOld = st.resOld ∧
      (levelIteration env lvl st).H = st.H ∧ (levelIteration env lvl st).b = st.b ∧
      (levelIteration env lvl st).Hsc = st.Hsc ∧ (levelIteration env lvl st).bsc = st.bsc) ∧
    (∀ st : LevelState,
      (levelTrial env lvl st).s =
        ((st.s.doStep lvl st.lambda (levelTrial env lvl st).inc).calcResAndGS env lvl
          (levelTrial env lvl st).refToNew_new (levelTrial env lvl st).refToNew_aff_new).1 ∧
      (st.s.doStep lvl st.lambda (levelTrial env lvl st).inc).points lvl =
        (st.s.points lvl).mapIdx fun i p =>
          doStepPoint st.lambda (levelTrial env lvl st).inc (st.s.JbBuffer i) p) ∧
    (levelStart env ts lvl).BufferCoherent env lvl ∧
    (∀ st ∈ passInputs env lvl fuel (levelStart env ts lvl), st.BufferCoherent env lvl) ∧
    (levelLoop env lvl fuel (levelStart env ts lvl)).BufferCoherent env lvl := by
  have hstart : (levelStart env ts lvl).BufferCoherent env lvl :=
    ⟨(if lvl < env.pyrLevelsUsed - 1 then ts.s.propagateDown (lvl + 1) else ts.s).resetPoints
        env lvl, ts.refToNew_current, ts.refToNew_aff_current, rfl, rfl, rfl, rfl, rfl, rfl⟩
  refine ⟨fun st ha => ?_, fun st ha => ?_, fun st => ⟨rfl, ?_⟩, hstart,
    bufferCoherent_passInputs env lvl fuel _ hstart, ?_⟩
  · rw [levelIteration_of_accept env lvl st ha]
    exact ⟨(buffers_acceptState lvl _).1, (buffers_acceptState lvl _).2, rfl, rfl, rfl⟩
  · rw [levelIteration_of_reject env lvl st ha]
    exact ⟨rfl, rfl, rfl, rfl, rfl, rfl, rfl⟩
  · unfold doStep
    rw [points_setPoints_same]
  · rw [levelLoop_eq_getLast]
    have hm := List.getLast_mem (levelTrace_ne_nil env lvl fuel (levelStart env ts lvl))
    generalize (levelTrace env lvl fuel (levelStart env ts lvl)).getLast
      (levelTrace_ne_nil env lvl fuel (levelStart env ts lvl)) = y at hm ⊢
    rw [levelTrace_eq_map] at hm
    obtain ⟨x, hx, he⟩ := List.mem_map.mp hm
    rw [← he]
    exact bufferCoherent_levelIteration env lvl x
      (bufferCoherent_passInputs env lvl fuel _ hstart x hx)

end CoarseInitializer

theorem Pnt.Follows.samePnt (p : Pnt) : p.Follows p := ⟨rfl, fun h => h⟩

theorem Pnt.Follows.thenPnt {p q r : Pnt} (h1 : p.Follows q) (h2 : q.Follows r) :
    p.Follows r := ⟨h2.1.trans h1.1, fun h => h2.2 (h1.2 h)⟩

theorem Pnt.follows_of_fields (p q : Pnt) (h1 : q.parent = p.parent)
    (h2 : q.lastHessian = p.lastHessian) (h3 : q.lastHessian_new = p.lastHessian_new) :
    p.Follows q := ⟨h1, fun h => by rw [h2, h3]; exact h⟩

theorem LevelFollows.sameLevel (a : List Pnt) : LevelFollows a a :=
  ⟨rfl, fun j p q hp hq => by
    rw [hp] at hq
    cases hq
    exact Pnt.Follows.samePnt p⟩

theorem LevelFollows.thenLevel {a b c : List Pnt} (h1 : LevelFollows a b)
    (h2 : LevelFollows b c) : LevelFollows a c := by
  refine ⟨h2.1.trans h1.1, fun j p r hp hr => ?_⟩
  have hj : j < b.length := by
    rw [h1.1]
    exact (List.getElem?_eq_some_iff.mp hp).1
  exact (h1.2 j p b[j] hp (List.getElem?_eq_getElem hj)).thenPnt
    (h2.2 j b[j] r (List.getElem?_eq_getElem hj) hr)

theorem LevelFollows.mem {a b : List Pnt} (h : LevelFollows a b) {q : Pnt} (hq : q ∈ b) :
    ∃ p ∈ a, p.Follows q := by
  obtain ⟨j, hj⟩ := List.mem_iff_getElem?.mp hq
  have hja : j < a.length := by
    rw [← h.1]
    exact (List.getElem?_eq_some_iff.mp hj).1
  exact ⟨a[j], List.getElem_mem hja, h.2 j a[j] q (List.getElem?_eq_getElem hja) hj⟩

/-- A step that rewrites every index by a function of the point found there. -/
theorem levelFollows_of_map (a b : List Pnt) (f : Nat → Pnt → Pnt)
    (h : ∀ j : Nat, b[j]? = (a[j]?).map (f j))
    (hf : ∀ (j : Nat) (p : Pnt), a[j]? = some p → p.Follows (f j p)) :
    LevelFollows a b := by
  refine ⟨?_, fun j p q hp hq => ?_⟩
  · rcases Nat.lt_trichotomy b.length a.length with hlt | heq | hgt
    · have := h b.length
      rw [List.getElem?_eq_none (le_refl _), List.getElem?_eq_getElem hlt] at this
      exact Option.noConfusion this
    · exact heq
    · have := h a.length
      rw [List.getElem?_eq_none (le_refl a.length), List.getElem?_eq_getElem hgt] at this
      exact Option.noConfusion this
  · rw [h j, hp] at hq
    cases hq
    exact hf j p hp

theorem follows_optRegValue (w : ℚ) (pts : List Pnt) (p : Pnt) :
    p.Follows (optRegValue w pts p) := by
  unfold optRegValue
  split_ifs
  · exact ⟨rfl, fun h => h⟩
  · exact Pnt.Follows.samePnt p

theorem levelFollows_optRegLevel (w : ℚ) (pts : List Pnt) :
    LevelFollows pts (optRegLevel w pts) :=
  levelFollows_of_map _ _ (fun j => optRegValue w (optRegUpTo w pts j))
    (fun j => getElem?_optRegLevel w pts j) fun _ p _ => follows_optRegValue w _ p

theorem levelFollows_map (pts : List Pnt) (g : Pnt → Pnt) (hg : ∀ p ∈ pts, p.Follows (g p)) :
    LevelFollows pts (pts.map g) :=
  levelFollows_of_map _ _ (fun _ => g) (fun j => List.getElem?_map g pts j) fun j p hp =>
    hg p (List.mem_iff_getElem?.mpr ⟨j, hp⟩)

theorem follows_applyStepPoint (p : Pnt) : p.Follows (applyStepPoint p) := by
  unfold applyStepPoint
  split_ifs
  · exact ⟨rfl, fun h => h⟩
  · exact ⟨rfl, fun h => ⟨h.2, h.2⟩⟩

theorem follows_doStepPoint (lambda : ℚ) (inc : Vec8f) (jb : Vec10f) (p : Pnt) :
    p.Follows (doStepPoint lambda inc jb p) := by
  unfold doStepPoint
  split_ifs
  · exact Pnt.Follows.samePnt p
  · exact ⟨rfl, fun h => h⟩

theorem follows_propagateDownPoint (ptss : List Pnt) (p : Pnt) :
    p.Follows (propagateDownPoint ptss p) := by
  unfold propagateDownPoint
  simp only []
  split_ifs
  · exact Pnt.Follows.samePnt p
  · exact ⟨rfl, fun h => ⟨le_refl 0, h.2⟩⟩
  · exact ⟨rfl, fun h => h⟩

theorem follows_resetPointsValue (c : Bool) (pts : List Pnt) (i : Nat) (p : Pnt) :
    p.Follows (resetPointsValue c pts i p) := by
  unfold resetPointsValue
  simp only []
  split_ifs <;> exact ⟨rfl, fun h => h⟩

theorem follows_propagateUpFinish (p : Pnt) (a b : ℚ) :
    p.Follows (propagateUpFinish { p with iR := a, iRSumNum := b }) := by
  unfold propagateUpFinish
  split_ifs <;> exact ⟨rfl, fun h => h⟩

theorem levelFollows_resetPointsLevel (c : Bool) (pts : List Pnt) :
    LevelFollows pts (resetPointsLevel c pts) :=
  levelFollows_of_map _ _
    (fun j => resetPointsValue c ((List.range j).foldl (resetPointsPoint c) pts) j)
    (fun j => getElem?_resetPointsLevel c pts j) fun j p _ => follows_resetPointsValue c _ j p

theorem levelFollows_propagateUpLoops (ptss ptst : List Pnt) :
    LevelFollows ptst (propagateUpLoops ptss ptst) :=
  levelFollows_of_map _ _
    (fun j p => propagateUpFinish
      { p with iR := childIRSum ptss j, iRSumNum := childWeightSum ptss j })
    (fun j => getElem?_propagateUpLoops ptss ptst j) fun _ p _ =>
      follows_propagateUpFinish p _ _

/-- Entry 9 of the new Jacobian buffer (the sum of the `dd*dd`) is non-negative at every
index whose point the point loop marked `isGood_new`. -/
theorem jb9_foldl_processPoint (samples : Pnt → List (Option Sample)) (n : Nat) (st : PassAcc) :
    ∀ i p, ((List.range n).foldl (processPoint samples) st).pts[i]? = some p → i < n →
      p.isGood_new = true → 0 ≤ ((List.range n).foldl (processPoint samples) st).jbNew i 9 := by
  induction n with
  | zero =>
    intro i p _ hi
    omega
  | succ n ih =>
    rw [List.range_succ, List.foldl_append, List.foldl_cons, List.foldl_nil]
    obtain ⟨s1, s2, s3⟩ := processPoint_spec samples
      ((List.range n).foldl (processPoint samples) st) n
    intro i p hip hi hgood
    by_cases hin : i = n
    · subst hin
      cases hp : ((List.range i).foldl (processPoint samples) st).pts[i]? with
      | none =>
        have hlen : ¬ i < ((List.range i).foldl (processPoint samples) st).pts.length := by
          intro hlt
          rw [List.getElem?_eq_getElem hlt] at hp
          exact Option.noConfusion hp
        have : i < (processPoint samples
            ((List.range i).foldl (processPoint samples) st) i).pts.length :=
          (List.getElem?_eq_some_iff.mp hip).1
        rw [s1] at this
        exact absurd this hlen
      | some p0 =>
        obtain ⟨q1, hq1, _, hjb⟩ := s3 p0 hp
        rw [hip] at hq1
        cases hq1
        exact hjb hgood
    · rw [(s2 i hin).2]
      rw [(s2 i hin).1] at hip
      exact ih i p hip (by omega) hgood

theorem fields_processPointPnt (samples : Pnt → List (Option Sample)) (p : Pnt) :
    (processPointPnt samples p).parent = p.parent ∧
      (processPointPnt samples p).lastHessian = p.lastHessian ∧
      (processPointPnt samples p).lastHessian_new = p.lastHessian_new := by
  unfold processPointPnt
  simp only []
  split_ifs <;> exact ⟨rfl, rfl, rfl⟩

theorem fields_alphaPoint (p : Pnt) :
    (alphaPoint p).1.parent = p.parent ∧ (alphaPoint p).1.lastHessian = p.lastHessian ∧
      (alphaPoint p).1.lastHessian_new = p.lastHessian_new ∧
      (alphaPoint p).1.isGood_new = p.isGood_new := by
  unfold alphaPoint
  split_ifs <;> exact ⟨rfl, rfl, rfl, rfl⟩

theorem fields_schurPointPnt (jb9 : ℚ) (p : Pnt) :
    (schurPointPnt jb9 p).parent = p.parent ∧ (schurPointPnt jb9 p).lastHessian = p.lastHessian ∧
      (schurPointPnt jb9 p).lastHessian_new =
        (if p.isGood_new = true then jb9 else p.lastHessian_new) := by
  unfold schurPointPnt
  cases hg : p.isGood_new <;> simp

namespace CoarseInitializer

theorem Follows.sameState (s : CoarseInitializer) : s.Follows s := fun _ => LevelFollows.sameLevel _

theorem Follows.thenState {s t u : CoarseInitializer} (h1 : s.Follows t) (h2 : t.Follows u) :
    s.Follows u := fun lvl => (h1 lvl).thenLevel (h2 lvl)

theorem follows_of_points_eq {s t : CoarseInitializer} (h : t.points = s.points) :
    s.Follows t := fun lvl => by rw [h]; exact LevelFollows.sameLevel _

theorem follows_setPoints (s : CoarseInitializer) (lvl : Nat) (pts : List Pnt)
    (h : LevelFollows (s.points lvl) pts) : s.Follows (s.setPoints lvl pts) := by
  intro l
  by_cases hl : l = lvl
  · subst hl; rw [points_setPoints_same]; exact h
  · rw [points_setPoints_ne _ _ _ _ hl]; exact LevelFollows.sameLevel _

theorem follows_optReg (s : CoarseInitializer) (lvl : Nat) : s.Follows (s.optReg lvl) := by
  unfold optReg
  split_ifs
  · exact Follows.sameState s
  · exact follows_setPoints s lvl _ (levelFollows_optRegLevel _ _)

theorem follows_applyStep (s : CoarseInitializer) (lvl : Nat) : s.Follows (s.applyStep lvl) :=
  (follows_setPoints s lvl _
    (levelFollows_map _ _ fun p _ => follows_applyStepPoint p)).thenState
    (follows_of_points_eq rfl)

theorem follows_doStep (s : CoarseInitializer) (lvl : Nat) (lambda : ℚ) (inc : Vec8f) :
    s.Follows (s.doStep lvl lambda inc) :=
  follows_setPoints s lvl _
    (levelFollows_of_map _ _ (fun j p => doStepPoint lambda inc (s.JbBuffer j) p)
      (fun _ => List.getElem?_mapIdx) fun _ p _ => follows_doStepPoint _ _ _ p)

theorem follows_propagateDown (s : CoarseInitializer) (srcLvl : Nat) :
    s.Follows (s.propagateDown srcLvl) :=
  (follows_setPoints s (srcLvl - 1) _
    (levelFollows_map _ _ fun p _ => follows_propagateDownPoint _ p)).thenState
    (follows_optReg _ _)

theorem follows_propagateUp (s : CoarseInitializer) (srcLvl : Nat) :
    s.Follows (s.propagateUp srcLvl) :=
  (follows_setPoints s (srcLvl + 1) _ (levelFollows_propagateUpLoops _ _)).thenState
    (follows_optReg _ _)

theorem follows_resetPoints (env : Env) (s : CoarseInitializer) (lvl : Nat) :
    s.Follows (s.resetPoints env lvl) :=
  follows_setPoints s lvl _ (levelFollows_resetPointsLevel _ _)

theorem follows_calcResAndGS (env : Env) (s : CoarseInitializer) (lvl : Nat) (refToNew : SE3)
    (refToNew_aff : AffLight) : s.Follows (s.calcResAndGS env lvl refToNew refToNew_aff).1 := by
  intro l
  by_cases hl : l = lvl
  · subst hl
    apply levelFollows_of_map _ _ _
      (fun j => getElem?_points_calcResAndGS env s l refToNew refToNew_aff j)
    intro j p hp
    have hj : j < s.numPoints l := (List.getElem?_eq_some_iff.mp hp).1
    have h1 := fields_processPointPnt (patternSamples env s l refToNew refToNew_aff) p
    have h2 := fields_alphaPoint (processPointPnt (patternSamples env s l refToNew refToNew_aff) p)
    have h3 := fields_schurPointPnt
      (((List.range (s.numPoints l)).foldl
        (processPoint (patternSamples env s l refToNew refToNew_aff))
        { pts := s.points l, jbNew := s.JbBuffer_new, acc9 := fun _ _ => 0,
          E := Accumulator11.initialize }).jbNew j 9)
      (alphaPoint (processPointPnt (patternSamples env s l refToNew refToNew_aff) p)).1
    refine ⟨by rw [h3.1, h2.1, h1.1], fun hn => ⟨by rw [h3.2.1, h2.2.1, h1.2.1]; exact hn.1, ?_⟩⟩
    rw [h3.2.2]
    split_ifs with hg
    · apply jb9_foldl_processPoint (patternSamples env s l refToNew refToNew_aff)
        (s.numPoints l) _ j (processPointPnt (patternSamples env s l refToNew refToNew_aff) p)
        _ hj
      · rw [← h2.2.2.2]; exact hg
      · rw [getElem?_foldl_processPoint, if_pos hj]
        show ((s.points l)[j]?).map _ = _
        rw [hp]; rfl
    · rw [h2.2.2.1, h1.2.2]; exact hn.2
  · have hpts : (s.calcResAndGS env lvl refToNew refToNew_aff).1.points l = s.points l :=
      Function.update_noteq hl _ s.points
    rw [hpts]
    exact LevelFollows.sameLevel _

theorem follows_levelTrial (env : Env) (lvl : Nat) (st : LevelState) :
    st.s.Follows (levelTrial env lvl st).s :=
  (follows_doStep st.s lvl st.lambda _).thenState (follows_calcResAndGS env _ lvl _ _)

theorem follows_acceptState (lvl : Nat) (tr : Trial) : tr.s.Follows (acceptState lvl tr) := by
  unfold acceptState
  refine Follows.thenState ?_ (follows_optReg _ lvl)
  refine Follows.thenState ?_ (follows_applyStep _ lvl)
  split_ifs
  · exact follows_of_points_eq rfl
  · exact Follows.sameState _

theorem follows_levelIteration (env : Env) (lvl : Nat) (st : LevelState) :
    st.s.Follows (levelIteration env lvl st).s := by
  unfold levelIteration
  split_ifs
  · exact (follows_levelTrial env lvl st).thenState (follows_acceptState lvl _)
  · exact follows_levelTrial env lvl st

theorem follows_levelLoop (env : Env) (lvl fuel : Nat) (st : LevelState) :
    st.s.Follows (levelLoop env lvl fuel st).s := by
  induction fuel generalizing st with
  | zero => exact follows_levelIteration env lvl st
  | succ fuel ih =>
    unfold levelLoop
    split_ifs
    · exact follows_levelIteration env lvl st
    · exact (follows_levelIteration env lvl st).thenState (ih _)

theorem follows_levelStart (env : Env) (ts : TrackState) (lvl : Nat) :
    ts.s.Follows (levelStart env ts lvl).s := by
  have h0 : ts.s.Follows
      (if lvl < env.pyrLevelsUsed - 1 then ts.s.propagateDown (lvl + 1) else ts.s) := by
    split_ifs
    · exact follows_propagateDown _ _
    · exact Follows.sameState _
  exact ((h0.thenState (follows_resetPoints env _ lvl)).thenState
    (follows_calcResAndGS env _ lvl _ _)).thenState (follows_applyStep _ lvl)

theorem follows_trackLevel (env : Env) (ts : TrackState) (lvl : Nat) :
    ts.s.Follows (trackLevel env ts lvl).s := by
  rw [trackLevel_eq_trackOf]
  exact (follows_levelStart env ts lvl).thenState (follows_levelLoop env lvl _ _)

theorem follows_foldl_trackLevel (env : Env) (lvls : List Nat) (ts : TrackState) :
    ts.s.Follows (lvls.foldl (trackLevel env) ts).s := by
  induction lvls generalizing ts with
  | nil => exact Follows.sameState _
  | cons l ls ih => exact (follows_trackLevel env ts l).thenState (ih _)

theorem follows_unsnappedReset (env : Env) (s : CoarseInitializer) :
    s.Follows (unsnappedReset env s) := by
  unfold unsnappedReset
  split_ifs
  · intro lvl
    show LevelFollows (s.points lvl) (if lvl < env.pyrLevelsUsed then _ else _)
    split_ifs
    · exact levelFollows_map _ _ fun p _ => ⟨rfl, fun h => ⟨le_refl 0, h.2⟩⟩
    · exact LevelFollows.sameLevel _
  · exact Follows.sameState _

theorem follows_trackStart (env : Env) (s : CoarseInitializer) (f : FrameHessian) :
    s.Follows (trackStart env s f).s :=
  (follows_of_points_eq (s := s) (t := trackFrameInit s f) rfl).thenState
    (follows_unsnappedReset env _)

theorem follows_foldl_propagateUp (lvls : List Nat) (s : CoarseInitializer) :
    s.Follows (lvls.foldl propagateUp s) := by
  induction lvls generalizing s with
  | nil => exact Follows.sameState _
  | cons l ls ih => exact (follows_propagateUp s l).thenState (ih _)

theorem points_updateCounters (s : CoarseInitializer) : (updateCounters s).points = s.points := by
  unfold updateCounters
  simp only []
  split_ifs <;> rfl

theorem follows_trackFrameLevels (env : Env) (s : CoarseInitializer) (f : FrameHessian) :
    s.Follows (trackFrameLevels env s f) := by
  rw [trackFrameLevels_eq]
  exact ((follows_trackStart env s f).thenState (follows_foldl_trackLevel env _ _)).thenState
    (follows_of_points_eq rfl)

theorem follows_trackFrame (env : Env) (s : CoarseInitializer) (f : FrameHessian) :
    s.Follows (s.trackFrame env f).1 := by
  rw [trackFrame_fst]
  unfold trackFrameCore
  exact ((follows_trackFrameLevels env s f).thenState (follows_foldl_propagateUp _ _)).thenState
    (follows_of_points_eq (points_updateCounters _))

theorem follows_trackFrames (env : Env) (frames : List FrameHessian) (s : CoarseInitializer) :
    ∀ r ∈ trackFrames env s frames, s.Follows r.1 := by
  induction frames generalizing s with
  | nil => intro r hr; simp [trackFrames] at hr
  | cons f fs ih =>
    intro r hr
    simp only [trackFrames, List.mem_cons] at hr
    rcases hr with hr | hr
    · rw [hr]; exact follows_trackFrame env s f
    · exact (follows_trackFrame env s f).thenState (ih _ r hr)

theorem Follows.hessNonneg {s t : CoarseInitializer} (h : s.Follows t) {L : Nat}
    (hs : s.HessNonneg L) : t.HessNonneg L := by
  intro lvl hl q hq
  obtain ⟨p, hp, hf⟩ := (h lvl).mem hq
  exact hf.2 (hs lvl hl p hp)

theorem Follows.graphOK {s t : CoarseInitializer} (h : s.Follows t) {L : Nat}
    (hs : s.GraphOK L) : t.GraphOK L := by
  intro lvl hl q hq
  obtain ⟨p, hp, hf⟩ := (h lvl).mem hq
  have hn : t.numPoints (lvl + 1) = s.numPoints (lvl + 1) := (h (lvl + 1)).1
  rw [hf.1, hn]
  exact hs lvl hl p hp

theorem hessNonneg_setFirst (env : Env) (s0 : CoarseInitializer) (HCalib : CalibHessian)
    (f0 : FrameHessian) : (s0.setFirst env HCalib f0).HessNonneg env.pyrLevelsUsed := by
  intro lvl hl p hp
  have h := setFirst_points env s0 HCalib f0 lvl hl p hp
  rw [h.2.2.2.1, h.2.2.2.2]
  exact ⟨le_refl 0, le_refl 0⟩

theorem getPnt_of_range (pts : List Pnt) (k : Int) (h0 : 0 ≤ k) (h1 : k < (pts.length : Int)) :
    ∃ q, pts[k.toNat]? = some q ∧ getPnt pts k = q := by
  have hk : k.toNat < pts.length := by omega
  refine ⟨pts[k.toNat], List.getElem?_eq_getElem hk, ?_⟩
  unfold getPnt
  rw [if_pos h0, List.getD_eq_getElem?_getD, List.getElem?_eq_getElem hk]
  rfl

theorem GraphOK.parent_range {L : Nat} {t : CoarseInitializer} (h : t.GraphOK L) (lvl : Nat)
    (hl : lvl + 1 < L) (p : Pnt) (hp : p ∈ t.points lvl) :
    p.parent ≠ -1 ∧ 0 ≤ p.parent ∧ p.parent < (t.numPoints (lvl + 1) : Int) ∧
      ∃ q, (t.points (lvl + 1))[p.parent.toNat]? = some q ∧
        getPnt (t.points (lvl + 1)) p.parent = q := by
  obtain ⟨h0, h1⟩ := (h lvl (by omega) p hp).2 hl
  exact ⟨by omega, h0, h1, getPnt_of_range _ _ h0 h1⟩

/-- C36: let `lastHessian` and `lastHessian_new` be non-negative on every point of the levels
in use, as they are after `setFirst` (all zero).  Every step of `trackFrame` keeps this:
`resetPoints`, `doStep`, `applyStep`, `optReg`, `propagateDown`, `propagateUp`, the residual
pass (which stores the sum of the `dd*dd` of the pattern), the unsnapped reset, a whole call
and any sequence of calls.  So in the blend case of `propagateDown(srcLvl)` (a good point
whose parent is good with `lastHessian >= 0.1`) the denominator
`2*own.lastHessian + parent.lastHessian` is at least 0.1, hence not zero, and the blended
value written to `iR`, `idepth` and `idepth_new` lies between the point's own `iR` and its
parent's `iR`. -/
theorem blend_safety (env : Env) (s : CoarseInitializer)
    (hs : s.HessNonneg env.pyrLevelsUsed) :
    ((∀ lvl, (s.resetPoints env lvl).HessNonneg env.pyrLevelsUsed) ∧
      (∀ lvl lambda inc, (s.doStep lvl lambda inc).HessNonneg env.pyrLevelsUsed) ∧
      (∀ lvl, (s.applyStep lvl).HessNonneg env.pyrLevelsUsed) ∧
      (∀ lvl, (s.optReg lvl).HessNonneg env.pyrLevelsUsed) ∧
      (∀ srcLvl, (s.propagateDown srcLvl).HessNonneg env.pyrLevelsUsed) ∧
      (∀ srcLvl, (s.propagateUp srcLvl).HessNonneg env.pyrLevelsUsed) ∧
      (∀ lvl refToNew refToNew_aff,
        (s.calcResAndGS env lvl refToNew refToNew_aff).1.HessNonneg env.pyrLevelsUsed) ∧
      (unsnappedReset env s).HessNonneg env.pyrLevelsUsed ∧
      (∀ f, (s.trackFrame env f).1.HessNonneg env.pyrLevelsUsed) ∧
      (∀ frames, ∀ r ∈ trackFrames env s frames, r.1.HessNonneg env.pyrLevelsUsed)) ∧
    (∀ (s0 : CoarseInitializer) (HCalib : CalibHessian) (f0 : FrameHessian),
      (s0.setFirst env HCalib f0).HessNonneg env.pyrLevelsUsed ∧
      ∀ frames, ∀ r ∈ trackFrames env (s0.setFirst env HCalib f0) frames,
        r.1.HessNonneg env.pyrLevelsUsed) ∧
    (∀ srcLvl, 0 < srcLvl → srcLvl ≤ env.pyrLevelsUsed → ∀ p ∈ s.points (srcLvl - 1),
      p.isGood = true → (getPnt (s.points srcLvl) p.parent).isGood = true →
      1 / 10 ≤ (getPnt (s.points srcLvl) p.parent).lastHessian →
      1 / 10 ≤ p.lastHessian * 2 + (getPnt (s.points srcLvl) p.parent).lastHessian ∧
      p.lastHessian * 2 + (getPnt (s.points srcLvl) p.parent).lastHessian ≠ 0 ∧
      (propagateDownPoint (s.points srcLvl) p).iR =
        (p.iR * p.lastHessian * 2 + (getPnt (s.points srcLvl) p.parent).iR *
            (getPnt (s.points srcLvl) p.parent).lastHessian) /
          (p.lastHessian * 2 + (getPnt (s.points srcLvl) p.parent).lastHessian) ∧
      (propagateDownPoint (s.points srcLvl) p).idepth =
        (propagateDownPoint (s.points srcLvl) p).iR ∧
      (propagateDownPoint (s.points srcLvl) p).idepth_new =
        (propagateDownPoint (s.points srcLvl) p).iR ∧
      min p.iR (getPnt (s.points srcLvl) p.parent).iR ≤
        (propagateDownPoint (s.points srcLvl) p).iR ∧
      (propagateDownPoint (s.points srcLvl) p).iR ≤
        max p.iR (getPnt (s.points srcLvl) p.parent).iR) := by
  refine ⟨⟨fun lvl => (follows_resetPoints env s lvl).hessNonneg hs,
    fun lvl lambda inc => (follows_doStep s lvl lambda inc).hessNonneg hs,
    fun lvl => (follows_applyStep s lvl).hessNonneg hs,
    fun lvl => (follows_optReg s lvl).hessNonneg hs,
    fun srcLvl => (follows_propagateDown s srcLvl).hessNonneg hs,
    fun srcLvl => (follows_propagateUp s srcLvl).hessNonneg hs,
    fun lvl refToNew refToNew_aff =>
      (follows_calcResAndGS env s lvl refToNew refToNew_aff).hessNonneg hs,
    (follows_unsnappedReset env s).hessNonneg hs,
    fun f => (follows_trackFrame env s f).hessNonneg hs,
    fun frames r hr => (follows_trackFrames env frames s r hr).hessNonneg hs⟩,
    fun s0 HCalib f0 => ⟨hessNonneg_setFirst env s0 HCalib f0, fun frames r hr =>
      (follows_trackFrames env frames _ r hr).hessNonneg
        (hessNonneg_setFirst env s0 HCalib f0)⟩, ?_⟩
  intro srcLvl h0 hL p hp hg hpg hH
  have hown : 0 ≤ p.lastHessian := (hs (srcLvl - 1) (by omega) p hp).1
  have hden : 1 / 10 ≤ p.lastHessian * 2 + (getPnt (s.points srcLvl) p.parent).lastHessian := by
    linarith
  have hpos : 0 < p.lastHessian * 2 + (getPnt (s.points srcLvl) p.parent).lastHessian := by
    linarith
  have hpp : 0 < (getPnt (s.points srcLvl) p.parent).lastHessian := by linarith
  rw [propagateDownPoint_blend _ p hg hpg hH]
  refine ⟨hden, ne_of_gt hpos, rfl, rfl, rfl, ?_, ?_⟩
  · show min p.iR _ ≤ _ / _
    rw [le_div_iff₀ hpos]
    rcases le_total p.iR (getPnt (s.points srcLvl) p.parent).iR with h | h
    · rw [min_eq_left h]
      nlinarith [mul_nonneg hpp.le (sub_nonneg.mpr h)]
    · rw [min_eq_right h]
      nlinarith [mul_nonneg hown (sub_nonneg.mpr h)]
  · show _ / _ ≤ max p.iR _
    rw [div_le_iff₀ hpos]
    rcases le_total p.iR (getPnt (s.points srcLvl) p.parent).iR with h | h
    · rw [max_eq_right h]
      nlinarith [mul_nonneg hown (sub_nonneg.mpr h)]
    · rw [max_eq_left h]
      nlinarith [mul_nonneg hpp.le (sub_nonneg.mpr h)]

/-- Point 1 of the fine level of the example (`iR = 2`, `lastHessian = 1`) and its parent
(`iR = 8`, `lastHessian = 2`): the denominator of the blend is 4 and the blended `iR` is
5. -/
theorem blend_safety_witness :
    (exampleState false fineDown coarseDown).HessNonneg exampleEnv.pyrLevelsUsed ∧
      (1 / 10 : ℚ) ≤ (examplePnt true 2 2 1 1).lastHessian * 2 +
        (getPnt ((exampleState false fineDown coarseDown).points 1)
          (examplePnt true 2 2 1 1).parent).lastHessian ∧
      (propagateDownPoint ((exampleState false fineDown coarseDown).points 1)
        (examplePnt true 2 2 1 1)).iR ≤
        max (examplePnt true 2 2 1 1).iR
          (getPnt ((exampleState false fineDown coarseDown).points 1)
            (examplePnt true 2 2 1 1).parent).iR :=
  have hs : (exampleState false fineDown coarseDown).HessNonneg exampleEnv.pyrLevelsUsed := by
    decide!
  have h := (blend_safety exampleEnv (exampleState false fineDown coarseDown) hs).2.2 1
    (by decide) (by decide) (examplePnt true 2 2 1 1) (List.mem_iff_getElem?.mpr ⟨1, rfl⟩) rfl
    (by decide!) (by decide!)
  ⟨hs, h.1, h.2.2.2.2.2.2⟩

/-- C38: let the parent links be as `makeNN` builds them (`parent = -1` on the coarsest
level, an index into the next coarser level elsewhere).  No step of `trackFrame` changes a
`parent` or the length of a level, so the graph is the same in every state the call passes
through.  `propagateDown(lvl + 1)` is called by the level loop for `lvl < pyrLevelsUsed - 1`
and dereferences the parent of every point of level `lvl`; `propagateUp(srcLvl)` is called
for `srcLvl < pyrLevelsUsed - 1` and dereferences the parent of the points of level `srcLvl`:
in both, every such `parent` is not the sentinel and is the index of a point of the coarser
level, which is the point read. -/
theorem parent_index_safety (env : Env) (s : CoarseInitializer) (f : FrameHessian)
    (hG : s.GraphOK env.pyrLevelsUsed) :
    (∀ lvls : List Nat,
      (lvls.foldl (trackLevel env) (trackStart env s f)).s.GraphOK env.pyrLevelsUsed) ∧
    (∀ lvls : List Nat,
      (lvls.foldl propagateUp (trackFrameLevels env s f)).GraphOK env.pyrLevelsUsed) ∧
    (s.trackFrame env f).1.GraphOK env.pyrLevelsUsed ∧
    (∀ (lvls : List Nat) (lvl : Nat), lvl < env.pyrLevelsUsed - 1 →
      (trackLevel env (lvls.foldl (trackLevel env) (trackStart env s f)) lvl).s =
        (levelLoop env lvl ((iterationCap env lvl).toNat)
          (levelStart env (lvls.foldl (trackLevel env) (trackStart env s f)) lvl)).s ∧
      ∀ p ∈ (lvls.foldl (trackLevel env) (trackStart env s f)).s.points (lvl + 1 - 1),
        p.parent ≠ -1 ∧ 0 ≤ p.parent ∧
        p.parent < ((lvls.foldl (trackLevel env) (trackStart env s f)).s.numPoints (lvl + 1) : Int) ∧
        ∃ q, ((lvls.foldl (trackLevel env) (trackStart env s f)).s.points (lvl + 1))[p.parent.toNat]?
            = some q ∧
          getPnt ((lvls.foldl (trackLevel env) (trackStart env s f)).s.points (lvl + 1)) p.parent
            = q) ∧
    (∀ (lvls : List Nat) (srcLvl : Nat), srcLvl + 1 < env.pyrLevelsUsed →
      ∀ p ∈ (lvls.foldl propagateUp (trackFrameLevels env s f)).points srcLvl,
        p.parent ≠ -1 ∧ 0 ≤ p.parent ∧
        p.parent < ((lvls.foldl propagateUp (trackFrameLevels env s f)).numPoints (srcLvl + 1) : Int) ∧
        ∃ q, ((lvls.foldl propagateUp (trackFrameLevels env s f)).points (srcLvl + 1))[p.parent.toNat]?
            = some q ∧
          getPnt ((lvls.foldl propagateUp (trackFrameLevels env s f)).points (srcLvl + 1)) p.parent
            = q) := by
  have h1 : ∀ lvls : List Nat,
      (lvls.foldl (trackLevel env) (trackStart env s f)).s.GraphOK env.pyrLevelsUsed :=
    fun lvls => ((follows_trackStart env s f).thenState
      (follows_foldl_trackLevel env lvls _)).graphOK hG
  have h2 : ∀ lvls : List Nat,
      (lvls.foldl propagateUp (trackFrameLevels env s f)).GraphOK env.pyrLevelsUsed :=
    fun lvls => ((follows_trackFrameLevels env s f).thenState
      (follows_foldl_propagateUp lvls _)).graphOK hG
  refine ⟨h1, h2, (follows_trackFrame env s f).graphOK hG, fun lvls lvl hl => ⟨rfl, ?_⟩,
    fun lvls srcLvl hl p hp => (h2 lvls).parent_range srcLvl hl p hp⟩
  intro p hp
  exact (h1 lvls).parent_range lvl (by omega) p hp

/-- The example state with the levels `fineUp` and `coarseUp`: every fine point has a parent
index below 10 and every coarse point the sentinel. -/
theorem parent_index_safety_witness :
    (exampleState false fineUp coarseUp).GraphOK exampleEnv.pyrLevelsUsed ∧
      (([] : List Nat).foldl (trackLevel exampleEnv)
        (trackStart exampleEnv (exampleState false fineUp coarseUp)
          (exampleFrame 50))).s.GraphOK exampleEnv.pyrLevelsUsed :=
  have hG : (exampleState false fineUp coarseUp).GraphOK exampleEnv.pyrLevelsUsed := by decide!
  ⟨hG, (parent_index_safety exampleEnv (exampleState false fineUp coarseUp) (exampleFrame 50)
    hG).1 []⟩

end CoarseInitializer

theorem rows_foldl_add (rows : List (Vec8f × ℚ)) (acc : Accumulator9) :
    rows.foldl (fun (a : Accumulator9) (row : Vec8f × ℚ) => a.updateSingleWeighted row.1 row.2 1) acc = fun a b => acc a b + rowsSum rows a b := by
  unfold rowsSum
  induction rows generalizing acc with
  | nil => funext a b; simp
  | cons r rs ih =>
    rw [List.foldl_cons, ih, List.foldl_cons,
      ih (Accumulator9.updateSingleWeighted (fun _ _ => 0) r.1 r.2 1)]
    funext a b
    simp only [Accumulator9.updateSingleWeighted]
    ring

theorem Accumulator11.eq_of_fields (E F : Accumulator11) (h1 : E.A = F.A) (h2 : E.num = F.num)
    (h3 : E.buffered = F.buffered) : E = F := by
  cases E; cases F
  simp only [Accumulator11.mk.injEq]
  exact ⟨h1, h2, h3⟩

theorem processPoint_eq (samples : Pnt → List (Option Sample)) (st : PassAcc) (i : Nat) :
    processPoint samples st i =
      match st.pts[i]? with
      | none => st
      | some p =>
        { pts := st.pts.set i (processPointPnt samples p)
          jbNew := Function.update st.jbNew i (pointJb samples p (st.jbNew i))
          acc9 := fun a b => st.acc9 a b + rowsSum (pointRows samples p) a b
          E := st.E.updateSingle (processPointPnt samples p).energy_new.1 } := by
  have h : processPoint samples st i =
      match st.pts[i]? with
      | none => st
      | some p =>
        { pts := st.pts.set i (processPointPnt samples p)
          jbNew := Function.update st.jbNew i (pointJb samples p (st.jbNew i))
          acc9 := (pointRows samples p).foldl (fun (a : Accumulator9) (row : Vec8f × ℚ) => a.updateSingleWeighted row.1 row.2 1) st.acc9
          E := st.E.updateSingle (processPointPnt samples p).energy_new.1 } := by
    unfold processPoint processPointPnt pointPattern pointRows pointJb pointPattern
    cases hp : st.pts[i]? with
    | none => rfl
    | some point0 =>
      simp only []
      split_ifs with h1 h2
      · simp only [Function.update_eq_self, List.foldl_nil]
      · simp only [List.foldl_nil]
      · rfl
  rw [h]
  cases st.pts[i]? with
  | none => rfl
  | some p =>
    simp only []
    rw [rows_foldl_add]

theorem processPoint_comm (samples : Pnt → List (Option Sample)) (st : PassAcc) (i j : Nat) :
    processPoint samples (processPoint samples st i) j =
      processPoint samples (processPoint samples st j) i := by
  by_cases hij : i = j
  · rw [hij]
  have hji : j ≠ i := fun e => hij e.symm
  cases hp : st.pts[i]? with
  | none =>
    have h1 : processPoint samples st i = st := by rw [processPoint_eq, hp]
    have h2 : (processPoint samples st j).pts[i]? = none := by
      rw [getElem?_processPoint, if_neg hij, hp]
    rw [h1, processPoint_eq samples (processPoint samples st j) i, h2]
  | some p =>
    cases hq : st.pts[j]? with
    | none =>
      have h1 : processPoint samples st j = st := by rw [processPoint_eq, hq]
      have h2 : (processPoint samples st i).pts[j]? = none := by
        rw [getElem?_processPoint, if_neg hji, hq]
      rw [h1, processPoint_eq samples (processPoint samples st i) j, h2]
    | some q =>
      have h1 : (processPoint samples st i).pts[j]? = some q := by
        rw [getElem?_processPoint, if_neg hji, hq]
      have h2 : (processPoint samples st j).pts[i]? = some p := by
        rw [getElem?_processPoint, if_neg hij, hp]
      rw [processPoint_eq samples (processPoint samples st i) j, h1,
        processPoint_eq samples (processPoint samples st j) i, h2]
      simp only []
      rw [processPoint_eq samples st i, hp, processPoint_eq samples st j, hq]
      simp only [PassAcc.mk.injEq]
      refine ⟨List.set_comm _ _ _ hij, ?_, ?_, ?_⟩
      · rw [Function.update_noteq hji, Function.update_noteq hij]
        exact Function.update_comm hij _ _ _
      · funext a b
        ring
      · apply Accumulator11.eq_of_fields
        · rfl
        · rfl
        · show st.E.buffered + _ + _ = st.E.buffered + _ + _
          ring

theorem foldl_processPoint_perm (samples : Pnt → List (Option Sample)) (l1 l2 : List Nat)
    (h : l1.Perm l2) (st : PassAcc) :
    l1.foldl (processPoint samples) st = l2.foldl (processPoint samples) st :=
  h.foldl_eq' (fun x _ y _ z => processPoint_comm samples z x y) st

theorem sum_update_proj {α M : Type} [AddCommMonoid M] (F : Nat → α) (proj : α → M)
    (nw tid : Nat) (h : tid < nw) (x : α) (d : M) (hx : proj x = proj (F tid) + d) :
    ∑ t in Finset.range nw, proj (Function.update F tid x t) =
      (∑ t in Finset.range nw, proj (F t)) + d := by
  have : ∀ t, proj (Function.update F tid x t) = proj (F t) + if t = tid then d else 0 := by
    intro t
    by_cases ht : t = tid
    · subst ht; simp [hx]
    · simp [Function.update_noteq ht, ht]
  simp only [this, Finset.sum_add_distrib, Finset.sum_ite_eq', Finset.mem_range, h, if_true]

theorem merge_processPointWorker (samples : Pnt → List (Option Sample)) (nw : Nat)
    (st : WorkersAcc) (step : Nat × Nat) (h : step.2 < nw) :
    (processPointWorker samples st step).merge nw =
      processPoint samples (st.merge nw) step.1 := by
  unfold processPointWorker
  simp only []
  rw [processPoint_eq, processPoint_eq]
  show _ = match st.pts[step.1]? with
    | none => st.merge nw
    | some p => _
  cases hp : st.pts[step.1]? with
  | none =>
    simp only [Function.update_eq_self]
  | some p =>
    simp only [WorkersAcc.merge, PassAcc.mk.injEq, true_and]
    refine ⟨?_, ?_⟩
    · funext a b
      exact sum_update_proj st.acc9s (fun m => m a b) nw step.2 h _
        (rowsSum (pointRows samples p) a b) rfl
    · apply Accumulator11.eq_of_fields
      · have := sum_update_proj st.accE Accumulator11.A nw step.2 h
          ((st.accE step.2).updateSingle (processPointPnt samples p).energy_new.1) 0
          (by simp [Accumulator11.updateSingle])
        simpa [Accumulator11.updateSingle] using this
      · exact sum_update_proj st.accE Accumulator11.num nw step.2 h
          ((st.accE step.2).updateSingle (processPointPnt samples p).energy_new.1) 1 rfl
      · exact sum_update_proj st.accE Accumulator11.buffered nw step.2 h
          ((st.accE step.2).updateSingle (processPointPnt samples p).energy_new.1)
          (processPointPnt samples p).energy_new.1 rfl

theorem merge_foldl_processPointWorker (samples : Pnt → List (Option Sample)) (nw : Nat)
    (steps : List (Nat × Nat)) (htid : ∀ c ∈ steps, c.2 < nw) (st : WorkersAcc) :
    (steps.foldl (processPointWorker samples) st).merge nw =
      (steps.map Prod.fst).foldl (processPoint samples) (st.merge nw) := by
  induction steps generalizing st with
  | nil => rfl
  | cons c cs ih =>
    rw [List.foldl_cons, List.map_cons, List.foldl_cons,
      ih (fun x hx => htid x (List.mem_cons_of_mem _ hx)),
      merge_processPointWorker samples nw st c (htid c (List.mem_cons_self _ _))]

namespace CoarseInitializer

theorem calcResAndGS_eq_passOutputs (env : Env) (s : CoarseInitializer) (lvl : Nat)
    (refToNew : SE3) (refToNew_aff : AffLight) :
    s.calcResAndGS env lvl refToNew refToNew_aff =
      passOutputs env s lvl refToNew (pointPass env s lvl refToNew refToNew_aff).pts
        (pointPass env s lvl refToNew refToNew_aff).jbNew
        (pointPass env s lvl refToNew refToNew_aff).acc9.topLeft
        (pointPass env s lvl refToNew refToNew_aff).acc9.topRight
        ((pointPass env s lvl refToNew refToNew_aff).pts.foldl
          (fun e p => e.updateSingle (alphaPoint p).2)
          (pointPass env s lvl refToNew refToNew_aff).E.finish).A
        ((pointPass env s lvl refToNew refToNew_aff).pts.foldl
          (fun e p => e.updateSingle (alphaPoint p).2)
          (pointPass env s lvl refToNew refToNew_aff).E.finish).num := rfl

/-- C22: the residual pass with `nw >= 1` workers.  Let the point loop be run as any sequence
of loop steps `(i, tid)` in which every index of `[0, npts)` occurs exactly once and every
worker number is below `nw`: any split of the range into disjoint ranges, each run by some
worker, in any order or interleaving.  Then the new state (every field of every point and the
whole new Jacobian buffer) and all outputs (`H_out`, `b_out`, the Schur pair and the returned
triple) are those of the single pass over `[0, npts)`, in exact arithmetic. -/
theorem partition_independence (env : Env) (s : CoarseInitializer) (lvl : Nat)
    (refToNew : SE3) (refToNew_aff : AffLight) (nw : Nat) (steps : List (Nat × Nat))
    (hnw : 0 < nw) (htid : ∀ c ∈ steps, c.2 < nw)
    (hperm : (steps.map Prod.fst).Perm (List.range (s.numPoints lvl))) :
    s.calcResAndGSWorkers env lvl refToNew refToNew_aff nw steps =
      s.calcResAndGS env lvl refToNew refToNew_aff := by
  have hm := merge_foldl_processPointWorker (patternSamples env s lvl refToNew refToNew_aff)
    nw steps htid
    { pts := s.points lvl, jbNew := s.JbBuffer_new, acc9s := fun _ _ _ => 0,
      accE := fun _ => Accumulator11.initialize }
  have h0 : WorkersAcc.merge nw
      { pts := s.points lvl, jbNew := s.JbBuffer_new, acc9s := fun _ _ _ => 0,
        accE := fun _ => Accumulator11.initialize } =
      { pts := s.points lvl, jbNew := s.JbBuffer_new, acc9 := fun _ _ => 0,
        E := Accumulator11.initialize } := by
    simp [WorkersAcc.merge, Accumulator11.initialize]
  rw [h0, foldl_processPoint_perm _ _ _ hperm] at hm
  have hm2 : (steps.foldl
      (processPointWorker (patternSamples env s lvl refToNew refToNew_aff))
      { pts := s.points lvl, jbNew := s.JbBuffer_new, acc9s := fun _ _ _ => 0,
        accE := fun _ => Accumulator11.initialize }).merge nw =
      pointPass env s lvl refToNew refToNew_aff := hm
  rw [calcResAndGS_eq_passOutputs, ← hm2]
  unfold calcResAndGSWorkers
  simp only []
  generalize steps.foldl (processPointWorker (patternSamples env s lvl refToNew refToNew_aff))
    { pts := s.points lvl, jbNew := s.JbBuffer_new, acc9s := fun _ _ _ => 0,
      accE := fun _ => Accumulator11.initialize } = pass
  have hA : ∑ tid in Finset.range nw,
      (Function.update (fun tid => (pass.accE tid).finish) 0
        (pass.pts.foldl (fun e p => e.updateSingle (alphaPoint p).2)
          ((fun tid => (pass.accE tid).finish) 0)) tid).A =
      ((pass.merge nw).pts.foldl (fun e p => e.updateSingle (alphaPoint p).2)
        (pass.merge nw).E.finish).A := by
    rw [sum_update_proj (fun tid => (pass.accE tid).finish) Accumulator11.A nw 0 hnw _ 0
      (by rw [A_foldl_updateSingle, add_zero]), add_zero, A_foldl_updateSingle]
    rfl
  have hN : ∑ tid in Finset.range nw,
      (Function.update (fun tid => (pass.accE tid).finish) 0
        (pass.pts.foldl (fun e p => e.updateSingle (alphaPoint p).2)
          ((fun tid => (pass.accE tid).finish) 0)) tid).num =
      ((pass.merge nw).pts.foldl (fun e p => e.updateSingle (alphaPoint p).2)
        (pass.merge nw).E.finish).num := by
    rw [sum_update_proj (fun tid => (pass.accE tid).finish) Accumulator11.num nw 0 hnw _
      pass.pts.length (by rw [num_foldl_updateSingle]), num_foldl_updateSingle]
    rfl
  rw [hA, hN]
  rfl

/-- Ten points and two workers: worker 1 runs the range `[5, 10)` first, then worker 0 runs
`[0, 5)`. -/
theorem partition_independence_witness :
    (exampleState false fineUp coarseUp).calcResAndGSWorkers exampleEnv 0 SE3.identity
        { a := 0, b := 0 } 2 (rangeSteps 5 10 1 ++ rangeSteps 0 5 0) =
      (exampleState false fineUp coarseUp).calcResAndGS exampleEnv 0 SE3.identity
        { a := 0, b := 0 } :=
  partition_independence exampleEnv (exampleState false fineUp coarseUp) 0 SE3.identity
    { a := 0, b := 0 } 2 (rangeSteps 5 10 1 ++ rangeSteps 0 5 0) (by decide) (by decide)
    (by decide)

end CoarseInitializer

end dso

namespace dmvio

theorem length_drop_window (M : List Vec3d) (N : Nat) :
    (M.drop (M.length - N)).length = min M.length N := by
  rw [List.length_drop]
  omega

theorem drop_window_step (M : List Vec3d) (m : Vec3d) (N : Nat) (hN : 1 ≤ N) :
    (if ((M.drop (M.length - N) ++ [m]).length : Int) > (N : Int) then
        (M.drop (M.length - N) ++ [m]).tail
      else M.drop (M.length - N) ++ [m]) =
      (M ++ [m]).drop ((M ++ [m]).length - N) := by
  have hlen := length_drop_window M N
  rw [List.length_append, List.length_singleton, hlen, List.length_append,
    List.length_singleton]
  by_cases hk : M.length < N
  · have h1 : ¬ (((min M.length N + 1 : ℕ) : Int) > (N : Int)) := by
      have : min M.length N + 1 ≤ N := by omega
      exact_mod_cast not_lt.mpr this
    rw [if_neg h1]
    have e1 : M.length - N = 0 := by omega
    have e2 : M.length + 1 - N = 0 := by omega
    rw [e1, e2]
    rfl
  · have h1 : (((min M.length N + 1 : ℕ) : Int) > (N : Int)) := by
      have : N < min M.length N + 1 := by omega
      exact_mod_cast this
    rw [if_pos h1]
    have e2 : M.length + 1 - N = (M.length - N) + 1 := by omega
    rw [e2, ← List.drop_one, ← List.drop_append_of_le_length (by omega), List.drop_drop]

namespace GravityInitializer

theorem window_length_ne_zero (g : GravityInitializer) (m : Vec3d)
    (hmax : g.maxNumMeasurements % 2 ^ 64 ≠ 0) :
    (if ((g.measures ++ [m]).length : Int) > g.maxNumMeasurements % 2 ^ 64 then
      (g.measures ++ [m]).tail
    else g.measures ++ [m]).length ≠ 0 := by
  have hpos : 0 ≤ g.maxNumMeasurements % 2 ^ 64 := Int.emod_nonneg _ (by norm_num)
  split_ifs with h
  · rw [List.length_tail, List.length_append, List.length_singleton]
    rw [List.length_append, List.length_singleton] at h
    have h1 : (1 : Int) ≤ g.maxNumMeasurements % 2 ^ 64 := by omega
    have h2 : (1 : Int) < ((g.measures.length + 1 : ℕ) : Int) := by omega
    have h3 : 1 < g.measures.length + 1 := by exact_mod_cast h2
    omega
  · rw [List.length_append, List.length_singleton]
    omega

theorem addMeasure_eq (K : Kernels) (g : GravityInitializer) (imuData : List Vec3d)
    (hne : imuData ≠ []) (hmax : g.maxNumMeasurements % 2 ^ 64 ≠ 0) :
    g.addMeasure K imuData =
      some ({ g with
              measures :=
                if ((g.measures ++ [vecMean imuData]).length : Int) >
                    g.maxNumMeasurements % 2 ^ 64 then
                  (g.measures ++ [vecMean imuData]).tail
                else g.measures ++ [vecMean imuData] },
        { unit_quaternion :=
            K.setFromTwoVectors
              (vecMean
                (if ((g.measures ++ [vecMean imuData]).length : Int) >
                    g.maxNumMeasurements % 2 ^ 64 then
                  (g.measures ++ [vecMean imuData]).tail
                else g.measures ++ [vecMean imuData]))
              (-g.gravity)
          translation := 0 }) := by
  have hlen : imuData.length ≠ 0 := fun h => hne (List.length_eq_zero.mp h)
  have hpos : 0 ≤ g.maxNumMeasurements % 2 ^ 64 := Int.emod_nonneg _ (by norm_num)
  have hw := window_length_ne_zero g (vecMean imuData) hmax
  unfold addMeasure
  simp only []
  rw [if_neg hlen]
  have hm : (fun k => vecSum imuData k / (imuData.length : ℚ)) = vecMean imuData := rfl
  rw [hm, if_neg hw]
  rfl

theorem addMeasure_window (K : Kernels) (g : GravityInitializer) (imuData : List Vec3d)
    (M : List Vec3d) (N : Nat) (hN : 1 ≤ N) (hN2 : N < 2 ^ 31)
    (hmax : g.maxNumMeasurements = (N : Int))
    (hM : g.measures = M.drop (M.length - N)) (hne : imuData ≠ []) :
    g.addMeasure K imuData =
      some ({ g with
              measures :=
                (M ++ [vecMean imuData]).drop ((M ++ [vecMean imuData]).length - N) },
        { unit_quaternion :=
            K.setFromTwoVectors
              (vecMean ((M ++ [vecMean imuData]).drop ((M ++ [vecMean imuData]).length - N)))
              (-g.gravity)
          translation := 0 }) := by
  have hmod : g.maxNumMeasurements % 2 ^ 64 = (N : Int) := by
    rw [hmax]
    apply Int.emod_eq_of_lt (by omega)
    have : (N : Int) < 2 ^ 31 := by exact_mod_cast hN2
    omega
  have hne0 : g.maxNumMeasurements % 2 ^ 64 ≠ 0 := by
    rw [hmod]
    exact_mod_cast (by omega : N ≠ 0)
  rw [addMeasure_eq K g imuData hne hne0, hmod, hM, drop_window_step M _ N hN]

theorem addMeasures_window (K : Kernels) (batches : List (List Vec3d)) (g : GravityInitializer)
    (M : List Vec3d) (N : Nat) (hN : 1 ≤ N) (hN2 : N < 2 ^ 31)
    (hmax : g.maxNumMeasurements = (N : Int))
    (hM : g.measures = M.drop (M.length - N)) (hne : ∀ b ∈ batches, b ≠ []) :
    ∃ poses, g.addMeasures K batches =
        some ({ g with
                measures :=
                  (M ++ batches.map vecMean).drop ((M ++ batches.map vecMean).length - N) },
          poses) ∧
      poses.length = batches.length ∧
      ∀ k, k < batches.length →
        poses[k]? =
          some { unit_quaternion :=
                  K.setFromTwoVectors
                    (vecMean ((M ++ (batches.take (k + 1)).map vecMean).drop
                      ((M ++ (batches.take (k + 1)).map vecMean).length - N)))
                    (-g.gravity)
                 translation := 0 } := by
  induction batches generalizing g M with
  | nil =>
    refine ⟨[], ?_, rfl, fun k hk => absurd hk (Nat.not_lt_zero k)⟩
    unfold addMeasures
    simp only [List.map_nil, List.append_nil]
    rw [← hM]
  | cons b rest ih =>
    have hb : b ≠ [] := hne b (List.mem_cons_self _ _)
    have hstep := addMeasure_window K g b M N hN hN2 hmax hM hb
    obtain ⟨poses, hrun, hlen, hposes⟩ := ih
      { g with measures := (M ++ [vecMean b]).drop ((M ++ [vecMean b]).length - N) }
      (M ++ [vecMean b]) hmax rfl (fun x hx => hne x (List.mem_cons_of_mem _ hx))
    refine ⟨{ unit_quaternion :=
                K.setFromTwoVectors
                  (vecMean ((M ++ [vecMean b]).drop ((M ++ [vecMean b]).length - N)))
                  (-g.gravity)
              translation := 0 } :: poses, ?_,
      by rw [List.length_cons, hlen, List.length_cons], ?_⟩
    · unfold addMeasures
      rw [hstep]
      simp only []
      rw [hrun]
      simp only [List.map_cons, List.append_assoc, List.singleton_append]
    · intro k hk
      cases k with
      | zero =>
        simp only [List.getElem?_cons_zero, List.take_succ_cons, List.take_zero, List.map_cons,
          List.map_nil]
      | succ k =>
        rw [List.getElem?_cons_succ, hposes k (by simpa using hk)]
        simp only [List.take_succ_cons, List.map_cons, List.append_assoc, List.singleton_append]

/-- C20 (window of the gravity initializer).  Let the window size be `N` with
`1 <= N < 2^31` and let every batch be non-empty.  Starting from the constructed object, the
calls of `addMeasure` on the batches all return a pose, and after the last of the `n`
calls the history holds the per-call means of the last `min(n, N)` batches in arrival order:
it is the list of all `n` per-call means with the first `n - N` dropped.  The pose returned by
call `k+1` is built from the arithmetic mean of the history after that call (the means of the
first `k+1` batches with the first `k+1-N` dropped). -/
theorem gravity_window (K : Kernels) (N : Nat) (gravity : Vec3d) (batches : List (List Vec3d))
    (hN : 1 ≤ N) (hN2 : N < 2 ^ 31) (hne : ∀ b ∈ batches, b ≠ []) :
    ∃ g poses, (construct (N : Int) gravity).addMeasures K batches = some (g, poses) ∧
      g.measures = (batches.map vecMean).drop (batches.length - N) ∧
      g.measures.length = min batches.length N ∧
      g.maxNumMeasurements = (N : Int) ∧ g.gravity = gravity ∧
      poses.length = batches.length ∧
      ∀ k, k < batches.length →
        poses[k]? =
          some { unit_quaternion :=
                  K.setFromTwoVectors
                    (vecMean (((batches.take (k + 1)).map vecMean).drop (k + 1 - N)))
                    (-gravity)
                 translation := 0 } := by
  obtain ⟨poses, hrun, hlen, hposes⟩ := addMeasures_window K batches
    (construct (N : Int) gravity) [] N hN hN2 rfl (by simp [construct]) hne
  refine ⟨_, poses, hrun, ?_, ?_, rfl, rfl, hlen, fun k hk => ?_⟩
  · simp only [List.nil_append, List.length_map]
  · simp only [List.nil_append, List.length_map, List.length_drop]
    omega
  · rw [hposes k hk]
    simp only [List.nil_append, List.length_map, List.length_take]
    have : min (k + 1) batches.length = k + 1 := by omega
    rw [this]
    rfl

/-- Three calls with window size 2 on the example batches: the history afterwards holds the
means of the last two batches. -/
theorem gravity_window_witness :
    1 ≤ 2 ∧ 2 < 2 ^ 31 ∧ (∀ b ∈ exampleBatches, b ≠ []) ∧
      Option.map GravityInitializer.measures
        (Option.map Prod.fst
          ((construct ((2 : ℕ) : Int) ![0, 0, -1]).addMeasures exampleKernels exampleBatches)) =
        some [![0, 0, 4], ![0, 0, 2]] := by
  have hne : ∀ b ∈ exampleBatches, b ≠ [] := by decide!
  obtain ⟨g, poses, hrun, hm, _⟩ := gravity_window exampleKernels 2 ![0, 0, -1] exampleBatches
    (by decide) (by decide) hne
  refine ⟨by decide, by decide, hne, ?_⟩
  rw [hrun]
  simp only [Option.map_some']
  rw [hm]
  exact congrArg some (by decide!)

/-- C21, the result of `addMeasure` as the code has it.  For a non-empty batch and a window
size that is not zero (as an unsigned number), `addMeasure` returns a pose with zero
translation whose rotation is `setFromTwoVectors(filtered, -gravity)`: the two-vector alignment
that takes the direction of the filtered measurement, the arithmetic mean of the history after
the call, onto the direction of the negated configured gravity vector.  The history after the
call is the old one with the mean of the batch appended and, if that makes it longer than the
window, the oldest entry removed. -/
theorem gravity_alignment (K : Kernels) (g : GravityInitializer) (imuData : List Vec3d)
    (hne : imuData ≠ []) (hmax : g.maxNumMeasurements % 2 ^ 64 ≠ 0) :
    ∃ g1 pose, g.addMeasure K imuData = some (g1, pose) ∧
      pose.translation = 0 ∧
      pose.unit_quaternion = K.setFromTwoVectors (vecMean g1.measures) (-g.gravity) ∧
      g1.measures ≠ [] ∧
      g1.measures =
        (if ((g.measures ++ [vecMean imuData]).length : Int) > g.maxNumMeasurements % 2 ^ 64 then
          (g.measures ++ [vecMean imuData]).tail
        else g.measures ++ [vecMean imuData]) ∧
      g1.gravity = g.gravity ∧ g1.maxNumMeasurements = g.maxNumMeasurements := by
  refine ⟨_, _, addMeasure_eq K g imuData hne hmax, rfl, rfl, ?_, rfl, rfl, rfl⟩
  show (if ((g.measures ++ [vecMean imuData]).length : Int) > g.maxNumMeasurements % 2 ^ 64 then
      (g.measures ++ [vecMean imuData]).tail
    else g.measures ++ [vecMean imuData]) ≠ []
  intro he
  exact window_length_ne_zero g (vecMean imuData) hmax (by rw [he]; rfl)

/-- One call on the constructed example object with window size 2: the pose returned has
zero translation. -/
theorem gravity_alignment_witness :
    ([![0, 0, 3], ![0, 0, 5]] : List Vec3d) ≠ [] ∧
      (construct 2 ![0, 0, -1]).maxNumMeasurements % 2 ^ 64 ≠ 0 ∧
      Option.map SE3d.translation
        (Option.map Prod.snd
          ((construct 2 ![0, 0, -1]).addMeasure exampleKernels [![0, 0, 3], ![0, 0, 5]])) =
        some 0 := by
  obtain ⟨g1, pose, hrun, ht, _⟩ := gravity_alignment exampleKernels (construct 2 ![0, 0, -1])
    [![0, 0, 3], ![0, 0, 5]] (by decide!) (by decide)
  refine ⟨by decide!, by decide, ?_⟩
  rw [hrun]
  exact congrArg some ht

/-- C21, counterexample to the claim as stated: gravity `(0, 0, -1)`, window size 1, one batch
with the single measurement `(0, 0, 1)`.  The filtered measurement is `(0, 0, 1)`, which is
`-gravity`, so the alignment rotation returned is the identity: it takes the measured
direction to `(0, 0, 1)`, not onto the gravity vector `(0, 0, -1)`. -/
theorem gravity_alignment_counterexample :
    Option.map GravityInitializer.measures
        (Option.map Prod.fst
          ((construct 1 ![0, 0, -1]).addMeasure exampleKernels [![0, 0, 1]])) =
        some [![0, 0, 1]] ∧
      Option.map SE3d.unit_quaternion
        (Option.map Prod.snd
          ((construct 1 ![0, 0, -1]).addMeasure exampleKernels [![0, 0, 1]])) =
        some ![1, 0, 0, 0] ∧
      vecMean [![0, 0, 1]] = ![0, 0, 1] ∧
      Quaterniond.rotate ![1, 0, 0, 0] ![0, 0, 1] = ![0, 0, 1] ∧
      Quaterniond.rotate ![1, 0, 0, 0] ![0, 0, 1] ≠ ![0, 0, -1] := by
  have hrun := addMeasure_eq exampleKernels (construct 1 ![0, 0, -1]) [![0, 0, 1]]
    (by decide!) (by decide)
  refine ⟨?_, ?_, by decide!, by decide!, by decide!⟩
  · rw [hrun]
    exact congrArg some (by decide!)
  · rw [hrun]
    exact congrArg some (by decide!)

end GravityInitializer

end dmvio
